import Mathlib

/-! # logtailer: the pipeline engine and its health accounting

A shallow embedding of `stats.go` and `logtailer.go`.

* `Stats.IsHealthy` is embedded with the float64 arithmetic of the source
  modelled exactly (round to nearest, ties to even, 53 bit significand) over
  the rationals.
* `Logtailer.Run` starts goroutines that communicate over unbuffered
  channels.  It is embedded as a labelled transition system: `step` performs
  one atomic action of one goroutine, a schedule (a list of actions) resolves
  the interleaving, and `exec` runs a schedule.
-/

namespace logtailer

/-! ## float64 arithmetic used by `IsHealthy` -/

/-- Round a rational to the nearest integer, ties going to the even neighbour. -/
def roundHalfEven (x : ℚ) : ℤ :=
  let f := ⌊x⌋
  let r := x - f
  if r < 1/2 then f
  else if 1/2 < r then f + 1
  else if f % 2 = 0 then f else f + 1

/-- Round a positive rational to the nearest float64 (53 significant bits,
round to nearest even).  The exponent range is not bounded: every quotient
of two non-zero Go `int` values lies in the normal range of float64. -/
def roundPos53 (q : ℚ) : ℚ :=
  let e := Int.log 2 q - 52
  (roundHalfEven (q / (2:ℚ)^e) : ℚ) * (2:ℚ)^e

/-- Round a rational to the nearest float64. -/
def round53 (q : ℚ) : ℚ :=
  if q = 0 then 0
  else if q < 0 then Neg.neg (roundPos53 (Neg.neg q))
  else roundPos53 q

/-- The conversion `float64(n)` of a Go `int`. -/
def float64 (n : Int) : ℚ := round53 (n : ℚ)

/-- The float64 quotient `a / b` of two float64 values (`b` non-zero). -/
def float64Div (a b : ℚ) : ℚ := round53 (a / b)

/-! ## stats.go -/

/-- Go `error` values, identified by their message.  `none : Option GoError`
is the nil error. -/
abbrev GoError := String

/-- Stats holds basic metrics about the logtailer run.  `locked` is the state
of the embedded `sync.Mutex`. -/
structure Stats where
  Records : Int
  ParseErrors : Int
  SendErrors : Int
  locked : Bool := false
deriving DecidableEq, Repr

/-- The package variable `acceptableParseFailRatio = 0.1`: the float64 nearest
to one tenth. -/
def acceptableParseFailRatio : ℚ := round53 (1/10)

/-- IsHealthy returns true if the stats appear healthy. -/
def Stats.IsHealthy (s : Stats) : Bool :=
  if s.SendErrors > 0 then false
  else if s.Records > 0 ∧ s.ParseErrors > 0 then
    if float64Div (float64 s.ParseErrors) (float64 s.Records) > acceptableParseFailRatio then false
    else true
  else true

/-- The function `strconv.Itoa`: the decimal numeral of a Go `int` (also the
form in which `encoding/json` writes an integer). -/
def Itoa (n : Int) : String :=
  match n with
  | .ofNat m => String.mk (Nat.toDigits 10 m)
  | .negSucc m => String.mk ('-' :: Nat.toDigits 10 (m + 1))

/-- The value of a decimal digit character. -/
def digitValue (c : Char) : Nat := c.toNat - 48

/-- The number a list of decimal digits denotes, most significant digit
first. -/
def decimalValue (cs : List Char) : Nat := cs.foldl (fun acc c => acc * 10 + digitValue c) 0

/-- The integer a decimal numeral with an optional minus sign denotes. -/
def numeralValue (s : String) : Int :=
  match s.data with
  | '-' :: cs => Neg.neg (decimalValue cs : Int)
  | cs => (decimalValue cs : Int)

/-- One member of a JSON object as `encoding/json` writes it: the quoted name,
a colon, the value. -/
def jsonMember (name value : String) : String := "\"" ++ name ++ "\":" ++ value

/-- A JSON object as `encoding/json` writes it: the members separated by
commas, in braces. -/
def jsonObject (members : List String) : String :=
  "\x7b" ++ ",".intercalate members ++ "\x7d"

/-- The method `String`: `json.Marshal` of the Stats.  The struct has the
three exported fields `Records`, `ParseErrors`, `SendErrors`, in this order;
the embedded `sync.Mutex` has no exported field and contributes no member. -/
def Stats.String (s : Stats) : String :=
  jsonObject [jsonMember "Records" (Itoa s.Records),
    jsonMember "ParseErrors" (Itoa s.ParseErrors),
    jsonMember "SendErrors" (Itoa s.SendErrors)]

/-! ## profiles/profiles.go -/

/-- A call of a method of the `Profile` interface, recorded in the order the
engine makes them. -/
inductive Call where
  | Init
  | ProcessRecord (record : String)
  | HandleOutput (dryRun : Bool)
deriving DecidableEq, Repr

/-- A Profile is a log consumer.  `β` is the type of the results of
`ProcessRecord` and `σ` the state of the sink.

`HandleOutput dryRun st record` is the body of the loop
`for record := range records` that the goroutine started by `HandleOutput`
runs in each profile of the repository (dummy, sshd, mongodb): it handles one
record and reports at most one error, which the goroutine then sends on the
unbuffered `errChan`; when `records` is closed the goroutine closes
`errChan`. -/
structure Profile (β σ : Type) where
  Init : Option GoError
  ProcessRecord : String → Except GoError β
  sinkInit : σ
  HandleOutput : Bool → σ → β → σ × Option GoError

/-! ## logtailer.go -/

/-- Logtailer holds the state of a logtailer program. -/
structure Logtailer (β σ : Type) where
  Profile : Profile β σ
  LogFile : String
  StateDir : String
  DryRun : Bool

/-- What the operating system answers during one run: the results of
`logtailCmd.StdoutPipe()` and `logtailCmd.Start()`, and the tokens the
`bufio.Scanner` yields from the input reader before it reaches its end. -/
structure Env where
  pipeErr : Option GoError
  startErr : Option GoError
  records : List String

/-- The method `getInput`: standard input for `-`, else the stdout pipe of
the started logtail command. -/
def Logtailer.getInput {β σ : Type} (lt : Logtailer β σ) (env : Env) : Except GoError Unit :=
  if lt.LogFile = "-" then .ok ()
  else
    match env.pipeErr with
    | some err => .error ("error connecting to logtail stdout: " ++ err)
    | none =>
      match env.startErr with
      | some err => .error ("error starting logtail cmd: " ++ err)
      | none => .ok ()

/-- Program counter of the scanner goroutine.  `publishing line`: the token
was counted and the goroutine waits in the `select`.  `finished`: `Scan`
returned false.  `stopped line`: the `select` took the shutdown case with
`line` unpublished.  In both final states `inputRecords` is closed. -/
inductive ScannerPc where
  | scanning
  | publishing (line : String)
  | finished
  | stopped (line : String)
deriving DecidableEq, Repr

/-- Program counter of a worker goroutine. -/
inductive WorkerPc (β : Type) where
  | receiving
  | processing (line : String)
  | locking
  | incrementing
  | unlocking
  | sending (record : β)
  | exited
deriving DecidableEq, Repr

/-- Program counter of the goroutine started by `HandleOutput`. -/
inductive SinkPc where
  | ranging
  | sendingErr (err : GoError)
  | closed
deriving DecidableEq, Repr

/-- Program counter of the goroutine that drains `errorChan`. -/
inductive CollectorPc where
  | ranging
  | locking (err : GoError)
  | incrementing (err : GoError)
  | unlocking (err : GoError)
  | exited
deriving DecidableEq, Repr

/-- Program counter of `Run` itself after it started the goroutines. -/
inductive MainPc where
  | waiting
  | closing
  | judging
  | returning (err : Option GoError)
  | returned (err : Option GoError)
deriving DecidableEq, Repr

/-- The shared state of one run.  `calls`, `delivered` and `judged` are
history variables: the profile calls made so far, the records the sink
received so far, and the Stats as `IsHealthy` read it. -/
structure State (β σ : Type) where
  stats : Stats
  input : List String
  shutdown : Bool
  scanner : ScannerPc
  workers : List (WorkerPc β)
  outputClosed : Bool
  sink : SinkPc
  sinkState : σ
  collector : CollectorPc
  main : MainPc
  calls : List Call
  delivered : List β
  judged : Option Stats

/-- One atomic action of one goroutine (`stop` is a call of `Stop` by the
environment). -/
inductive Action where
  | stop
  | scan
  | publish (i : Nat)
  | observeShutdown
  | workerExit (i : Nat)
  | process (i : Nat)
  | workerLock (i : Nat)
  | workerIncr (i : Nat)
  | workerUnlock (i : Nat)
  | deliver (i : Nat)
  | sinkClose
  | collect
  | collectLock
  | collectIncr
  | collectUnlock
  | collectExit
  | mainWait
  | mainClose
  | mainJudge
  | mainReturn
deriving DecidableEq, Repr

/-- Whether a worker goroutine has returned (`wg.Done` ran). -/
def WorkerPc.isExited {β : Type} : WorkerPc β → Bool
  | .exited => true
  | _ => false

variable {β σ : Type}

/-- The error `Run` builds for an unhealthy run (`%+v` of a value with a
`String` method prints that string). -/
def unhealthyError (stats : Stats) : GoError :=
  "stats indicate unhealthy run: " ++ stats.String

/-- One step of the goroutines of `Run`; `none` when the action is not
enabled in the state. -/
def step (lt : Logtailer β σ) (a : Action) (s : State β σ) : Option (State β σ) :=
  match a with
  | .stop =>
    if s.shutdown then none else some { s with shutdown := true }
  | .scan =>
    match s.scanner, s.input with
    | .scanning, line :: rest =>
      some { s with input := rest, scanner := .publishing line,
                    stats := { s.stats with Records := s.stats.Records + 1 } }
    | .scanning, [] => some { s with scanner := .finished }
    | _, _ => none
  | .publish i =>
    match s.scanner, s.workers[i]? with
    | .publishing line, some .receiving =>
      some { s with scanner := .scanning, workers := s.workers.set i (.processing line) }
    | _, _ => none
  | .observeShutdown =>
    match s.scanner with
    | .publishing line => if s.shutdown then some { s with scanner := .stopped line } else none
    | _ => none
  | .workerExit i =>
    match s.workers[i]?, s.scanner with
    | some .receiving, .finished => some { s with workers := s.workers.set i .exited }
    | some .receiving, .stopped _ => some { s with workers := s.workers.set i .exited }
    | _, _ => none
  | .process i =>
    match s.workers[i]? with
    | some (.processing line) =>
      match lt.Profile.ProcessRecord line with
      | .error _ => some { s with workers := s.workers.set i .locking,
                                  calls := s.calls ++ [.ProcessRecord line] }
      | .ok record => some { s with workers := s.workers.set i (.sending record),
                                    calls := s.calls ++ [.ProcessRecord line] }
    | _ => none
  | .workerLock i =>
    match s.workers[i]? with
    | some .locking =>
      if s.stats.locked then none
      else some { s with workers := s.workers.set i .incrementing,
                         stats := { s.stats with locked := true } }
    | _ => none
  | .workerIncr i =>
    match s.workers[i]? with
    | some .incrementing =>
      some { s with workers := s.workers.set i .unlocking,
                    stats := { s.stats with ParseErrors := s.stats.ParseErrors + 1 } }
    | _ => none
  | .workerUnlock i =>
    match s.workers[i]? with
    | some .unlocking =>
      some { s with workers := s.workers.set i .receiving,
                    stats := { s.stats with locked := false } }
    | _ => none
  | .deliver i =>
    match s.workers[i]?, s.sink with
    | some (.sending record), .ranging =>
      if s.outputClosed then none
      else
        let r := lt.Profile.HandleOutput lt.DryRun s.sinkState record
        some { s with workers := s.workers.set i .receiving,
                      delivered := s.delivered ++ [record],
                      sinkState := r.1,
                      sink := match r.2 with
                        | some err => .sendingErr err
                        | none => .ranging }
    | _, _ => none
  | .sinkClose =>
    match s.sink with
    | .ranging => if s.outputClosed then some { s with sink := .closed } else none
    | _ => none
  | .collect =>
    match s.sink, s.collector with
    | .sendingErr err, .ranging => some { s with sink := .ranging, collector := .locking err }
    | _, _ => none
  | .collectLock =>
    match s.collector with
    | .locking err =>
      if s.stats.locked then none
      else some { s with collector := .incrementing err, stats := { s.stats with locked := true } }
    | _ => none
  | .collectIncr =>
    match s.collector with
    | .incrementing err =>
      some { s with collector := .unlocking err,
                    stats := { s.stats with SendErrors := s.stats.SendErrors + 1 } }
    | _ => none
  | .collectUnlock =>
    match s.collector with
    | .unlocking _ =>
      some { s with collector := .ranging, stats := { s.stats with locked := false } }
    | _ => none
  | .collectExit =>
    match s.collector, s.sink with
    | .ranging, .closed => some { s with collector := .exited }
    | _, _ => none
  | .mainWait =>
    match s.main with
    | .waiting =>
      if s.workers.all WorkerPc.isExited then some { s with main := .closing } else none
    | _ => none
  | .mainClose =>
    match s.main with
    | .closing => some { s with main := .judging, outputClosed := true }
    | _ => none
  | .mainJudge =>
    match s.main with
    | .judging =>
      some { s with judged := some s.stats,
                    main := .returning (if s.stats.IsHealthy then none
                      else some (unhealthyError s.stats)) }
    | _ => none
  | .mainReturn =>
    match s.main with
    | .returning err => some { s with main := .returned err }
    | _ => none

/-- Run a schedule from a state; `none` when some action of the schedule is
not enabled where it is tried. -/
def exec (lt : Logtailer β σ) : List Action → State β σ → Option (State β σ)
  | [], s => some s
  | a :: rest, s => (step lt a s).bind (exec lt rest)

/-- The state of `Run` once the scanner, the `numWorkers` workers, the sink
and the collector have been started.  The history `calls` holds the call of
`HandleOutput` from the start; `Run` makes it after it has started the scanner
and the workers, so a `ProcessRecord` call can precede it: only the order of
the `ProcessRecord` calls among themselves is that of the run. -/
def Logtailer.started (lt : Logtailer β σ) (env : Env) (numWorkers : Nat) : State β σ :=
  { stats := { Records := 0, ParseErrors := 0, SendErrors := 0 }
    input := env.records
    shutdown := false
    scanner := .scanning
    workers := List.replicate numWorkers .receiving
    outputClosed := false
    sink := .ranging
    sinkState := lt.Profile.sinkInit
    collector := .ranging
    main := .waiting
    calls := [.Init, .HandleOutput lt.DryRun]
    delivered := []
    judged := none }

/-- What `Run` hands back: the Stats, the error, and (as history) the profile
calls made and the records delivered to the sink up to the return. -/
structure Returned (β : Type) where
  stats : Stats
  err : Option GoError
  calls : List Call
  delivered : List β

/-- The sequential prefix of `Run`: `getInput`, then `Init`.  Either `Run`
returns at once, or the goroutines are started. -/
def Logtailer.begin (lt : Logtailer β σ) (env : Env) (numWorkers : Nat) :
    Returned β ⊕ State β σ :=
  match lt.getInput env with
  | .error err =>
    .inl { stats := { Records := 0, ParseErrors := 0, SendErrors := 0 }, err := some err,
           calls := [], delivered := [] }
  | .ok _ =>
    match lt.Profile.Init with
    | some err =>
      .inl { stats := { Records := 0, ParseErrors := 0, SendErrors := 0 }, err := some err,
             calls := [.Init], delivered := [] }
    | none => .inr (lt.started env numWorkers)

/-- Run starts the consumption of the input source and starts `numWorkers`
goroutines to process lines.  `schedule` resolves the interleaving of the
goroutines; the result is `none` when the schedule cannot be followed or
does not take `Run` to its return. -/
def Logtailer.Run (lt : Logtailer β σ) (env : Env) (numWorkers : Nat) (schedule : List Action) :
    Option (Returned β) :=
  match lt.begin env numWorkers with
  | .inl r => some r
  | .inr s0 =>
    match exec lt schedule s0 with
    | some s =>
      match s.main with
      | .returned err =>
        some { stats := s.stats, err := err, calls := s.calls, delivered := s.delivered }
      | _ => none
    | none => none

end logtailer

namespace logtailer

variable {β σ : Type}

/-! ## Accounting functions used to state the invariants of `Run` -/

/-- The record a profile call passed to `ProcessRecord`, if it is such a call. -/
def Call.line? : Call → Option String
  | .ProcessRecord record => some record
  | _ => none

/-- The records passed to `ProcessRecord` so far, in call order. -/
def processedLines (calls : List Call) : List String := calls.filterMap Call.line?

/-- The value of a successful transform of `line`. -/
def okValue (lt : Logtailer β σ) (line : String) : Option β :=
  match lt.Profile.ProcessRecord line with
  | .ok record => some record
  | .error _ => none

/-- The successful transforms of a list of records, in order. -/
def successes (lt : Logtailer β σ) (lines : List String) : List β := lines.filterMap (okValue lt)

/-- The number of records of a list whose transform fails. -/
def failures (lt : Logtailer β σ) (lines : List String) : Nat :=
  lines.countP (fun line => (okValue lt line).isNone)

/-- The record a worker holds between dequeuing it and transforming it. -/
def WorkerPc.heldLines : WorkerPc β → List String
  | .processing line => [line]
  | _ => []

/-- The value a worker holds between transforming a record and handing the
value to the sink. -/
def WorkerPc.heldValues : WorkerPc β → List β
  | .sending record => [record]
  | _ => []

/-- One for a worker that saw a transform error and has not yet incremented
`ParseErrors`. -/
def WorkerPc.owedErrors : WorkerPc β → Nat
  | .locking => 1
  | .incrementing => 1
  | _ => 0

/-- The record the scanner counted but did not hand to a worker (yet). -/
def ScannerPc.heldLines : ScannerPc → List String
  | .publishing line => [line]
  | .stopped line => [line]
  | _ => []

/-- Whether `inputRecords` is closed. -/
def ScannerPc.isClosed : ScannerPc → Bool
  | .finished => true
  | .stopped _ => true
  | _ => false

end logtailer

namespace logtailer

variable {β σ : Type}

/-! ## The steps of `Run`, case by case -/

/-- The enabled cases of `step`, one constructor for each, with the guard of
the case as hypotheses. -/
inductive Step (lt : Logtailer β σ) : Action → State β σ → State β σ → Prop where
  | stop (s : State β σ) (h : s.shutdown = false) : Step lt .stop s { s with shutdown := true }
  | scanToken (s : State β σ) (line : String) (rest : List String)
      (hs : s.scanner = .scanning) (hi : s.input = line :: rest) :
      Step lt .scan s { s with input := rest, scanner := .publishing line,
                               stats := { s.stats with Records := s.stats.Records + 1 } }
  | scanEnd (s : State β σ) (hs : s.scanner = .scanning) (hi : s.input = []) :
      Step lt .scan s { s with scanner := .finished }
  | publish (s : State β σ) (i : Nat) (line : String)
      (hs : s.scanner = .publishing line) (hw : s.workers[i]? = some .receiving) :
      Step lt (.publish i) s
        { s with scanner := .scanning, workers := s.workers.set i (.processing line) }
  | observeShutdown (s : State β σ) (line : String)
      (hs : s.scanner = .publishing line) (hd : s.shutdown = true) :
      Step lt .observeShutdown s { s with scanner := .stopped line }
  | workerExit (s : State β σ) (i : Nat)
      (hw : s.workers[i]? = some .receiving) (hs : s.scanner.isClosed = true) :
      Step lt (.workerExit i) s { s with workers := s.workers.set i .exited }
  | processErr (s : State β σ) (i : Nat) (line : String) (err : GoError)
      (hw : s.workers[i]? = some (.processing line))
      (hp : lt.Profile.ProcessRecord line = .error err) :
      Step lt (.process i) s
        { s with workers := s.workers.set i .locking, calls := s.calls ++ [.ProcessRecord line] }
  | processOk (s : State β σ) (i : Nat) (line : String) (record : β)
      (hw : s.workers[i]? = some (.processing line))
      (hp : lt.Profile.ProcessRecord line = .ok record) :
      Step lt (.process i) s
        { s with workers := s.workers.set i (.sending record),
                 calls := s.calls ++ [.ProcessRecord line] }
  | workerLock (s : State β σ) (i : Nat)
      (hw : s.workers[i]? = some .locking) (hl : s.stats.locked = false) :
      Step lt (.workerLock i) s
        { s with workers := s.workers.set i .incrementing,
                 stats := { s.stats with locked := true } }
  | workerIncr (s : State β σ) (i : Nat) (hw : s.workers[i]? = some .incrementing) :
      Step lt (.workerIncr i) s
        { s with workers := s.workers.set i .unlocking,
                 stats := { s.stats with ParseErrors := s.stats.ParseErrors + 1 } }
  | workerUnlock (s : State β σ) (i : Nat) (hw : s.workers[i]? = some .unlocking) :
      Step lt (.workerUnlock i) s
        { s with workers := s.workers.set i .receiving,
                 stats := { s.stats with locked := false } }
  | deliver (s : State β σ) (i : Nat) (record : β)
      (hw : s.workers[i]? = some (.sending record)) (hk : s.sink = .ranging)
      (ho : s.outputClosed = false) :
      Step lt (.deliver i) s
        { s with workers := s.workers.set i .receiving,
                 delivered := s.delivered ++ [record],
                 sinkState := (lt.Profile.HandleOutput lt.DryRun s.sinkState record).1,
                 sink := match (lt.Profile.HandleOutput lt.DryRun s.sinkState record).2 with
                   | some err => .sendingErr err
                   | none => .ranging }
  | sinkClose (s : State β σ) (hk : s.sink = .ranging) (ho : s.outputClosed = true) :
      Step lt .sinkClose s { s with sink := .closed }
  | collect (s : State β σ) (err : GoError)
      (hk : s.sink = .sendingErr err) (hc : s.collector = .ranging) :
      Step lt .collect s { s with sink := .ranging, collector := .locking err }
  | collectLock (s : State β σ) (err : GoError)
      (hc : s.collector = .locking err) (hl : s.stats.locked = false) :
      Step lt .collectLock s
        { s with collector := .incrementing err, stats := { s.stats with locked := true } }
  | collectIncr (s : State β σ) (err : GoError) (hc : s.collector = .incrementing err) :
      Step lt .collectIncr s
        { s with collector := .unlocking err,
                 stats := { s.stats with SendErrors := s.stats.SendErrors + 1 } }
  | collectUnlock (s : State β σ) (err : GoError) (hc : s.collector = .unlocking err) :
      Step lt .collectUnlock s
        { s with collector := .ranging, stats := { s.stats with locked := false } }
  | collectExit (s : State β σ) (hc : s.collector = .ranging) (hk : s.sink = .closed) :
      Step lt .collectExit s { s with collector := .exited }
  | mainWait (s : State β σ) (hm : s.main = .waiting)
      (hw : s.workers.all WorkerPc.isExited = true) :
      Step lt .mainWait s { s with main := .closing }
  | mainClose (s : State β σ) (hm : s.main = .closing) :
      Step lt .mainClose s { s with main := .judging, outputClosed := true }
  | mainJudge (s : State β σ) (hm : s.main = .judging) :
      Step lt .mainJudge s
        { s with judged := some s.stats,
                 main := .returning (if s.stats.IsHealthy then none
                   else some (unhealthyError s.stats)) }
  | mainReturn (s : State β σ) (err : Option GoError) (hm : s.main = .returning err) :
      Step lt .mainReturn s { s with main := .returned err }

end logtailer

namespace logtailer

variable {β σ : Type}

/-! ## A serial schedule, and a profile for the examples -/

/-- The actions by which worker 0 takes the records of `lines` through the
pipeline one after the other, the collector counting each error the sink
reports before the next record is scanned. -/
def serialBody (lt : Logtailer β σ) : σ → List String → List Action
  | _, [] => []
  | st, line :: rest =>
    match lt.Profile.ProcessRecord line with
    | .error _ =>
      [.scan, .publish 0, .process 0, .workerLock 0, .workerIncr 0, .workerUnlock 0]
        ++ serialBody lt st rest
    | .ok record =>
      match (lt.Profile.HandleOutput lt.DryRun st record).2 with
      | some _ =>
        [.scan, .publish 0, .process 0, .deliver 0, .collect, .collectLock, .collectIncr,
          .collectUnlock] ++ serialBody lt (lt.Profile.HandleOutput lt.DryRun st record).1 rest
      | none =>
        [.scan, .publish 0, .process 0, .deliver 0]
          ++ serialBody lt (lt.Profile.HandleOutput lt.DryRun st record).1 rest

/-- A complete schedule without shutdown: the serial body, the end of the
input, the return of every worker, and the last four steps of `Run`. -/
def serialSchedule (lt : Logtailer β σ) (env : Env) (numWorkers : Nat) : List Action :=
  serialBody lt lt.Profile.sinkInit env.records ++ [.scan]
    ++ (List.range numWorkers).map Action.workerExit
    ++ [.mainWait, .mainClose, .mainJudge, .mainReturn]

/-- A profile for the examples: the transform fails on the record `bad`, the
sink reports a delivery error for the record `boom`. -/
def demoProfile : Profile String Unit where
  Init := none
  ProcessRecord := fun record => if record = "bad" then .error "malformed" else .ok record
  sinkInit := ()
  HandleOutput := fun _ st record => (st, if record = "boom" then some "send failed" else none)

/-- The example profile reading standard input. -/
def demoTailer : Logtailer String Unit where
  Profile := demoProfile
  LogFile := "-"
  StateDir := "/tmp"
  DryRun := false

/-- The example profile with an `Init` that fails. -/
def failingInitTailer : Logtailer String Unit where
  Profile := { demoProfile with Init := some "no key mapping" }
  LogFile := "-"
  StateDir := "/tmp"
  DryRun := false

/-- The example profile with a sink that never reports an error. -/
def quietTailer : Logtailer String Unit where
  Profile := { demoProfile with HandleOutput := fun _ st _ => (st, none) }
  LogFile := "-"
  StateDir := "/tmp"
  DryRun := false

/-- Ten records, two of them malformed. -/
def tenRecords : List String := ["a", "b", "bad", "c", "d", "e", "bad", "f", "g", "h"]

/-- An input of 8999999999999999 records of which 900000000000000 are
malformed. -/
def hugeInput : List String :=
  List.replicate 900000000000000 "bad" ++ List.replicate 8099999999999999 "ok"

/-- An environment in which the input reader yields `records`. -/
def demoEnv (records : List String) : Env where
  pipeErr := none
  startErr := none
  records := records

/-- The Stats `Run` creates. -/
def zeroStats : Stats := { Records := 0, ParseErrors := 0, SendErrors := 0 }

end logtailer

namespace logtailer

variable {β σ : Type}

/-! ## What one worker does with one record -/

/-- The values a worker has yet to hand to the sink for the record it
dequeued: the value of the transform if the transform is still to be made and
succeeds, the value it holds if it is sending. -/
def WorkerPc.toDeliver (lt : Logtailer β σ) : WorkerPc β → List β
  | .processing line => (okValue lt line).toList
  | .sending record => [record]
  | _ => []

/-- The increments of `ParseErrors` a worker has yet to make for the record
it dequeued. -/
def WorkerPc.toIncrement (lt : Logtailer β σ) : WorkerPc β → Nat
  | .processing line => if (okValue lt line).isNone then 1 else 0
  | .locking => 1
  | .incrementing => 1
  | _ => 0

/-- The values worker `i` hands to the sink along a schedule. -/
def deliveredBy (lt : Logtailer β σ) (i : Nat) : List Action → State β σ → List β
  | [], _ => []
  | a :: rest, s =>
    match step lt a s with
    | none => []
    | some u =>
      (if a = .deliver i then
        (match s.workers[i]? with
          | some w => w.heldValues
          | none => [])
       else []) ++ deliveredBy lt i rest u

/-- The state of the example run over the records bad and a, with two
workers, once worker 1 has dequeued the first record. -/
def heldBadState : State String Unit :=
  { (demoTailer.started (demoEnv ["bad", "a"]) 2) with
      input := ["a"]
      stats := { Records := 1, ParseErrors := 0, SendErrors := 0 }
      workers := [.receiving, .processing "bad"] }

/-- The example profile reading a log file through the logtail command. -/
def fileTailer : Logtailer String Unit where
  Profile := demoProfile
  LogFile := "/var/log/auth.log"
  StateDir := "/var/run/logtailer"
  DryRun := false

end logtailer

namespace logtailer

variable {β σ : Type}

/-! ## Invariants of `Run` -/

/-- the accounting invariant of a run over the input `inp` -/
structure Acct (lt : Logtailer β σ) (inp : List String) (s : State β σ) : Prop where
  scanned : ∃ pre, inp = pre ++ s.input ∧ s.stats.Records = pre.length ∧
    ∀ p : String → Bool, pre.countP p = (processedLines s.calls).countP p
      + ((s.workers.map (fun w => w.heldLines.countP p)).sum) + s.scanner.heldLines.countP p
  vals : ∀ q : β → Bool, (successes lt (processedLines s.calls)).countP q
      = s.delivered.countP q + (s.workers.map (fun w => w.heldValues.countP q)).sum
  errs : (failures lt (processedLines s.calls) : Int)
      = s.stats.ParseErrors + ((s.workers.map WorkerPc.owedErrors).sum : Nat)
  fin : s.scanner = .finished → s.input = []
  closed : (∃ w ∈ s.workers, w = .exited) → s.scanner.isClosed = true
  waited : s.main ≠ .waiting → ∀ w ∈ s.workers, w = .exited

/-- what the state records about the verdict of `Run` -/
structure Judged (s : State β σ) : Prop where
  verdict : ∀ err, (s.main = .returning err ∨ s.main = .returned err) →
    ∃ snap, s.judged = some snap ∧ (err = none ↔ snap.IsHealthy = true) ∧
      snap.SendErrors ≤ s.stats.SendErrors ∧
      (s.workers ≠ [] → snap.Records = s.stats.Records ∧ snap.ParseErrors = s.stats.ParseErrors)

/-- a state in which the next record can be taken through the pipeline by
worker 0 -/
structure Ready (s : State β σ) : Prop where
  scanner : s.scanner = .scanning
  worker : ∃ ws, s.workers = .receiving :: ws
  sink : s.sink = .ranging
  collector : s.collector = .ranging
  unlocked : s.stats.locked = false
  output : s.outputClosed = false

/-- what holds along a run whose sink never reports an error -/
structure NoSendError (s : State β σ) : Prop where
  sink : ∀ e, s.sink ≠ .sendingErr e
  collector : s.collector = .ranging ∨ s.collector = .exited
  count : s.stats.SendErrors = 0
  judged : ∀ snap, s.judged = some snap → snap.SendErrors = 0

/-- with a single worker the records in flight are in input order: the
records transformed so far, then the one the worker holds, then the one the
scanner holds, then the unread input; and the values delivered so far followed
by the one the worker holds are the successful transforms in that order -/
structure Ordered (lt : Logtailer β σ) (inp : List String) (s : State β σ) : Prop where
  single : ∃ w, s.workers = [w] ∧
    inp = processedLines s.calls ++ w.heldLines ++ s.scanner.heldLines ++ s.input ∧
    successes lt (processedLines s.calls) = s.delivered ++ w.heldValues

/-- One for a worker that holds the Stats lock. -/
def WorkerPc.holdsLock : WorkerPc β → Nat
  | .incrementing => 1
  | .unlocking => 1
  | _ => 0

/-- One for a collector that holds the Stats lock. -/
def CollectorPc.holdsLock : CollectorPc → Nat
  | .incrementing _ => 1
  | .unlocking _ => 1
  | _ => 0

/-- The lock is held by exactly one goroutine when it is locked and by none
otherwise; `outputRecords` is closed only after `wg.Wait`; the sink closes
`errChan` only after `outputRecords` was closed, and the collector returns
only after `errChan` was closed. -/
structure Flow (s : State β σ) : Prop where
  mutex : (s.workers.map WorkerPc.holdsLock).sum + s.collector.holdsLock
    = (if s.stats.locked then 1 else 0)
  output : s.outputClosed = true → s.main ≠ .waiting
  sinkClosed : s.sink = .closed → s.outputClosed = true
  collectorExited : s.collector = .exited → s.sink = .closed

/-- A state that a schedule reaches from the start of the goroutines. -/
def Reachable (lt : Logtailer β σ) (env : Env) (numWorkers : Nat) (s : State β σ) : Prop :=
  ∃ sch, exec lt sch (lt.started env numWorkers) = some s

end logtailer

namespace logtailer

variable {β σ : Type}

/-! ## Accounting of the errors the sink reports -/

/-- The sink handles one more record: its new state, and the number of errors
it has reported so far. -/
def sinkStep (lt : Logtailer β σ) (acc : σ × Nat) (record : β) : σ × Nat :=
  ((lt.Profile.HandleOutput lt.DryRun acc.1 record).1,
    acc.2 + (if (lt.Profile.HandleOutput lt.DryRun acc.1 record).2.isSome then 1 else 0))

/-- The state of the sink and the number of errors it reported after it
handled the records of `delivered` in order. -/
def sinkTrace (lt : Logtailer β σ) (delivered : List β) : σ × Nat :=
  delivered.foldl (sinkStep lt) (lt.Profile.sinkInit, 0)

/-- One for a sink that reported an error and waits for the collector to
receive it. -/
def SinkPc.pending : SinkPc → Nat
  | .sendingErr _ => 1
  | _ => 0

/-- One for a collector that received an error and has not yet incremented
`SendErrors`. -/
def CollectorPc.uncounted : CollectorPc → Nat
  | .locking _ => 1
  | .incrementing _ => 1
  | _ => 0

/-- The errors the sink reported for the records delivered so far are those
counted in `SendErrors`, the one the collector holds uncounted and the one the
sink has not yet handed over. -/
structure SendAcct (lt : Logtailer β σ) (s : State β σ) : Prop where
  state : s.sinkState = (sinkTrace lt s.delivered).1
  count : ((sinkTrace lt s.delivered).2 : Int)
    = s.stats.SendErrors + s.collector.uncounted + s.sink.pending
  nonneg : 0 ≤ s.stats.Records ∧ 0 ≤ s.stats.ParseErrors ∧ 0 ≤ s.stats.SendErrors

/-- One for a worker goroutine that has not returned. -/
def WorkerPc.alive : WorkerPc β → Nat
  | .exited => 0
  | _ => 1

/-- The error `Run` settled on is the one its `if stats.IsHealthy()` builds
from the Stats it read. -/
structure Verdict (s : State β σ) : Prop where
  error : ∀ err, (s.main = .returning err ∨ s.main = .returned err) →
    ∃ snap, s.judged = some snap ∧
      err = (if snap.IsHealthy then none else some (unhealthyError snap))

/-- The state of the example run over the records a, b and c, with one
worker, once `a` was transformed and delivered and `Stop` was called while the
scanner tries to publish `b`. -/
def stopRequested : State String Unit :=
  { (demoTailer.started (demoEnv ["a", "b", "c"]) 1) with
      input := ["c"]
      shutdown := true
      scanner := .publishing "b"
      stats := { Records := 2, ParseErrors := 0, SendErrors := 0 }
      calls := [.Init, .HandleOutput false, .ProcessRecord "a"]
      delivered := ["a"] }

/-- The state `stopRequested` after the scanner has observed the shutdown. -/
def shutdownObserved : State String Unit := { stopRequested with scanner := .stopped "b" }

/-- The state `shutdownObserved` after the worker has returned and `Run` has
returned. -/
def shutdownReturned : State String Unit :=
  { shutdownObserved with
      workers := [.exited]
      outputClosed := true
      main := .returned none
      judged := some { Records := 2, ParseErrors := 0, SendErrors := 0 } }

end logtailer

namespace logtailer

/-! ## profiles/sshd/sshd.go

The correlation of sshd log lines into ssh events.  Instants (`time.Time`) are
integers: nanoseconds since the zero `time.Time`.  The results of
`encoding/json`, `regexp`, `strconv.Atoi` and `time.Parse` are taken from a
library record `SshdLib`; the map `events` is an association list with unique
keys; the channel `completeEvents` is the list of the events sent on it so far,
oldest first. -/

/-- The struct `sshEvent`: a successful ssh login event.  The default of each
field is the zero value of its Go type. -/
structure sshEvent where
  Timestamp : Int := 0
  Logtime : Int := 0
  PeType : String := ""
  Hostname : String := ""
  Pid : Int := 0
  DstIP : String := ""
  SrcIP : String := ""
  Port : Int := 0
  Fingerprint : String := ""
  DstUser : String := ""
  FbUser : String := ""
  ChildPid : Int := 0
  Success : Bool := false
  FailReason : String := ""
  Complete : Bool := false
deriving DecidableEq, Repr

/-- The method `ID`: hostname, a colon, the pid in decimal. -/
def sshEvent.ID (e : sshEvent) : String := e.Hostname ++ ":" ++ Itoa e.Pid

/-- The duration `time.Second` in nanoseconds. -/
def Second : Int := 1000000000

/-- What the profile takes from libraries.  `Unmarshal` is `json.Unmarshal`
into a zero `sshEvent`; `Marshal` is `json.Marshal` of an `sshEvent` (it
fails when a `time.Time` of the event lies outside the years 0 to 9999);
`Atoi` is the value `strconv.Atoi` returns and `ParseTime` the value
`time.Parse(timeFormat, ·)` returns (the source drops the error of both);
each regular expression gives the capture groups of its match (`res[1]`,
`res[2]`, ...), or `none` when it does not match. -/
structure SshdLib where
  Unmarshal : String → Except GoError sshEvent
  Marshal : sshEvent → Except GoError String
  Atoi : String → Int
  ParseTime : String → Int
  sshLogRe : String → Option (String × String × String × String)
  connectLineRe : String → Option (String × String)
  foundKeyRe : String → Option String
  acceptKeyRe : String → Option (String × String × String)
  childPidRe : String → Option String
  badRevMapRe : String → Option Unit
  failedPubKeyRe : String → Option (String × String × String)
  connectionClosedRe : String → Option (String × String)

/-- SshdProfile is a logtailer profile that parses ssh login events from sshd
logs (the logger is left out). -/
structure SshdProfile where
  fingerprintToFbUser : AList (fun _ : String => String)
  events : AList (fun _ : String => sshEvent)
  completeEvents : List sshEvent

/-- Init initializes the SshdProfile instance; `keys` is the result of
`populateKeyMapping`. -/
def SshdProfile.Init (keys : AList (fun _ : String => String)) : SshdProfile :=
  { fingerprintToFbUser := keys, events := ∅, completeEvents := [] }

/-- A read of the map `fingerprintToFbUser`: the empty string for a missing
key. -/
def SshdProfile.fbUser (p : SshdProfile) (fingerprint : String) : String :=
  (p.fingerprintToFbUser.lookup fingerprint).getD ""

/-- ProcessRecord is invoked for every input log line.  It returns a
transformed line or an error.  `now` is the value of `time.Now()`. -/
def SshdProfile.ProcessRecord (lib : SshdLib) (now : Int) (p : SshdProfile) (line : String) :
    Except GoError String :=
  match lib.sshLogRe line with
  | none => .error "logtailer.sshd: unexpected log line not from sshd"
  | some (logtime, hostname, pid, message) =>
    let partialEvent : sshEvent :=
      { Timestamp := now, Logtime := lib.ParseTime logtime, Hostname := hostname,
        Pid := lib.Atoi pid }
    match lib.connectLineRe message with
    | some (ip, port) =>
      lib.Marshal { partialEvent with
        PeType := "connectLine", SrcIP := ip, Port := lib.Atoi port }
    | none =>
    match lib.foundKeyRe message with
    | some fingerprint =>
      lib.Marshal { partialEvent with
        PeType := "foundKey", Fingerprint := fingerprint, FbUser := p.fbUser fingerprint }
    | none =>
    match lib.acceptKeyRe message with
    | some (user, ip, port) =>
      lib.Marshal { partialEvent with
        PeType := "acceptKey", DstUser := user, SrcIP := ip, Port := lib.Atoi port,
        Success := true }
    | none =>
    match lib.childPidRe message with
    | some child =>
      lib.Marshal { partialEvent with
        PeType := "childPid", ChildPid := lib.Atoi child, Success := true }
    | none =>
    match lib.badRevMapRe message with
    | some _ =>
      lib.Marshal { partialEvent with
        PeType := "badRevMap", FailReason := "reverse mapping checking getaddrinfo",
        Success := false }
    | none =>
    match lib.failedPubKeyRe message with
    | some _ => lib.Marshal { partialEvent with PeType := "failedPubKey", Success := false }
    | none =>
    match lib.connectionClosedRe message with
    | some (ip, reason) =>
      lib.Marshal { partialEvent with
        PeType := "connectionClosed", SrcIP := ip, FailReason := reason, Success := false }
    | none => .ok "\x7b\x7d"

/-- The assignments `handlePartialEvent` makes to the entry `fullEvent` for
the decoded observation `event`: the four fields set for every observation,
then the `switch event.PeType`. -/
def mergeEvent (now : Int) (fullEvent event : sshEvent) : sshEvent :=
  let fullEvent := { fullEvent with
    Timestamp := now, Logtime := event.Logtime, Hostname := event.Hostname, Pid := event.Pid }
  if event.PeType = "connectLine" then
    { fullEvent with SrcIP := event.SrcIP, Port := event.Port }
  else if event.PeType = "foundKey" then
    { fullEvent with Fingerprint := event.Fingerprint, FbUser := event.FbUser }
  else if event.PeType = "acceptKey" then
    { fullEvent with
      DstUser := event.DstUser, SrcIP := event.SrcIP, Port := event.Port,
      Success := event.Success }
  else if event.PeType = "childPid" then
    { fullEvent with ChildPid := event.ChildPid, Success := event.Success, Complete := true }
  else if event.PeType = "badRevMap" then
    { fullEvent with FailReason := event.FailReason, Success := event.Success }
  else if event.PeType = "failedPubKey" then
    { fullEvent with Success := event.Success, Complete := true }
  else if event.PeType = "connectionClosed" then
    { fullEvent with
      Success := event.Success, SrcIP := event.SrcIP, FailReason := event.FailReason,
      Complete := true }
  else fullEvent

/-- The method `handlePartialEvent`: the error returned and the profile
afterwards.  `now` is the value of `time.Now()`. -/
def SshdProfile.handlePartialEvent (lib : SshdLib) (now : Int) (p : SshdProfile)
    (partialEvent : String) : Option GoError × SshdProfile :=
  match lib.Unmarshal partialEvent with
  | .error err => (some err, p)
  | .ok event =>
    let key := event.ID
    let fullEvent := mergeEvent now ((p.events.lookup key).getD {}) event
    if fullEvent.Complete then
      (none, { p with completeEvents := p.completeEvents ++ [fullEvent],
                      events := p.events.erase key })
    else (none, { p with events := p.events.insert key fullEvent })

/-- The loop of the consumption goroutine of `HandleOutput` over the records
it receives, each paired with the value of `time.Now()` when it is handled:
the errors sent on `errChan`, and the profile afterwards.  Every record is a
byte slice (what `ProcessRecord` returns), so the type assertion of the loop
succeeds. -/
def SshdProfile.consume (lib : SshdLib) : List (Int × String) → SshdProfile →
    List GoError × SshdProfile
  | [], p => ([], p)
  | (now, line) :: rest, p =>
    ((p.handlePartialEvent lib now line).1.toList
        ++ (consume lib rest (p.handlePartialEvent lib now line).2).1,
      (consume lib rest (p.handlePartialEvent lib now line).2).2)

/-- Whether the expiry goroutine expires an entry at the instant `now`: the
entry was not updated for 60s. -/
def sshEvent.expired (now : Int) (event : sshEvent) : Bool :=
  decide (now > event.Timestamp + 60 * Second)

/-- The body of the loop of the expiry goroutine for one entry of the map. -/
def SshdProfile.expire (now : Int) (p : SshdProfile) (entry : Sigma (fun _ : String => sshEvent)) :
    SshdProfile :=
  if entry.2.expired now then
    { p with
      completeEvents := p.completeEvents ++
        [{ entry.2 with Success := false, FailReason := "timeout waiting for complete event" }],
      events := p.events.erase entry.1 }
  else p

/-- One round of the expiry goroutine (one tick of `timeoutCheckTicker`): the
loop over the map, in the order of the association list (Go leaves the order
open).  `now` is the value of `time.Now()`, taken to be the same for every
entry of the round. -/
def SshdProfile.sweep (now : Int) (p : SshdProfile) : SshdProfile :=
  p.events.entries.foldl (SshdProfile.expire now) p

/-- The subtypes whose observation completes an event. -/
def terminalTypes : List String := ["childPid", "failedPubKey", "connectionClosed"]

/-- The profiles reachable from `Init` by `handlePartialEvent` and sweeps. -/
inductive SshdProfile.Reachable (lib : SshdLib) : SshdProfile → Prop where
  | init (keys : AList (fun _ : String => String)) : Reachable lib (SshdProfile.Init keys)
  | handle (now : Int) (p : SshdProfile) (partialEvent : String) (h : Reachable lib p) :
      Reachable lib (p.handlePartialEvent lib now partialEvent).2
  | sweep (now : Int) (p : SshdProfile) (h : Reachable lib p) : Reachable lib (p.sweep now)

/-- The invariant of the map `events`: every entry is stored under its own
`ID` and is not complete. -/
def SshdProfile.Inflight (p : SshdProfile) : Prop :=
  ∀ k e, p.events.lookup k = some e → e.Complete = false ∧ e.ID = k

/-! ### The JSON of an event -/

/-- A number in decimal, padded with zeros on the left to `width` digits. -/
def zeroPad (width n : Nat) : String :=
  String.mk (List.replicate (width - (Nat.toDigits 10 n).length) '0' ++ Nat.toDigits 10 n)

/-- The fraction of a second as the layout `time.RFC3339Nano` writes it:
nothing for zero, else a point and the nanoseconds without trailing zeros. -/
def formatFraction (nanos : Nat) : String :=
  if nanos = 0 then ""
  else "." ++ String.mk ((((Nat.toDigits 10 (1000000000 + nanos)).drop 1).reverse.dropWhile
    (fun c => c = '0')).reverse)

/-- The layout `time.RFC3339Nano` of an instant in UTC, for the years 0 to
9999 (the form in which `encoding/json` writes a `time.Time`). -/
def formatRFC3339 (t : Int) : String :=
  let secs := t / Second
  let nanos := (t % Second).toNat
  let days := secs / 86400
  let rem := (secs % 86400).toNat
  let z := days + 306
  let era := z / 146097
  let doe := (z % 146097).toNat
  let yoe := (doe - doe / 1460 + doe / 36524 - doe / 146096) / 365
  let doy := doe - (365 * yoe + yoe / 4 - yoe / 100)
  let mp := (5 * doy + 2) / 153
  let d := doy - (153 * mp + 2) / 5 + 1
  let m := if mp < 10 then mp + 3 else mp - 9
  let y := ((yoe : Int) + era * 400 + (if m ≤ 2 then 1 else 0)).toNat
  zeroPad 4 y ++ "-" ++ zeroPad 2 m ++ "-" ++ zeroPad 2 d ++ "T" ++ zeroPad 2 (rem / 3600)
    ++ ":" ++ zeroPad 2 (rem % 3600 / 60) ++ ":" ++ zeroPad 2 (rem % 60)
    ++ formatFraction nanos ++ "Z"

/-- A JSON string, for a text without characters that need escaping. -/
def jsonString (s : String) : String := "\"" ++ s ++ "\""

/-- A member with the tag `omitempty`: left out when the value is the zero
value of its type. -/
def jsonOmitEmpty (name value : String) (empty : Bool) : List String :=
  if empty then [] else [jsonMember name value]

/-- What `json.Marshal` writes for an `sshEvent` with times in UTC and texts
without characters that need escaping: the members in the order of the struct
fields, under the names and with the `omitempty` of the struct tags
(`omitempty` does not apply to a `time.Time`). -/
def marshalEvent (e : sshEvent) : String :=
  jsonObject ([jsonMember "timestamp" (jsonString (formatRFC3339 e.Timestamp)),
      jsonMember "logtime" (jsonString (formatRFC3339 e.Logtime))]
    ++ jsonOmitEmpty "pe_type" (jsonString e.PeType) (e.PeType = "")
    ++ jsonOmitEmpty "hostname" (jsonString e.Hostname) (e.Hostname = "")
    ++ jsonOmitEmpty "pid" (Itoa e.Pid) (e.Pid = 0)
    ++ jsonOmitEmpty "dst_ip" (jsonString e.DstIP) (e.DstIP = "")
    ++ jsonOmitEmpty "src_ip" (jsonString e.SrcIP) (e.SrcIP = "")
    ++ jsonOmitEmpty "port" (Itoa e.Port) (e.Port = 0)
    ++ jsonOmitEmpty "fingerprint" (jsonString e.Fingerprint) (e.Fingerprint = "")
    ++ jsonOmitEmpty "dst_user" (jsonString e.DstUser) (e.DstUser = "")
    ++ jsonOmitEmpty "fb_user" (jsonString e.FbUser) (e.FbUser = "")
    ++ jsonOmitEmpty "child_pid" (Itoa e.ChildPid) (e.ChildPid = 0)
    ++ [jsonMember "success" (if e.Success then "true" else "false")]
    ++ jsonOmitEmpty "fail_reason" (jsonString e.FailReason) (e.FailReason = "")
    ++ jsonOmitEmpty "complete" "true" (!e.Complete))

/-! ### The examples -/

/-- The observation of the line
`Nov 14 10:00:00 host1 sshd[123]: Connection from 1.2.3.4 port 22`. -/
def connectEvent : sshEvent :=
  { Timestamp := 63930247200 * Second, Logtime := -4111200 * Second, PeType := "connectLine",
    Hostname := "host1", Pid := 123, SrcIP := "1.2.3.4", Port := 22 }

/-- The JSON of `connectEvent`. -/
def connectJson : String :=
  "\x7b\"timestamp\":\"2026-11-14T10:00:00Z\"" ++
    ",\"logtime\":\"0000-11-14T10:00:00Z\",\"pe_type\":\"connectLine\"" ++
    ",\"hostname\":\"host1\",\"pid\":123,\"src_ip\":\"1.2.3.4\",\"port\":22" ++
    ",\"success\":false\x7d"

/-- The observation of the line `Nov 14 10:00:01 host1 sshd[123]: Found
matching RSA key: b5:ca:16:03:d4:10:41:80:3d:bc:3b:18:05:57:4f:56`, the key
being that of the user alice. -/
def foundKeyEvent : sshEvent :=
  { Timestamp := 63930247201 * Second, Logtime := -4111199 * Second, PeType := "foundKey",
    Hostname := "host1", Pid := 123,
    Fingerprint := "b5:ca:16:03:d4:10:41:80:3d:bc:3b:18:05:57:4f:56", FbUser := "alice" }

/-- The JSON of `foundKeyEvent`. -/
def foundKeyJson : String :=
  "\x7b\"timestamp\":\"2026-11-14T10:00:01Z\"" ++
    ",\"logtime\":\"0000-11-14T10:00:01Z\",\"pe_type\":\"foundKey\"" ++
    ",\"hostname\":\"host1\",\"pid\":123" ++
    ",\"fingerprint\":\"b5:ca:16:03:d4:10:41:80:3d:bc:3b:18:05:57:4f:56\"" ++
    ",\"fb_user\":\"alice\",\"success\":false\x7d"

/-- The observation of the line `Nov 14 10:00:01 host1 sshd[123]: Accepted
publickey for ubuntu from 1.2.3.4 port 22 ssh2`. -/
def acceptKeyEvent : sshEvent :=
  { Timestamp := 63930247201 * Second, Logtime := -4111199 * Second, PeType := "acceptKey",
    Hostname := "host1", Pid := 123, SrcIP := "1.2.3.4", Port := 22, DstUser := "ubuntu",
    Success := true }

/-- The JSON of `acceptKeyEvent`. -/
def acceptKeyJson : String :=
  "\x7b\"timestamp\":\"2026-11-14T10:00:01Z\"" ++
    ",\"logtime\":\"0000-11-14T10:00:01Z\",\"pe_type\":\"acceptKey\"" ++
    ",\"hostname\":\"host1\",\"pid\":123,\"src_ip\":\"1.2.3.4\",\"port\":22" ++
    ",\"dst_user\":\"ubuntu\",\"success\":true\x7d"

/-- The observation of the line
`Nov 14 10:00:02 host1 sshd[123]: User child is on pid 124`. -/
def childPidEvent : sshEvent :=
  { Timestamp := 63930247202 * Second, Logtime := -4111198 * Second, PeType := "childPid",
    Hostname := "host1", Pid := 123, ChildPid := 124, Success := true }

/-- The JSON of `childPidEvent`. -/
def childPidJson : String :=
  "\x7b\"timestamp\":\"2026-11-14T10:00:02Z\"" ++
    ",\"logtime\":\"0000-11-14T10:00:02Z\",\"pe_type\":\"childPid\"" ++
    ",\"hostname\":\"host1\",\"pid\":123,\"child_pid\":124" ++
    ",\"success\":true\x7d"

/-- The observation of the line `Nov 14 10:00:03 host1 sshd[123]: reverse
mapping checking getaddrinfo for foo [1.2.3.4] failed`. -/
def badRevMapEvent : sshEvent :=
  { Timestamp := 63930247203 * Second, Logtime := -4111197 * Second, PeType := "badRevMap",
    Hostname := "host1", Pid := 123, FailReason := "reverse mapping checking getaddrinfo" }

/-- The JSON of `badRevMapEvent`. -/
def badRevMapJson : String :=
  "\x7b\"timestamp\":\"2026-11-14T10:00:03Z\"" ++
    ",\"logtime\":\"0000-11-14T10:00:03Z\",\"pe_type\":\"badRevMap\"" ++
    ",\"hostname\":\"host1\",\"pid\":123,\"success\":false" ++
    ",\"fail_reason\":\"reverse mapping checking getaddrinfo\"\x7d"

/-- A line of sshd whose message has none of the seven recognised forms. -/
def listeningLine : String :=
  "Nov 14 10:00:00 host1 sshd[123]: Server listening on 0.0.0.0 port 22."

/-- The payloads of the examples with the events `encoding/json` decodes them
to; the last is the result of `ProcessRecord` for an unrecognised message. -/
def demoPayloads : List (String × sshEvent) :=
  [(connectJson, connectEvent), (foundKeyJson, foundKeyEvent), (acceptKeyJson, acceptKeyEvent),
    (childPidJson, childPidEvent), (badRevMapJson, badRevMapEvent), ("\x7b\x7d", {})]

/-- The library on the examples: `json.Unmarshal` on `demoPayloads` (every
other payload of the examples is a truncated document), `json.Marshal` as
`marshalEvent`, `strconv.Atoi` on the numerals of the examples (which are
within the range of `int`), one value of `time.Parse` for every line, `regexp`
on `listeningLine` (the only line the examples transform). -/
def demoLib : SshdLib where
  Unmarshal := fun b =>
    match demoPayloads.lookup b with
    | some event => .ok event
    | none => .error "unexpected end of JSON input"
  Marshal := fun event => .ok (marshalEvent event)
  Atoi := fun s => numeralValue s
  ParseTime := fun _ => -4111200 * Second
  sshLogRe := fun line =>
    if line = listeningLine then
      some ("Nov 14 10:00:00", "host1", "123", "Server listening on 0.0.0.0 port 22.")
    else none
  connectLineRe := fun _ => none
  foundKeyRe := fun _ => none
  acceptKeyRe := fun _ => none
  childPidRe := fun _ => none
  badRevMapRe := fun _ => none
  failedPubKeyRe := fun _ => none
  connectionClosedRe := fun _ => none

/-- The profile after `Init` when the authorized keys hold the key of alice. -/
def demoSshd : SshdProfile :=
  SshdProfile.Init ((∅ : AList (fun _ : String => String)).insert
    "b5:ca:16:03:d4:10:41:80:3d:bc:3b:18:05:57:4f:56" "alice")

end logtailer

namespace logtailer

/-! ## The goroutines of `HandleOutput` of the sshd profile -/

/-- One step of the goroutines `HandleOutput` starts, taken one at a time: the
consumption goroutine handles a record, or the expiry goroutine runs a round
of its loop; `now` is the value of `time.Now()` in the step. -/
inductive SshdStep where
  | record (now : Int) (payload : String)
  | tick (now : Int)
deriving DecidableEq, Repr

/-- The consumption goroutine and the expiry goroutine along a sequence of
steps: the errors sent on `errChan`, and the profile afterwards. -/
def SshdProfile.run (lib : SshdLib) : List SshdStep → SshdProfile → List GoError × SshdProfile
  | [], p => ([], p)
  | .record now payload :: rest, p =>
    ((p.handlePartialEvent lib now payload).1.toList
        ++ (run lib rest (p.handlePartialEvent lib now payload).2).1,
      (run lib rest (p.handlePartialEvent lib now payload).2).2)
  | .tick now :: rest, p => run lib rest (p.sweep now)

/-- The number of entries a sequence of steps creates under the key `k`: the
records that decode to an observation with this key while the key is not in
the table. -/
def SshdProfile.created (lib : SshdLib) (k : String) : List SshdStep → SshdProfile → Nat
  | [], _ => 0
  | .record now payload :: rest, p =>
    (match lib.Unmarshal payload with
      | .ok event => if event.ID = k ∧ p.events.lookup k = none then 1 else 0
      | .error _ => 0)
      + created lib k rest (p.handlePartialEvent lib now payload).2
  | .tick now :: rest, p => created lib k rest (p.sweep now)

/-- One when the key `k` has an entry in the table, zero otherwise. -/
def SshdProfile.present (p : SshdProfile) (k : String) : Nat :=
  if (p.events.lookup k).isSome then 1 else 0

/-- The number of events sent on `completeEvents` so far for the key `k`. -/
def SshdProfile.emitted (p : SshdProfile) (k : String) : Nat :=
  p.completeEvents.countP (fun x => decide (x.ID = k))

/-- The subtypes `ProcessRecord` gives to the observations it recognises. -/
def messageTypes : List String :=
  ["connectLine", "foundKey", "acceptKey", "childPid", "badRevMap", "failedPubKey",
    "connectionClosed"]

/-- The method `String` of an event: its JSON, the empty string when
`json.Marshal` fails (the source drops the error). -/
def sshEvent.String (lib : SshdLib) (e : sshEvent) : String :=
  match lib.Marshal e with
  | .ok buf => buf
  | .error _ => ""

/-- What a sink has written when its goroutines have handled their input: the
errors sent on `errChan`, the lines printed to standard output, and the lines
logged to standard error. -/
structure Written where
  errors : List GoError
  stdout : List String
  stderr : List String
deriving DecidableEq, Repr

/-- The lines the writer goroutine prints for the events sent on
`completeEvents`. -/
def SshdProfile.printed (lib : SshdLib) (p : SshdProfile) : List String :=
  (p.completeEvents.map (sshEvent.String lib)).filter (fun message => decide (message.length > 0))

/-- The method `HandleOutput` of the sshd profile over the steps of its
goroutines (the writer goroutine receives every event sent). -/
def SshdProfile.HandleOutput (lib : SshdLib) (steps : List SshdStep) (_dryRun : Bool)
    (p : SshdProfile) : Written :=
  { errors := (p.run lib steps).1, stdout := (p.run lib steps).2.printed lib, stderr := [] }

/-! ## profiles/mongodb/mongodb.go: `HandleOutput` -/

/-- The body of the loop of `HandleOutput` of the mongodb profile for one
record (a string, what `ProcessRecord` returns): the lines printed to standard
output and the lines logged. -/
def MongodbProfile.handleRecord (dryRun : Bool) (message : String) : List String × List String :=
  if dryRun then ([message], ["skipping due to dry run"])
  else if message.length > 0 then ([message], [])
  else ([], [])

/-- The method `HandleOutput` of the mongodb profile over the records it
receives. -/
def MongodbProfile.HandleOutput (records : List String) (dryRun : Bool) : Written :=
  { errors := [],
    stdout := (records.map (fun message => (MongodbProfile.handleRecord dryRun message).1)).flatten,
    stderr := (records.map (fun message => (MongodbProfile.handleRecord dryRun message).2)).flatten }

/-- The JSON of the event the login of alice on host1, pid 123 completes
to. -/
def loginJson : String :=
  "\x7b\"timestamp\":\"2026-11-14T10:00:02Z\"" ++
    ",\"logtime\":\"0000-11-14T10:00:02Z\",\"hostname\":\"host1\",\"pid\":123" ++
    ",\"src_ip\":\"1.2.3.4\",\"port\":22" ++
    ",\"fingerprint\":\"b5:ca:16:03:d4:10:41:80:3d:bc:3b:18:05:57:4f:56\"" ++
    ",\"fb_user\":\"alice\",\"child_pid\":124,\"success\":true,\"complete\":true\x7d"

end logtailer

namespace logtailer

/-! ## crypto/md5 (RFC 1321) -/

/-- The per-round shift amounts of MD5. -/
def md5Shifts : List Nat :=
  [7, 12, 17, 22, 7, 12, 17, 22, 7, 12, 17, 22, 7, 12, 17, 22,
   5, 9, 14, 20, 5, 9, 14, 20, 5, 9, 14, 20, 5, 9, 14, 20,
   4, 11, 16, 23, 4, 11, 16, 23, 4, 11, 16, 23, 4, 11, 16, 23,
   6, 10, 15, 21, 6, 10, 15, 21, 6, 10, 15, 21, 6, 10, 15, 21]

/-- The constants of MD5: the integer part of 2^32 times the absolute value of
the sine of i + 1. -/
def md5Constants : List Nat :=
  [3614090360, 3905402710, 606105819, 3250441966, 4118548399, 1200080426, 2821735955,
   4249261313, 1770035416, 2336552879, 4294925233, 2304563134, 1804603682, 4254626195,
   2792965006, 1236535329, 4129170786, 3225465664, 643717713, 3921069994, 3593408605,
   38016083, 3634488961, 3889429448, 568446438, 3275163606, 4107603335, 1163531501,
   2850285829, 4243563512, 1735328473, 2368359562, 4294588738, 2272392833, 1839030562,
   4259657740, 2763975236, 1272893353, 4139469664, 3200236656, 681279174, 3936430074,
   3572445317, 76029189, 3654602809, 3873151461, 530742520, 3299628645, 4096336452,
   1126891415, 2878612391, 4237533241, 1700485571, 2399980690, 4293915773, 2240044497,
   1873313359, 4264355552, 2734768916, 1309151649, 4149444226, 3174756917, 718787259,
   3951481745]

/-- Rotation of a 32 bit word to the left. -/
def rotl32 (x c : Nat) : Nat := ((x <<< c) ||| (x >>> (32 - c))) % 4294967296

/-- The state of MD5: four 32 bit words. -/
structure Md5State where
  a : Nat
  b : Nat
  c : Nat
  d : Nat
deriving DecidableEq, Repr

/-- One of the 64 operations of MD5 on a block of 16 words. -/
def md5Step (words : List Nat) (s : Md5State) (i : Nat) : Md5State :=
  let f :=
    if i < 16 then (s.b &&& s.c) ||| ((s.b ^^^ 4294967295) &&& s.d)
    else if i < 32 then (s.d &&& s.b) ||| ((s.d ^^^ 4294967295) &&& s.c)
    else if i < 48 then s.b ^^^ s.c ^^^ s.d
    else s.c ^^^ (s.b ||| (s.d ^^^ 4294967295))
  let g :=
    if i < 16 then i
    else if i < 32 then (5 * i + 1) % 16
    else if i < 48 then (3 * i + 5) % 16
    else (7 * i) % 16
  let sum := (s.a + f + md5Constants.getD i 0 + words.getD g 0) % 4294967296
  { a := s.d, b := (s.b + rotl32 sum (md5Shifts.getD i 0)) % 4294967296, c := s.b, d := s.c }

/-- The 32 bit words of a list of bytes, little endian. -/
def wordsLE : List Nat → List Nat
  | b0 :: b1 :: b2 :: b3 :: rest => (b0 + 256 * b1 + 65536 * b2 + 16777216 * b3) :: wordsLE rest
  | _ => []

/-- The bytes of a 32 bit word, little endian. -/
def bytesLE (w : Nat) : List Nat := [w % 256, w / 256 % 256, w / 65536 % 256, w / 16777216 % 256]

/-- MD5 on one block of 64 bytes. -/
def md5Block (s : Md5State) (block : List Nat) : Md5State :=
  let t := (List.range 64).foldl (md5Step (wordsLE block)) s
  { a := (s.a + t.a) % 4294967296, b := (s.b + t.b) % 4294967296,
    c := (s.c + t.c) % 4294967296, d := (s.d + t.d) % 4294967296 }

/-- The blocks of 64 bytes of a padded message. -/
def md5Blocks : Nat → List Nat → List (List Nat)
  | 0, _ => []
  | n + 1, bytes => bytes.take 64 :: md5Blocks n (bytes.drop 64)

/-- The padding of MD5: a one bit, zero bits up to 56 bytes modulo 64, and the
length of the message in bits as 8 bytes, little endian. -/
def md5Pad (message : List Nat) : List Nat :=
  let n := message.length
  message ++ [128] ++ List.replicate ((119 - n % 64) % 64) 0
    ++ (List.range 8).map (fun i => (8 * n) / 256 ^ i % 256)

/-- The function `md5.Sum`: the 16 bytes of the MD5 checksum. -/
def md5Sum (message : List Nat) : List Nat :=
  let padded := md5Pad message
  let s := (md5Blocks (padded.length / 64) padded).foldl md5Block
    { a := 1732584193, b := 4023233417, c := 2562383102, d := 271733878 }
  bytesLE s.a ++ bytesLE s.b ++ bytesLE s.c ++ bytesLE s.d

/-! ## encoding/base64 -/

/-- The value of a character of the base64 alphabet (zero for any other). -/
def base64Value (c : Char) : Nat :=
  if 'A' ≤ c ∧ c ≤ 'Z' then c.toNat - 65
  else if 'a' ≤ c ∧ c ≤ 'z' then c.toNat - 71
  else if '0' ≤ c ∧ c ≤ '9' then c.toNat + 4
  else if c = '+' then 62
  else if c = '/' then 63
  else 0

/-- The bytes of a text in base64 (standard alphabet, padded). -/
def base64Bytes : List Char → List Nat
  | c0 :: c1 :: '=' :: '=' :: _ => [(base64Value c0 * 64 + base64Value c1) / 16]
  | c0 :: c1 :: c2 :: '=' :: _ =>
    [(base64Value c0 * 4096 + base64Value c1 * 64 + base64Value c2) / 1024,
      (base64Value c0 * 4096 + base64Value c1 * 64 + base64Value c2) / 4 % 256]
  | c0 :: c1 :: c2 :: c3 :: rest =>
    [(base64Value c0 * 262144 + base64Value c1 * 4096 + base64Value c2 * 64 + base64Value c3)
        / 65536,
      (base64Value c0 * 262144 + base64Value c1 * 4096 + base64Value c2 * 64 + base64Value c3)
        / 256 % 256,
      (base64Value c0 * 262144 + base64Value c1 * 4096 + base64Value c2 * 64 + base64Value c3)
        % 256] ++ base64Bytes rest
  | _ => []

/-- The key of the test `TestKeyParsing` in base64. -/
def testBlob : String :=
    "AAAAB3NzaC1yc2EAAAADAQABAAACAQDAVlmAmXcn+mbc0wmWwz52AqSXde7BWkzLhWSrmY+49aZt6chk" ++
    "jYtDz/mTWrTHvJm4kI8SNj4UxmyS8VtofjsE8G5E6E/gVjOtd9q+9Xuv9TdLRjaQPUuXkW+MT+Y1sjSh" ++
    "u8e6FzjN1j6IE+z5kYSfB3D96OqVxujof+Oda1ZwDpYO7CyUnna8W169KlJx6miH+uBfICiEHYcH8lt1" ++
    "ATIspcmWUruqc9E827hzroBOgWtInqy7rDZ9ni6S7zcoVxY5NxdvymZPQ1M7jkfy3D+UQmKjelMfC2qq" ++
    "TEn58p234/1RHxI/bSt1UVO3+PSwjr48KsXr1TmJxsbaVdgyDFKCnqRUETM1/q63ceLt06rEueIM3JQq" ++
    "7Yz3CmzlHi6UVOjLb7GFvT0inXihsIYSq5pE3DJv6Lpi/5me1yTuNzJuxXJITnxFaldFgyNzoS/2+0KX" ++
    "xNTh0BSsEXFogy2NLv2/PVo49wqheD2xcfA7+mk9y4qhl1bF3Menyg6ZiPZ9TV1zLEmaSmKBLoOLObG2" ++
    "akPgeshKnG9u4VvA8mqa2NXi7AQka8oqaJGgoFDNoWFsgjhbzKw3tcWWKDD9xjM+jPsEKnr7Dg9c3pKp" ++
    "petQ4YZ81JaM72ZJS1z4nrfeEv+hKuQnDvCrf7Pmh/WWCphKw4/uvNHWrmPPsCnm5JOMrduU8Q=="

/-! ## profiles/sshd/authorized_keys.go -/

/-- AuthorizedKey represents an ssh public key.  The embedded `ssh.PublicKey`
is represented by the bytes its method `Marshal` returns, the wire encoding of
the key. -/
structure AuthorizedKey where
  Marshal : List Nat
  Comment : String
deriving DecidableEq, Repr

/-- ParseAuthorizedKey attempts to parse an ssh public key.  `sshParse` is
`ssh.ParseAuthorizedKey`: the key (as its wire encoding) and the comment, or
an error. -/
def ParseAuthorizedKey (sshParse : String → Except GoError (List Nat × String))
    (input : String) : Except GoError AuthorizedKey :=
  match sshParse input with
  | .error err => .error err
  | .ok (key, comment) => .ok { Marshal := key, Comment := comment }

/-- The two characters `fmt.Sprintf` writes for a byte with the verb `%02x`. -/
def sprintf02x (octet : Nat) : List Char := [Nat.digitChar (octet / 16), Nat.digitChar (octet % 16)]

/-- The loop of `Fingerprint` from index `i` on, over the octets left, with
the bytes appended so far. -/
def fingerprintLoop : Nat → List Nat → List Char → List Char
  | _, [], result => result
  | i, octet :: rest, result =>
    fingerprintLoop (i + 1) rest
      ((if i ≠ 0 then result ++ [':'] else result) ++ sprintf02x octet)

/-- Fingerprint implements the RFC4716 key fingerprint for ssh keys. -/
def AuthorizedKey.Fingerprint (k : AuthorizedKey) : String :=
  String.mk (fingerprintLoop 0 (md5Sum k.Marshal) [])

/-- The lowercase hexadecimal digits. -/
def hexDigits : List Char :=
  ['0', '1', '2', '3', '4', '5', '6', '7', '8', '9', 'a', 'b', 'c', 'd', 'e', 'f']

/-- The fields of a line: the texts between its blanks. -/
def fieldsOf : List Char → List (List Char)
  | [] => [[]]
  | c :: rest =>
    if c = ' ' then [] :: fieldsOf rest
    else
      match fieldsOf rest with
      | field :: fields => (c :: field) :: fields
      | [] => [[c]]

/-- The function `ssh.ParseAuthorizedKey` on a line that holds the key type
ssh-rsa, a blob in base64 that starts with the name of this key type, and a
comment: the key it parses marshals back to the bytes of the blob (the blob of
a key written by ssh-keygen is in canonical form). -/
def sshParseRSA (input : String) : Except GoError (List Nat × String) :=
  match fieldsOf input.data with
  | [kind, blob, comment] =>
    if kind = "ssh-rsa".data ∧
        (base64Bytes blob).take 11 = [0, 0, 0, 7, 115, 115, 104, 45, 114, 115, 97] then
      .ok (base64Bytes blob, String.mk comment)
    else .error "ssh: no key found"
  | _ => .error "ssh: no key found"

/-- The line of the test `TestKeyParsing`. -/
def testKeyLine : String := "ssh-rsa " ++ testBlob ++ " test@fb.com"

end logtailer

namespace logtailer

/-! ## profiles/mongodb/mongodb.go: query signatures

The documents the log parser yields (`interface{}` values). -/

/-- A value that is neither a map nor a slice.  A number stands for a Go
`int` or `float64` and is represented by the text `encoding/json` writes for
it; `other` is any other Go value (a date, for one), represented by its JSON
as well. -/
inductive Scalar where
  | null
  | bool (b : Bool)
  | number (json : String)
  | text (s : String)
  | other (json : String)
deriving DecidableEq, Repr

/-- A JSON-like document: a scalar, a `[]string`, a `[]interface{}` or a
`map[string]interface{}` (the members of a map as a list; a Go map holds each
key once). -/
inductive Doc where
  | scalar (v : Scalar)
  | strings (l : List String)
  | array (l : List Doc)
  | object (m : List (String × Doc))
deriving Repr

/-- The placeholder `"?"`. -/
def Doc.placeholder : Doc := .scalar (.text "?")

mutual
/-- Recurse through interface representing JSON and set values to `?` where
appropriate: the document after the call (the source changes maps in place
and reaches the maps held in slices through the slice). -/
def scrubFields : Doc → Doc
  | .object segment => .object (scrubMembers segment)
  | .array segment => .array (scrubElements segment)
  | query => query
/-- The loop `for key := range segment` of `scrubFields` over the members of a
map. -/
def scrubMembers : List (String × Doc) → List (String × Doc)
  | [] => []
  | (key, value) :: rest =>
    (key,
      if key = "$or" ∨ key = "$and" then scrubFields value
      else if key = "$nearSphere" then .scalar (.text "[?,?]")
      else if key = "$box" then .scalar (.text "[[?,?],[?,?]]")
      else if key = "$nin" ∨ key = "$in" ∨ key = "$each" ∨ key = "$all" then .strings ["?"]
      else if key = "_acl" then .scalar (.text "?")
      else if key = "_rperm" ∨ key = "_wperm" then
        match value with
        | .array _ => .strings ["?"]
        | .object _ => scrubFields value
        | _ => value
      else
        match value with
        | .object _ => scrubFields value
        | .array _ => scrubFields value
        | .strings _ => scrubFields value
        | .scalar _ => .scalar (.text "?")) :: scrubMembers rest
/-- The loop `for index := range segment` of `scrubFields` over the elements
of a slice. -/
def scrubElements : List Doc → List Doc
  | [] => []
  | element :: rest => scrubFields element :: scrubElements rest
end

/-- What the body of the loop of `scrubFields` leaves under `key` for the value
`value`. -/
def scrubValue (key : String) (value : Doc) : Doc :=
  if key = "$or" ∨ key = "$and" then scrubFields value
  else if key = "$nearSphere" then .scalar (.text "[?,?]")
  else if key = "$box" then .scalar (.text "[[?,?],[?,?]]")
  else if key = "$nin" ∨ key = "$in" ∨ key = "$each" ∨ key = "$all" then .strings ["?"]
  else if key = "_acl" then .scalar (.text "?")
  else if key = "_rperm" ∨ key = "_wperm" then
    match value with
    | .array _ => .strings ["?"]
    | .object _ => scrubFields value
    | _ => value
  else
    match value with
    | .object _ => scrubFields value
    | .array _ => scrubFields value
    | .strings _ => scrubFields value
    | .scalar _ => .scalar (.text "?")

/-- Whether a value is a scalar. -/
def Doc.isScalar : Doc → Bool
  | .scalar _ => true
  | _ => false

/-- The keys under which `scrubFields` replaces a scalar (it leaves a scalar
as it is under the keys `$or`, `$and`, `_rperm` and `_wperm`). -/
def scrubbedKey (key : String) : Bool :=
  !(key = "$or" ∨ key = "$and" ∨ key = "_rperm" ∨ key = "_wperm")

/-- The keys whose value `scrubFields` replaces whole, whatever it is. -/
def replacedKey (key : String) : Bool :=
  key = "$nearSphere" ∨ key = "$box" ∨ key = "$nin" ∨ key = "$in" ∨ key = "$each" ∨
    key = "$all" ∨ key = "_acl"

/-- The keys `_rperm` and `_wperm`, under which a `[]interface{}` is replaced
whole. -/
def permKey (key : String) : Bool := key = "_rperm" ∨ key = "_wperm"

/-- Whether a value is a `[]interface{}`. -/
def Doc.isArray : Doc → Bool
  | .array _ => true
  | _ => false

mutual
/-- Two documents that differ at most in values `scrubFields` replaces: the
scalars held directly as members of maps under the keys of `scrubbedKey`, the
values under the keys of `replacedKey` and the slices under the keys of
`permKey`, at any depth of maps and slices.  The scalars that are elements of
slices are the same in both. -/
def Doc.Alike : Doc → Doc → Prop
  | .object m1, .object m2 => AlikeMembers m1 m2
  | .array l1, .array l2 => AlikeElements l1 l2
  | d1, d2 => d1 = d2
/-- The relation `Doc.Alike` on the members of two maps, member by member. -/
def AlikeMembers : List (String × Doc) → List (String × Doc) → Prop
  | [], [] => True
  | (k1, v1) :: r1, (k2, v2) :: r2 =>
    k1 = k2 ∧
      (Doc.Alike v1 v2 ∨ (scrubbedKey k1 = true ∧ v1.isScalar = true ∧ v2.isScalar = true) ∨
        replacedKey k1 = true ∨ (permKey k1 = true ∧ v1.isArray = true ∧ v2.isArray = true)) ∧
      AlikeMembers r1 r2
  | _, _ => False
/-- The relation `Doc.Alike` on the elements of two slices, element by
element. -/
def AlikeElements : List Doc → List Doc → Prop
  | [], [] => True
  | d1 :: r1, d2 :: r2 => Doc.Alike d1 d2 ∧ AlikeElements r1 r2
  | _, _ => False
end

/-- A read `queryMap[key]` of a map: nil when the key is missing. -/
def mapGet (queryMap : List (String × Doc)) (key : String) : Doc :=
  (queryMap.lookup key).getD (.scalar .null)

/-- Whether a value is nil. -/
def Doc.isNil : Doc → Bool
  | .scalar .null => true
  | _ => false

/-- The map after a call that changes the value held under `key` in place. -/
def mapModify (key : String) (f : Doc → Doc) : List (String × Doc) → List (String × Doc)
  | [] => []
  | (k, value) :: rest =>
    if k = key then (k, f value) :: rest else (k, value) :: mapModify key f rest

/-- The map after `delete(queryMap, key)`. -/
def mapDelete (key : String) (queryMap : List (String × Doc)) : List (String × Doc) :=
  queryMap.filter (fun member => decide (member.1 ≠ key))

/-- The function `generateQuerySignature`: what it returns and the map
`queryMap` after the call.  `marshal` is `json.Marshal`. -/
def generateQuerySignature (marshal : Doc → Except GoError String)
    (queryMap : List (String × Doc)) (op : String) :
    Except GoError String × List (String × Doc) :=
  if op = "query" then
    if (mapGet queryMap "$query").isNil then
      (marshal (.object (scrubMembers queryMap)), scrubMembers queryMap)
    else
      (marshal (.object (mapModify "$query" scrubFields queryMap)),
        mapModify "$query" scrubFields queryMap)
  else if op = "command" then
    if !(mapGet (scrubMembers queryMap) "count").isNil then
      (marshal (mapGet (scrubMembers queryMap) "query"), scrubMembers queryMap)
    else
      (marshal (.object (mapDelete "findandmodify" (mapDelete "findAndModify"
          (scrubMembers queryMap)))),
        mapDelete "findandmodify" (mapDelete "findAndModify" (scrubMembers queryMap)))
  else (marshal (.object (scrubMembers queryMap)), scrubMembers queryMap)

/-! ### The JSON of a document -/

mutual
/-- What `json.Marshal` writes for a document whose texts need no escaping:
the members of a map sorted by key (byte by byte). -/
def marshalDoc : Doc → String
  | .scalar .null => "null"
  | .scalar (.bool b) => if b then "true" else "false"
  | .scalar (.number json) => json
  | .scalar (.text s) => jsonString s
  | .scalar (.other json) => json
  | .strings l => "[" ++ ",".intercalate (l.map jsonString) ++ "]"
  | .array l => "[" ++ ",".intercalate (marshalElements l) ++ "]"
  | .object m =>
    jsonObject (((marshalMembers m).insertionSort (fun a b => ¬ b.1.data < a.1.data)).map
      (fun member => jsonMember member.1 member.2))
/-- The JSON of the value of each member of a map. -/
def marshalMembers : List (String × Doc) → List (String × String)
  | [] => []
  | (key, value) :: rest => (key, marshalDoc value) :: marshalMembers rest
/-- The JSON of each element of a slice. -/
def marshalElements : List Doc → List String
  | [] => []
  | element :: rest => marshalDoc element :: marshalElements rest
end

/-- The function `json.Marshal` on the documents of the examples. -/
def jsonMarshal (d : Doc) : Except GoError String := .ok (marshalDoc d)

end logtailer
namespace logtailer

/-! ### The documents of the examples -/

/-- The query `{ _id: "qaKos25LyK", tags: [ "urgent", "billing" ] }`. -/
def taggedQuery : List (String × Doc) :=
  [("_id", .scalar (.text "qaKos25LyK")),
    ("tags", .array [.scalar (.text "urgent"), .scalar (.text "billing")])]

/-- The query of `sample26CommentLine`. -/
def commentQuery : List (String × Doc) :=
  [("$query", .object
      [("channels", .object [("$in", .array [.scalar (.text "user_hsE3uMnSLA")])]),
        ("deviceType", .object [("$in", .array [.scalar (.text "android"),
          .scalar (.text "winphone"), .scalar (.text "js")])])]),
    ("$comment", .scalar (.text "\x7bapp_id:19015, pushd_id:8jhKA4aaad\x7d"))]

/-- The query of `alternateQueryLine`. -/
def relatedQuery : List (String × Doc) := [("relatedId", .scalar (.text "ciuxUnr9Yr"))]

/-- The command of `sample26FAMLine`. -/
def famCommand : List (String × Doc) :=
  [("findandmodify", .scalar (.text "_Installation")),
    ("query", .object [("_id", .scalar (.text "qaKos25LyK")),
      ("_wperm", .object [("$in", .array [.scalar .null, .scalar (.text "*")])])]),
    ("update", .object [("$set", .object
      [("_updated_at", .scalar (.other "\x7b\"$date\":\"2015-02-12T21:51:29.072Z\"\x7d")),
        ("country", .scalar (.text "United States")),
        ("numUses", .scalar (.number "4"))])]),
    ("new", .scalar (.bool true))]

/-- A command like the one of `sample26FAMCCLine`: the key is spelled
`findAndModify` and the literal values are other ones. -/
def famCCCommand : List (String × Doc) :=
  [("findAndModify", .scalar (.text "_Session")),
    ("query", .object [("_id", .scalar (.text "w9aETYE3FO")),
      ("_wperm", .object [("$in", .array [.scalar (.text "role:admin")])])]),
    ("update", .object [("$set", .object
      [("_updated_at", .scalar (.other "\x7b\"$date\":\"2015-03-01T08:00:00.000Z\"\x7d")),
        ("country", .scalar (.text "Canada")),
        ("numUses", .scalar (.number "7"))])]),
    ("new", .scalar (.bool false))]

/-- The signature `TestGetQuerySignature` expects for `sample26FAMLine` and
for `sample26FAMCCLine`. -/
def famSignature : String :=
  "\x7b\"new\":\"?\",\"query\":\x7b\"_id\":\"?\",\"_wperm\":\x7b\"$in\":[\"?\"]\x7d\x7d," ++
    "\"update\":\x7b\"$set\":\x7b\"_updated_at\":\"?\",\"country\":\"?\",\"numUses\":\"?\"\x7d\x7d\x7d"

/-- The command of `sampleEmptyCountLine`. -/
def emptyCountCommand : List (String × Doc) :=
  [("count", .scalar (.text "_EventDimension")), ("query", .object []),
    ("fields", .scalar .null)]

/-- The command
`findAndModify { findAndModify: "Game", query: { _id: "a1" }, update: { $set: { scores: [ 1, 2 ] } } }`. -/
def scoresCommand : List (String × Doc) :=
  [("findAndModify", .scalar (.text "Game")),
    ("query", .object [("_id", .scalar (.text "a1"))]),
    ("update", .object [("$set", .object
      [("scores", .array [.scalar (.number "1"), .scalar (.number "2")])])])]

/-- The command
`findandmodify { findandmodify: "Game", query: { _id: "b2" }, update: { $set: { scores: [ 3, 4 ] } } }`. -/
def otherScoresCommand : List (String × Doc) :=
  [("findandmodify", .scalar (.text "Game")),
    ("query", .object [("_id", .scalar (.text "b2"))]),
    ("update", .object [("$set", .object
      [("scores", .array [.scalar (.number "3"), .scalar (.number "4")])])])]

end logtailer

namespace logtailer

/-- A query with every operator key `scrubFields` treats specially: the
`$query` of `sampleAllQueryLine` with a `$nearSphere`, a `$box`, an `_acl`, a
`_wperm` slice and an `$or` beside it. -/
def operatorQuery : List (String × Doc) :=
  [("_rperm", .object [("$in", .array [.scalar .null, .scalar (.text "*")])]),
    ("a", .object [("$all", .array [.scalar (.number "1"), .scalar (.number "2")]),
      ("$in", .array [.scalar (.number "3")])]),
    ("location", .object [("$nearSphere", .array [.scalar (.number "-122.4"),
        .scalar (.number "37.7")]),
      ("$maxDistance", .scalar (.number "0.01"))]),
    ("area", .object [("$within", .object [("$box", .array
      [.array [.scalar (.number "0"), .scalar (.number "0")],
        .array [.scalar (.number "1"), .scalar (.number "1")]])])]),
    ("_acl", .object [("role:admin", .object [("w", .scalar (.bool true))])]),
    ("_wperm", .array [.scalar (.text "role:admin")]),
    ("$or", .array [.object [("b", .scalar (.number "8"))],
      .object [("c", .scalar (.bool false))]])]

/-- The document `scrubFields` makes of `operatorQuery`. -/
def operatorQueryScrubbed : List (String × Doc) :=
  [("_rperm", .object [("$in", .strings ["?"])]),
    ("a", .object [("$all", .strings ["?"]), ("$in", .strings ["?"])]),
    ("location", .object [("$nearSphere", .scalar (.text "[?,?]")),
      ("$maxDistance", Doc.placeholder)]),
    ("area", .object [("$within", .object [("$box", .scalar (.text "[[?,?],[?,?]]"))])]),
    ("_acl", Doc.placeholder),
    ("_wperm", .strings ["?"]),
    ("$or", .array [.object [("b", Doc.placeholder)], .object [("c", Doc.placeholder)]])]

/-- The update query `{ _id: "a1", _wperm: "role:admin" }`. -/
def permQuery : List (String × Doc) :=
  [("_id", .scalar (.text "a1")), ("_wperm", .scalar (.text "role:admin"))]

/-- The update query `{ _id: "b2", _wperm: "role:user" }`. -/
def otherPermQuery : List (String × Doc) :=
  [("_id", .scalar (.text "b2")), ("_wperm", .scalar (.text "role:user"))]

/-- A query like the one of `sample26CommentLine` with other literal values. -/
def otherCommentQuery : List (String × Doc) :=
  [("$query", .object
      [("channels", .object [("$in", .array [.scalar (.text "user_8jhKA4aaad"),
          .scalar (.text "global")])]),
        ("deviceType", .object [("$in", .array [.scalar (.text "ios")])])]),
    ("$comment", .scalar (.text "\x7bapp_id:19015, pushd_id:8jhKA4aaad\x7d"))]

/-- A query like the one of `alternateQueryLine` with another literal. -/
def otherRelatedQuery : List (String × Doc) := [("relatedId", .scalar (.text "w9aETYE3FO"))]

end logtailer
namespace logtailer

/-! ### profiles/sshd/sshd.go: the `switch` of `ProcessRecord` as a list of cases -/

/-- One case of the `switch` of `ProcessRecord`: the event the case makes of
`partialEvent` for a message its pattern matches, `none` for a message its
pattern does not match. -/
abbrev MessageForm : Type := String → sshEvent → Option sshEvent

/-- The seven cases of the `switch` of `ProcessRecord`, in the order of the
source. -/
def SshdProfile.messageForms (lib : SshdLib) (p : SshdProfile) : List MessageForm :=
  [fun message partialEvent => (lib.connectLineRe message).map fun res =>
      { partialEvent with PeType := "connectLine", SrcIP := res.1, Port := lib.Atoi res.2 },
    fun message partialEvent => (lib.foundKeyRe message).map fun res =>
      { partialEvent with
        PeType := "foundKey", Fingerprint := res, FbUser := p.fbUser res },
    fun message partialEvent => (lib.acceptKeyRe message).map fun res =>
      { partialEvent with
        PeType := "acceptKey", DstUser := res.1, SrcIP := res.2.1, Port := lib.Atoi res.2.2,
        Success := true },
    fun message partialEvent => (lib.childPidRe message).map fun res =>
      { partialEvent with PeType := "childPid", ChildPid := lib.Atoi res, Success := true },
    fun message partialEvent => (lib.badRevMapRe message).map fun _ =>
      { partialEvent with
        PeType := "badRevMap", FailReason := "reverse mapping checking getaddrinfo",
        Success := false },
    fun message partialEvent => (lib.failedPubKeyRe message).map fun _ =>
      { partialEvent with PeType := "failedPubKey", Success := false },
    fun message partialEvent => (lib.connectionClosedRe message).map fun res =>
      { partialEvent with
        PeType := "connectionClosed", SrcIP := res.1, FailReason := res.2, Success := false }]

/-- The event `ProcessRecord` has filled in before its `switch`, for a line
whose match of `sshLogRe` has the groups `logtime`, `host` and `pid`. -/
def linePrefixEvent (lib : SshdLib) (now : Int) (logtime host pid : String) : sshEvent :=
  { Timestamp := now, Logtime := lib.ParseTime logtime, Hostname := host, Pid := lib.Atoi pid }

/-- A `switch` over a list of cases tried in the order of the list: the event
of the first case that matches. -/
def firstForm : List MessageForm → String → sshEvent → Option sshEvent
  | [], _, _ => none
  | form :: rest, message, partialEvent =>
    match form message partialEvent with
    | some event => some event
    | none => firstForm rest message partialEvent

/-- The literal text each of the seven message patterns begins with, after its
`^`, in the order of the `switch`. -/
def formPrefixes : List String :=
  ["Connection from ", "Found matching RSA key: ", "Accepted publickey for ",
    "User child is on pid ", "reverse mapping checking getaddrinfo ", "Failed publickey for ",
    "Connection closed by "]

/-- The fact of `regexp` the exclusion of the seven forms rests on: each
message pattern is anchored with `^` and begins with a literal text, so a
message it matches begins with that text. -/
def SshdLib.Anchored (lib : SshdLib) : Prop :=
  (∀ message, (lib.connectLineRe message).isSome = true →
    "Connection from ".data <+: message.data) ∧
  (∀ message, (lib.foundKeyRe message).isSome = true →
    "Found matching RSA key: ".data <+: message.data) ∧
  (∀ message, (lib.acceptKeyRe message).isSome = true →
    "Accepted publickey for ".data <+: message.data) ∧
  (∀ message, (lib.childPidRe message).isSome = true →
    "User child is on pid ".data <+: message.data) ∧
  (∀ message, (lib.badRevMapRe message).isSome = true →
    "reverse mapping checking getaddrinfo ".data <+: message.data) ∧
  (∀ message, (lib.failedPubKeyRe message).isSome = true →
    "Failed publickey for ".data <+: message.data) ∧
  (∀ message, (lib.connectionClosedRe message).isSome = true →
    "Connection closed by ".data <+: message.data)

/-! ### The eight patterns of sshd.go

Each pattern is matched as `regexp` matches it: every repetition of the
patterns is followed by a character outside its class or by nothing, so the
leftmost match takes the longest run. -/

/-- The text after a literal, for a text that begins with the literal. -/
def stripPrefix : List Char → List Char → Option (List Char)
  | [], text => some text
  | _ :: _, [] => none
  | c :: literal, d :: text => if c = d then stripPrefix literal text else none

/-- A repetition `[class]+`: the longest run of characters of the class, which
is not empty, and the text after it. -/
def spanPlus (cls : Char → Bool) (text : List Char) : Option (List Char × List Char) :=
  if (text.takeWhile cls).isEmpty then none else some (text.takeWhile cls, text.dropWhile cls)

/-- The class `[0-9.]`. -/
def ipClass (c : Char) : Bool := c.isDigit || c = '.'

/-- The class `\w`. -/
def wordClass (c : Char) : Bool := c.isAlphanum || c = '_'

/-- The class `[0-9a-f:]`. -/
def fingerprintClass (c : Char) : Bool := c.isDigit || (decide ('a' ≤ c) && decide (c ≤ 'f')) || c = ':'

/-- The class `[a-zA-Z0-9-]`. -/
def hostClass (c : Char) : Bool := c.isAlphanum || c = '-'

/-- The pattern `^Connection from ([0-9.]+) port (\d+)$`. -/
def matchConnectLine (message : String) : Option (String × String) := do
  let text ← stripPrefix "Connection from ".data message.data
  let (ip, text) ← spanPlus ipClass text
  let text ← stripPrefix " port ".data text
  let (port, text) ← spanPlus Char.isDigit text
  if text.isEmpty then some (String.mk ip, String.mk port) else none

/-- The pattern `^Found matching RSA key: ([0-9a-f:]+)`. -/
def matchFoundKey (message : String) : Option String := do
  let text ← stripPrefix "Found matching RSA key: ".data message.data
  let (fingerprint, _) ← spanPlus fingerprintClass text
  some (String.mk fingerprint)

/-- The text after `(\w+) from ([0-9.]+) port (\d+)` with its three groups. -/
def matchUserIpPort (text : List Char) : Option ((String × String × String) × List Char) := do
  let (user, text) ← spanPlus wordClass text
  let text ← stripPrefix " from ".data text
  let (ip, text) ← spanPlus ipClass text
  let text ← stripPrefix " port ".data text
  let (port, text) ← spanPlus Char.isDigit text
  some ((String.mk user, String.mk ip, String.mk port), text)

/-- The pattern `^Accepted publickey for (\w+) from ([0-9.]+) port (\d+) ssh2`. -/
def matchAcceptKey (message : String) : Option (String × String × String) := do
  let text ← stripPrefix "Accepted publickey for ".data message.data
  let (groups, text) ← matchUserIpPort text
  let _ ← stripPrefix " ssh2".data text
  some groups

/-- The pattern `^User child is on pid (\d+)`. -/
def matchChildPid (message : String) : Option String := do
  let text ← stripPrefix "User child is on pid ".data message.data
  let (pid, _) ← spanPlus Char.isDigit text
  some (String.mk pid)

/-- The pattern `^reverse mapping checking getaddrinfo .*`. -/
def matchBadRevMap (message : String) : Option Unit := do
  let _ ← stripPrefix "reverse mapping checking getaddrinfo ".data message.data
  some ()

/-- The pattern `^Failed publickey for (\w+) from ([0-9.]+) port (\d+)`. -/
def matchFailedPubKey (message : String) : Option (String × String × String) := do
  let text ← stripPrefix "Failed publickey for ".data message.data
  let (groups, _) ← matchUserIpPort text
  some groups

/-- The pattern `^Connection closed by ([0-9.]+) \[(.*)\]`: the second group
ends before the last `]` of the line. -/
def matchConnectionClosed (message : String) : Option (String × String) := do
  let text ← stripPrefix "Connection closed by ".data message.data
  let (ip, text) ← spanPlus ipClass text
  let text ← stripPrefix " [".data text
  let upToBracket := ((text.takeWhile (fun c => c ≠ '\n')).reverse.dropWhile (fun c => c ≠ ']'))
  if upToBracket.isEmpty then none
  else some (String.mk ip, String.mk upToBracket.tail.reverse)

/-- The pattern
`^([A-z]{3} [0-9]+ [^ ]+) ([a-zA-Z0-9-]+) sshd\[(\d+)\]: (.*)`. -/
def matchSshLog (line : String) : Option (String × String × String × String) := do
  let month := line.data.take 3
  if month.length = 3 ∧ month.all (fun c => decide ('A' ≤ c) && decide (c ≤ 'z')) then
    let text ← stripPrefix [' '] (line.data.drop 3)
    let (day, text) ← spanPlus Char.isDigit text
    let text ← stripPrefix [' '] text
    let (clock, text) ← spanPlus (fun c => c ≠ ' ') text
    let text ← stripPrefix [' '] text
    let (host, text) ← spanPlus hostClass text
    let text ← stripPrefix " sshd[".data text
    let (pid, text) ← spanPlus Char.isDigit text
    let text ← stripPrefix "]: ".data text
    some (String.mk (month ++ ' ' :: day ++ ' ' :: clock), String.mk host, String.mk pid,
      String.mk (text.takeWhile (fun c => c ≠ '\n')))
  else none

/-- The library with the patterns of sshd.go, `json.Marshal` as `marshalEvent`
and `strconv.Atoi` on decimal numerals; the times of the lines of the examples
are the one of `connectEvent`. -/
def patternLib : SshdLib :=
  { demoLib with
    sshLogRe := matchSshLog
    connectLineRe := matchConnectLine
    foundKeyRe := matchFoundKey
    acceptKeyRe := matchAcceptKey
    childPidRe := matchChildPid
    badRevMapRe := matchBadRevMap
    failedPubKeyRe := matchFailedPubKey
    connectionClosedRe := matchConnectionClosed }

/-- The line of `connectEvent`. -/
def connectLine : String := "Nov 14 10:00:00 host1 sshd[123]: Connection from 1.2.3.4 port 22"

/-- A line of sshd with a failedPubKey message. -/
def failedKeyLine : String :=
  "Nov 14 10:00:00 host1 sshd[123]: Failed publickey for root from 1.2.3.4 port 22 ssh2"

/-- The JSON `ProcessRecord` returns for `failedKeyLine` at the time of
`connectEvent`. -/
def failedKeyJson : String :=
  "\x7b\"timestamp\":\"2026-11-14T10:00:00Z\"" ++
    ",\"logtime\":\"0000-11-14T10:00:00Z\",\"pe_type\":\"failedPubKey\"" ++
    ",\"hostname\":\"host1\",\"pid\":123,\"success\":false\x7d"

end logtailer
namespace logtailer

/-! ## Maps -/

/-- A write `m[key] = value` of a map: the value of the key is replaced, a new
key is added. -/
def mapSet {α : Type} (key : String) (value : α) : List (String × α) → List (String × α)
  | [] => [(key, value)]
  | (k, v) :: rest => if k = key then (k, value) :: rest else (k, v) :: mapSet key value rest

/-- The loop `for key := range segment` of `scrubFields` when the keys come in
the order `visited`: each round replaces `segment[key]` by what the body of the
loop leaves under `key`. -/
def scrubVisiting (visited : List String) (segment : List (String × Doc)) :
    List (String × Doc) :=
  visited.foldl (fun segment key => mapModify key (scrubValue key) segment) segment

/-! ## profiles/helpers/mapre.go -/

/-- A compiled regular expression, for what `MapRe` asks of it: the names of
its capture groups (`SubexpNames`: one name for the whole match, the empty
string, then one for every group, empty for a group without a name; two groups
can have the same name) and the texts of the groups of the leftmost match in a
line (`FindStringSubmatch`: `none` stands for the nil slice of a line without a
match). -/
structure Regexp where
  SubexpNames : List String
  FindStringSubmatch : String → Option (List String)

/-- The loop `for i, field := range fields` of `MapRe`, which sets
`values[field] = match[i]`. -/
def mapReLoop : List String → List String → List (String × String) → List (String × String)
  | field :: fields, text :: matched, values =>
    mapReLoop fields matched (mapSet field text values)
  | _, _, values => values

/-- MapRe attempts to populate a map from a re and string.  If an occurance is
found the first one will be used to populate a new map. -/
def MapRe (re : Regexp) (line : String) : Except GoError (List (String × String)) :=
  let fields := re.SubexpNames
  match re.FindStringSubmatch line with
  | none => .error ("regex match fail: " ++ line)
  | some matched =>
    if matched.length ≠ fields.length then
      .error ("expected len " ++ Itoa fields.length ++ ", got " ++ Itoa matched.length)
    else .ok (mapReLoop fields matched [])

/-- The leftmost match of `a+b+` in a text: the run of `a` and the run of
`b`. -/
def findRuns : List Char → Option (List Char × List Char)
  | [] => none
  | c :: rest =>
    if c = 'a' ∧ ¬ ((rest.dropWhile (fun d => d = 'a')).takeWhile (fun d => d = 'b')).isEmpty then
      some (c :: rest.takeWhile (fun d => d = 'a'),
        (rest.dropWhile (fun d => d = 'a')).takeWhile (fun d => d = 'b'))
    else findRuns rest

/-- The regular expression `(?P<bob>a+)(?P<bob>b+)`, the example of the
documentation of `regexp` for two groups with one name. -/
def twoBobs : Regexp where
  SubexpNames := ["", "bob", "bob"]
  FindStringSubmatch := fun line =>
    (findRuns line.data).map fun runs =>
      [String.mk (runs.1 ++ runs.2), String.mk runs.1, String.mk runs.2]

/-- The groups of the match of `^(?P<host>[a-zA-Z0-9-]+):(?P<pid>\d+)$`. -/
def matchHostPid (line : String) : Option (String × String) := do
  let (host, text) ← spanPlus hostClass line.data
  let text ← stripPrefix [':'] text
  let (pid, text) ← spanPlus Char.isDigit text
  if text.isEmpty then some (String.mk host, String.mk pid) else none

/-- The regular expression `^(?P<host>[a-zA-Z0-9-]+):(?P<pid>\d+)$`. -/
def hostPid : Regexp where
  SubexpNames := ["", "host", "pid"]
  FindStringSubmatch := fun line =>
    (matchHostPid line).map fun groups => [line, groups.1, groups.2]

/-! ## logtailer.go: the logtail command -/

/-- What `stateFilePath` takes from `path/filepath`: `Base` and `Join` (of a
directory and a file name). -/
structure PathLib where
  Base : String → String
  Join : String → String → String

/-- The method `stateFilePath`; `name` is the value of `lt.Profile.Name()`. -/
def Logtailer.stateFilePath {β σ : Type} (paths : PathLib) (name : String)
    (lt : Logtailer β σ) : String :=
  let logFileName := paths.Base lt.LogFile
  let fileName := "logtailer-" ++ name ++ "-" ++ logFileName ++ ".state"
  paths.Join lt.StateDir fileName

/-- The name of the binary that will be invoked to fetch new log lines. -/
def logtailBinary : String := "logtail2"

/-- The method `newLogtailCmd`: the name and the arguments of the command it
stores in `lt.logtailCmd`. -/
def Logtailer.newLogtailCmd {β σ : Type} (paths : PathLib) (name : String)
    (lt : Logtailer β σ) : String × List String :=
  let args := ["-f", lt.LogFile, "-o", lt.stateFilePath paths name]
  let args := if lt.DryRun then args ++ ["-t"] else args
  (logtailBinary, args)

/-- The function `filepath.Base` on Unix: the last element of the path, after
the trailing slashes are dropped. -/
def pathBase (path : String) : String :=
  if path = "" then "."
  else
    let stripped := (path.data.reverse.dropWhile (fun c => c = '/')).reverse
    let last := (stripped.reverse.takeWhile (fun c => c ≠ '/')).reverse
    if last.isEmpty then "/" else String.mk last

/-- The library `path/filepath` on Unix, `Join` for a clean directory and a
file name without a slash. -/
def unixPaths : PathLib where
  Base := pathBase
  Join := fun dir file => dir ++ "/" ++ file

/-- A tailer like `fileTailer` for a log file of the same name in another
directory. -/
def chrootTailer : Logtailer String Unit :=
  { fileTailer with LogFile := "/srv/chroot/var/log/auth.log", DryRun := true }

/-! ## profiles/mongodb/mongodb.go: applyTransformations -/

/-- What `applyTransformations` takes from libraries and from the package:
the variable `logtailerHost`, `fmt.Sprint`, `json.Marshal` and the function
`loadMongoJSON` (`none` stands for the nil map it returns with an error). -/
structure MongoLib where
  logtailerHost : String
  Sprint : Doc → String
  Marshal : Doc → Except GoError String
  loadMongoJSON : String → Option (List (String × Doc))

/-- A string as a value. -/
def Doc.text (s : String) : Doc := .scalar (.text s)

/-- The function `strings.Split` for a separator of one character. -/
def splitOn (sep : Char) : List Char → List (List Char)
  | [] => [[]]
  | c :: rest =>
    if c = sep then [] :: splitOn sep rest
    else
      match splitOn sep rest with
      | [] => [[c]]
      | first :: more => (c :: first) :: more

/-- The start of `applyTransformations`: `logtailer_host`, then `database` and
`collection` from the parts of `ns`. -/
def expandNs (lib : MongoLib) (record : List (String × Doc)) : List (String × Doc) :=
  let record := mapSet "logtailer_host" (Doc.text lib.logtailerHost) record
  match splitOn '.' (lib.Sprint (mapGet record "ns")).data with
  | database :: collection :: _ =>
    mapSet "collection" (Doc.text (String.mk collection))
      (mapSet "database" (Doc.text (String.mk database)) record)
  | _ => record

/-- The block `expand extra field if present`: every member of the map under
`extra` becomes a member of the record.  The type assertion
`asmap.(map[string]interface{})` panics when `extra` holds anything else:
`none`. -/
def expandExtra (record : List (String × Doc)) : Option (List (String × Doc)) :=
  match record.lookup "extra" with
  | none => some record
  | some (.object asmap) =>
    some (asmap.foldl (fun record member => mapSet member.1 member.2 record) record)
  | some _ => none

/-- The block `field aliases`. -/
def fieldAliases (record : List (String × Doc)) : List (String × Doc) :=
  let record :=
    if (mapGet record "keysExamined").isNil then record
    else mapSet "nscanned" (mapGet record "keysExamined") record
  let record :=
    if (mapGet record "docsExamined").isNil then record
    else mapSet "nscanned_objects" (mapGet record "docsExamined") record
  let record :=
    if (mapGet record "nscannedObjects").isNil then record
    else mapSet "nscanned_objects" (mapGet record "nscannedObjects") record
  let record := mapSet "global_write_lock_micros" (mapGet record "W") record
  let record := mapSet "global_read_lock_micros" (mapGet record "R") record
  let record := mapSet "write_lock_micros" (mapGet record "w") record
  let record := mapSet "read_lock_micros" (mapGet record "r") record
  let record := mapSet "num_yields" (mapGet record "numYields") record
  let record := mapSet "write_conflicts" (mapGet record "writeConflicts") record
  mapSet "scan_and_order" (mapGet record "scanAndOrder") record

/-- The signature as the member `query_signature`, when
`generateQuerySignature` returned no error. -/
def setSignature (signature : Except GoError String) (record : List (String × Doc)) :
    List (String × Doc) :=
  match signature with
  | .ok bytes => mapSet "query_signature" (Doc.text bytes) record
  | .error _ => record

/-- The branch `match["op"] == "command"`: the collection and the signature of
a command whose type names a string member of the command document.  The map
under `command` is the one `generateQuerySignature` changes. -/
def commandSignature (lib : MongoLib) (record : List (String × Doc)) : List (String × Doc) :=
  match mapGet record "command", mapGet record "command_type" with
  | .object cmdMap, .scalar (.text cmdType) =>
    match mapGet cmdMap cmdType with
    | .scalar (.text nsString) =>
      let record := mapSet "collection" (Doc.text nsString) record
      let result := generateQuerySignature lib.Marshal cmdMap "command"
      setSignature result.1 (mapSet "command" (.object result.2) record)
    | _ => record
  | _, _ => record

/-- The comment of a query as the member `comment`, and the query without its
`$comment`. -/
def takeComment (record queryMap : List (String × Doc)) :
    List (String × Doc) × List (String × Doc) :=
  match mapGet queryMap "$comment" with
  | .scalar (.text comment) => (mapSet "comment" (Doc.text comment) record,
      mapDelete "$comment" queryMap)
  | _ => (record, queryMap)

/-- The branch for every other op: the signature of the map under `query`,
which `generateQuerySignature` changes, or of the map `loadMongoJSON` makes of
a string under `query`, which is no part of the record. -/
def querySignature (lib : MongoLib) (record : List (String × Doc)) : List (String × Doc) :=
  match mapGet record "query" with
  | .object query =>
    let taken := takeComment record query
    let result := generateQuerySignature lib.Marshal taken.2 (lib.Sprint (mapGet taken.1 "op"))
    setSignature result.1 (mapSet "query" (.object result.2) taken.1)
  | .scalar (.text query) =>
    match lib.loadMongoJSON query with
    | some queryMap =>
      let taken := takeComment record queryMap
      let result := generateQuerySignature lib.Marshal taken.2 (lib.Sprint (mapGet taken.1 "op"))
      setSignature result.1 taken.1
    | none => record
  | _ => record

/-- Whether `match["op"] == "command"`. -/
def isCommand (record : List (String × Doc)) : Bool :=
  match mapGet record "op" with
  | .scalar (.text op) => op = "command"
  | _ => false

/-- The block of the plan summary. -/
def planSummary (lib : MongoLib) (record : List (String × Doc)) : List (String × Doc) :=
  match record.lookup "planSummary" with
  | none => record
  | some value =>
    match lib.Marshal value with
    | .ok ps => mapSet "plan_summary" (Doc.text ps) record
    | .error _ => record

/-- The map under `extra` at the end.  The record holds the very maps the map
under `extra` holds under `query` and `command` (the expansion copies the
references), so the changes `generateQuerySignature` makes to them show under
`extra` as well; `original` is the record before the call. -/
def shareExtra (original record : List (String × Doc)) : List (String × Doc) :=
  match original.lookup "extra" with
  | some (.object asmap) =>
    if (asmap.lookup "extra").isSome then record
    else
      mapSet "extra" (.object (asmap.map fun member =>
        if member.1 = "query" ∨ member.1 = "command" then (member.1, mapGet record member.1)
        else member)) record
  | _ => record

/-- The method `applyTransformations`: takes the fields and populates more
fields.  The error returned and the record afterwards; `none` when the call
panics. -/
def applyTransformations (lib : MongoLib) (record : List (String × Doc)) :
    Option (Option GoError × List (String × Doc)) :=
  match expandExtra (expandNs lib record) with
  | none => none
  | some expanded =>
    let aliased := fieldAliases expanded
    let signed := if isCommand aliased then commandSignature lib aliased
      else querySignature lib aliased
    some (none, shareExtra record (planSummary lib signed))

/-- What `fmt.Sprint` writes for a string, a number and nil. -/
def sprintDoc : Doc → String
  | .scalar (.text s) => s
  | .scalar (.number json) => json
  | .scalar .null => "<nil>"
  | d => marshalDoc d

/-- The library of the examples: `json.Marshal` as `marshalDoc`; no query of
the examples is a string. -/
def demoMongo : MongoLib where
  logtailerHost := "test-host"
  Sprint := sprintDoc
  Marshal := jsonMarshal
  loadMongoJSON := fun _ => none

/-- What the parser makes of `sample32QueryLine`. -/
def sample32Record : List (String × Doc) :=
  [("timestamp", Doc.text "Thu Dec 17 01:01:42.311"), ("severity", Doc.text "I"),
    ("component", Doc.text "QUERY"), ("context", Doc.text "conn43"),
    ("op", Doc.text "query"), ("ns", Doc.text "appdata352.HistoricPotential"),
    ("query", .object
      [("$query", .object [("a", Doc.text "123456789"), ("b", .scalar (.bool true)),
          ("_rperm", .object [("$in", .array [.scalar .null, Doc.text "*",
            Doc.text "abcdefghik"])])]),
        ("$orderby", .object [("_created_at", .scalar (.number "-1"))]),
        ("$maxScan", .scalar (.number "500000")),
        ("$maxTimeMS", .scalar (.number "29000")),
        ("$comment", Doc.text "queryhash:4dc1bff80c867af8d6a484c8d63edd9c")]),
    ("planSummary", .array [.object [("IXSCAN", .array
      [.object [("a", .scalar (.number "1"))],
        .object [("_created_at", .scalar (.number "-1"))]])]]),
    ("ntoreturn", .scalar (.number "1000")), ("ntoskip", .scalar (.number "0")),
    ("keysExamined", .scalar (.number "200")), ("docsExamined", .scalar (.number "200")),
    ("cursorExhausted", .scalar (.number "1")), ("keyUpdates", .scalar (.number "0")),
    ("writeConflicts", .scalar (.number "0")), ("numYields", .scalar (.number "0")),
    ("nreturned", .scalar (.number "119")), ("reslen", .scalar (.number "68247")),
    ("locks", .object
      [("Global", .object [("acquireCount", .object [("r", .scalar (.number "2"))])]),
        ("Database", .object [("acquireCount", .object [("r", .scalar (.number "1"))])]),
        ("Collection", .object [("acquireCount", .object [("r", .scalar (.number "1"))])])]),
    ("duration_ms", Doc.text "2")]

/-- The record `applyTransformations` makes of `sample32Record`. -/
def sample32Out : List (String × Doc) :=
  match applyTransformations demoMongo sample32Record with
  | some result => result.2
  | none => []

end logtailer

namespace logtailer

/-! ## Lemmas on the float64 model -/

theorem roundHalfEven_intCast (n : ℤ) : roundHalfEven (n : ℚ) = n := by
  simp [roundHalfEven]

theorem le_roundHalfEven {x : ℚ} {n : ℤ} (h : (n : ℚ) ≤ x) : n ≤ roundHalfEven x := by
  have hf : n ≤ ⌊x⌋ := Int.le_floor.mpr h
  unfold roundHalfEven
  simp only
  split_ifs <;> omega

theorem roundHalfEven_le {x : ℚ} {n : ℤ} (h : x ≤ (n : ℚ)) : roundHalfEven x ≤ n := by
  rcases eq_or_lt_of_le h with h | h
  · subst h; simp [roundHalfEven_intCast]
  · have hf : ⌊x⌋ < n := Int.floor_lt.mpr h
    unfold roundHalfEven
    simp only
    split_ifs <;> omega

/-- for an even integer `d`, rounding exceeds `d` exactly above the midpoint `d + 1/2`. -/
theorem roundHalfEven_gt_even_iff {x : ℚ} {d : ℤ} (hd : d % 2 = 0) :
    d < roundHalfEven x ↔ (d : ℚ) + 1/2 < x := by
  constructor
  · intro h
    by_contra hx
    push_neg at hx
    have hfl : ⌊x⌋ ≤ d := by
      have : x < ((d + 1 : ℤ) : ℚ) := by push_cast; linarith
      have := Int.floor_lt.mpr this
      omega
    rcases lt_or_eq_of_le hfl with hlt | heq
    · have : roundHalfEven x ≤ d := by
        unfold roundHalfEven; simp only; split_ifs <;> omega
      omega
    · have hr : x - ⌊x⌋ ≤ 1/2 := by rw [heq]; linarith
      have : roundHalfEven x ≤ d := by
        unfold roundHalfEven; simp only
        split_ifs with h1 h2 h3
        · omega
        · linarith
        · omega
        · omega
      omega
  · intro h
    have hfl : d ≤ ⌊x⌋ := Int.le_floor.mpr (by linarith)
    rcases lt_or_eq_of_le hfl with hlt | heq
    · have := le_roundHalfEven (Int.floor_le x)
      omega
    · have hr : 1/2 < x - ⌊x⌋ := by rw [← heq]; linarith
      unfold roundHalfEven; simp only
      split_ifs <;> first | omega | linarith

theorem two_zpow_pos (e : ℤ) : (0:ℚ) < (2:ℚ)^e := by positivity

theorem two_zpow_split52 (L : ℤ) : (2:ℚ)^L = 2^52 * (2:ℚ)^(L - 52) := by
  have : (2:ℚ)^(52:ℕ) = (2:ℚ)^((52:ℕ):ℤ) := (zpow_natCast _ _).symm
  rw [this, ← zpow_add₀ (by norm_num : (2:ℚ) ≠ 0)]
  congr 1; push_cast; ring

theorem two_zpow_split53 (L : ℤ) : (2:ℚ)^(L + 1) = 2^53 * (2:ℚ)^(L - 52) := by
  have : (2:ℚ)^(53:ℕ) = (2:ℚ)^((53:ℕ):ℤ) := (zpow_natCast _ _).symm
  rw [this, ← zpow_add₀ (by norm_num : (2:ℚ) ≠ 0)]
  congr 1; push_cast; ring

theorem scaled_bounds {q : ℚ} (hq : 0 < q) :
    ((2^52 : ℤ) : ℚ) ≤ q / (2:ℚ)^(Int.log 2 q - 52) ∧
    q / (2:ℚ)^(Int.log 2 q - 52) < ((2^53 : ℤ) : ℚ) := by
  have h1 : (2:ℚ)^(Int.log 2 q) ≤ q := by
    have := Int.zpow_log_le_self (R := ℚ) (b := 2) (r := q) (by norm_num) hq
    simpa using this
  have h2 : q < (2:ℚ)^(Int.log 2 q + 1) := by
    have := Int.lt_zpow_succ_log_self (R := ℚ) (b := 2) (by norm_num) q
    simpa using this
  have hp := two_zpow_pos (Int.log 2 q - 52)
  have e1 := two_zpow_split52 (Int.log 2 q)
  have e2 := two_zpow_split53 (Int.log 2 q)
  constructor
  · rw [le_div_iff₀ hp]; push_cast; linarith
  · rw [div_lt_iff₀ hp]; push_cast; linarith

/-- rounding never crosses a power of two from above -/
theorem le_roundPos53 {q : ℚ} (hq : 0 < q) {k : ℤ} (h : (2:ℚ)^k ≤ q) : (2:ℚ)^k ≤ roundPos53 q := by
  have hk : k ≤ Int.log 2 q := by
    have := (Int.zpow_le_iff_le_log (R := ℚ) (b := 2) (by norm_num) (x := k) hq).mp (by simpa using h)
    exact this
  have hm := le_roundHalfEven (scaled_bounds hq).1
  have hm' : ((2^52 : ℤ) : ℚ) ≤ (roundHalfEven (q / (2:ℚ)^(Int.log 2 q - 52)) : ℚ) := by exact_mod_cast hm
  unfold roundPos53
  simp only
  have hp := two_zpow_pos (Int.log 2 q - 52)
  calc (2:ℚ)^k ≤ (2:ℚ)^(Int.log 2 q) := zpow_le_zpow_right₀ (by norm_num) hk
    _ = 2^52 * (2:ℚ)^(Int.log 2 q - 52) := two_zpow_split52 _
    _ ≤ _ := by
        apply mul_le_mul_of_nonneg_right _ hp.le
        push_cast at hm'; exact hm'

theorem roundPos53_le {q : ℚ} (hq : 0 < q) {k : ℤ} (h : q < (2:ℚ)^k) : roundPos53 q ≤ (2:ℚ)^k := by
  have hk : Int.log 2 q < k := by
    have := (Int.lt_zpow_iff_log_lt (R := ℚ) (b := 2) (by norm_num) (x := k) hq).mp (by simpa using h)
    exact this
  have hm := roundHalfEven_le (scaled_bounds hq).2.le
  have hm' : (roundHalfEven (q / (2:ℚ)^(Int.log 2 q - 52)) : ℚ) ≤ ((2^53 : ℤ) : ℚ) := by exact_mod_cast hm
  unfold roundPos53
  simp only
  have hp := two_zpow_pos (Int.log 2 q - 52)
  calc _ ≤ 2^53 * (2:ℚ)^(Int.log 2 q - 52) := by
        apply mul_le_mul_of_nonneg_right _ hp.le
        push_cast at hm'; exact hm'
    _ = (2:ℚ)^(Int.log 2 q + 1) := (two_zpow_split53 _).symm
    _ ≤ (2:ℚ)^k := zpow_le_zpow_right₀ (by norm_num) (by omega)

theorem int_log_two_eq {q : ℚ} (hq : 0 < q) {k : ℤ} (h1 : (2:ℚ)^k ≤ q) (h2 : q < (2:ℚ)^(k+1)) :
    Int.log 2 q = k := by
  have a := (Int.zpow_le_iff_le_log (R := ℚ) (b := 2) (by norm_num) (x := k) hq).mp (by simpa using h1)
  have b := (Int.lt_zpow_iff_log_lt (R := ℚ) (b := 2) (by norm_num) (x := k+1) hq).mp (by simpa using h2)
  omega

/-- integers below 2^53 are representable: conversion is exact -/
theorem roundPos53_intCast {n : ℤ} (h0 : 0 < n) (h1 : n < 2^53) : roundPos53 (n : ℚ) = n := by
  have hq : (0:ℚ) < n := by exact_mod_cast h0
  have hL0 : 0 ≤ Int.log 2 (n:ℚ) := by
    have := (Int.zpow_le_iff_le_log (R := ℚ) (b := 2) (by norm_num) (x := 0) hq).mp
      (by simp; exact_mod_cast h0)
    exact this
  have hL1 : Int.log 2 (n:ℚ) < 53 := by
    have := (Int.lt_zpow_iff_log_lt (R := ℚ) (b := 2) (by norm_num) (x := 53) hq).mp
      (by norm_num; exact_mod_cast h1)
    exact this
  obtain ⟨j, hj⟩ : ∃ j : ℕ, Int.log 2 (n:ℚ) - 52 = -(j:ℤ) := ⟨(52 - Int.log 2 (n:ℚ)).toNat, by omega⟩
  unfold roundPos53
  simp only
  rw [hj]
  have hdiv : (n:ℚ) / (2:ℚ)^(-(j:ℤ)) = ((n * 2^j : ℤ) : ℚ) := by
    rw [zpow_neg, zpow_natCast]; push_cast; field_simp
  rw [hdiv, roundHalfEven_intCast]
  rw [zpow_neg, zpow_natCast]; push_cast; field_simp

theorem le_roundPos53_intCast {n : ℤ} (h1 : 2^53 ≤ n) : (2:ℚ)^53 ≤ roundPos53 (n : ℚ) := by
  have hq : (0:ℚ) < n := by
    have : (0:ℤ) < n := by omega
    exact_mod_cast this
  have e : (2:ℚ)^(53:ℤ) = (2:ℚ)^(53:ℕ) := by norm_num
  have := le_roundPos53 hq (k := 53) (by rw [e]; exact_mod_cast h1)
  rw [e] at this
  exact this

theorem roundPos53_binade_neg4 {q : ℚ} (h1 : 1/16 ≤ q) (h2 : q < 1/8) :
    roundPos53 q = (roundHalfEven (q * 2^56) : ℚ) / 2^56 := by
  have hq : 0 < q := by linarith
  have hL : Int.log 2 q = -4 := int_log_two_eq hq (by norm_num; linarith) (by norm_num; linarith)
  unfold roundPos53
  simp only
  rw [hL]
  have : (2:ℚ)^((-4:ℤ) - 52) = 1 / 2^56 := by norm_num [zpow_neg]
  rw [this]
  field_simp

/-- the float64 nearest to 0.1 -/
theorem roundPos53_tenth : roundPos53 (1/10) = 7205759403792794 / 2^56 := by
  rw [roundPos53_binade_neg4 (by norm_num) (by norm_num)]
  have : roundHalfEven ((1/10 : ℚ) * 2^56) = 7205759403792794 := by
    unfold roundHalfEven
    have hf : ⌊((1/10 : ℚ) * 2^56)⌋ = 7205759403792793 := by
      rw [Int.floor_eq_iff]; constructor <;> norm_num
    simp only [hf]
    norm_num
  rw [this]; norm_num

theorem roundPos53_gt_tenth_iff {q : ℚ} (hq : 0 < q) :
    roundPos53 (1/10) < roundPos53 q ↔ (14411518807585589 : ℚ) / 2^57 < q := by
  rw [roundPos53_tenth]
  rcases lt_or_le q (1/16) with h | h
  · have := roundPos53_le hq (k := -4) (by norm_num [zpow_neg]; linarith)
    norm_num [zpow_neg] at this
    constructor
    · intro h'; exfalso
      have : (7205759403792794 : ℚ) / 2^56 < 1/16 := lt_of_lt_of_le h' (by simpa using this)
      norm_num at this
    · intro h'; exfalso
      have : (14411518807585589 : ℚ) / 2^57 < 1/16 := lt_trans h' h
      norm_num at this
  rcases lt_or_le q (1/8) with h' | h'
  · rw [roundPos53_binade_neg4 h h']
    have key := roundHalfEven_gt_even_iff (x := q * 2^56) (d := 7205759403792794) (by norm_num)
    constructor
    · intro hh
      have h3 : ((7205759403792794 : ℤ) : ℚ) < (roundHalfEven (q * 2^56) : ℚ) := by
        rw [div_lt_div_iff_of_pos_right (by positivity)] at hh
        exact_mod_cast hh
      have h4 := key.mp (by exact_mod_cast h3)
      push_cast at h4
      rw [div_lt_iff₀ (by positivity)]
      linarith
    · intro hh
      rw [div_lt_iff₀ (by positivity)] at hh
      have h4 := key.mpr (by push_cast; linarith)
      rw [div_lt_div_iff_of_pos_right (by positivity)]
      exact_mod_cast h4
  · have := le_roundPos53 hq (k := -3) (by norm_num [zpow_neg]; linarith)
    norm_num [zpow_neg] at this
    constructor
    · intro _
      have : (14411518807585589 : ℚ) / 2^57 < 1/8 := by norm_num
      linarith
    · intro _
      have : (7205759403792794 : ℚ) / 2^56 < 1/8 := by norm_num
      linarith

theorem float64_of_small {n : ℤ} (h0 : 0 < n) (h1 : n < 2^53) : float64 n = n := by
  have hq : (0:ℚ) < n := by exact_mod_cast h0
  unfold float64 round53
  rw [if_neg hq.ne', if_neg (not_lt.mpr hq.le)]
  exact roundPos53_intCast h0 h1

theorem float64_of_large {n : ℤ} (h1 : 2^53 ≤ n) : (2:ℚ)^53 ≤ float64 n := by
  have h0 : (0:ℤ) < n := by omega
  have hq : (0:ℚ) < n := by exact_mod_cast h0
  unfold float64 round53
  rw [if_neg hq.ne', if_neg (not_lt.mpr hq.le)]
  exact le_roundPos53_intCast h1

theorem float64_pos {n : ℤ} (h0 : 0 < n) : 0 < float64 n := by
  rcases lt_or_le n (2^53) with h | h
  · rw [float64_of_small h0 h]; exact_mod_cast h0
  · have := float64_of_large h
    have : (0:ℚ) < 2^53 := by positivity
    linarith

theorem acceptableParseFailRatio_eq : acceptableParseFailRatio = roundPos53 (1/10) := by
  unfold acceptableParseFailRatio round53
  norm_num

/-- the comparison of `IsHealthy`, for a positive quotient -/
theorem float64Div_gt_ratio_iff {a b : ℚ} (ha : 0 < a) (hb : 0 < b) :
    float64Div a b > acceptableParseFailRatio ↔ (14411518807585589 : ℚ) / 2^57 < a / b := by
  have hq : 0 < a / b := div_pos ha hb
  unfold float64Div round53
  rw [if_neg hq.ne', if_neg (not_lt.mpr hq.le), acceptableParseFailRatio_eq]
  exact roundPos53_gt_tenth_iff hq

/-- the parse-failure test of `IsHealthy` in integer arithmetic, for a
record count that float64 represents exactly -/
theorem ratio_test_iff {p r : ℤ} (hp : 0 < p) (hr : 0 < r) (hr53 : r < 2^53) :
    float64Div (float64 p) (float64 r) > acceptableParseFailRatio ↔
      14411518807585589 * r < p * 2^57 ∨ 2^53 ≤ p := by
  have hrq : (0:ℚ) < r := by exact_mod_cast hr
  rw [float64Div_gt_ratio_iff (float64_pos hp) (float64_pos hr), float64_of_small hr hr53]
  rcases lt_or_le p (2^53) with h | h
  · rw [float64_of_small hp h, lt_div_iff₀ hrq, div_mul_eq_mul_div, div_lt_iff₀ (by positivity)]
    constructor
    · intro hh; left; exact_mod_cast hh
    · rintro (hh | hh)
      · exact_mod_cast hh
      · omega
  · have h1 := float64_of_large h
    constructor
    · intro _; right; exact h
    · intro _
      rw [lt_div_iff₀ hrq, div_mul_eq_mul_div, div_lt_iff₀ (by positivity)]
      have hr' : (r:ℚ) < 2^53 := by exact_mod_cast hr53
      nlinarith

end logtailer

namespace logtailer

/-! ## `Stats.IsHealthy` -/

/-- The predicate `IsHealthy` in integer arithmetic, for a record count below 2^53 -/
theorem isHealthy_iff_of_small (s : Stats) (hr : s.Records < 2^53) :
    s.IsHealthy = true ↔
      s.SendErrors ≤ 0 ∧
        ¬ (0 < s.Records ∧ 0 < s.ParseErrors ∧
            (14411518807585589 * s.Records < s.ParseErrors * 2^57 ∨ 2^53 ≤ s.ParseErrors)) := by
  unfold Stats.IsHealthy
  by_cases h1 : s.SendErrors > 0
  · rw [if_pos h1]
    constructor
    · intro h; cases h
    · rintro ⟨h, _⟩; omega
  · rw [if_neg h1]
    by_cases h2 : s.Records > 0 ∧ s.ParseErrors > 0
    · have key := ratio_test_iff h2.2 h2.1 hr
      rw [if_pos h2]
      by_cases h3 : float64Div (float64 s.ParseErrors) (float64 s.Records) > acceptableParseFailRatio
      · rw [if_pos h3]
        constructor
        · intro h; cases h
        · rintro ⟨_, hn⟩
          exact absurd ⟨h2.1, h2.2, key.mp h3⟩ hn
      · rw [if_neg h3]
        refine ⟨fun _ => ⟨by omega, ?_⟩, fun _ => rfl⟩
        rintro ⟨_, _, h4⟩
        exact h3 (key.mpr h4)
    · rw [if_neg h2]
      refine ⟨fun _ => ⟨by omega, ?_⟩, fun _ => rfl⟩
      rintro ⟨a, b, _⟩
      exact h2 ⟨a, b⟩

/-- a send error makes every Stats unhealthy -/
theorem isHealthy_of_sendErrors (s : Stats) (h : 0 < s.SendErrors) : s.IsHealthy = false := by
  unfold Stats.IsHealthy
  simp [h]

/-- the exact reading of the health predicate, valid up to 8006399337547548 records -/
theorem isHealthy_iff_exact (s : Stats) (hR : 0 ≤ s.Records) (hP : 0 ≤ s.ParseErrors)
    (hS : 0 ≤ s.SendErrors) (hB : s.Records ≤ 8006399337547548) :
    s.IsHealthy = true ↔
      s.SendErrors = 0 ∧ (s.Records = 0 ∨ (s.ParseErrors : ℚ) / (s.Records : ℚ) ≤ 1/10) := by
  rw [isHealthy_iff_of_small s (by omega)]
  have e1 : s.SendErrors ≤ 0 ↔ s.SendErrors = 0 := by omega
  rw [e1]
  apply and_congr_right
  intro _
  rcases eq_or_lt_of_le hR with h0 | hpos
  · simp [← h0]
  · have hq : (0:ℚ) < s.Records := by exact_mod_cast hpos
    rw [div_le_iff₀ hq]
    have e2 : ((s.ParseErrors : ℚ) ≤ 1/10 * (s.Records : ℚ)) ↔ 10 * s.ParseErrors ≤ s.Records := by
      constructor
      · intro h
        have : (10 * s.ParseErrors : ℚ) ≤ s.Records := by linarith
        exact_mod_cast this
      · intro h
        have : (10 * s.ParseErrors : ℚ) ≤ s.Records := by exact_mod_cast h
        linarith
    rw [e2]
    constructor
    · intro h
      right
      by_contra hc
      apply h
      refine ⟨hpos, by omega, ?_⟩
      left
      omega
    · rintro (h | h)
      · omega
      · rintro ⟨_, _, h3 | h3⟩ <;> omega

/-- C1 (as amended): for every Stats with non-negative counters and at most
8006399337547548 records, IsHealthy returns true exactly when SendErrors = 0
and (Records = 0 or ParseErrors / Records ≤ 1/10 as an exact ratio); and
(100, 0, 0) is healthy, (100, 15, 0) and (0, 0, 1) are unhealthy. -/
theorem c1_isHealthy_exact_below_bound (s : Stats) (hR : 0 ≤ s.Records) (hP : 0 ≤ s.ParseErrors)
    (hS : 0 ≤ s.SendErrors) (hB : s.Records ≤ 8006399337547548) :
    (s.IsHealthy = true ↔
      s.SendErrors = 0 ∧ (s.Records = 0 ∨ (s.ParseErrors : ℚ) / (s.Records : ℚ) ≤ 1/10)) ∧
    Stats.IsHealthy { Records := 100, ParseErrors := 0, SendErrors := 0 } = true ∧
    Stats.IsHealthy { Records := 100, ParseErrors := 15, SendErrors := 0 } = false ∧
    Stats.IsHealthy { Records := 0, ParseErrors := 0, SendErrors := 1 } = false := by
  refine ⟨isHealthy_iff_exact s hR hP hS hB, ?_, ?_, ?_⟩
  · rw [isHealthy_iff_exact _ (by decide) (by decide) (by decide) (by decide)]
    norm_num
  · rw [← Bool.not_eq_true, isHealthy_iff_exact _ (by decide) (by decide) (by decide) (by decide)]
    norm_num
  · exact isHealthy_of_sendErrors _ (by decide)

/-- C1 witness: the boundary ratio 1/10 is healthy. -/
theorem c1_isHealthy_exact_below_bound_witness :
    Stats.IsHealthy { Records := 10, ParseErrors := 1, SendErrors := 0 } = true := by
  have h := (c1_isHealthy_exact_below_bound { Records := 10, ParseErrors := 1, SendErrors := 0 }
    (by decide) (by decide) (by decide) (by decide)).1
  rw [h]
  norm_num

/-- C1 counterexample: with 8999999999999999 records and 900000000000000
parse errors the exact ratio exceeds 1/10, yet both counters and their
quotient round to float64 values for which the comparison with 0.1 fails, so
IsHealthy returns true. -/
theorem c1_counterexample :
    ¬ (Stats.IsHealthy { Records := 8999999999999999, ParseErrors := 900000000000000,
                          SendErrors := 0 } = true ↔
        (0 : Int) = 0 ∧ ((8999999999999999 : Int) = 0 ∨
          ((900000000000000 : Int) : ℚ) / ((8999999999999999 : Int) : ℚ) ≤ 1/10)) := by
  intro h
  have h1 : Stats.IsHealthy ⟨8999999999999999, 900000000000000, 0, false⟩ = true := by
    rw [isHealthy_iff_of_small _ (by decide)]
    decide
  have h2 := h.mp h1
  norm_num at h2

/-- C2 (as amended): the verdict depends on the counters only.  One parse
error among at least ten records leaves the run healthy, one parse error among
one to nine records makes it unhealthy, and a send error makes the run
unhealthy however many records there are. -/
theorem c2_single_error_verdict (s : Stats) :
    (s.SendErrors = 0 → s.ParseErrors = 1 → 10 ≤ s.Records → s.IsHealthy = true) ∧
    (s.SendErrors = 0 → s.ParseErrors = 1 → 1 ≤ s.Records → s.Records < 10 →
      s.IsHealthy = false) ∧
    (s.SendErrors = 1 → s.IsHealthy = false) := by
  refine ⟨?_, ?_, ?_⟩
  · intro hS hP h10
    unfold Stats.IsHealthy
    rw [if_neg (by omega), if_pos ⟨by omega, by omega⟩]
    have hb : (10:ℚ) ≤ float64 s.Records := by
      rcases lt_or_le s.Records (2^53) with h | h
      · rw [float64_of_small (by omega) h]; exact_mod_cast h10
      · have := float64_of_large h
        have : (10:ℚ) ≤ 2^53 := by norm_num
        linarith
    have ha : float64 s.ParseErrors = 1 := by
      rw [hP]; exact_mod_cast float64_of_small (n := 1) (by decide) (by decide)
    have hn : ¬ (float64Div (float64 s.ParseErrors) (float64 s.Records) > acceptableParseFailRatio) := by
      rw [float64Div_gt_ratio_iff (float64_pos (by omega)) (float64_pos (by omega)), ha]
      have : (1:ℚ) / float64 s.Records ≤ 1/10 :=
        one_div_le_one_div_of_le (by norm_num) hb
      intro hc
      have : (14411518807585589 : ℚ) / 2^57 < 1/10 := lt_of_lt_of_le hc this
      norm_num at this
    rw [if_neg hn]
  · intro hS hP h1 h10
    rw [← Bool.not_eq_true, isHealthy_iff_of_small s (by omega)]
    intro h
    apply h.2
    refine ⟨by omega, by omega, ?_⟩
    left
    omega
  · intro hS
    exact isHealthy_of_sendErrors s (by omega)

/-- C2 witness: one parse error in a thousand records is healthy. -/
theorem c2_single_error_verdict_witness :
    Stats.IsHealthy { Records := 1000, ParseErrors := 1, SendErrors := 0 } = true :=
  (c2_single_error_verdict { Records := 1000, ParseErrors := 1, SendErrors := 0 }).1
    rfl rfl (by decide)

/-- C2 counterexample: a single send error among 100 records, with no parse
error at all, makes IsHealthy return false, although the same counters without
that error are healthy. -/
theorem c2_counterexample :
    Stats.IsHealthy { Records := 100, ParseErrors := 0, SendErrors := 1 } = false ∧
    Stats.IsHealthy { Records := 100, ParseErrors := 0, SendErrors := 0 } = true := by
  constructor
  · exact isHealthy_of_sendErrors _ (by decide)
  · rw [isHealthy_iff_of_small _ (by decide)]
    decide

end logtailer

namespace logtailer

variable {β σ : Type}

/-! ## `step` and its cases -/

theorem step_sound (lt : Logtailer β σ) (a : Action) (s t : State β σ)
    (h : step lt a s = some t) : Step lt a s t := by
  cases a <;> simp only [step] at h
  case stop =>
    split at h
    · cases h
    · cases h; exact .stop s (by simpa using ‹¬ s.shutdown = true›)
  case scan =>
    split at h
    · cases h; exact .scanToken s _ _ ‹_› ‹_›
    · cases h; exact .scanEnd s ‹_› ‹_›
    · cases h
  case publish i =>
    split at h
    · cases h; exact .publish s i _ ‹_› ‹_›
    · cases h
  case observeShutdown =>
    split at h
    · split at h
      · cases h; exact .observeShutdown s _ ‹_› ‹_›
      · cases h
    · cases h
  case workerExit i =>
    split at h
    · cases h; exact .workerExit s i ‹_› (by simp [ScannerPc.isClosed, *])
    · cases h; exact .workerExit s i ‹_› (by simp [ScannerPc.isClosed, *])
    · cases h
  case process i =>
    split at h
    · split at h
      · cases h; exact .processErr s i _ _ ‹_› ‹_›
      · cases h; exact .processOk s i _ _ ‹_› ‹_›
    · cases h
  case workerLock i =>
    split at h
    · split at h
      · cases h
      · cases h; exact .workerLock s i ‹_› (by simpa using ‹¬ s.stats.locked = true›)
    · cases h
  case workerIncr i =>
    split at h
    · cases h; exact .workerIncr s i ‹_›
    · cases h
  case workerUnlock i =>
    split at h
    · cases h; exact .workerUnlock s i ‹_›
    · cases h
  case deliver i =>
    split at h
    · split at h
      · cases h
      · cases h; exact .deliver s i _ ‹_› ‹_› (by simpa using ‹¬ s.outputClosed = true›)
    · cases h
  case sinkClose =>
    split at h
    · split at h
      · cases h; exact .sinkClose s ‹_› ‹_›
      · cases h
    · cases h
  case collect =>
    split at h
    · cases h; exact .collect s _ ‹_› ‹_›
    · cases h
  case collectLock =>
    split at h
    · split at h
      · cases h
      · cases h; exact .collectLock s _ ‹_› (by simpa using ‹¬ s.stats.locked = true›)
    · cases h
  case collectIncr =>
    split at h
    · cases h; exact .collectIncr s _ ‹_›
    · cases h
  case collectUnlock =>
    split at h
    · cases h; exact .collectUnlock s _ ‹_›
    · cases h
  case collectExit =>
    split at h
    · cases h; exact .collectExit s ‹_› ‹_›
    · cases h
  case mainWait =>
    split at h
    · split at h
      · cases h; exact .mainWait s ‹_› ‹_›
      · cases h
    · cases h
  case mainClose =>
    split at h
    · cases h; exact .mainClose s ‹_›
    · cases h
  case mainJudge =>
    split at h
    · cases h; exact .mainJudge s ‹_›
    · cases h
  case mainReturn =>
    split at h
    · cases h; exact .mainReturn s _ ‹_›
    · cases h

end logtailer

namespace logtailer

variable {β σ : Type}

/-! ## The accounting invariant -/

theorem sum_map_set {α : Type} (f : α → ℕ) (l : List α) (i : ℕ) (x y : α) (h : l[i]? = some y) :
    ((l.set i x).map f).sum + f y = (l.map f).sum + f x := by
  induction l generalizing i with
  | nil => simp at h
  | cons a t ih =>
    cases i with
    | zero =>
      simp only [List.getElem?_cons_zero, Option.some.injEq] at h
      subst h
      simp only [List.set_cons_zero, List.map_cons, List.sum_cons]; omega
    | succ j =>
      have := ih j (by simpa using h)
      simp only [List.set_cons_succ, List.map_cons, List.sum_cons]; omega

theorem mem_of_getElem? {α : Type} {l : List α} {i : ℕ} {y : α} (h : l[i]? = some y) : y ∈ l := by
  rw [List.getElem?_eq_some] at h
  obtain ⟨hi, rfl⟩ := h
  exact List.getElem_mem hi

theorem exited_of_mem_set {l : List (WorkerPc β)} {i : ℕ} {x w : WorkerPc β}
    (hx : x ≠ .exited) (hw : w ∈ l.set i x) (he : w = .exited) : ∃ v ∈ l, v = WorkerPc.exited := by
  rcases List.mem_or_eq_of_mem_set hw with h | h
  · exact ⟨w, h, he⟩
  · exact absurd (h ▸ he) hx

theorem acct_step (lt : Logtailer β σ) (inp : List String) (a : Action) (s t : State β σ)
    (h : Step lt a s t) (inv : Acct lt inp s) : Acct lt inp t := by
  obtain ⟨⟨pre, hpre, hrec, hcnt⟩, hvals, herrs, hfin, hclosed, hwaited⟩ := inv
  cases h
  case stop => exact ⟨⟨pre, hpre, hrec, hcnt⟩, hvals, herrs, hfin, hclosed, hwaited⟩
  case scanToken line rest hs hi =>
    refine ⟨⟨pre ++ [line], ?_, ?_, ?_⟩, hvals, herrs, ?_, ?_, hwaited⟩
    · simp [hpre, hi]
    · simp [hrec]
    · intro p
      have := hcnt p
      simp only [hs, ScannerPc.heldLines, List.countP_nil] at this
      simp only [List.countP_append, ScannerPc.heldLines]
      omega
    · intro h; cases h
    · intro h
      have := hclosed h
      simp [hs, ScannerPc.isClosed] at this
  case scanEnd hs hi =>
    refine ⟨⟨pre, hpre, hrec, ?_⟩, hvals, herrs, fun _ => hi, fun _ => rfl, hwaited⟩
    intro p
    have := hcnt p
    simp only [hs, ScannerPc.heldLines] at this
    simpa only [ScannerPc.heldLines] using this
  case publish i line hs hw =>
    refine ⟨⟨pre, hpre, hrec, ?_⟩, ?_, ?_, ?_, ?_, ?_⟩
    · intro p
      have := hcnt p
      have e := sum_map_set (fun w : WorkerPc β => w.heldLines.countP p) s.workers i
        (.processing line) _ hw
      simp only [hs, ScannerPc.heldLines, WorkerPc.heldLines, List.countP_nil] at this e ⊢
      omega
    · intro q
      have := hvals q
      have e := sum_map_set (fun w : WorkerPc β => w.heldValues.countP q) s.workers i
        (.processing line) _ hw
      simp only [WorkerPc.heldValues, List.countP_nil] at this e ⊢
      omega
    · have e := sum_map_set WorkerPc.owedErrors s.workers i (.processing line) _ hw
      simp only [WorkerPc.owedErrors] at e ⊢
      omega
    · intro h; cases h
    · intro h
      have := hclosed (let ⟨w, hw1, hw2⟩ := h; exited_of_mem_set (by simp) hw1 hw2)
      simp [hs, ScannerPc.isClosed] at this
    · intro hm w _
      have := hwaited hm _ (mem_of_getElem? hw)
      cases this
  case observeShutdown line hs hd =>
    refine ⟨⟨pre, hpre, hrec, ?_⟩, hvals, herrs, ?_, fun _ => rfl, hwaited⟩
    · intro p
      have := hcnt p
      simp only [hs, ScannerPc.heldLines] at this
      simpa only [ScannerPc.heldLines] using this
    · intro h; cases h
  case workerExit i hw hs =>
    refine ⟨⟨pre, hpre, hrec, ?_⟩, ?_, ?_, hfin, fun _ => hs, ?_⟩
    · intro p
      have := hcnt p
      have e := sum_map_set (fun w : WorkerPc β => w.heldLines.countP p) s.workers i
        .exited _ hw
      simp only [WorkerPc.heldLines, List.countP_nil] at this e ⊢
      omega
    · intro q
      have := hvals q
      have e := sum_map_set (fun w : WorkerPc β => w.heldValues.countP q) s.workers i
        .exited _ hw
      simp only [WorkerPc.heldValues, List.countP_nil] at this e ⊢
      omega
    · have e := sum_map_set WorkerPc.owedErrors s.workers i .exited _ hw
      simp only [WorkerPc.owedErrors] at e ⊢
      omega
    · intro hm w _
      have := hwaited hm _ (mem_of_getElem? hw)
      cases this
  case processErr i line err hp hw =>
    have hl : processedLines (s.calls ++ [Call.ProcessRecord line]) = processedLines s.calls ++ [line] := by
      simp [processedLines, List.filterMap_append, Call.line?]
    have hok : okValue lt line = none := by simp [okValue, hp]
    refine ⟨⟨pre, hpre, hrec, ?_⟩, ?_, ?_, hfin, ?_, ?_⟩
    · intro p
      have := hcnt p
      have e := sum_map_set (fun w : WorkerPc β => w.heldLines.countP p) s.workers i
        .locking _ hw
      simp only [WorkerPc.heldLines, List.countP_nil, List.countP_append, hl] at this e ⊢
      omega
    · intro q
      have := hvals q
      have e := sum_map_set (fun w : WorkerPc β => w.heldValues.countP q) s.workers i
        .locking _ hw
      have hsucc : successes lt (processedLines s.calls ++ [line]) = successes lt (processedLines s.calls) := by
        simp [successes, List.filterMap_append, hok]
      simp only [WorkerPc.heldValues, List.countP_nil, hl, hsucc] at this e ⊢
      omega
    · have e := sum_map_set WorkerPc.owedErrors s.workers i .locking _ hw
      have hf : failures lt (processedLines s.calls ++ [line]) = failures lt (processedLines s.calls) + 1 := by
        simp [failures, List.countP_append, hok]
      show (failures lt (processedLines (s.calls ++ [Call.ProcessRecord line])) : Int)
        = s.stats.ParseErrors + ((List.map WorkerPc.owedErrors (s.workers.set i .locking)).sum : Nat)
      rw [hl, hf]
      simp only [WorkerPc.owedErrors] at e
      omega
    · intro h
      exact hclosed (let ⟨w, hw1, hw2⟩ := h; exited_of_mem_set (by simp) hw1 hw2)
    · intro hm w _
      have := hwaited hm _ (mem_of_getElem? hw)
      cases this
  case processOk i line record hp hw =>
    have hl : processedLines (s.calls ++ [Call.ProcessRecord line]) = processedLines s.calls ++ [line] := by
      simp [processedLines, List.filterMap_append, Call.line?]
    have hok : okValue lt line = some record := by simp [okValue, hp]
    refine ⟨⟨pre, hpre, hrec, ?_⟩, ?_, ?_, hfin, ?_, ?_⟩
    · intro p
      have := hcnt p
      have e := sum_map_set (fun w : WorkerPc β => w.heldLines.countP p) s.workers i
        (.sending record) _ hw
      simp only [WorkerPc.heldLines, List.countP_nil, List.countP_append, hl] at this e ⊢
      omega
    · intro q
      have := hvals q
      have e := sum_map_set (fun w : WorkerPc β => w.heldValues.countP q) s.workers i
        (.sending record) _ hw
      have hsucc : successes lt (processedLines s.calls ++ [line]) = successes lt (processedLines s.calls) ++ [record] := by
        simp [successes, List.filterMap_append, hok]
      simp only [WorkerPc.heldValues, List.countP_nil, List.countP_append, hl, hsucc] at this e ⊢
      omega
    · have e := sum_map_set WorkerPc.owedErrors s.workers i (.sending record) _ hw
      have hf : failures lt (processedLines s.calls ++ [line]) = failures lt (processedLines s.calls) := by
        simp [failures, List.countP_append, hok]
      show (failures lt (processedLines (s.calls ++ [Call.ProcessRecord line])) : Int)
        = s.stats.ParseErrors + ((List.map WorkerPc.owedErrors (s.workers.set i (.sending record))).sum : Nat)
      rw [hl, hf]
      simp only [WorkerPc.owedErrors] at e
      omega
    · intro h
      exact hclosed (let ⟨w, hw1, hw2⟩ := h; exited_of_mem_set (by simp) hw1 hw2)
    · intro hm w _
      have := hwaited hm _ (mem_of_getElem? hw)
      cases this
  case workerLock i hw hl =>
    refine ⟨⟨pre, hpre, hrec, ?_⟩, ?_, ?_, hfin, ?_, ?_⟩
    · intro p
      have := hcnt p
      have e := sum_map_set (fun w : WorkerPc β => w.heldLines.countP p) s.workers i
        .incrementing _ hw
      simp only [WorkerPc.heldLines, List.countP_nil] at this e ⊢
      omega
    · intro q
      have := hvals q
      have e := sum_map_set (fun w : WorkerPc β => w.heldValues.countP q) s.workers i
        .incrementing _ hw
      simp only [WorkerPc.heldValues, List.countP_nil] at this e ⊢
      omega
    · have e := sum_map_set WorkerPc.owedErrors s.workers i .incrementing _ hw
      simp only [WorkerPc.owedErrors] at e ⊢
      omega
    · intro h
      exact hclosed (let ⟨w, hw1, hw2⟩ := h; exited_of_mem_set (by simp) hw1 hw2)
    · intro hm w _
      have := hwaited hm _ (mem_of_getElem? hw)
      cases this
  case workerIncr i hw =>
    refine ⟨⟨pre, hpre, hrec, ?_⟩, ?_, ?_, hfin, ?_, ?_⟩
    · intro p
      have := hcnt p
      have e := sum_map_set (fun w : WorkerPc β => w.heldLines.countP p) s.workers i
        .unlocking _ hw
      simp only [WorkerPc.heldLines, List.countP_nil] at this e ⊢
      omega
    · intro q
      have := hvals q
      have e := sum_map_set (fun w : WorkerPc β => w.heldValues.countP q) s.workers i
        .unlocking _ hw
      simp only [WorkerPc.heldValues, List.countP_nil] at this e ⊢
      omega
    · have e := sum_map_set WorkerPc.owedErrors s.workers i .unlocking _ hw
      simp only [WorkerPc.owedErrors] at e ⊢
      omega
    · intro h
      exact hclosed (let ⟨w, hw1, hw2⟩ := h; exited_of_mem_set (by simp) hw1 hw2)
    · intro hm w _
      have := hwaited hm _ (mem_of_getElem? hw)
      cases this
  case workerUnlock i hw =>
    refine ⟨⟨pre, hpre, hrec, ?_⟩, ?_, ?_, hfin, ?_, ?_⟩
    · intro p
      have := hcnt p
      have e := sum_map_set (fun w : WorkerPc β => w.heldLines.countP p) s.workers i
        .receiving _ hw
      simp only [WorkerPc.heldLines, List.countP_nil] at this e ⊢
      omega
    · intro q
      have := hvals q
      have e := sum_map_set (fun w : WorkerPc β => w.heldValues.countP q) s.workers i
        .receiving _ hw
      simp only [WorkerPc.heldValues, List.countP_nil] at this e ⊢
      omega
    · have e := sum_map_set WorkerPc.owedErrors s.workers i .receiving _ hw
      simp only [WorkerPc.owedErrors] at e ⊢
      omega
    · intro h
      exact hclosed (let ⟨w, hw1, hw2⟩ := h; exited_of_mem_set (by simp) hw1 hw2)
    · intro hm w _
      have := hwaited hm _ (mem_of_getElem? hw)
      cases this
  case deliver i record hw hk ho =>
    refine ⟨⟨pre, hpre, hrec, ?_⟩, ?_, ?_, hfin, ?_, ?_⟩
    · intro p
      have := hcnt p
      have e := sum_map_set (fun w : WorkerPc β => w.heldLines.countP p) s.workers i
        .receiving _ hw
      simp only [WorkerPc.heldLines, List.countP_nil] at this e ⊢
      omega
    · intro q
      have := hvals q
      have e := sum_map_set (fun w : WorkerPc β => w.heldValues.countP q) s.workers i
        .receiving _ hw
      simp only [WorkerPc.heldValues, List.countP_nil, List.countP_append] at this e ⊢
      omega
    · have e := sum_map_set WorkerPc.owedErrors s.workers i .receiving _ hw
      simp only [WorkerPc.owedErrors] at e ⊢
      omega
    · intro h
      exact hclosed (let ⟨w, hw1, hw2⟩ := h; exited_of_mem_set (by simp) hw1 hw2)
    · intro hm w _
      have := hwaited hm _ (mem_of_getElem? hw)
      cases this
  case sinkClose => exact ⟨⟨pre, hpre, hrec, hcnt⟩, hvals, herrs, hfin, hclosed, hwaited⟩
  case collect => exact ⟨⟨pre, hpre, hrec, hcnt⟩, hvals, herrs, hfin, hclosed, hwaited⟩
  case collectLock => exact ⟨⟨pre, hpre, hrec, hcnt⟩, hvals, herrs, hfin, hclosed, hwaited⟩
  case collectIncr => exact ⟨⟨pre, hpre, hrec, hcnt⟩, hvals, herrs, hfin, hclosed, hwaited⟩
  case collectUnlock => exact ⟨⟨pre, hpre, hrec, hcnt⟩, hvals, herrs, hfin, hclosed, hwaited⟩
  case collectExit => exact ⟨⟨pre, hpre, hrec, hcnt⟩, hvals, herrs, hfin, hclosed, hwaited⟩
  case mainWait hm hw =>
    refine ⟨⟨pre, hpre, hrec, hcnt⟩, hvals, herrs, hfin, hclosed, ?_⟩
    intro _ w hmem
    have := List.all_eq_true.mp hw w hmem
    cases w <;> simp [WorkerPc.isExited] at this ⊢
  case mainClose hm =>
    refine ⟨⟨pre, hpre, hrec, hcnt⟩, hvals, herrs, hfin, hclosed, ?_⟩
    intro _
    exact hwaited (by simp [hm])
  case mainJudge hm =>
    refine ⟨⟨pre, hpre, hrec, hcnt⟩, hvals, herrs, hfin, hclosed, ?_⟩
    intro _
    exact hwaited (by simp [hm])
  case mainReturn err hm =>
    refine ⟨⟨pre, hpre, hrec, hcnt⟩, hvals, herrs, hfin, hclosed, ?_⟩
    intro _
    exact hwaited (by simp [hm])

end logtailer

namespace logtailer

variable {β σ : Type}

/-! ## Runs -/

theorem exec_append (lt : Logtailer β σ) (a b : List Action) (s : State β σ) :
    exec lt (a ++ b) s = (exec lt a s).bind (exec lt b) := by
  induction a generalizing s with
  | nil => simp [exec]
  | cons x xs ih =>
    simp only [List.cons_append, exec]
    cases step lt x s with
    | none => simp
    | some u => simpa using ih u

/-- an invariant of every enabled step holds along every schedule -/
theorem exec_induction (lt : Logtailer β σ) (P : State β σ → Prop)
    (hstep : ∀ a s t, Step lt a s t → P s → P t)
    (sch : List Action) (s t : State β σ) (h : exec lt sch s = some t) (hs : P s) : P t := by
  induction sch generalizing s with
  | nil => simp only [exec, Option.some.injEq] at h; exact h ▸ hs
  | cons a rest ih =>
    simp only [exec] at h
    cases hst : step lt a s with
    | none => simp [hst] at h
    | some u =>
      rw [hst] at h
      exact ih u h (hstep a s u (step_sound lt a s u hst) hs)

theorem acct_started (lt : Logtailer β σ) (env : Env) (numWorkers : Nat) :
    Acct lt env.records (lt.started env numWorkers) := by
  refine ⟨⟨[], by simp [Logtailer.started], by simp [Logtailer.started], ?_⟩, ?_, ?_, ?_, ?_, ?_⟩
  · intro p
    have : (List.map (fun w : WorkerPc β => List.countP p w.heldLines)
        (List.replicate numWorkers WorkerPc.receiving)).sum = 0 := by
      simp [WorkerPc.heldLines]
    simp [Logtailer.started, processedLines, Call.line?, ScannerPc.heldLines, WorkerPc.heldLines]
  · intro q
    have : (List.map (fun w : WorkerPc β => List.countP q w.heldValues)
        (List.replicate numWorkers WorkerPc.receiving)).sum = 0 := by
      simp [WorkerPc.heldValues]
    simp [Logtailer.started, processedLines, Call.line?, successes, WorkerPc.heldValues]
  · have : (List.map WorkerPc.owedErrors
        (List.replicate numWorkers (WorkerPc.receiving : WorkerPc β))).sum = 0 := by
      simp [WorkerPc.owedErrors]
    simp [Logtailer.started, processedLines, Call.line?, failures, WorkerPc.owedErrors]
  · intro h; simp [Logtailer.started] at h
  · rintro ⟨w, hw, rfl⟩
    simp [Logtailer.started, List.mem_replicate] at hw
  · intro h; simp [Logtailer.started] at h

theorem acct_exec (lt : Logtailer β σ) (env : Env) (numWorkers : Nat) (sch : List Action)
    (t : State β σ) (h : exec lt sch (lt.started env numWorkers) = some t) :
    Acct lt env.records t :=
  exec_induction lt (Acct lt env.records) (fun a s u hst => acct_step lt env.records a s u hst)
    sch _ t h (acct_started lt env numWorkers)

theorem workers_length_exec (lt : Logtailer β σ) (env : Env) (numWorkers : Nat)
    (sch : List Action) (t : State β σ) (h : exec lt sch (lt.started env numWorkers) = some t) :
    t.workers.length = numWorkers := by
  refine exec_induction lt (fun s => s.workers.length = numWorkers) ?_ sch _ t h
    (by simp [Logtailer.started])
  intro a s u hst hs
  cases hst <;> simp_all

/-- the scanner takes the shutdown case only after `Stop` was called -/
theorem stopped_exec (lt : Logtailer β σ) (env : Env) (numWorkers : Nat)
    (sch : List Action) (t : State β σ) (h : exec lt sch (lt.started env numWorkers) = some t) :
    ∀ line, t.scanner = .stopped line → t.shutdown = true := by
  refine exec_induction lt (fun s => ∀ line, s.scanner = .stopped line → s.shutdown = true)
    ?_ sch _ t h (by simp [Logtailer.started])
  intro a s u hst hs
  cases hst <;> simp_all

/-- without a call of `Stop` the shutdown channel stays open -/
theorem shutdown_exec (lt : Logtailer β σ) (sch : List Action) (s t : State β σ)
    (h : exec lt sch s = some t) (hno : Action.stop ∉ sch) (hs : s.shutdown = false) :
    t.shutdown = false := by
  induction sch generalizing s with
  | nil => simp only [exec, Option.some.injEq] at h; exact h ▸ hs
  | cons a rest ih =>
    simp only [exec] at h
    cases hst : step lt a s with
    | none => simp [hst] at h
    | some u =>
      rw [hst] at h
      have ha : a ≠ .stop := fun e => hno (by simp [e])
      have hr : Action.stop ∉ rest := fun e => hno (by simp [e])
      refine ih u h hr ?_
      have := step_sound lt a s u hst
      cases this <;> simp_all

end logtailer

namespace logtailer

variable {β σ : Type}

/-! ## The verdict -/

/-- The predicate `IsHealthy` reads the three counters only -/
theorem isHealthy_congr (a b : Stats) (h1 : a.Records = b.Records)
    (h2 : a.ParseErrors = b.ParseErrors) (h3 : a.SendErrors = b.SendErrors) :
    a.IsHealthy = b.IsHealthy := by
  unfold Stats.IsHealthy
  rw [h1, h2, h3]

/-- fewer send errors, other counters equal: still healthy -/
theorem isHealthy_of_le (a b : Stats) (h1 : a.Records = b.Records)
    (h2 : a.ParseErrors = b.ParseErrors) (h3 : a.SendErrors ≤ b.SendErrors)
    (hb : b.IsHealthy = true) : a.IsHealthy = true := by
  unfold Stats.IsHealthy at hb ⊢
  by_cases hs : b.SendErrors > 0
  · rw [if_pos hs] at hb; cases hb
  · rw [if_neg hs] at hb
    rw [if_neg (by omega), h1, h2]
    exact hb

/-- once `Run` is past `wg.Wait`, with at least one worker, the scanner has
closed `inputRecords` and every worker has returned -/
theorem Acct.quiet {lt : Logtailer β σ} {inp : List String} {s : State β σ}
    (inv : Acct lt inp s) (hm : s.main ≠ .waiting) (hw : s.workers ≠ []) :
    s.scanner.isClosed = true ∧ ∀ w ∈ s.workers, w = .exited := by
  refine ⟨?_, inv.waited hm⟩
  obtain ⟨w, hmem⟩ := List.exists_mem_of_ne_nil _ hw
  exact inv.closed ⟨w, hmem, inv.waited hm w hmem⟩

theorem ne_waiting_of_verdict {s : State β σ} {err : Option GoError}
    (h : s.main = .returning err ∨ s.main = .returned err) : s.main ≠ .waiting := by
  rcases h with e | e <;> simp [e]

theorem judged_step (lt : Logtailer β σ) (inp : List String) (a : Action) (s t : State β σ)
    (h : Step lt a s t) (inv : Acct lt inp s) (hj : Judged s) : Judged t := by
  obtain ⟨hv⟩ := hj
  cases h
  case scanToken line rest hs hi =>
    refine ⟨fun err herr => ?_⟩
    have herr0 : s.main = .returning err ∨ s.main = .returned err := herr
    obtain ⟨snap, h1, h2, h3, h4⟩ := hv err herr0
    refine ⟨snap, h1, h2, h3, fun hne => ?_⟩
    have hne0 : s.workers ≠ [] := hne
    have hq := inv.quiet (ne_waiting_of_verdict herr0) hne0
    simp [hs, ScannerPc.isClosed] at hq
  case workerIncr i hw =>
    refine ⟨fun err herr => ?_⟩
    have herr0 : s.main = .returning err ∨ s.main = .returned err := herr
    have := inv.waited (ne_waiting_of_verdict herr0) _ (mem_of_getElem? hw)
    cases this
  case collectIncr err0 hc =>
    refine ⟨fun err herr => ?_⟩
    obtain ⟨snap, h1, h2, h3, h4⟩ := hv err herr
    exact ⟨snap, h1, h2, by show snap.SendErrors ≤ s.stats.SendErrors + 1; omega, h4⟩
  case mainJudge hm =>
    refine ⟨fun err herr => ?_⟩
    refine ⟨s.stats, rfl, ?_, le_refl _, fun _ => ⟨rfl, rfl⟩⟩
    have herr2 : (if s.stats.IsHealthy = true then none else some (unhealthyError s.stats)) = err := by
      rcases herr with e | e
      · exact MainPc.returning.inj e
      · cases e
    rw [← herr2]
    by_cases hh : s.stats.IsHealthy = true <;> simp [hh]
  case mainReturn err0 hm =>
    refine ⟨fun err herr => ?_⟩
    have : err = err0 := by
      rcases herr with e | e
      · cases e
      · exact (MainPc.returned.inj e).symm
    subst this
    exact hv err (Or.inl hm)
  case mainWait hm hw =>
    exact ⟨fun err herr => by rcases herr with e | e <;> cases e⟩
  case mainClose hm =>
    exact ⟨fun err herr => by rcases herr with e | e <;> cases e⟩
  all_goals
    refine ⟨fun err herr => ?_⟩
    obtain ⟨snap, h1, h2, h3, h4⟩ := hv err herr
    exact ⟨snap, h1, h2, h3, fun hne => h4 (by
      intro hnil
      apply hne
      first
        | exact hnil
        | (show List.set _ _ _ = []; rw [hnil]; rfl))⟩

theorem judged_exec (lt : Logtailer β σ) (env : Env) (numWorkers : Nat) (sch : List Action)
    (t : State β σ) (h : exec lt sch (lt.started env numWorkers) = some t) : Judged t := by
  have := exec_induction lt (fun s => Acct lt env.records s ∧ Judged s)
    (fun a s u hst hs => ⟨acct_step lt env.records a s u hst hs.1,
      judged_step lt env.records a s u hst hs.1 hs.2⟩)
    sch _ t h ⟨acct_started lt env numWorkers, ⟨fun err herr => by
      rcases herr with e | e <;> simp [Logtailer.started] at e⟩⟩
  exact this.2

end logtailer

namespace logtailer

variable {β σ : Type}

/-! ## What `Run` returns -/

theorem begin_of_ok (lt : Logtailer β σ) (env : Env) (numWorkers : Nat)
    (hsrc : lt.getInput env = .ok ()) (hinit : lt.Profile.Init = none) :
    lt.begin env numWorkers = .inr (lt.started env numWorkers) := by
  unfold Logtailer.begin
  rw [hsrc]
  simp only [hinit]

/-- when the goroutines are started, `Run` returns what the final state of
the schedule holds -/
theorem run_of_started (lt : Logtailer β σ) (env : Env) (numWorkers : Nat) (sch : List Action)
    (r : Returned β) (hsrc : lt.getInput env = .ok ()) (hinit : lt.Profile.Init = none)
    (hrun : lt.Run env numWorkers sch = some r) :
    ∃ t, exec lt sch (lt.started env numWorkers) = some t ∧ t.main = .returned r.err ∧
      r.stats = t.stats ∧ r.calls = t.calls ∧ r.delivered = t.delivered := by
  unfold Logtailer.Run at hrun
  rw [begin_of_ok lt env numWorkers hsrc hinit] at hrun
  simp only at hrun
  cases hex : exec lt sch (lt.started env numWorkers) with
  | none => rw [hex] at hrun; cases hrun
  | some t =>
    rw [hex] at hrun
    simp only at hrun
    cases hm : t.main with
    | returned err =>
      rw [hm] at hrun
      simp only [Option.some.injEq] at hrun
      subst hrun
      exact ⟨t, rfl, hm, rfl, rfl, rfl⟩
    | waiting => rw [hm] at hrun; cases hrun
    | closing => rw [hm] at hrun; cases hrun
    | judging => rw [hm] at hrun; cases hrun
    | returning err => rw [hm] at hrun; cases hrun

theorem run_of_exec (lt : Logtailer β σ) (env : Env) (numWorkers : Nat) (sch : List Action)
    (t : State β σ) (err : Option GoError)
    (hsrc : lt.getInput env = .ok ()) (hinit : lt.Profile.Init = none)
    (hex : exec lt sch (lt.started env numWorkers) = some t) (hm : t.main = .returned err) :
    lt.Run env numWorkers sch
      = some { stats := t.stats, err := err, calls := t.calls, delivered := t.delivered } := by
  unfold Logtailer.Run
  rw [begin_of_ok lt env numWorkers hsrc hinit]
  simp only [hex, hm]

/-- the error of `Run` against the Stats it read and the Stats it returns -/
theorem run_verdict (lt : Logtailer β σ) (env : Env) (numWorkers : Nat)
    (sch : List Action) (r : Returned β) (hrun : lt.Run env numWorkers sch = some r) :
    (∀ e, lt.getInput env = .error e → r.stats = zeroStats ∧ r.err = some e) ∧
    (lt.getInput env = .ok () → ∀ e, lt.Profile.Init = some e →
      r.stats = zeroStats ∧ r.err = some e) ∧
    (lt.getInput env = .ok () → lt.Profile.Init = none →
      ∃ t snap, exec lt sch (lt.started env numWorkers) = some t ∧ t.judged = some snap ∧
        r.stats = t.stats ∧ (r.err = none ↔ snap.IsHealthy = true) ∧
        snap.SendErrors ≤ r.stats.SendErrors ∧
        (0 < numWorkers →
          snap.Records = r.stats.Records ∧ snap.ParseErrors = r.stats.ParseErrors ∧
          (r.stats.IsHealthy = true → r.err = none) ∧
          (r.stats.SendErrors = snap.SendErrors → (r.err = none ↔ r.stats.IsHealthy = true)))) := by
  refine ⟨?_, ?_, ?_⟩
  · intro e he
    unfold Logtailer.Run Logtailer.begin at hrun
    rw [he] at hrun
    simp only [Option.some.injEq] at hrun
    subst hrun
    exact ⟨rfl, rfl⟩
  · intro hsrc e he
    unfold Logtailer.Run Logtailer.begin at hrun
    rw [hsrc] at hrun
    simp only [he, Option.some.injEq] at hrun
    subst hrun
    exact ⟨rfl, rfl⟩
  · intro hsrc hinit
    obtain ⟨t, hex, hm, hst, _, _⟩ := run_of_started lt env numWorkers sch r hsrc hinit hrun
    obtain ⟨snap, h1, h2, h3, h4⟩ := (judged_exec lt env numWorkers sch t hex).verdict r.err (Or.inr hm)
    refine ⟨t, snap, hex, h1, hst, h2, by rw [hst]; exact h3, ?_⟩
    intro hW
    have hlen := workers_length_exec lt env numWorkers sch t hex
    have hne : t.workers ≠ [] := by
      intro hnil
      rw [hnil] at hlen
      simp at hlen
      omega
    obtain ⟨h5, h6⟩ := h4 hne
    rw [hst]
    refine ⟨h5, h6, ?_, ?_⟩
    · intro hh
      exact h2.mpr (isHealthy_of_le snap t.stats h5 h6 h3 hh)
    · intro heq
      rw [h2, isHealthy_congr snap t.stats h5 h6 heq.symm]

/-- one good record, one worker: the run is healthy and the error is nil -/
theorem run_verdict_healthy_run :
    ∃ r, demoTailer.Run (demoEnv ["a"]) 1
        [.scan, .publish 0, .process 0, .deliver 0, .scan, .workerExit 0, .mainWait,
          .mainClose, .mainJudge, .mainReturn] = some r ∧
      r.err = none ∧ r.stats.IsHealthy = true := by
  refine ⟨_, rfl, rfl, ?_⟩
  have h := (run_verdict demoTailer (demoEnv ["a"]) 1
    [.scan, .publish 0, .process 0, .deliver 0, .scan, .workerExit 0, .mainWait,
      .mainClose, .mainJudge, .mainReturn] _ rfl).2.2 rfl rfl
  obtain ⟨t, snap, hex, hj, hst, hiff, hle, hrest⟩ := h
  have h4 := (hrest (by decide)).2.2.2
  simp only [Logtailer.started, demoEnv, exec, step, Option.bind] at hex
  cases hex
  cases hj
  exact (h4 rfl).mp rfl

/-- C3 (code bug): `Run` returns a nil error together with a Stats of which
IsHealthy does not hold.  One worker, one record `boom` for which the sink
reports a delivery error: the collector receives the error before `Run` reads
the Stats and increments SendErrors after it, because `Run` waits for the
workers only, not for the sink and the collector.  `Run` returns err = nil and
the Stats it returns has SendErrors = 1, so IsHealthy is false of it. -/
theorem c3_nil_error_unhealthy_stats :
    ∃ r, demoTailer.Run (demoEnv ["boom"]) 1
        [.scan, .publish 0, .process 0, .deliver 0, .collect, .scan, .workerExit 0, .mainWait,
          .mainClose, .mainJudge, .collectLock, .collectIncr, .collectUnlock, .mainReturn]
          = some r ∧
      r.err = none ∧ r.stats.SendErrors = 1 ∧ r.stats.IsHealthy = false := by
  refine ⟨_, rfl, rfl, rfl, ?_⟩
  exact isHealthy_of_sendErrors _ (by decide)

end logtailer

namespace logtailer

variable {β σ : Type}

/-! ## The serial schedule takes `Run` to its return -/

theorem serialBody_exec (lt : Logtailer β σ) (lines : List String) (s : State β σ)
    (hr : Ready s) (hi : s.input = lines) :
    ∃ t, exec lt (serialBody lt s.sinkState lines) s = some t ∧ Ready t ∧ t.input = [] ∧
      t.workers = s.workers ∧ t.main = s.main ∧ t.shutdown = s.shutdown := by
  induction lines generalizing s with
  | nil => exact ⟨s, rfl, hr, hi, rfl, rfl, rfl⟩
  | cons line rest ih =>
    obtain ⟨h1, ⟨ws, h2⟩, h3, h4, h5, h6⟩ := hr
    obtain ⟨⟨nR, nP, nS, locked⟩, input, shutdown, scanner, workers, outputClosed, sink, sinkState,
      collector, main, calls, delivered, judged⟩ := s
    simp only at h1 h2 h3 h4 h5 h6 hi
    subst h1 h2 h3 h4 h5 h6 hi
    unfold serialBody
    cases hp : lt.Profile.ProcessRecord line with
    | error e =>
      simp only [exec_append]
      simp only [exec, step, hp, Option.bind, List.getElem?_cons_zero,
        List.set_cons_zero, Bool.false_eq_true, if_false]
      exact ih ⟨⟨nR + 1, nP + 1, nS, false⟩, rest, shutdown, .scanning, .receiving :: ws, false,
        .ranging, sinkState, .ranging, main, calls ++ [.ProcessRecord line], delivered, judged⟩
        ⟨rfl, ⟨ws, rfl⟩, rfl, rfl, rfl, rfl⟩ rfl
    | ok record =>
      simp only
      cases hh : (lt.Profile.HandleOutput lt.DryRun sinkState record).2 with
      | none =>
        simp only [exec_append]
        simp only [exec, step, hp, hh, Option.bind,
          List.getElem?_cons_zero, List.set_cons_zero, Bool.false_eq_true, if_false]
        exact ih ⟨⟨nR + 1, nP, nS, false⟩, rest, shutdown, .scanning, .receiving :: ws, false,
          .ranging, (lt.Profile.HandleOutput lt.DryRun sinkState record).1, .ranging, main,
          calls ++ [.ProcessRecord line], delivered ++ [record], judged⟩
          ⟨rfl, ⟨ws, rfl⟩, rfl, rfl, rfl, rfl⟩ rfl
      | some e =>
        simp only [exec_append]
        simp only [exec, step, hp, hh, Option.bind,
          List.getElem?_cons_zero, List.set_cons_zero, Bool.false_eq_true, if_false]
        exact ih ⟨⟨nR + 1, nP, nS + 1, false⟩, rest, shutdown, .scanning, .receiving :: ws, false,
          .ranging, (lt.Profile.HandleOutput lt.DryRun sinkState record).1, .ranging, main,
          calls ++ [.ProcessRecord line], delivered ++ [record], judged⟩
          ⟨rfl, ⟨ws, rfl⟩, rfl, rfl, rfl, rfl⟩ rfl

theorem replicate_append_getElem? {α : Type} (j : ℕ) (a b : α) (l : List α) :
    (List.replicate j a ++ b :: l)[j]? = some b := by
  induction j with
  | zero => simp
  | succ n ih => simpa [List.replicate_succ] using ih

theorem replicate_append_set {α : Type} (j : ℕ) (a b : α) (l : List α) :
    (List.replicate j a ++ b :: l).set j a = List.replicate (j + 1) a ++ l := by
  induction j with
  | zero => simp
  | succ n ih =>
    have : List.replicate (n + 1 + 1) a = a :: List.replicate (n + 1) a := rfl
    rw [this]
    simpa [List.replicate_succ] using ih

/-- once the scanner has finished, the workers that wait for a record return
one after the other -/
theorem workerExits_exec (lt : Logtailer β σ) (k j : ℕ) (s : State β σ)
    (hs : s.scanner = .finished)
    (hw : s.workers = List.replicate j .exited ++ List.replicate k .receiving) :
    exec lt ((List.range' j k).map Action.workerExit) s
      = some { s with workers := List.replicate (j + k) .exited } := by
  induction k generalizing j s with
  | zero =>
    simp only [List.range'_zero, List.map_nil, exec, Nat.add_zero, Option.some.injEq]
    simp only [List.replicate_zero, List.append_nil] at hw
    rw [← hw]
  | succ n ih =>
    obtain ⟨stats, input, shutdown, scanner, workers, outputClosed, sink, sinkState,
      collector, main, calls, delivered, judged⟩ := s
    simp only at hs hw
    subst hs hw
    have hget : (List.replicate j (WorkerPc.exited : WorkerPc β)
        ++ List.replicate (n + 1) WorkerPc.receiving)[j]? = some .receiving := by
      rw [List.replicate_succ]; exact replicate_append_getElem? j _ _ _
    have hset : (List.replicate j (WorkerPc.exited : WorkerPc β)
        ++ List.replicate (n + 1) WorkerPc.receiving).set j .exited
        = List.replicate (j + 1) .exited ++ List.replicate n .receiving := by
      rw [List.replicate_succ]; exact replicate_append_set j _ _ _
    simp only [List.range'_succ, List.map_cons, exec, step, hget, Option.bind]
    have key := ih (j + 1) (State.mk stats input shutdown .finished
      ((List.replicate j (WorkerPc.exited : WorkerPc β)
        ++ List.replicate (n + 1) WorkerPc.receiving).set j .exited) outputClosed sink sinkState
      collector main calls delivered judged) rfl hset
    have e : j + 1 + n = j + (n + 1) := by omega
    rw [e] at key
    exact key

theorem stop_not_mem_serialBody (lt : Logtailer β σ) (lines : List String) (st : σ) :
    Action.stop ∉ serialBody lt st lines := by
  induction lines generalizing st with
  | nil => simp [serialBody]
  | cons line rest ih =>
    unfold serialBody
    split
    · simp [ih]
    · split <;> simp [ih]

theorem stop_not_mem_serialSchedule (lt : Logtailer β σ) (env : Env) (numWorkers : ℕ) :
    Action.stop ∉ serialSchedule lt env numWorkers := by
  simp [serialSchedule, stop_not_mem_serialBody]

/-- the serial schedule is enabled throughout and ends with the return of
`Run`, whatever the profile, the input and the number of workers (at least
one) -/
theorem serialSchedule_exec (lt : Logtailer β σ) (env : Env) (numWorkers : ℕ)
    (hW : 0 < numWorkers) :
    ∃ t err, exec lt (serialSchedule lt env numWorkers) (lt.started env numWorkers) = some t ∧
      t.main = .returned err := by
  obtain ⟨n, rfl⟩ : ∃ n, numWorkers = n + 1 := ⟨numWorkers - 1, by omega⟩
  obtain ⟨u, hu, hr, hin, hwk, hmain, _⟩ := serialBody_exec lt env.records
    (lt.started env (n + 1))
    ⟨rfl, ⟨List.replicate n .receiving, rfl⟩, rfl, rfl, rfl, rfl⟩ rfl
  obtain ⟨stats, input, shutdown, scanner, workers, outputClosed, sink, sinkState,
    collector, main, calls, delivered, judged⟩ := u
  obtain ⟨h1, _, h3, h4, h5, h6⟩ := hr
  simp only [Logtailer.started] at h1 hin hwk hmain
  subst h1 hin hwk hmain
  have hex := workerExits_exec lt (n + 1) 0
    ⟨stats, [], shutdown, .finished, List.replicate (n + 1) .receiving, outputClosed, sink,
      sinkState, collector, .waiting, calls, delivered, judged⟩ rfl (by simp)
  simp only at hex
  have hu2 : exec lt (serialBody lt lt.Profile.sinkInit env.records) (lt.started env (n + 1))
      = some ⟨stats, [], shutdown, .scanning, List.replicate (n + 1) .receiving, outputClosed,
          sink, sinkState, collector, .waiting, calls, delivered, judged⟩ := hu
  have hall : (List.replicate (0 + (n + 1)) (WorkerPc.exited : WorkerPc β)).all WorkerPc.isExited
      = true := by
    simp [WorkerPc.isExited]
  rw [serialSchedule, exec_append, exec_append, exec_append, hu2, List.range_eq_range']
  have e1 : (some (State.mk stats [] shutdown .scanning
      (List.replicate (n + 1) (WorkerPc.receiving : WorkerPc β)) outputClosed
      sink sinkState collector .waiting calls delivered judged)).bind (exec lt [.scan])
      = some (State.mk stats [] shutdown .finished
      (List.replicate (n + 1) (WorkerPc.receiving : WorkerPc β)) outputClosed
      sink sinkState collector .waiting calls delivered judged) := rfl
  rw [e1]
  simp only [Option.bind, hex]
  simp only [exec, step, hall, Option.bind, if_true]
  exact ⟨_, _, rfl, rfl⟩

theorem serialSchedule_run (lt : Logtailer β σ) (env : Env) (numWorkers : ℕ)
    (hW : 0 < numWorkers) (hsrc : lt.getInput env = .ok ()) (hinit : lt.Profile.Init = none) :
    ∃ r, lt.Run env numWorkers (serialSchedule lt env numWorkers) = some r := by
  obtain ⟨t, err, hex, hm⟩ := serialSchedule_exec lt env numWorkers hW
  exact ⟨_, run_of_exec lt env numWorkers _ t err hsrc hinit hex hm⟩

end logtailer

namespace logtailer

variable {β σ : Type}

/-! ## The state in which `Run` returns -/

theorem perm_of_countP {α : Type} (l1 l2 : List α)
    (h : ∀ p : α → Bool, l1.countP p = l2.countP p) : l1.Perm l2 := by
  classical
  rw [List.perm_iff_count]
  intro a
  exact h (fun x => x == a)

theorem sum_map_eq_zero {α : Type} (f : α → ℕ) (l : List α) (h : ∀ x ∈ l, f x = 0) :
    (l.map f).sum = 0 := by
  induction l with
  | nil => rfl
  | cons a t ih =>
    simp only [List.map_cons, List.sum_cons]
    rw [h a (List.mem_cons_self _ _), ih (fun x hx => h x (List.mem_cons_of_mem _ hx))]

theorem successes_append (lt : Logtailer β σ) (a b : List String) :
    successes lt (a ++ b) = successes lt a ++ successes lt b := by
  simp [successes, List.filterMap_append]

theorem successes_length_add_failures (lt : Logtailer β σ) (l : List String) :
    (successes lt l).length + failures lt l = l.length := by
  induction l with
  | nil => rfl
  | cons a t ih =>
    unfold successes failures at ih ⊢
    cases h : okValue lt a with
    | none => simp [List.filterMap_cons, List.countP_cons, h]; omega
    | some v => simp [List.filterMap_cons, List.countP_cons, h]; omega

theorem successes_perm (lt : Logtailer β σ) {a b : List String} (h : a.Perm b) :
    (successes lt a).Perm (successes lt b) :=
  List.Perm.filterMap _ h

theorem failures_perm (lt : Logtailer β σ) {a b : List String} (h : a.Perm b) :
    failures lt a = failures lt b :=
  List.Perm.countP_eq _ h

/-- past `wg.Wait`, with at least one worker: nothing is in flight, and the
counters and the delivered records account for every scanned record -/
theorem settled (lt : Logtailer β σ) (env : Env) (numWorkers : ℕ) (sch : List Action)
    (t : State β σ) (hW : 0 < numWorkers)
    (hex : exec lt sch (lt.started env numWorkers) = some t) (hm : t.main ≠ .waiting) :
    t.scanner.isClosed = true ∧
    (∃ pre, env.records = pre ++ t.input ∧ t.stats.Records = pre.length ∧
      pre.Perm (processedLines t.calls ++ t.scanner.heldLines)) ∧
    (successes lt (processedLines t.calls)).Perm t.delivered ∧
    (failures lt (processedLines t.calls) : Int) = t.stats.ParseErrors := by
  have inv := acct_exec lt env numWorkers sch t hex
  have hlen := workers_length_exec lt env numWorkers sch t hex
  have hne : t.workers ≠ [] := by
    intro hnil
    rw [hnil] at hlen
    simp at hlen
    omega
  obtain ⟨hclosed, hall⟩ := inv.quiet hm hne
  obtain ⟨⟨pre, hpre, hrec, hcnt⟩, hvals, herrs, _, _, _⟩ := inv
  refine ⟨hclosed, ⟨pre, hpre, hrec, ?_⟩, ?_, ?_⟩
  · apply perm_of_countP
    intro p
    have := hcnt p
    rw [sum_map_eq_zero _ _ (fun w hw => by rw [hall w hw]; rfl)] at this
    rw [List.countP_append]
    omega
  · apply perm_of_countP
    intro q
    have := hvals q
    rw [sum_map_eq_zero _ _ (fun w hw => by rw [hall w hw]; rfl)] at this
    omega
  · rw [sum_map_eq_zero _ _ (fun w hw => by rw [hall w hw]; rfl)] at herrs
    simpa using herrs

/-- without a call of `Stop`, a closed `inputRecords` means that the scanner
read the whole input -/
theorem finished_of_no_stop (lt : Logtailer β σ) (env : Env) (numWorkers : ℕ)
    (sch : List Action) (t : State β σ)
    (hex : exec lt sch (lt.started env numWorkers) = some t) (hno : Action.stop ∉ sch)
    (hc : t.scanner.isClosed = true) : t.scanner = .finished ∧ t.input = [] := by
  have hsh := shutdown_exec lt sch _ t hex hno rfl
  have hst := stopped_exec lt env numWorkers sch t hex
  have inv := acct_exec lt env numWorkers sch t hex
  cases hsc : t.scanner with
  | scanning => rw [hsc] at hc; cases hc
  | publishing l => rw [hsc] at hc; cases hc
  | finished => exact ⟨rfl, inv.fin hsc⟩
  | stopped l =>
    have := hst l hsc
    rw [hsh] at this
    cases this

/-- a run that returns without a call of `Stop`, with at least one worker,
has scanned and transformed every record of the input -/
theorem complete_run (lt : Logtailer β σ) (env : Env) (numWorkers : ℕ) (sch : List Action)
    (t : State β σ) (hW : 0 < numWorkers)
    (hex : exec lt sch (lt.started env numWorkers) = some t) (hm : t.main ≠ .waiting)
    (hno : Action.stop ∉ sch) :
    t.stats.Records = env.records.length ∧
    env.records.Perm (processedLines t.calls) ∧
    (successes lt env.records).Perm t.delivered ∧
    t.stats.ParseErrors = failures lt env.records := by
  obtain ⟨hc, ⟨pre, hpre, hrec, hperm⟩, hv, he⟩ := settled lt env numWorkers sch t hW hex hm
  obtain ⟨hfin, hin⟩ := finished_of_no_stop lt env numWorkers sch t hex hno hc
  rw [hin, List.append_nil] at hpre
  subst hpre
  rw [hfin] at hperm
  simp only [ScannerPc.heldLines, List.append_nil] at hperm
  refine ⟨hrec, hperm, (successes_perm lt hperm).trans hv, ?_⟩
  rw [failures_perm lt hperm]
  exact he.symm

end logtailer

namespace logtailer

variable {β σ : Type}

/-! ## A sink that reports no error -/

theorem noSendError_step (lt : Logtailer β σ)
    (hsink : ∀ d st v, (lt.Profile.HandleOutput d st v).2 = none)
    (a : Action) (s t : State β σ) (h : Step lt a s t) (inv : NoSendError s) :
    NoSendError t := by
  obtain ⟨h1, h2, h3, h4⟩ := inv
  cases h
  case deliver i record hw hk ho =>
    refine ⟨?_, h2, h3, h4⟩
    intro e
    show (match (lt.Profile.HandleOutput lt.DryRun s.sinkState record).2 with
      | some err => SinkPc.sendingErr err
      | none => SinkPc.ranging) ≠ SinkPc.sendingErr e
    rw [hsink]
    simp
  case collect err hk hc => exact absurd hk (h1 err)
  case collectLock err hc hl => rcases h2 with e | e <;> rw [e] at hc <;> cases hc
  case collectIncr err hc => rcases h2 with e | e <;> rw [e] at hc <;> cases hc
  case collectUnlock err hc => rcases h2 with e | e <;> rw [e] at hc <;> cases hc
  case collectExit hc hk => exact ⟨h1, Or.inr rfl, h3, h4⟩
  case sinkClose hk ho => exact ⟨fun e => by simp, h2, h3, h4⟩
  case mainJudge hm =>
    refine ⟨h1, h2, h3, ?_⟩
    intro snap hs
    cases hs
    exact h3
  all_goals exact ⟨h1, h2, h3, h4⟩

theorem noSendError_exec (lt : Logtailer β σ)
    (hsink : ∀ d st v, (lt.Profile.HandleOutput d st v).2 = none)
    (env : Env) (numWorkers : ℕ) (sch : List Action) (t : State β σ)
    (hex : exec lt sch (lt.started env numWorkers) = some t) : NoSendError t :=
  exec_induction lt NoSendError (noSendError_step lt hsink) sch _ t hex
    ⟨fun e => by simp [Logtailer.started], Or.inl rfl, rfl,
      fun snap h => by simp [Logtailer.started] at h⟩

/-- a run with a quiet sink and no shutdown: the counters, and the verdict in
terms of them -/
theorem quiet_run (lt : Logtailer β σ) (env : Env) (numWorkers : ℕ) (sch : List Action)
    (r : Returned β) (hW : 0 < numWorkers)
    (hsrc : lt.getInput env = .ok ()) (hinit : lt.Profile.Init = none)
    (hsink : ∀ d st v, (lt.Profile.HandleOutput d st v).2 = none)
    (hno : Action.stop ∉ sch) (hrun : lt.Run env numWorkers sch = some r) :
    r.stats.Records = env.records.length ∧
    r.stats.ParseErrors = failures lt env.records ∧
    r.stats.SendErrors = 0 ∧
    (r.err = none ↔
      Stats.IsHealthy (Stats.mk env.records.length (failures lt env.records) 0 false) = true) := by
  obtain ⟨h1, h2, h3⟩ := run_verdict lt env numWorkers sch r hrun
  obtain ⟨t, snap, hex, hj, hst, hiff, hle, hrest⟩ := h3 hsrc hinit
  obtain ⟨h5, h6, _, _⟩ := hrest hW
  obtain ⟨t2, hex2, hm2, hst2, _, _⟩ := run_of_started lt env numWorkers sch r hsrc hinit hrun
  have ht : t2 = t := by rw [hex] at hex2; exact (Option.some.inj hex2).symm
  subst ht
  have hq := noSendError_exec lt hsink env numWorkers sch t2 hex
  obtain ⟨c1, _, c3, c4⟩ := complete_run lt env numWorkers sch t2 hW hex (by rw [hm2]; simp) hno
  rw [hst]
  refine ⟨c1, c4, hq.count, ?_⟩
  rw [hiff]
  rw [isHealthy_congr snap (Stats.mk env.records.length (failures lt env.records) 0 false)
    (by rw [h5, hst, c1]) (by rw [h6, hst, c4]) (hq.judged snap hj)]

theorem failures_le_length (lt : Logtailer β σ) (l : List String) : failures lt l ≤ l.length :=
  List.countP_le_length _

/-- C4 (as amended): one worker, an input of n records of which k fail the
transform, a sink that reports no error, no shutdown.  Whenever `Run` returns,
the Stats is (n, k, 0), and for n at most 8006399337547548 the error is
non-nil exactly when k / n > 1/10; and `Run` does return under the serial
schedule.  For n = 10 and k = 2 see the witness. -/
theorem c4_single_worker_stats (lt : Logtailer β σ) (env : Env) (sch : List Action)
    (r : Returned β) (hsrc : lt.getInput env = .ok ()) (hinit : lt.Profile.Init = none)
    (hsink : ∀ d st v, (lt.Profile.HandleOutput d st v).2 = none)
    (hno : Action.stop ∉ sch) (hrun : lt.Run env 1 sch = some r) :
    r.stats.Records = env.records.length ∧
    r.stats.ParseErrors = failures lt env.records ∧
    r.stats.SendErrors = 0 ∧
    (env.records.length ≤ 8006399337547548 →
      (r.err ≠ none ↔ ((failures lt env.records : ℚ) / (env.records.length : ℚ) > 1/10))) ∧
    (∃ r0, Action.stop ∉ serialSchedule lt env 1 ∧
      lt.Run env 1 (serialSchedule lt env 1) = some r0) := by
  obtain ⟨h1, h2, h3, h4⟩ := quiet_run lt env 1 sch r (by decide) hsrc hinit hsink hno hrun
  refine ⟨h1, h2, h3, ?_, ?_⟩
  · intro hB
    rw [Ne, h4, isHealthy_iff_exact _ (by simp) (by simp) (by simp) (by simpa using hB)]
    simp only [true_and, not_or, not_le, Int.cast_natCast]
    constructor
    · intro h; exact h.2
    · intro h
      refine ⟨?_, h⟩
      intro h0
      have h1 : env.records.length = 0 := by exact_mod_cast h0
      rw [h1] at h
      norm_num at h
  · obtain ⟨r0, hr0⟩ := serialSchedule_run lt env 1 (by decide) hsrc hinit
    exact ⟨r0, stop_not_mem_serialSchedule lt env 1, hr0⟩

/-- C4 witness: ten records, two malformed, one worker: the Stats is
(10, 2, 0) and the error is non-nil. -/
theorem c4_single_worker_stats_witness :
    ∃ r, quietTailer.Run (demoEnv tenRecords) 1
        (serialSchedule quietTailer (demoEnv tenRecords) 1) = some r ∧
      r.stats.Records = 10 ∧ r.stats.ParseErrors = 2 ∧ r.stats.SendErrors = 0 ∧
      r.err ≠ none := by
  obtain ⟨r, hr⟩ := serialSchedule_run quietTailer (demoEnv tenRecords) 1 (by decide) rfl rfl
  have h := c4_single_worker_stats quietTailer (demoEnv tenRecords)
    (serialSchedule quietTailer (demoEnv tenRecords) 1) r rfl rfl (fun _ _ _ => rfl)
    (stop_not_mem_serialSchedule _ _ _) hr
  have hk : failures quietTailer (demoEnv tenRecords).records = 2 := by decide
  have hn : (demoEnv tenRecords).records.length = 10 := rfl
  rw [hk, hn] at h
  refine ⟨r, hr, h.1, h.2.1, h.2.2.1, (h.2.2.2.1 (by decide)).mpr ?_⟩
  norm_num

theorem hugeInput_length : hugeInput.length = 8999999999999999 := by
  simp only [hugeInput, List.length_append, List.length_replicate]

theorem hugeInput_failures : failures quietTailer hugeInput = 900000000000000 := by
  have h1 : okValue quietTailer "bad" = none := by rfl
  have h2 : okValue quietTailer "ok" = some "ok" := by rfl
  simp only [hugeInput, failures, List.countP_append, List.countP_replicate, h1, h2]
  rfl
/-- C4 counterexample: one worker, a quiet sink, no shutdown, 8999999999999999
records of which 900000000000000 fail the transform.  The ratio exceeds 1/10,
yet under the serial schedule `Run` returns a nil error. -/
theorem c4_counterexample :
    ∃ r, quietTailer.Run (demoEnv hugeInput) 1
        (serialSchedule quietTailer (demoEnv hugeInput) 1) = some r ∧
      r.stats.Records = 8999999999999999 ∧ r.stats.ParseErrors = 900000000000000 ∧
      r.stats.SendErrors = 0 ∧ r.err = none ∧
      ((900000000000000 : ℚ) / (8999999999999999 : ℚ) > 1/10) := by
  have hsrc : quietTailer.getInput (demoEnv hugeInput) = .ok () := rfl
  have hinit : quietTailer.Profile.Init = none := rfl
  obtain ⟨r, hr⟩ := serialSchedule_run quietTailer (demoEnv hugeInput) 1 (by decide) hsrc hinit
  obtain ⟨h1, h2, h3, h4⟩ := quiet_run quietTailer (demoEnv hugeInput) 1 _ r (by decide) hsrc hinit
    (fun _ _ _ => rfl) (stop_not_mem_serialSchedule _ _ _) hr
  have hn : (demoEnv hugeInput).records.length = 8999999999999999 := hugeInput_length
  have hk : failures quietTailer (demoEnv hugeInput).records = 900000000000000 :=
    hugeInput_failures
  rw [hn] at h1 h4
  rw [hk] at h2 h4
  refine ⟨r, hr, by exact_mod_cast h1, by exact_mod_cast h2, h3, ?_, by norm_num⟩
  rw [h4, isHealthy_iff_of_small _ (by norm_num)]
  norm_num

end logtailer

namespace logtailer

variable {β σ : Type}

/-! ## Records against transforms -/

/-- the records counted against the transforms made, when `Run` returns -/
theorem records_accounting (lt : Logtailer β σ) (env : Env) (numWorkers : ℕ)
    (sch : List Action) (t : State β σ) (err : Option GoError) (hW : 0 < numWorkers)
    (hex : exec lt sch (lt.started env numWorkers) = some t) (hm : t.main = .returned err) :
    (t.scanner = .finished →
      t.stats.Records = (successes lt (processedLines t.calls)).length
        + failures lt (processedLines t.calls)) ∧
    (∀ line, t.scanner = .stopped line →
      t.stats.Records = (successes lt (processedLines t.calls)).length
        + failures lt (processedLines t.calls) + 1) ∧
    (t.scanner = .finished ∨ ∃ line, t.scanner = .stopped line) ∧
    (Action.stop ∉ sch → t.scanner = .finished) ∧
    (successes lt (processedLines t.calls)).length = t.delivered.length ∧
    (failures lt (processedLines t.calls) : Int) = t.stats.ParseErrors := by
  obtain ⟨hc, ⟨pre, hpre, hrec, hperm⟩, hv, he⟩ :=
    settled lt env numWorkers sch t hW hex (by rw [hm]; simp)
  have hl := successes_length_add_failures lt (processedLines t.calls)
  have hlen := hperm.length_eq
  rw [List.length_append] at hlen
  refine ⟨?_, ?_, ?_, ?_, hv.length_eq, he⟩
  · intro hf
    rw [hf] at hlen
    simp only [ScannerPc.heldLines, List.length_nil] at hlen
    rw [hrec]
    omega
  · intro line hs
    rw [hs] at hlen
    simp only [ScannerPc.heldLines, List.length_singleton] at hlen
    rw [hrec]
    omega
  · cases hsc : t.scanner with
    | scanning => rw [hsc] at hc; cases hc
    | publishing l => rw [hsc] at hc; cases hc
    | finished => exact Or.inl rfl
    | stopped l => exact Or.inr ⟨l, rfl⟩
  · intro hno
    exact (finished_of_no_stop lt env numWorkers sch t hex hno hc).1

/-- C5 (as amended): Records counts the records the scanner read.  When `Run`
returns (at least one worker), Records equals the number of successful
transforms plus the number of failed transforms if the scanner ended at the end
of the input, as it does in every run without `Stop`; it exceeds that sum by
exactly one if the scanner was stopped by the shutdown signal while publishing
(the record it held is counted and never transformed).  The successful
transforms are as many as the records delivered and the failed ones as many
as ParseErrors. -/
theorem c5_records_vs_transforms (lt : Logtailer β σ) (env : Env) (numWorkers : ℕ)
    (sch : List Action) (t : State β σ) (err : Option GoError) (hW : 0 < numWorkers)
    (hex : exec lt sch (lt.started env numWorkers) = some t) (hm : t.main = .returned err) :
    (t.scanner = .finished →
      t.stats.Records = (successes lt (processedLines t.calls)).length
        + failures lt (processedLines t.calls)) ∧
    (∀ line, t.scanner = .stopped line →
      t.stats.Records = (successes lt (processedLines t.calls)).length
        + failures lt (processedLines t.calls) + 1) ∧
    (t.scanner = .finished ∨ ∃ line, t.scanner = .stopped line) ∧
    (Action.stop ∉ sch → t.scanner = .finished) ∧
    (successes lt (processedLines t.calls)).length = t.delivered.length ∧
    (failures lt (processedLines t.calls) : Int) = t.stats.ParseErrors :=
  records_accounting lt env numWorkers sch t err hW hex hm

/-- C5 witness: three records, the second malformed, no shutdown:
Records = 3 = 2 successful + 1 failed transform. -/
theorem c5_records_vs_transforms_witness :
    ∃ t, exec demoTailer (serialSchedule demoTailer (demoEnv ["a", "bad", "b"]) 1)
        (demoTailer.started (demoEnv ["a", "bad", "b"]) 1) = some t ∧
      t.stats.Records = 3 ∧ (successes demoTailer (processedLines t.calls)).length = 2 ∧
      failures demoTailer (processedLines t.calls) = 1 := by
  refine ⟨_, rfl, ?_⟩
  have h := c5_records_vs_transforms demoTailer (demoEnv ["a", "bad", "b"]) 1
    (serialSchedule demoTailer (demoEnv ["a", "bad", "b"]) 1) _ _ (by decide) rfl rfl
  exact ⟨by rw [h.1 rfl]; rfl, by decide, by decide⟩

/-- C5 counterexample: `Stop` is called while the scanner is trying to
publish the only record.  `Run` returns with Records = 1 although no record
was transformed (no successful and no failed transform). -/
theorem c5_counterexample :
    ∃ r, demoTailer.Run (demoEnv ["a"]) 1
        [.scan, .stop, .observeShutdown, .workerExit 0, .mainWait, .mainClose, .mainJudge,
          .mainReturn] = some r ∧
      r.stats.Records = 1 ∧
      (successes demoTailer (processedLines r.calls)).length
        + failures demoTailer (processedLines r.calls) = 0 ∧
      r.stats.ParseErrors = 0 ∧ r.delivered = [] :=
  ⟨_, rfl, rfl, by decide, rfl, rfl⟩

end logtailer

namespace logtailer

variable {β σ : Type}

/-! ## One worker: order is preserved -/

theorem singleton_getElem? {α : Type} {l : List α} {w x : α} {i : ℕ} (hl : l = [w])
    (h : l[i]? = some x) : i = 0 ∧ x = w := by
  subst hl
  cases i with
  | zero => simp at h; exact ⟨rfl, h.symm⟩
  | succ j => simp at h

theorem processedLines_append_call (calls : List Call) (line : String) :
    processedLines (calls ++ [Call.ProcessRecord line]) = processedLines calls ++ [line] := by
  simp [processedLines, List.filterMap_append, Call.line?]

theorem ordered_step (lt : Logtailer β σ) (inp : List String) (a : Action) (s t : State β σ)
    (h : Step lt a s t) (inv : Ordered lt inp s) : Ordered lt inp t := by
  obtain ⟨w, hw1, hin, hv⟩ := inv
  cases h
  case scanToken line rest hs hi =>
    refine ⟨w, hw1, ?_, hv⟩
    rw [hin, hs, hi]
    simp [ScannerPc.heldLines]
  case scanEnd hs hi =>
    refine ⟨w, hw1, ?_, hv⟩
    rw [hin, hs]
    simp [ScannerPc.heldLines]
  case publish i line hs hw =>
    obtain ⟨rfl, rfl⟩ := singleton_getElem? hw1 hw
    refine ⟨.processing line, by show s.workers.set 0 _ = _; rw [hw1]; rfl, ?_, ?_⟩
    · rw [hin, hs]
      simp [ScannerPc.heldLines, WorkerPc.heldLines]
    · rw [hv]; simp [WorkerPc.heldValues]
  case observeShutdown line hs hd =>
    refine ⟨w, hw1, ?_, hv⟩
    rw [hin, hs]
    simp [ScannerPc.heldLines]
  case workerExit i hw hs =>
    obtain ⟨rfl, rfl⟩ := singleton_getElem? hw1 hw
    refine ⟨.exited, by show s.workers.set 0 _ = _; rw [hw1]; rfl, ?_, ?_⟩
    · rw [hin]; simp [WorkerPc.heldLines]
    · rw [hv]; simp [WorkerPc.heldValues]
  case processErr i line err hp hw =>
    obtain ⟨rfl, rfl⟩ := singleton_getElem? hw1 hw
    have hok : okValue lt line = none := by simp [okValue, hp]
    refine ⟨.locking, by show s.workers.set 0 _ = _; rw [hw1]; rfl, ?_, ?_⟩
    · show inp = processedLines (s.calls ++ [Call.ProcessRecord line]) ++ _ ++ _ ++ _
      rw [hin, processedLines_append_call]
      simp [WorkerPc.heldLines]
    · show successes lt (processedLines (s.calls ++ [Call.ProcessRecord line])) = _
      rw [processedLines_append_call, successes_append, hv]
      simp [successes, hok, WorkerPc.heldValues]
  case processOk i line record hp hw =>
    obtain ⟨rfl, rfl⟩ := singleton_getElem? hw1 hw
    have hok : okValue lt line = some record := by simp [okValue, hp]
    refine ⟨.sending record, by show s.workers.set 0 _ = _; rw [hw1]; rfl, ?_, ?_⟩
    · show inp = processedLines (s.calls ++ [Call.ProcessRecord line]) ++ _ ++ _ ++ _
      rw [hin, processedLines_append_call]
      simp [WorkerPc.heldLines]
    · show successes lt (processedLines (s.calls ++ [Call.ProcessRecord line])) = _
      rw [processedLines_append_call, successes_append, hv]
      simp [successes, hok, WorkerPc.heldValues]
  case workerLock i hw hl =>
    obtain ⟨rfl, rfl⟩ := singleton_getElem? hw1 hw
    refine ⟨.incrementing, by show s.workers.set 0 _ = _; rw [hw1]; rfl, ?_, ?_⟩
    · rw [hin]; simp [WorkerPc.heldLines]
    · rw [hv]; simp [WorkerPc.heldValues]
  case workerIncr i hw =>
    obtain ⟨rfl, rfl⟩ := singleton_getElem? hw1 hw
    refine ⟨.unlocking, by show s.workers.set 0 _ = _; rw [hw1]; rfl, ?_, ?_⟩
    · rw [hin]; simp [WorkerPc.heldLines]
    · rw [hv]; simp [WorkerPc.heldValues]
  case workerUnlock i hw =>
    obtain ⟨rfl, rfl⟩ := singleton_getElem? hw1 hw
    refine ⟨.receiving, by show s.workers.set 0 _ = _; rw [hw1]; rfl, ?_, ?_⟩
    · rw [hin]; simp [WorkerPc.heldLines]
    · rw [hv]; simp [WorkerPc.heldValues]
  case deliver i record hw hk ho =>
    obtain ⟨rfl, rfl⟩ := singleton_getElem? hw1 hw
    refine ⟨.receiving, by show s.workers.set 0 _ = _; rw [hw1]; rfl, ?_, ?_⟩
    · rw [hin]; simp [WorkerPc.heldLines]
    · show _ = (s.delivered ++ [record]) ++ _
      rw [hv]; simp [WorkerPc.heldValues]
  all_goals exact ⟨w, hw1, hin, hv⟩

theorem ordered_exec (lt : Logtailer β σ) (env : Env) (sch : List Action) (t : State β σ)
    (hex : exec lt sch (lt.started env 1) = some t) : Ordered lt env.records t :=
  exec_induction lt (Ordered lt env.records) (ordered_step lt env.records) sch _ t hex
    ⟨.receiving, rfl, by simp [Logtailer.started, processedLines, Call.line?,
      WorkerPc.heldLines, ScannerPc.heldLines], by
      simp [Logtailer.started, processedLines, Call.line?, successes, WorkerPc.heldValues]⟩

/-- the order of delivery with one worker -/
theorem single_worker_order (lt : Logtailer β σ) (env : Env) (sch : List Action)
    (t : State β σ) (hex : exec lt sch (lt.started env 1) = some t) :
    (∃ rest, successes lt env.records = t.delivered ++ rest) ∧
    (∀ err, t.main = .returned err →
      env.records = processedLines t.calls ++ t.scanner.heldLines ++ t.input ∧
        t.delivered = successes lt (processedLines t.calls)) ∧
    (∀ err, t.main = .returned err → Action.stop ∉ sch →
      t.delivered = successes lt env.records) := by
  obtain ⟨w, hw1, hin, hv⟩ := ordered_exec lt env sch t hex
  have hret : ∀ err, t.main = .returned err →
      env.records = processedLines t.calls ++ t.scanner.heldLines ++ t.input ∧
      t.delivered = successes lt (processedLines t.calls) := by
    intro err hm
    have inv := acct_exec lt env 1 sch t hex
    have hwx : w = .exited := inv.waited (by rw [hm]; simp) w (by rw [hw1]; simp)
    subst hwx
    simp only [WorkerPc.heldLines, WorkerPc.heldValues, List.append_nil] at hin hv
    exact ⟨hin, hv.symm⟩
  refine ⟨?_, ?_, ?_⟩
  · refine ⟨w.heldValues ++ successes lt (w.heldLines ++ t.scanner.heldLines ++ t.input), ?_⟩
    rw [← List.append_assoc, ← hv, ← successes_append, hin]
    simp [List.append_assoc]
  · intro err hm
    exact hret err hm
  · intro err hm hno
    obtain ⟨h1, h2⟩ := hret err hm
    have hc : t.scanner.isClosed = true :=
      (settled lt env 1 sch t (by decide) hex (by rw [hm]; simp)).1
    obtain ⟨hf, hi⟩ := finished_of_no_stop lt env 1 sch t hex hno hc
    rw [hf, hi] at h1
    simp only [ScannerPc.heldLines, List.append_nil] at h1
    rw [h2, h1]

/-- C7: with one worker, at every moment of every run the values delivered to
the sink are an initial part of the successful ProcessRecord results taken in
input order.  When `Run` returns, the records handed to the worker (the
ProcessRecord calls, in call order) are an initial part of the input, and the
values delivered are exactly their successful results in that order (failed
records removed, order of the rest preserved); without a call of `Stop` the
worker was handed the whole input, so the values delivered are the successful
results of the input in input order. -/
theorem c7_single_worker_order (lt : Logtailer β σ) (env : Env) (sch : List Action)
    (t : State β σ) (hex : exec lt sch (lt.started env 1) = some t) :
    (∃ rest, successes lt env.records = t.delivered ++ rest) ∧
    (∀ err, t.main = .returned err →
      env.records = processedLines t.calls ++ t.scanner.heldLines ++ t.input ∧
        t.delivered = successes lt (processedLines t.calls)) ∧
    (∀ err, t.main = .returned err → Action.stop ∉ sch →
      t.delivered = successes lt env.records) :=
  single_worker_order lt env sch t hex

/-- C7 witness: the records a, bad, b with one worker are delivered as a, b. -/
theorem c7_single_worker_order_witness :
    ∃ t, exec demoTailer (serialSchedule demoTailer (demoEnv ["a", "bad", "b"]) 1)
        (demoTailer.started (demoEnv ["a", "bad", "b"]) 1) = some t ∧
      t.delivered = ["a", "b"] := by
  refine ⟨_, rfl, ?_⟩
  have h := (c7_single_worker_order demoTailer (demoEnv ["a", "bad", "b"])
    (serialSchedule demoTailer (demoEnv ["a", "bad", "b"]) 1) _ rfl).2.2 _ rfl (by decide)
  rw [h]
  decide

end logtailer

namespace logtailer

variable {β σ : Type}

/-! ## One record, one outcome -/

theorem getElem?_set_self_of_some {α : Type} {l : List α} {i : ℕ} {w x : α}
    (h : l[i]? = some w) : (l.set i x)[i]? = some x := by
  have hi : i < l.length := by
    rw [List.getElem?_eq_some] at h
    exact h.1
  simp [List.getElem?_set_self, hi]

theorem getElem?_set_of_ne {α : Type} {l : List α} {i j : ℕ} {x : α} (h : j ≠ i) :
    (l.set j x)[i]? = l[i]? := by
  simp [List.getElem?_set_ne h]

/-- the effect of one step on what worker `i` still owes for its record -/
theorem owed_step (lt : Logtailer β σ) (i : ℕ) (a : Action) (s t : State β σ)
    (w : WorkerPc β) (h : Step lt a s t) (ha : a ≠ .publish i) (hw : s.workers[i]? = some w) :
    ∃ w2, t.workers[i]? = some w2 ∧
      w.toDeliver lt = (if a = .deliver i then w.heldValues else []) ++ w2.toDeliver lt ∧
      w.toIncrement lt = (if a = .workerIncr i then 1 else 0) + w2.toIncrement lt := by
  cases h
  case publish j line hs hj =>
    have hne : j ≠ i := fun e => ha (by rw [e])
    exact ⟨w, by show (s.workers.set j _)[i]? = _; rw [getElem?_set_of_ne hne, hw], by simp, by simp⟩
  case workerExit j hj hs =>
    by_cases hji : j = i
    · subst hji
      rw [hw] at hj; cases hj
      exact ⟨.exited, getElem?_set_self_of_some hw, by simp [WorkerPc.toDeliver],
        by simp [WorkerPc.toIncrement]⟩
    · exact ⟨w, by show (s.workers.set j _)[i]? = _; rw [getElem?_set_of_ne hji, hw],
        by simp, by simp⟩
  case processErr j line err hp hj =>
    by_cases hji : j = i
    · subst hji
      rw [hw] at hj; cases hj
      have hok : okValue lt line = none := by simp [okValue, hp]
      exact ⟨.locking, getElem?_set_self_of_some hw, by simp [WorkerPc.toDeliver, hok],
        by simp [WorkerPc.toIncrement, hok]⟩
    · exact ⟨w, by show (s.workers.set j _)[i]? = _; rw [getElem?_set_of_ne hji, hw],
        by simp, by simp⟩
  case processOk j line record hp hj =>
    by_cases hji : j = i
    · subst hji
      rw [hw] at hj; cases hj
      have hok : okValue lt line = some record := by simp [okValue, hp]
      exact ⟨.sending record, getElem?_set_self_of_some hw, by simp [WorkerPc.toDeliver, hok],
        by simp [WorkerPc.toIncrement, hok]⟩
    · exact ⟨w, by show (s.workers.set j _)[i]? = _; rw [getElem?_set_of_ne hji, hw],
        by simp, by simp⟩
  case workerLock j hj hl =>
    by_cases hji : j = i
    · subst hji
      rw [hw] at hj; cases hj
      exact ⟨.incrementing, getElem?_set_self_of_some hw, by simp [WorkerPc.toDeliver],
        by simp [WorkerPc.toIncrement]⟩
    · exact ⟨w, by show (s.workers.set j _)[i]? = _; rw [getElem?_set_of_ne hji, hw],
        by simp, by simp⟩
  case workerIncr j hj =>
    by_cases hji : j = i
    · subst hji
      rw [hw] at hj; cases hj
      exact ⟨.unlocking, getElem?_set_self_of_some hw, by simp [WorkerPc.toDeliver],
        by simp [WorkerPc.toIncrement]⟩
    · exact ⟨w, by show (s.workers.set j _)[i]? = _; rw [getElem?_set_of_ne hji, hw],
        by simp, by simp [hji]⟩
  case workerUnlock j hj =>
    by_cases hji : j = i
    · subst hji
      rw [hw] at hj; cases hj
      exact ⟨.receiving, getElem?_set_self_of_some hw, by simp [WorkerPc.toDeliver],
        by simp [WorkerPc.toIncrement]⟩
    · exact ⟨w, by show (s.workers.set j _)[i]? = _; rw [getElem?_set_of_ne hji, hw],
        by simp, by simp⟩
  case deliver j record hj hk ho =>
    by_cases hji : j = i
    · subst hji
      rw [hw] at hj; cases hj
      exact ⟨.receiving, getElem?_set_self_of_some hw,
        by simp [WorkerPc.toDeliver, WorkerPc.heldValues], by simp [WorkerPc.toIncrement]⟩
    · exact ⟨w, by show (s.workers.set j _)[i]? = _; rw [getElem?_set_of_ne hji, hw],
        by simp [hji], by simp⟩
  all_goals exact ⟨w, hw, by simp, by simp⟩

/-- along a schedule that does not hand worker `i` another record, what the
worker owed at the start is what it delivered and incremented plus what it
owes at the end -/
theorem owed_exec (lt : Logtailer β σ) (i : ℕ) (sch : List Action) (s t : State β σ)
    (w : WorkerPc β) (hex : exec lt sch s = some t) (hnp : Action.publish i ∉ sch)
    (hw : s.workers[i]? = some w) :
    ∃ w2, t.workers[i]? = some w2 ∧
      w.toDeliver lt = deliveredBy lt i sch s ++ w2.toDeliver lt ∧
      w.toIncrement lt = sch.count (.workerIncr i) + w2.toIncrement lt := by
  induction sch generalizing s w with
  | nil =>
    simp only [exec, Option.some.injEq] at hex
    subst hex
    exact ⟨w, hw, by simp [deliveredBy], by simp⟩
  | cons a rest ih =>
    simp only [exec] at hex
    cases hst : step lt a s with
    | none => simp [hst] at hex
    | some u =>
      rw [hst] at hex
      have ha : a ≠ .publish i := fun e => hnp (by simp [e])
      have hr : Action.publish i ∉ rest := fun e => hnp (by simp [e])
      obtain ⟨w1, hw1, hd1, hi1⟩ := owed_step lt i a s u w (step_sound lt a s u hst) ha hw
      obtain ⟨w2, hw2, hd2, hi2⟩ := ih u w1 hex hr hw1
      refine ⟨w2, hw2, ?_, ?_⟩
      · simp only [deliveredBy, hst, hw]
        rw [hd1, hd2, List.append_assoc]
      · rw [hi1, hi2, List.count_cons]
        by_cases e : a = .workerIncr i
        · simp [e]; omega
        · have e2 : ¬ (a == Action.workerIncr i) = true := by simpa using e
          simp [e, e2]

/-- a step other than a worker's increment leaves `ParseErrors` as it is, and
a worker's increment adds exactly one and delivers nothing -/
theorem parseErrors_step (lt : Logtailer β σ) (a : Action) (s t : State β σ)
    (h : Step lt a s t) :
    ((∀ j, a ≠ .workerIncr j) → t.stats.ParseErrors = s.stats.ParseErrors) ∧
    (∀ j, a = .workerIncr j →
      t.stats.ParseErrors = s.stats.ParseErrors + 1 ∧ t.delivered = s.delivered) := by
  cases h
  case workerIncr j hj => exact ⟨fun hn => absurd rfl (hn j), fun _ _ => ⟨rfl, rfl⟩⟩
  all_goals exact ⟨fun _ => rfl, fun j e => by cases e⟩

/-- a step other than a delivery leaves the delivered records as they are, and
a delivery by worker `j` appends exactly the value that worker holds and
leaves `ParseErrors` as it is -/
theorem delivered_step (lt : Logtailer β σ) (a : Action) (s t : State β σ)
    (h : Step lt a s t) :
    ((∀ j, a ≠ .deliver j) → t.delivered = s.delivered) ∧
    (∀ j, a = .deliver j → ∃ v, s.workers[j]? = some (.sending v) ∧
      t.delivered = s.delivered ++ [v] ∧ t.stats.ParseErrors = s.stats.ParseErrors) := by
  cases h
  case deliver j record hj hk ho =>
    refine ⟨fun hn => absurd rfl (hn j), fun k e => ?_⟩
    cases e
    exact ⟨record, hj, rfl, rfl⟩
  all_goals exact ⟨fun _ => rfl, fun j e => by cases e⟩

/-- the outcome of one dequeued record -/
theorem one_outcome (lt : Logtailer β σ) (i : ℕ) (line : String) (sch : List Action)
    (s t : State β σ) (hw : s.workers[i]? = some (.processing line))
    (hex : exec lt sch s = some t) (hnp : Action.publish i ∉ sch)
    (hback : t.workers[i]? = some .receiving) :
    (∀ v, lt.Profile.ProcessRecord line = .ok v →
      deliveredBy lt i sch s = [v] ∧ sch.count (.workerIncr i) = 0) ∧
    (∀ e, lt.Profile.ProcessRecord line = .error e →
      deliveredBy lt i sch s = [] ∧ sch.count (.workerIncr i) = 1) := by
  obtain ⟨w2, hw2, hd, hi⟩ := owed_exec lt i sch s t _ hex hnp hw
  rw [hback] at hw2
  cases hw2
  simp only [WorkerPc.toDeliver, WorkerPc.toIncrement, List.append_nil, Nat.add_zero] at hd hi
  constructor
  · intro v hv
    have hok : okValue lt line = some v := by simp [okValue, hv]
    rw [hok] at hd hi
    simp at hd hi
    exact ⟨hd.symm, hi.symm⟩
  · intro e he
    have hok : okValue lt line = none := by simp [okValue, he]
    rw [hok] at hd hi
    simp at hd hi
    exact ⟨hd, hi.symm⟩

end logtailer

namespace logtailer

variable {β σ : Type}

/-! ## The outcome does not depend on the number of workers -/

/-- what a complete run without shutdown delivers and counts, whatever the
number of workers and the interleaving -/
theorem outcome_of_complete_run (lt : Logtailer β σ) (env : Env) (numWorkers : ℕ)
    (sch : List Action) (t : State β σ) (err : Option GoError) (hW : 0 < numWorkers)
    (hex : exec lt sch (lt.started env numWorkers) = some t) (hm : t.main = .returned err)
    (hno : Action.stop ∉ sch) :
    (Multiset.ofList t.delivered = Multiset.ofList (successes lt env.records)) ∧
    t.stats.ParseErrors = failures lt env.records := by
  obtain ⟨_, _, h3, h4⟩ := complete_run lt env numWorkers sch t hW hex (by rw [hm]; simp) hno
  exact ⟨(Multiset.coe_eq_coe.mpr h3).symm, h4⟩

/-- C8: for every input and every two worker counts W1, W2 ≥ 1, any two runs
without shutdown that return, under whatever interleavings, have forwarded the
same multiset of values to the sink and have the same ParseErrors: the multiset
of the successful transforms of the input and the number of its failed
transforms.  For every worker count there is such a run. -/
theorem c8_outcome_independent_of_workers (lt : Logtailer β σ) (env : Env) (w1 w2 : ℕ)
    (sch1 sch2 : List Action) (t1 t2 : State β σ) (err1 err2 : Option GoError)
    (hW1 : 0 < w1) (hW2 : 0 < w2)
    (hex1 : exec lt sch1 (lt.started env w1) = some t1) (hm1 : t1.main = .returned err1)
    (hno1 : Action.stop ∉ sch1)
    (hex2 : exec lt sch2 (lt.started env w2) = some t2) (hm2 : t2.main = .returned err2)
    (hno2 : Action.stop ∉ sch2) :
    Multiset.ofList t1.delivered = Multiset.ofList t2.delivered ∧
    t1.stats.ParseErrors = t2.stats.ParseErrors ∧
    Multiset.ofList t1.delivered = Multiset.ofList (successes lt env.records) ∧
    t1.stats.ParseErrors = failures lt env.records ∧
    (∃ t err, exec lt (serialSchedule lt env w1) (lt.started env w1) = some t ∧
      t.main = .returned err ∧ Action.stop ∉ serialSchedule lt env w1) := by
  obtain ⟨a1, b1⟩ := outcome_of_complete_run lt env w1 sch1 t1 err1 hW1 hex1 hm1 hno1
  obtain ⟨a2, b2⟩ := outcome_of_complete_run lt env w2 sch2 t2 err2 hW2 hex2 hm2 hno2
  refine ⟨by rw [a1, a2], by rw [b1, b2], a1, b1, ?_⟩
  obtain ⟨t, err, h1, h2⟩ := serialSchedule_exec lt env w1 hW1
  exact ⟨t, err, h1, h2, stop_not_mem_serialSchedule lt env w1⟩

/-- C8 witness: the records a, bad, b.  One worker delivers a then b; with
two workers, in the interleaving below, b is delivered before a.  The
multisets and ParseErrors agree. -/
theorem c8_outcome_independent_of_workers_witness :
    ∃ t1 t2,
      exec demoTailer (serialSchedule demoTailer (demoEnv ["a", "bad", "b"]) 1)
        (demoTailer.started (demoEnv ["a", "bad", "b"]) 1) = some t1 ∧
      exec demoTailer
        [.scan, .publish 0, .scan, .publish 1, .process 1, .workerLock 1, .workerIncr 1,
          .workerUnlock 1, .scan, .publish 1, .process 1, .deliver 1, .process 0, .deliver 0,
          .scan, .workerExit 1, .workerExit 0, .mainWait, .mainClose, .mainJudge, .mainReturn]
        (demoTailer.started (demoEnv ["a", "bad", "b"]) 2) = some t2 ∧
      t1.delivered = ["a", "b"] ∧ t2.delivered = ["b", "a"] ∧
      Multiset.ofList t1.delivered = Multiset.ofList t2.delivered ∧
      t1.stats.ParseErrors = t2.stats.ParseErrors :=
  ⟨_, _, rfl, rfl, rfl, rfl,
    (c8_outcome_independent_of_workers demoTailer (demoEnv ["a", "bad", "b"]) 1 2
      (serialSchedule demoTailer (demoEnv ["a", "bad", "b"]) 1)
      [.scan, .publish 0, .scan, .publish 1, .process 1, .workerLock 1, .workerIncr 1,
          .workerUnlock 1, .scan, .publish 1, .process 1, .deliver 1, .process 0, .deliver 0,
          .scan, .workerExit 1, .workerExit 0, .mainWait, .mainClose, .mainJudge, .mainReturn]
      _ _ _ _ (by decide) (by decide) rfl rfl (by decide) rfl rfl (by decide)).1,
    (c8_outcome_independent_of_workers demoTailer (demoEnv ["a", "bad", "b"]) 1 2
      (serialSchedule demoTailer (demoEnv ["a", "bad", "b"]) 1)
      [.scan, .publish 0, .scan, .publish 1, .process 1, .workerLock 1, .workerIncr 1,
          .workerUnlock 1, .scan, .publish 1, .process 1, .deliver 1, .process 0, .deliver 0,
          .scan, .workerExit 1, .workerExit 0, .mainWait, .mainClose, .mainJudge, .mainReturn]
      _ _ _ _ (by decide) (by decide) rfl rfl (by decide) rfl rfl (by decide)).2.1⟩

/-! ## Errors that end a run early -/

/-- when obtaining the input fails, `Run` returns at once -/
theorem run_of_source_error (lt : Logtailer β σ) (env : Env) (numWorkers : ℕ)
    (sch : List Action) (e : GoError) (h : lt.getInput env = .error e) :
    lt.Run env numWorkers sch
      = some { stats := zeroStats, err := some e, calls := [], delivered := [] } := by
  unfold Logtailer.Run Logtailer.begin
  rw [h]
  rfl

/-- when `getInput` fails: never for standard input, else with the error of
the pipe or of the start of the logtail command -/
theorem getInput_error (lt : Logtailer β σ) (env : Env) (e : GoError)
    (h : lt.getInput env = .error e) :
    lt.LogFile ≠ "-" ∧
    ((∃ x, env.pipeErr = some x ∧ e = "error connecting to logtail stdout: " ++ x) ∨
     (env.pipeErr = none ∧ ∃ x, env.startErr = some x ∧ e = "error starting logtail cmd: " ++ x))
    := by
  unfold Logtailer.getInput at h
  split at h
  · cases h
  · refine ⟨‹_›, ?_⟩
    split at h
    · cases h; exact Or.inl ⟨_, ‹_›, rfl⟩
    · split at h
      · cases h; exact Or.inr ⟨‹_›, _, ‹_›, rfl⟩
      · cases h

/-- C9: if obtaining the input source fails with an error, `Run` returns,
whatever the schedule and the number of workers, that error together with a
Stats whose three counters are zero; no call of Init, ProcessRecord or
HandleOutput was made and nothing was delivered.  The error is the failure of
the stdout pipe or of the start of the logtail command. -/
theorem c9_source_error_aborts (lt : Logtailer β σ) (env : Env) (numWorkers : ℕ)
    (sch : List Action) (e : GoError) (h : lt.getInput env = .error e) :
    (∃ r, lt.Run env numWorkers sch = some r ∧ r.err = some e ∧
      r.stats.Records = 0 ∧ r.stats.ParseErrors = 0 ∧ r.stats.SendErrors = 0 ∧
      r.calls = [] ∧ r.delivered = []) ∧
    lt.LogFile ≠ "-" ∧
    ((∃ x, env.pipeErr = some x ∧ e = "error connecting to logtail stdout: " ++ x) ∨
     (env.pipeErr = none ∧ ∃ x, env.startErr = some x ∧ e = "error starting logtail cmd: " ++ x))
    :=
  ⟨⟨_, run_of_source_error lt env numWorkers sch e h, rfl, rfl, rfl, rfl, rfl, rfl⟩,
    getInput_error lt env e h⟩

/-- C9 witness: the logtail command cannot be started. -/
theorem c9_source_error_aborts_witness :
    ∃ r, fileTailer.Run { pipeErr := none, startErr := some "exec: not found", records := ["a"] }
        1 [.scan, .publish 0] = some r ∧
      r.err = some "error starting logtail cmd: exec: not found" ∧ r.calls = [] := by
  obtain ⟨r, hr, he, _, _, _, hc, _⟩ := (c9_source_error_aborts fileTailer
    { pipeErr := none, startErr := some "exec: not found", records := ["a"] } 1
    [.scan, .publish 0] "error starting logtail cmd: exec: not found" rfl).1
  exact ⟨r, hr, he, hc⟩

/-- the errors that do and do not end a run before the records are processed -/
theorem fatal_errors (lt : Logtailer β σ) (env : Env) (numWorkers : ℕ) (sch : List Action)
    (r : Returned β) (hsrc : lt.getInput env = .ok ())
    (hrun : lt.Run env numWorkers sch = some r) :
    (∀ e, lt.Profile.Init = some e →
      r.err = some e ∧ r.stats = zeroStats ∧ processedLines r.calls = [] ∧ r.delivered = []) ∧
    (lt.Profile.Init = none → 0 < numWorkers → Action.stop ∉ sch →
      r.stats.Records = env.records.length ∧ env.records.Perm (processedLines r.calls) ∧
      (successes lt env.records).Perm r.delivered ∧
      r.stats.ParseErrors = failures lt env.records) := by
  constructor
  · intro e he
    unfold Logtailer.Run Logtailer.begin at hrun
    rw [hsrc] at hrun
    simp only [he, Option.some.injEq] at hrun
    subst hrun
    exact ⟨rfl, rfl, rfl, rfl⟩
  · intro hinit hW hno
    obtain ⟨t, hex, hm, hst, hc, hd⟩ := run_of_started lt env numWorkers sch r hsrc hinit hrun
    rw [hst, hc, hd]
    exact complete_run lt env numWorkers sch t hW hex (by rw [hm]; simp) hno

/-- C10 (as amended): a source error and an error of the profile's Init are
both fatal: after an Init error `Run` returns that error at once, no record
transformed or delivered.  When the input source is obtained and Init
succeeds, no error of a transform or of a delivery makes `Run` return early:
whenever `Run` returns without a call of `Stop` (at least one worker), every
record of the input has been counted and passed to ProcessRecord, and every
successful result delivered, whatever ProcessRecord and the sink answered. -/
theorem c10_only_source_and_init_fatal (lt : Logtailer β σ) (env : Env) (numWorkers : ℕ)
    (sch : List Action) (r : Returned β) (hsrc : lt.getInput env = .ok ())
    (hrun : lt.Run env numWorkers sch = some r) :
    (∀ e, lt.Profile.Init = some e →
      r.err = some e ∧ r.stats = zeroStats ∧ processedLines r.calls = [] ∧ r.delivered = []) ∧
    (lt.Profile.Init = none → 0 < numWorkers → Action.stop ∉ sch →
      r.stats.Records = env.records.length ∧ env.records.Perm (processedLines r.calls) ∧
      (successes lt env.records).Perm r.delivered ∧
      r.stats.ParseErrors = failures lt env.records) :=
  fatal_errors lt env numWorkers sch r hsrc hrun

/-- C10 witness: the records a, bad, boom (a transform error and a delivery
error): `Run` returns only after all three were passed to ProcessRecord. -/
theorem c10_only_source_and_init_fatal_witness :
    ∃ r, demoTailer.Run (demoEnv ["a", "bad", "boom"]) 1
        (serialSchedule demoTailer (demoEnv ["a", "bad", "boom"]) 1) = some r ∧
      r.stats.Records = 3 ∧ processedLines r.calls = ["a", "bad", "boom"] := by
  obtain ⟨r, hr⟩ := serialSchedule_run demoTailer (demoEnv ["a", "bad", "boom"]) 1
    (by decide) rfl rfl
  have h := (c10_only_source_and_init_fatal demoTailer (demoEnv ["a", "bad", "boom"]) 1
    (serialSchedule demoTailer (demoEnv ["a", "bad", "boom"]) 1) r rfl hr).2 rfl (by decide)
    (stop_not_mem_serialSchedule _ _ _)
  refine ⟨r, hr, h.1, ?_⟩
  have hr2 : demoTailer.Run (demoEnv ["a", "bad", "boom"]) 1
        (serialSchedule demoTailer (demoEnv ["a", "bad", "boom"]) 1) = some _ := rfl
  rw [hr2] at hr
  cases hr
  rfl

/-- C10 counterexample: the input source is obtained (standard input) and
holds one record, but Init fails: `Run` returns the Init error with no record
scanned or passed to ProcessRecord. -/
theorem c10_counterexample :
    failingInitTailer.getInput (demoEnv ["a"]) = .ok () ∧
    ∃ r, failingInitTailer.Run (demoEnv ["a"]) 1
        (serialSchedule failingInitTailer (demoEnv ["a"]) 1) = some r ∧
      r.err = some "no key mapping" ∧ r.stats.Records = 0 ∧ processedLines r.calls = [] :=
  ⟨rfl, _, rfl, rfl, rfl, rfl⟩

end logtailer

namespace logtailer

variable {β σ : Type}

/-! ## Progress: a worker that holds a record can always finish with it -/

theorem step_complete (lt : Logtailer β σ) (a : Action) (s t : State β σ)
    (h : Step lt a s t) : step lt a s = some t := by
  cases h
  case stop h => simp [step, h]
  case scanToken line rest hs hi => simp [step, hs, hi]
  case scanEnd hs hi => simp [step, hs, hi]
  case publish i line hs hw => simp [step, hs, hw]
  case observeShutdown line hs hd => simp [step, hs, hd]
  case workerExit i hw hs =>
    cases hsc : s.scanner with
    | scanning => rw [hsc] at hs; cases hs
    | publishing l => rw [hsc] at hs; cases hs
    | finished => simp [step, hw, hsc]
    | stopped l => simp [step, hw, hsc]
  case processErr i line err hp hw => simp [step, hw, hp]
  case processOk i line record hp hw => simp [step, hw, hp]
  case workerLock i hw hl => simp [step, hw, hl]
  case workerIncr i hw => simp [step, hw]
  case workerUnlock i hw => simp [step, hw]
  case deliver i record hw hk ho => simp [step, hw, hk, ho]
  case sinkClose hk ho => simp [step, hk, ho]
  case collect err hk hc => simp [step, hk, hc]
  case collectLock err hc hl => simp [step, hc, hl]
  case collectIncr err hc => simp [step, hc]
  case collectUnlock err hc => simp [step, hc]
  case collectExit hc hk => simp [step, hc, hk]
  case mainWait hm hw => simp [step, hm, hw]
  case mainClose hm => simp [step, hm]
  case mainJudge hm => simp [step, hm]
  case mainReturn err hm => simp [step, hm]

theorem exec_cons_of_step (lt : Logtailer β σ) {a : Action} {rest : List Action}
    {s u t : State β σ} (h : Step lt a s u) (hr : exec lt rest u = some t) :
    exec lt (a :: rest) s = some t := by
  simp only [exec, step_complete lt a s u h, Option.bind]
  exact hr

theorem exec_single (lt : Logtailer β σ) {a : Action} {s u : State β σ} (h : Step lt a s u) :
    exec lt [a] s = some u :=
  exec_cons_of_step lt h rfl

theorem exec_trans (lt : Logtailer β σ) {a b : List Action} {s u t : State β σ}
    (h1 : exec lt a s = some u) (h2 : exec lt b u = some t) : exec lt (a ++ b) s = some t := by
  rw [exec_append, h1]
  exact h2

theorem flow_step (lt : Logtailer β σ) (a : Action) (s t : State β σ)
    (h : Step lt a s t) (inv : Flow s) : Flow t := by
  obtain ⟨hmx, hout, hsk, hce⟩ := inv
  cases h
  case stop => exact ⟨hmx, hout, hsk, hce⟩
  case scanToken => exact ⟨hmx, hout, hsk, hce⟩
  case scanEnd => exact ⟨hmx, hout, hsk, hce⟩
  case observeShutdown => exact ⟨hmx, hout, hsk, hce⟩
  case publish i line hs hw =>
    refine ⟨?_, hout, hsk, hce⟩
    have e := sum_map_set WorkerPc.holdsLock s.workers i (.processing line) _ hw
    simp only [WorkerPc.holdsLock] at e ⊢
    omega
  case workerExit i hw hs =>
    refine ⟨?_, hout, hsk, hce⟩
    have e := sum_map_set WorkerPc.holdsLock s.workers i .exited _ hw
    simp only [WorkerPc.holdsLock] at e ⊢
    omega
  case processErr i line err hp hw =>
    refine ⟨?_, hout, hsk, hce⟩
    have e := sum_map_set WorkerPc.holdsLock s.workers i .locking _ hw
    simp only [WorkerPc.holdsLock] at e ⊢
    omega
  case processOk i line record hp hw =>
    refine ⟨?_, hout, hsk, hce⟩
    have e := sum_map_set WorkerPc.holdsLock s.workers i (.sending record) _ hw
    simp only [WorkerPc.holdsLock] at e ⊢
    omega
  case workerLock i hw hl =>
    refine ⟨?_, hout, hsk, hce⟩
    have e := sum_map_set WorkerPc.holdsLock s.workers i .incrementing _ hw
    rw [hl] at hmx
    simp only [WorkerPc.holdsLock, Bool.false_eq_true, if_false, if_true] at e hmx ⊢
    omega
  case workerIncr i hw =>
    refine ⟨?_, hout, hsk, hce⟩
    have e := sum_map_set WorkerPc.holdsLock s.workers i .unlocking _ hw
    simp only [WorkerPc.holdsLock] at e ⊢
    omega
  case workerUnlock i hw =>
    refine ⟨?_, hout, hsk, hce⟩
    have e := sum_map_set WorkerPc.holdsLock s.workers i .receiving _ hw
    simp only [WorkerPc.holdsLock, Bool.false_eq_true, if_false] at e ⊢
    split at hmx <;> omega
  case deliver i record hw hk ho =>
    refine ⟨?_, hout, ?_, ?_⟩
    · have e := sum_map_set WorkerPc.holdsLock s.workers i .receiving _ hw
      simp only [WorkerPc.holdsLock] at e ⊢
      omega
    · intro hc
      exfalso
      revert hc
      show (match (lt.Profile.HandleOutput lt.DryRun s.sinkState record).2 with
        | some err => SinkPc.sendingErr err
        | none => SinkPc.ranging) = SinkPc.closed → False
      cases (lt.Profile.HandleOutput lt.DryRun s.sinkState record).2 <;> simp
    · intro hc
      have := hce hc
      rw [hk] at this
      cases this
  case sinkClose hk ho => exact ⟨hmx, hout, fun _ => ho, fun _ => rfl⟩
  case collect err hk hc =>
    refine ⟨?_, hout, fun h => (by cases h), fun h => (by cases h)⟩
    rw [hc] at hmx
    simpa only [CollectorPc.holdsLock] using hmx
  case collectLock err hc hl =>
    refine ⟨?_, hout, hsk, fun h => (by cases h)⟩
    rw [hc, hl] at hmx
    simp only [CollectorPc.holdsLock, Bool.false_eq_true, if_false, if_true] at hmx ⊢
    omega
  case collectIncr err hc =>
    refine ⟨?_, hout, hsk, fun h => (by cases h)⟩
    rw [hc] at hmx
    simpa only [CollectorPc.holdsLock] using hmx
  case collectUnlock err hc =>
    refine ⟨?_, hout, hsk, fun h => (by cases h)⟩
    rw [hc] at hmx
    simp only [CollectorPc.holdsLock, Bool.false_eq_true, if_false] at hmx ⊢
    split at hmx <;> omega
  case collectExit hc hk =>
    refine ⟨?_, hout, hsk, fun _ => hk⟩
    rw [hc] at hmx
    simpa only [CollectorPc.holdsLock] using hmx
  case mainWait hm hw => exact ⟨hmx, fun _ => (by simp), hsk, hce⟩
  case mainClose hm => exact ⟨hmx, fun _ => (by simp), fun _ => rfl, hce⟩
  case mainJudge hm => exact ⟨hmx, fun _ => (by simp), hsk, hce⟩
  case mainReturn err hm => exact ⟨hmx, fun _ => (by simp), hsk, hce⟩

theorem flow_started (lt : Logtailer β σ) (env : Env) (numWorkers : ℕ) :
    Flow (lt.started env numWorkers) := by
  refine ⟨?_, ?_, ?_, ?_⟩
  · have : (List.map WorkerPc.holdsLock
        (List.replicate numWorkers (WorkerPc.receiving : WorkerPc β))).sum = 0 :=
      sum_map_eq_zero _ _ (fun w hw => by rw [List.eq_of_mem_replicate hw]; rfl)
    simp only [Logtailer.started, this, CollectorPc.holdsLock, Bool.false_eq_true, if_false]
  · intro h; cases h
  · intro h; cases h
  · intro h; cases h

theorem Reachable.flow {lt : Logtailer β σ} {env : Env} {numWorkers : ℕ} {s : State β σ}
    (h : Reachable lt env numWorkers s) : Flow s := by
  obtain ⟨sch, hex⟩ := h
  exact exec_induction lt Flow (flow_step lt) sch _ s hex (flow_started lt env numWorkers)

theorem Reachable.acct {lt : Logtailer β σ} {env : Env} {numWorkers : ℕ} {s : State β σ}
    (h : Reachable lt env numWorkers s) : Acct lt env.records s := by
  obtain ⟨sch, hex⟩ := h
  exact acct_exec lt env numWorkers sch s hex

theorem Reachable.exec {lt : Logtailer β σ} {env : Env} {numWorkers : ℕ} {s t : State β σ}
    (h : Reachable lt env numWorkers s) (sch : List Action) (hex : exec lt sch s = some t) :
    Reachable lt env numWorkers t := by
  obtain ⟨sch0, h0⟩ := h
  exact ⟨sch0 ++ sch, exec_trans lt h0 hex⟩

theorem flow_exec (lt : Logtailer β σ) (sch : List Action) (s t : State β σ)
    (hex : exec lt sch s = some t) (hf : Flow s) : Flow t :=
  exec_induction lt Flow (flow_step lt) sch s t hex hf

theorem exists_holder (l : List (WorkerPc β)) (h : 1 ≤ (l.map WorkerPc.holdsLock).sum) :
    ∃ j : ℕ, l[j]? = some WorkerPc.incrementing ∨ l[j]? = some WorkerPc.unlocking := by
  induction l with
  | nil => simp at h
  | cons a rest ih =>
    cases a with
    | incrementing => exact ⟨0, Or.inl (by simp)⟩
    | unlocking => exact ⟨0, Or.inr (by simp)⟩
    | receiving =>
      obtain ⟨j, hj⟩ := ih (by simpa [WorkerPc.holdsLock] using h)
      exact ⟨j + 1, by simpa using hj⟩
    | processing line =>
      obtain ⟨j, hj⟩ := ih (by simpa [WorkerPc.holdsLock] using h)
      exact ⟨j + 1, by simpa using hj⟩
    | locking =>
      obtain ⟨j, hj⟩ := ih (by simpa [WorkerPc.holdsLock] using h)
      exact ⟨j + 1, by simpa using hj⟩
    | sending record =>
      obtain ⟨j, hj⟩ := ih (by simpa [WorkerPc.holdsLock] using h)
      exact ⟨j + 1, by simpa using hj⟩
    | exited =>
      obtain ⟨j, hj⟩ := ih (by simpa [WorkerPc.holdsLock] using h)
      exact ⟨j + 1, by simpa using hj⟩

/-- whoever holds the Stats lock can release it, without a step of worker `i` -/
theorem free_lock (lt : Logtailer β σ) (s : State β σ) (hf : Flow s) (i : ℕ) (w : WorkerPc β)
    (hw : s.workers[i]? = some w) (hnh : w.holdsLock = 0) :
    ∃ sch t, exec lt sch s = some t ∧ Action.publish i ∉ sch ∧ t.workers[i]? = some w ∧
      t.stats.locked = false ∧ t.sink = s.sink ∧ t.outputClosed = s.outputClosed ∧
      t.main = s.main ∧ (t.collector = s.collector ∨ t.collector = .ranging) := by
  cases hl : s.stats.locked with
  | false => exact ⟨[], s, rfl, by simp, hw, hl, rfl, rfl, rfl, Or.inl rfl⟩
  | true =>
    have hmx := hf.mutex
    rw [hl] at hmx
    simp only [if_true] at hmx
    have worker_case : 1 ≤ (s.workers.map WorkerPc.holdsLock).sum →
        ∃ sch t, exec lt sch s = some t ∧ Action.publish i ∉ sch ∧ t.workers[i]? = some w ∧
          t.stats.locked = false ∧ t.sink = s.sink ∧ t.outputClosed = s.outputClosed ∧
          t.main = s.main ∧ (t.collector = s.collector ∨ t.collector = .ranging) := by
      intro hsum
      obtain ⟨j, hj⟩ := exists_holder s.workers hsum
      have hji : j ≠ i := by
        intro e
        subst e
        rcases hj with hj | hj <;> rw [hw] at hj <;> cases hj <;> simp [WorkerPc.holdsLock] at hnh
      rcases hj with hj | hj
      · refine ⟨[.workerIncr j, .workerUnlock j], _,
          exec_cons_of_step lt (Step.workerIncr s j hj)
            (exec_cons_of_step lt (Step.workerUnlock _ j
              (getElem?_set_self_of_some (x := WorkerPc.unlocking) hj)) rfl),
          by simp, ?_, rfl, rfl, rfl, rfl, Or.inl rfl⟩
        show ((s.workers.set j .unlocking).set j .receiving)[i]? = some w
        rw [getElem?_set_of_ne hji, getElem?_set_of_ne hji, hw]
      · refine ⟨[.workerUnlock j], _,
          exec_cons_of_step lt (Step.workerUnlock s j hj) rfl,
          by simp, ?_, rfl, rfl, rfl, rfl, Or.inl rfl⟩
        show (s.workers.set j .receiving)[i]? = some w
        rw [getElem?_set_of_ne hji, hw]
    cases hc : s.collector with
    | incrementing e =>
      exact ⟨[.collectIncr, .collectUnlock], _,
        exec_cons_of_step lt (Step.collectIncr s e hc)
          (exec_cons_of_step lt (Step.collectUnlock _ e rfl) rfl),
        by simp, hw, rfl, rfl, rfl, rfl, Or.inr rfl⟩
    | unlocking e =>
      exact ⟨[.collectUnlock], _,
        exec_cons_of_step lt (Step.collectUnlock s e hc) rfl,
        by simp, hw, rfl, rfl, rfl, rfl, Or.inr rfl⟩
    | ranging =>
      rw [hc] at hmx
      have := worker_case (by simp only [CollectorPc.holdsLock] at hmx; omega)
      simpa only [hc] using this
    | locking e =>
      rw [hc] at hmx
      have := worker_case (by simp only [CollectorPc.holdsLock] at hmx; omega)
      simpa only [hc] using this
    | exited =>
      rw [hc] at hmx
      have := worker_case (by simp only [CollectorPc.holdsLock] at hmx; omega)
      simpa only [hc] using this

/-- a collector that has not returned can be brought back to its receive -/
theorem collector_ready (lt : Logtailer β σ) (s : State β σ) (hf : Flow s) (i : ℕ)
    (w : WorkerPc β) (hw : s.workers[i]? = some w) (hnh : w.holdsLock = 0)
    (hce : s.collector ≠ .exited) :
    ∃ sch t, exec lt sch s = some t ∧ Action.publish i ∉ sch ∧ t.workers[i]? = some w ∧
      t.collector = .ranging ∧ t.sink = s.sink ∧ t.outputClosed = s.outputClosed ∧
      t.main = s.main := by
  obtain ⟨sch1, t1, hex1, hnp1, hw1, hl1, hk1, ho1, hm1, hc1⟩ := free_lock lt s hf i w hw hnh
  have hf1 := flow_exec lt sch1 s t1 hex1 hf
  have hmx := hf1.mutex
  rw [hl1] at hmx
  simp only [Bool.false_eq_true, if_false] at hmx
  cases hc : t1.collector with
  | ranging => exact ⟨sch1, t1, hex1, hnp1, hw1, hc, hk1, ho1, hm1⟩
  | locking e =>
    have hex2 := exec_trans lt hex1 (exec_cons_of_step lt (Step.collectLock t1 e hc hl1)
        (exec_cons_of_step lt (Step.collectIncr _ e rfl)
          (exec_single lt (Step.collectUnlock _ e rfl))))
    exact ⟨_, _, hex2, by simp [hnp1], hw1, rfl, hk1, ho1, hm1⟩
  | incrementing e => rw [hc] at hmx; simp [CollectorPc.holdsLock] at hmx
  | unlocking e => rw [hc] at hmx; simp [CollectorPc.holdsLock] at hmx
  | exited =>
    rcases hc1 with h | h
    · exact absurd (h.symm.trans hc) hce
    · rw [hc] at h; cases h

/-- the sink can be brought to its receive while a worker is still running -/
theorem sink_ready (lt : Logtailer β σ) (s : State β σ) (hf : Flow s)
    (hwaited : s.main ≠ .waiting → ∀ w ∈ s.workers, w = .exited) (i : ℕ)
    (w : WorkerPc β) (hw : s.workers[i]? = some w) (hnh : w.holdsLock = 0)
    (hne : w ≠ .exited) :
    ∃ sch t, exec lt sch s = some t ∧ Action.publish i ∉ sch ∧ t.workers[i]? = some w ∧
      t.sink = .ranging ∧ t.outputClosed = false := by
  have ho : s.outputClosed = false := by
    cases h : s.outputClosed with
    | false => rfl
    | true => exact absurd (hwaited (hf.output h) w (mem_of_getElem? hw)) hne
  cases hk : s.sink with
  | ranging => exact ⟨[], s, rfl, by simp, hw, hk, ho⟩
  | closed =>
    have := hf.sinkClosed hk
    rw [ho] at this
    cases this
  | sendingErr e =>
    have hce : s.collector ≠ .exited := by
      intro h
      have := hf.collectorExited h
      rw [hk] at this
      cases this
    obtain ⟨sch1, t1, hex1, hnp1, hw1, hc1, hk1, ho1, _⟩ :=
      collector_ready lt s hf i w hw hnh hce
    have hex2 := exec_trans lt hex1
      (exec_single lt (Step.collect t1 e (hk1.trans hk) hc1))
    exact ⟨_, _, hex2, by simp [hnp1], hw1, rfl, ho1.trans ho⟩

/-- from every reachable state in which worker `i` holds a dequeued record
there is a continuation, without another record for worker `i`, that takes the
worker back to its receive -/
theorem worker_progress (lt : Logtailer β σ) (env : Env) (numWorkers : ℕ) (s : State β σ)
    (hr : Reachable lt env numWorkers s) (i : ℕ) (line : String)
    (hw : s.workers[i]? = some (.processing line)) :
    ∃ sch t, exec lt sch s = some t ∧ Action.publish i ∉ sch ∧
      t.workers[i]? = some .receiving := by
  cases hp : lt.Profile.ProcessRecord line with
  | error e =>
    have st := Step.processErr s i line e hw hp
    have hex0 := exec_single lt st
    have hr1 := hr.exec _ hex0
    obtain ⟨sch1, t1, hex1, hnp1, hw1, hl1, _, _, _, _⟩ := free_lock lt _ hr1.flow i .locking
      (getElem?_set_self_of_some hw) rfl
    have hex2 := exec_trans lt (exec_trans lt hex0 hex1)
        (exec_cons_of_step lt (Step.workerLock t1 i hw1 hl1)
          (exec_cons_of_step lt (Step.workerIncr _ i (getElem?_set_self_of_some hw1))
            (exec_single lt (Step.workerUnlock _ i
              (getElem?_set_self_of_some (getElem?_set_self_of_some hw1))))))
    exact ⟨_, _, hex2, by simp [hnp1],
      getElem?_set_self_of_some (getElem?_set_self_of_some (getElem?_set_self_of_some hw1))⟩
  | ok v =>
    have st := Step.processOk s i line v hw hp
    have hex0 := exec_single lt st
    have hr1 := hr.exec _ hex0
    obtain ⟨sch1, t1, hex1, hnp1, hw1, hk1, ho1⟩ := sink_ready lt _ hr1.flow hr1.acct.waited i
      (.sending v) (getElem?_set_self_of_some hw) rfl (by simp)
    have hex2 := exec_trans lt (exec_trans lt hex0 hex1)
        (exec_single lt (Step.deliver t1 i v hw1 hk1 ho1))
    exact ⟨_, _, hex2, by simp [hnp1], getElem?_set_self_of_some hw1⟩

end logtailer

namespace logtailer

variable {β σ : Type}

/-! ## C6 -/

/-- C6: for every record a worker dequeues exactly one of two outcomes occurs.
From every reachable state in which worker `i` holds a dequeued record the
worker can be taken back to its receive (never neither).  In every
interleaving with the other goroutines, a worker that dequeued a record and is
back at its receive has, if the transform succeeded, handed exactly the
transform's value to the sink and made no increment of ParseErrors, and, if the
transform failed, made exactly one increment and handed nothing to the sink
(never both).  Each increment adds exactly one to ParseErrors and each
hand-over appends exactly the value held to the delivered records, and no
other step of any goroutine changes either. -/
theorem c6_one_outcome_per_record (lt : Logtailer β σ) (i : ℕ) (line : String)
    (sch : List Action) (s t : State β σ) (hw : s.workers[i]? = some (.processing line))
    (hex : exec lt sch s = some t) (hnp : Action.publish i ∉ sch)
    (hback : t.workers[i]? = some .receiving) :
    (∀ env numWorkers, Reachable lt env numWorkers s →
      ∃ sch2 t2, exec lt sch2 s = some t2 ∧ Action.publish i ∉ sch2 ∧
        t2.workers[i]? = some .receiving) ∧
    ((∀ v, lt.Profile.ProcessRecord line = .ok v →
      deliveredBy lt i sch s = [v] ∧ sch.count (.workerIncr i) = 0) ∧
    (∀ e, lt.Profile.ProcessRecord line = .error e →
      deliveredBy lt i sch s = [] ∧ sch.count (.workerIncr i) = 1)) ∧
    (∀ a u u2, step lt a u = some u2 →
      ((∀ j, a ≠ .workerIncr j) → u2.stats.ParseErrors = u.stats.ParseErrors) ∧
      (∀ j, a = .workerIncr j →
        u2.stats.ParseErrors = u.stats.ParseErrors + 1 ∧ u2.delivered = u.delivered) ∧
      ((∀ j, a ≠ .deliver j) → u2.delivered = u.delivered) ∧
      (∀ j, a = .deliver j → ∃ v, u.workers[j]? = some (.sending v) ∧
        u2.delivered = u.delivered ++ [v] ∧ u2.stats.ParseErrors = u.stats.ParseErrors)) := by
  refine ⟨fun env numWorkers hr => worker_progress lt env numWorkers s hr i line hw,
    one_outcome lt i line sch s t hw hex hnp hback, ?_⟩
  intro a u u2 hst
  have hs := step_sound lt a u u2 hst
  exact ⟨(parseErrors_step lt a u u2 hs).1, (parseErrors_step lt a u u2 hs).2,
    (delivered_step lt a u u2 hs).1, (delivered_step lt a u u2 hs).2⟩

/-- C6 witness: two workers, the records bad and a.  Worker 1 dequeues the
malformed record; while worker 0 takes the good record through, worker 1
makes one increment and delivers nothing. -/
theorem c6_one_outcome_per_record_witness :
    exec demoTailer [.scan, .publish 1] (demoTailer.started (demoEnv ["bad", "a"]) 2)
        = some heldBadState ∧
      deliveredBy demoTailer 1
        [.process 1, .scan, .publish 0, .process 0, .workerLock 1, .deliver 0, .workerIncr 1,
          .workerUnlock 1] heldBadState = [] ∧
      List.count (Action.workerIncr 1)
        [.process 1, .scan, .publish 0, .process 0, .workerLock 1, .deliver 0, .workerIncr 1,
          .workerUnlock 1] = 1 :=
  ⟨rfl, (c6_one_outcome_per_record demoTailer 1 "bad"
      [.process 1, .scan, .publish 0, .process 0, .workerLock 1, .deliver 0, .workerIncr 1,
        .workerUnlock 1] heldBadState _ rfl rfl (by decide) rfl).2.1.2 "malformed" rfl⟩

end logtailer

namespace logtailer

/-! ## Decimal numerals and `Stats.String` -/

theorem digitValue_digitChar (d : ℕ) (h : d < 10) : digitValue (Nat.digitChar d) = d := by
  interval_cases d <;> rfl

theorem toDigitsCore_eq (fuel n : ℕ) (ds : List Char) (h : n < fuel) :
    Nat.toDigitsCore 10 fuel n ds
      = (if n = 0 then ['0'] else (Nat.digits 10 n).reverse.map Nat.digitChar) ++ ds := by
  induction fuel generalizing n ds with
  | zero => omega
  | succ f ih =>
    simp only [Nat.toDigitsCore]
    by_cases h0 : n / 10 = 0
    · rw [if_pos h0]
      have hlt : n < 10 := by omega
      by_cases hn : n = 0
      · subst hn; simp; rfl
      · rw [if_neg hn, Nat.digits_of_lt 10 n hn hlt, Nat.mod_eq_of_lt hlt]
        simp
    · rw [if_neg h0]
      have hn : n ≠ 0 := by rintro rfl; simp at h0
      have hlt : n / 10 < f := by omega
      rw [ih (n / 10) _ hlt, if_neg h0, if_neg hn]
      have hd : Nat.digits 10 n = (n % 10) :: Nat.digits 10 (n / 10) := by
        rw [Nat.digits_def' (by norm_num) (Nat.pos_of_ne_zero hn)]
      rw [hd]
      simp

theorem toDigits_eq (n : ℕ) :
    Nat.toDigits 10 n
      = if n = 0 then ['0'] else (Nat.digits 10 n).reverse.map Nat.digitChar := by
  unfold Nat.toDigits
  rw [toDigitsCore_eq (n + 1) n [] (by omega)]
  simp

theorem decimalValue_append_digit (cs : List Char) (c : Char) :
    decimalValue (cs ++ [c]) = decimalValue cs * 10 + digitValue c := by
  simp [decimalValue, List.foldl_append]

theorem decimalValue_digits (l : List ℕ) (h : ∀ d ∈ l, d < 10) :
    decimalValue (l.reverse.map Nat.digitChar) = Nat.ofDigits 10 l := by
  induction l with
  | nil => rfl
  | cons d t ih =>
    rw [List.reverse_cons, List.map_append, List.map_singleton, decimalValue_append_digit,
      ih (fun x hx => h x (List.mem_cons_of_mem _ hx)),
      digitValue_digitChar d (h d (List.mem_cons_self _ _)), Nat.ofDigits_cons]
    ring

theorem decimalValue_toDigits (n : ℕ) : decimalValue (Nat.toDigits 10 n) = n := by
  rw [toDigits_eq]
  by_cases hn : n = 0
  · subst hn; rfl
  · rw [if_neg hn, decimalValue_digits _ (fun d hd => Nat.digits_lt_base (by norm_num) hd),
      Nat.ofDigits_digits]

/-- no decimal digit is the minus sign -/
theorem toDigits_head_ne_minus (n : ℕ) : ∀ cs, Nat.toDigits 10 n ≠ '-' :: cs := by
  intro cs h
  have hv := toDigits_eq n
  rw [h] at hv
  by_cases hn : n = 0
  · rw [if_pos hn] at hv; simp at hv
  · rw [if_neg hn] at hv
    have hmem : '-' ∈ (Nat.digits 10 n).reverse.map Nat.digitChar := by rw [← hv]; simp
    rw [List.mem_map] at hmem
    obtain ⟨d, hd, hc⟩ := hmem
    have hlt : d < 10 := Nat.digits_lt_base (by norm_num) (List.mem_reverse.mp hd)
    interval_cases d <;> simp [Nat.digitChar] at hc

/-- the numeral `Itoa n` denotes `n` -/
theorem numeralValue_Itoa (n : Int) : numeralValue (Itoa n) = n := by
  cases n with
  | ofNat m =>
    simp only [Itoa, numeralValue]
    split
    · rename_i cs h
      exact absurd h (toDigits_head_ne_minus m _)
    · rw [decimalValue_toDigits]; rfl
  | negSucc m =>
    simp only [Itoa, numeralValue]
    rw [decimalValue_toDigits]
    rfl

theorem Itoa_injective : Function.Injective Itoa := by
  intro a b h
  rw [← numeralValue_Itoa a, ← numeralValue_Itoa b, h]


theorem stats_String_eq (s : Stats) :
    s.String = "\x7b\"Records\":" ++ Itoa s.Records ++ ",\"ParseErrors\":" ++ Itoa s.ParseErrors
      ++ ",\"SendErrors\":" ++ Itoa s.SendErrors ++ "\x7d" := by
  have e1 : "\x7b\"Records\":" = "\x7b" ++ ("\"" ++ ("Records" ++ "\":")) := by decide
  have e2 : ",\"ParseErrors\":" = "," ++ ("\"" ++ ("ParseErrors" ++ "\":")) := by decide
  have e3 : ",\"SendErrors\":" = "," ++ ("\"" ++ ("SendErrors" ++ "\":")) := by decide
  rw [e1, e2, e3]
  simp only [Stats.String, jsonObject, jsonMember, String.intercalate, String.intercalate.go,
    String.append_assoc]

/-- C11: for every Stats value, String() is the JSON object with exactly the
three members Records, ParseErrors, SendErrors, in that order and nothing
else; the value of each member is the decimal numeral of the counter (the
numeral denotes the counter); Stats that differ only in the state of the lock
give the same string, so the lock contributes nothing; the zero Stats gives
the string of the example test; equal Stats give equal strings. -/
theorem c11_stats_string (s : Stats) :
    s.String = "\x7b\"Records\":" ++ Itoa s.Records ++ ",\"ParseErrors\":" ++ Itoa s.ParseErrors
      ++ ",\"SendErrors\":" ++ Itoa s.SendErrors ++ "\x7d" ∧
    numeralValue (Itoa s.Records) = s.Records ∧
    numeralValue (Itoa s.ParseErrors) = s.ParseErrors ∧
    numeralValue (Itoa s.SendErrors) = s.SendErrors ∧
    Stats.String { s with locked := true } = Stats.String { s with locked := false } ∧
    Stats.String { Records := 0, ParseErrors := 0, SendErrors := 0 }
      = "\x7b\"Records\":0,\"ParseErrors\":0,\"SendErrors\":0\x7d" ∧
    (∀ s2 : Stats, s = s2 → s.String = s2.String) :=
  ⟨stats_String_eq s, numeralValue_Itoa _, numeralValue_Itoa _, numeralValue_Itoa _, rfl,
    by decide, fun _ h => by rw [h]⟩

end logtailer

namespace logtailer

/-- C11 witness: the Stats with 12 records and 3 parse errors, its lock
held. -/
theorem c11_stats_string_witness :
    Stats.String (Stats.mk 12 3 0 true)
      = "\x7b\"Records\":12,\"ParseErrors\":3,\"SendErrors\":0\x7d" ∧
    numeralValue (Itoa 12) = 12 ∧
    (Stats.mk 12 3 0 true).String = (Stats.mk 12 3 0 true).String :=
  ⟨((c11_stats_string (Stats.mk 12 3 0 true)).1).trans (by decide),
    (c11_stats_string (Stats.mk 12 3 0 true)).2.1,
    (c11_stats_string (Stats.mk 12 3 0 true)).2.2.2.2.2.2 _ rfl⟩

end logtailer

namespace logtailer

variable {β σ : Type}

/-! ## The counters along a run -/

theorem sinkTrace_append (lt : Logtailer β σ) (delivered : List β) (record : β) :
    sinkTrace lt (delivered ++ [record]) = sinkStep lt (sinkTrace lt delivered) record := by
  simp [sinkTrace, List.foldl_append]

theorem sinkTrace_le_length (lt : Logtailer β σ) (delivered : List β) :
    (sinkTrace lt delivered).2 ≤ delivered.length := by
  induction delivered using List.reverseRecOn with
  | nil => simp [sinkTrace]
  | append_singleton l v ih =>
    rw [sinkTrace_append, List.length_append, List.length_singleton]
    simp only [sinkStep]
    split <;> omega

theorem sendAcct_step (lt : Logtailer β σ) (a : Action) (s t : State β σ)
    (h : Step lt a s t) (inv : SendAcct lt s) : SendAcct lt t := by
  obtain ⟨hst, hc, hn⟩ := inv
  cases h
  case scanToken line rest hs hi => exact ⟨hst, hc, ⟨by show 0 ≤ s.stats.Records + 1; omega, hn.2⟩⟩
  case workerIncr i hw =>
    exact ⟨hst, hc, ⟨hn.1, by show 0 ≤ s.stats.ParseErrors + 1; omega, hn.2.2⟩⟩
  case deliver i record hw hk ho =>
    refine ⟨?_, ?_, hn⟩
    · show (lt.Profile.HandleOutput lt.DryRun s.sinkState record).1
        = (sinkTrace lt (s.delivered ++ [record])).1
      rw [sinkTrace_append, sinkStep, ← hst]
    · show ((sinkTrace lt (s.delivered ++ [record])).2 : Int)
        = s.stats.SendErrors + s.collector.uncounted
          + (SinkPc.pending (match (lt.Profile.HandleOutput lt.DryRun s.sinkState record).2 with
              | some err => SinkPc.sendingErr err
              | none => SinkPc.ranging))
      rw [sinkTrace_append, sinkStep, ← hst]
      rw [hk] at hc
      simp only [SinkPc.pending] at hc
      cases (lt.Profile.HandleOutput lt.DryRun s.sinkState record).2 with
      | none => simp [SinkPc.pending]; omega
      | some e => simp [SinkPc.pending]; omega
  case sinkClose hk ho =>
    refine ⟨hst, ?_, hn⟩
    rw [hk] at hc
    simpa only [SinkPc.pending] using hc
  case collect err hk hc2 =>
    refine ⟨hst, ?_, hn⟩
    rw [hk, hc2] at hc
    simp only [SinkPc.pending, CollectorPc.uncounted] at hc ⊢
    omega
  case collectLock err hc2 hl =>
    refine ⟨hst, ?_, hn⟩
    rw [hc2] at hc
    simpa only [CollectorPc.uncounted] using hc
  case collectIncr err hc2 =>
    refine ⟨hst, ?_, ⟨hn.1, hn.2.1, by show 0 ≤ s.stats.SendErrors + 1; omega⟩⟩
    rw [hc2] at hc
    simp only [CollectorPc.uncounted] at hc ⊢
    show _ = s.stats.SendErrors + 1 + _ + _
    push_cast at hc ⊢
    omega
  case collectUnlock err hc2 =>
    refine ⟨hst, ?_, hn⟩
    rw [hc2] at hc
    simpa only [CollectorPc.uncounted] using hc
  case collectExit hc2 hk =>
    refine ⟨hst, ?_, hn⟩
    rw [hc2] at hc
    simpa only [CollectorPc.uncounted] using hc
  all_goals exact ⟨hst, hc, hn⟩

theorem sendAcct_started (lt : Logtailer β σ) (env : Env) (numWorkers : ℕ) :
    SendAcct lt (lt.started env numWorkers) :=
  ⟨rfl, by simp [Logtailer.started, sinkTrace, CollectorPc.uncounted, SinkPc.pending],
    by simp [Logtailer.started]⟩

theorem Reachable.sendAcct {lt : Logtailer β σ} {env : Env} {numWorkers : ℕ} {s : State β σ}
    (h : Reachable lt env numWorkers s) : SendAcct lt s := by
  obtain ⟨sch, hex⟩ := h
  exact exec_induction lt (SendAcct lt) (sendAcct_step lt) sch _ s hex
    (sendAcct_started lt env numWorkers)

end logtailer

namespace logtailer

variable {β σ : Type}

/-- every step leaves each counter as it is or adds one to it -/
theorem counters_step (lt : Logtailer β σ) (a : Action) (s t : State β σ) (h : Step lt a s t) :
    (t.stats.Records = s.stats.Records ∨ t.stats.Records = s.stats.Records + 1) ∧
    (t.stats.ParseErrors = s.stats.ParseErrors ∨ t.stats.ParseErrors = s.stats.ParseErrors + 1) ∧
    (t.stats.SendErrors = s.stats.SendErrors ∨ t.stats.SendErrors = s.stats.SendErrors + 1) := by
  cases h <;> simp

theorem counters_exec (lt : Logtailer β σ) (sch : List Action) (s t : State β σ)
    (h : exec lt sch s = some t) :
    s.stats.Records ≤ t.stats.Records ∧ s.stats.ParseErrors ≤ t.stats.ParseErrors ∧
      s.stats.SendErrors ≤ t.stats.SendErrors := by
  refine exec_induction lt
    (fun u => s.stats.Records ≤ u.stats.Records ∧ s.stats.ParseErrors ≤ u.stats.ParseErrors ∧
      s.stats.SendErrors ≤ u.stats.SendErrors) ?_ sch s t h ⟨le_refl _, le_refl _, le_refl _⟩
  intro a u v hst hu
  have hc := counters_step lt a u v hst
  omega

/-- the counters of a reachable state: none is negative, and the two error
counters together do not exceed Records, which does not exceed the number of
records of the input -/
theorem counters_bounds {lt : Logtailer β σ} {env : Env} {numWorkers : ℕ} {s : State β σ}
    (h : Reachable lt env numWorkers s) :
    (0 ≤ s.stats.Records ∧ 0 ≤ s.stats.ParseErrors ∧ 0 ≤ s.stats.SendErrors) ∧
    s.stats.ParseErrors + s.stats.SendErrors ≤ s.stats.Records ∧
    s.stats.Records ≤ env.records.length := by
  have ha := h.acct
  have hs := h.sendAcct
  obtain ⟨pre, hpre, hrec, hcount⟩ := ha.scanned
  have h1 := hcount (fun _ => true)
  have h2 := ha.vals (fun _ => true)
  have h3 := ha.errs
  have h4 := hs.count
  have h5 := sinkTrace_le_length lt s.delivered
  have h6 := successes_length_add_failures lt (processedLines s.calls)
  have h7 : env.records.length = pre.length + s.input.length := by
    rw [hpre, List.length_append]
  simp only [List.countP_true] at h1 h2
  refine ⟨hs.nonneg, ?_, ?_⟩
  · rw [hrec]
    omega
  · rw [hrec, h7]
    omega

end logtailer

namespace logtailer

variable {β σ : Type}

/-! ## C12 -/

/-- C12: within a run each of the counters Records, ParseErrors and SendErrors
is non-decreasing.  Every step of every goroutine (scanner, worker, sink,
collector, the body of `Run`, a call of `Stop`) leaves each counter unchanged
or adds exactly one to it, so along every schedule no counter decreases or is
reset.  In every reachable state the counters are non-negative and at most the
number of records of the input (so the Go `int` does not wrap around for an
input of fewer than 2^63 records). -/
theorem c12_counters_monotone (lt : Logtailer β σ) (a : Action) (s t : State β σ)
    (hst : step lt a s = some t) :
    ((t.stats.Records = s.stats.Records ∨ t.stats.Records = s.stats.Records + 1) ∧
      (t.stats.ParseErrors = s.stats.ParseErrors ∨
        t.stats.ParseErrors = s.stats.ParseErrors + 1) ∧
      (t.stats.SendErrors = s.stats.SendErrors ∨
        t.stats.SendErrors = s.stats.SendErrors + 1)) ∧
    (∀ sch u, exec lt sch s = some u →
      s.stats.Records ≤ u.stats.Records ∧ s.stats.ParseErrors ≤ u.stats.ParseErrors ∧
        s.stats.SendErrors ≤ u.stats.SendErrors) ∧
    (∀ env numWorkers, Reachable lt env numWorkers s →
      (0 ≤ s.stats.Records ∧ 0 ≤ s.stats.ParseErrors ∧ 0 ≤ s.stats.SendErrors) ∧
      s.stats.ParseErrors + s.stats.SendErrors ≤ s.stats.Records ∧
      s.stats.Records ≤ env.records.length) :=
  ⟨counters_step lt a s t (step_sound lt a s t hst), fun sch u h => counters_exec lt sch s u h,
    fun _ _ hr => counters_bounds hr⟩

/-- C12 witness: the scanner reads the first of two records: Records goes
from 0 to 1, the other counters stay at 0. -/
theorem c12_counters_monotone_witness :
    ∃ t, step demoTailer .scan (demoTailer.started (demoEnv ["a", "bad"]) 1) = some t ∧
      (t.stats.Records = 0 ∨ t.stats.Records = 0 + 1) ∧
      (t.stats.ParseErrors = 0 ∨ t.stats.ParseErrors = 0 + 1) ∧
      (t.stats.SendErrors = 0 ∨ t.stats.SendErrors = 0 + 1) ∧ t.stats.Records = 1 :=
  ⟨_, rfl, (c12_counters_monotone demoTailer .scan
      (demoTailer.started (demoEnv ["a", "bad"]) 1) _ rfl).1.1,
    (c12_counters_monotone demoTailer .scan
      (demoTailer.started (demoEnv ["a", "bad"]) 1) _ rfl).1.2.1,
    (c12_counters_monotone demoTailer .scan
      (demoTailer.started (demoEnv ["a", "bad"]) 1) _ rfl).1.2.2, rfl⟩

/-! ## C13 -/

theorem le_sum_of_getElem? {α : Type} (f : α → ℕ) (l : List α) (i : ℕ) (y : α)
    (h : l[i]? = some y) : f y ≤ (l.map f).sum := by
  induction l generalizing i with
  | nil => simp at h
  | cons a t ih =>
    cases i with
    | zero =>
      simp only [List.getElem?_cons_zero, Option.some.injEq] at h
      subst h
      simp only [List.map_cons, List.sum_cons]; omega
    | succ j =>
      have := ih j (by simpa using h)
      simp only [List.map_cons, List.sum_cons]; omega

/-- the increments of ParseErrors and of SendErrors are made with the Stats
lock held, before and after the step -/
theorem error_increments_locked (lt : Logtailer β σ) (a : Action) (s t : State β σ)
    (h : Step lt a s t) (hf : Flow s)
    (hch : t.stats.ParseErrors ≠ s.stats.ParseErrors ∨ t.stats.SendErrors ≠ s.stats.SendErrors) :
    s.stats.locked = true ∧ t.stats.locked = true := by
  have hmx := hf.mutex
  cases h
  case workerIncr i hw =>
    have := le_sum_of_getElem? WorkerPc.holdsLock s.workers i _ hw
    simp only [WorkerPc.holdsLock] at this
    have hl : s.stats.locked = true := by
      cases hl : s.stats.locked with
      | true => rfl
      | false => rw [hl] at hmx; simp at hmx; omega
    exact ⟨hl, hl⟩
  case collectIncr err hc =>
    rw [hc] at hmx
    simp only [CollectorPc.holdsLock] at hmx
    have hl : s.stats.locked = true := by
      cases hl : s.stats.locked with
      | true => rfl
      | false => rw [hl] at hmx; simp at hmx
    exact ⟨hl, hl⟩
  all_goals simp at hch

/-- C13 (code bug): the scanner goroutine increments Records without taking the
Stats lock.  For every profile and every input with a first record, the first
step of the scanner adds one to Records while the lock is free before the step
and free after it (no goroutine has locked it: the step is the first of the
run). -/
theorem c13_records_increment_without_lock (lt : Logtailer β σ) (line : String)
    (rest : List String) (numWorkers : ℕ) :
    ∃ t, step lt .scan (lt.started (demoEnv (line :: rest)) numWorkers) = some t ∧
      (lt.started (demoEnv (line :: rest)) numWorkers).stats.locked = false ∧
      t.stats.locked = false ∧
      t.stats.Records = (lt.started (demoEnv (line :: rest)) numWorkers).stats.Records + 1 :=
  ⟨_, rfl, rfl, rfl, rfl⟩

/-! ## C14 -/

/-- C14 (code bug): `Run` computes the verdict and returns without waiting for
the collector.  One worker, one record `boom` for which the sink reports a
delivery error: the sink has placed the error on its error stream and the
collector has received it, but the collector has not yet incremented
SendErrors when `Run` reads the Stats.  `Run` returns SendErrors = 0 and a nil
error although one error was placed on the error stream. -/
theorem c14_send_error_not_counted :
    ∃ t r, exec demoTailer
        [.scan, .publish 0, .process 0, .deliver 0, .collect, .scan, .workerExit 0, .mainWait,
          .mainClose, .mainJudge, .mainReturn] (demoTailer.started (demoEnv ["boom"]) 1)
        = some t ∧
      demoTailer.Run (demoEnv ["boom"]) 1
        [.scan, .publish 0, .process 0, .deliver 0, .collect, .scan, .workerExit 0, .mainWait,
          .mainClose, .mainJudge, .mainReturn] = some r ∧
      t.delivered = ["boom"] ∧ (sinkTrace demoTailer t.delivered).2 = 1 ∧
      t.sink = .ranging ∧ t.collector = .locking "send failed" ∧
      r.stats.SendErrors = 0 ∧ r.err = none ∧ t.judged = some (Stats.mk 1 0 0 false) :=
  ⟨_, _, rfl, rfl, rfl, rfl, rfl, rfl, rfl, rfl, rfl⟩

end logtailer

namespace logtailer

variable {β σ : Type}

/-! ## Shutdown -/

/-- a scanner that observed the shutdown signal takes no further step -/
theorem stopped_step (lt : Logtailer β σ) (a : Action) (s t : State β σ) (line : String)
    (h : Step lt a s t) (hs : s.scanner = .stopped line) :
    t.scanner = .stopped line ∧ t.stats.Records = s.stats.Records ∧ t.input = s.input ∧
      (∀ i, a ≠ .publish i) ∧ a ≠ .scan ∧ a ≠ .observeShutdown := by
  cases h <;> simp_all

theorem stopped_forever (lt : Logtailer β σ) (sch : List Action) (s t : State β σ)
    (line : String) (h : exec lt sch s = some t) (hs : s.scanner = .stopped line) :
    t.scanner = .stopped line ∧ t.stats.Records = s.stats.Records ∧ t.input = s.input ∧
      (∀ i, Action.publish i ∉ sch) ∧ Action.scan ∉ sch ∧ Action.observeShutdown ∉ sch := by
  induction sch generalizing s with
  | nil =>
    simp only [exec, Option.some.injEq] at h
    subst h
    exact ⟨hs, rfl, rfl, by simp, by simp, by simp⟩
  | cons a rest ih =>
    simp only [exec] at h
    cases hst : step lt a s with
    | none => simp [hst] at h
    | some u =>
      rw [hst] at h
      obtain ⟨h1, h2, h3, h4, h5, h6⟩ := stopped_step lt a s u line (step_sound lt a s u hst) hs
      obtain ⟨k1, k2, k3, k4, k5, k6⟩ := ih u h h1
      refine ⟨k1, k2.trans h2, k3.trans h3, ?_, ?_, ?_⟩
      · intro i hmem
        rcases List.mem_cons.mp hmem with e | e
        · exact h4 i e.symm
        · exact k4 i e
      · intro hmem
        rcases List.mem_cons.mp hmem with e | e
        · exact h5 e.symm
        · exact k5 e
      · intro hmem
        rcases List.mem_cons.mp hmem with e | e
        · exact h6 e.symm
        · exact k6 e

theorem closed_step (lt : Logtailer β σ) (a : Action) (s t : State β σ)
    (h : Step lt a s t) (hs : s.scanner.isClosed = true) : t.scanner.isClosed = true := by
  cases h <;> simp_all [ScannerPc.isClosed]

theorem closed_exec (lt : Logtailer β σ) (sch : List Action) (s t : State β σ)
    (h : exec lt sch s = some t) (hs : s.scanner.isClosed = true) :
    t.scanner.isClosed = true :=
  exec_induction lt (fun u => u.scanner.isClosed = true) (closed_step lt) sch s t h hs

theorem verdict_step (lt : Logtailer β σ) (a : Action) (s t : State β σ)
    (h : Step lt a s t) (hv : Verdict s) : Verdict t := by
  obtain ⟨hv⟩ := hv
  cases h
  case mainJudge hm =>
    refine ⟨fun err herr => ⟨s.stats, rfl, ?_⟩⟩
    rcases herr with e | e
    · exact (MainPc.returning.inj e).symm
    · cases e
  case mainReturn err0 hm =>
    refine ⟨fun err herr => ?_⟩
    have : err = err0 := by
      rcases herr with e | e
      · cases e
      · exact (MainPc.returned.inj e).symm
    subst this
    exact hv err (Or.inl hm)
  case mainWait hm hw =>
    exact ⟨fun err herr => by rcases herr with e | e <;> cases e⟩
  case mainClose hm =>
    exact ⟨fun err herr => by rcases herr with e | e <;> cases e⟩
  all_goals exact ⟨hv⟩

theorem Reachable.verdict {lt : Logtailer β σ} {env : Env} {numWorkers : ℕ} {s : State β σ}
    (h : Reachable lt env numWorkers s) : Verdict s := by
  obtain ⟨sch, hex⟩ := h
  refine exec_induction lt Verdict (verdict_step lt) sch _ s hex ⟨fun err herr => ?_⟩
  rcases herr with e | e <;> cases e

/-! ### Every run can be taken to its return once `inputRecords` is closed -/

theorem alive_step (lt : Logtailer β σ) (a : Action) (s t : State β σ) (h : Step lt a s t) :
    (t.workers.map WorkerPc.alive).sum ≤ (s.workers.map WorkerPc.alive).sum := by
  cases h
  case publish i line hs hw =>
    have e := sum_map_set WorkerPc.alive s.workers i (.processing line) _ hw
    simp only [WorkerPc.alive] at e ⊢
    omega
  case workerExit i hw hs =>
    have e := sum_map_set WorkerPc.alive s.workers i .exited _ hw
    simp only [WorkerPc.alive] at e ⊢
    omega
  case processErr i line err hp hw =>
    have e := sum_map_set WorkerPc.alive s.workers i .locking _ hw
    simp only [WorkerPc.alive] at e ⊢
    omega
  case processOk i line record hp hw =>
    have e := sum_map_set WorkerPc.alive s.workers i (.sending record) _ hw
    simp only [WorkerPc.alive] at e ⊢
    omega
  case workerLock i hw hl =>
    have e := sum_map_set WorkerPc.alive s.workers i .incrementing _ hw
    simp only [WorkerPc.alive] at e ⊢
    omega
  case workerIncr i hw =>
    have e := sum_map_set WorkerPc.alive s.workers i .unlocking _ hw
    simp only [WorkerPc.alive] at e ⊢
    omega
  case workerUnlock i hw =>
    have e := sum_map_set WorkerPc.alive s.workers i .receiving _ hw
    simp only [WorkerPc.alive] at e ⊢
    omega
  case deliver i record hw hk ho =>
    have e := sum_map_set WorkerPc.alive s.workers i .receiving _ hw
    simp only [WorkerPc.alive] at e ⊢
    omega
  all_goals exact le_refl _

theorem alive_exec (lt : Logtailer β σ) (sch : List Action) (s t : State β σ)
    (h : exec lt sch s = some t) :
    (t.workers.map WorkerPc.alive).sum ≤ (s.workers.map WorkerPc.alive).sum :=
  exec_induction lt
    (fun u => (u.workers.map WorkerPc.alive).sum ≤ (s.workers.map WorkerPc.alive).sum)
    (fun a u v hst hu => le_trans (alive_step lt a u v hst) hu) sch s t h (le_refl _)

theorem exists_alive (l : List (WorkerPc β)) (h : 1 ≤ (l.map WorkerPc.alive).sum) :
    ∃ (i : ℕ) (w : WorkerPc β), l[i]? = some w ∧ w ≠ .exited := by
  induction l with
  | nil => simp at h
  | cons a rest ih =>
    by_cases ha : a = .exited
    · subst ha
      obtain ⟨j, w, hj, hw⟩ := ih (by simpa [WorkerPc.alive] using h)
      exact ⟨j + 1, w, by simpa using hj, hw⟩
    · exact ⟨0, a, by simp, ha⟩

theorem all_exited_of_alive_zero (l : List (WorkerPc β)) (h : (l.map WorkerPc.alive).sum = 0) :
    l.all WorkerPc.isExited = true := by
  induction l with
  | nil => rfl
  | cons a rest ih =>
    simp only [List.map_cons, List.sum_cons] at h
    cases a <;> simp [WorkerPc.alive] at h
    simp only [List.all_cons, WorkerPc.isExited, Bool.true_and]
    exact ih h

/-- a worker that has not returned can be taken back to its receive -/
theorem worker_settle (lt : Logtailer β σ) (env : Env) (numWorkers : ℕ) (s : State β σ)
    (hr : Reachable lt env numWorkers s) (i : ℕ) (w : WorkerPc β)
    (hw : s.workers[i]? = some w) (hne : w ≠ .exited) :
    ∃ sch t, exec lt sch s = some t ∧ t.workers[i]? = some .receiving := by
  cases w with
  | exited => exact absurd rfl hne
  | receiving => exact ⟨[], s, rfl, hw⟩
  | processing line =>
    obtain ⟨sch, t, hex, _, ht⟩ := worker_progress lt env numWorkers s hr i line hw
    exact ⟨sch, t, hex, ht⟩
  | locking =>
    obtain ⟨sch1, t1, hex1, _, hw1, hl1, _, _, _, _⟩ := free_lock lt s hr.flow i .locking hw rfl
    have hex2 := exec_trans lt hex1
        (exec_cons_of_step lt (Step.workerLock t1 i hw1 hl1)
          (exec_cons_of_step lt (Step.workerIncr _ i (getElem?_set_self_of_some hw1))
            (exec_single lt (Step.workerUnlock _ i
              (getElem?_set_self_of_some (getElem?_set_self_of_some hw1))))))
    exact ⟨_, _, hex2,
      getElem?_set_self_of_some (getElem?_set_self_of_some (getElem?_set_self_of_some hw1))⟩
  | incrementing =>
    have hex2 := exec_cons_of_step lt (Step.workerIncr s i hw)
      (exec_single lt (Step.workerUnlock _ i (getElem?_set_self_of_some hw)))
    exact ⟨_, _, hex2, getElem?_set_self_of_some (getElem?_set_self_of_some hw)⟩
  | unlocking =>
    have hex2 := exec_single lt (Step.workerUnlock s i hw)
    exact ⟨_, _, hex2, getElem?_set_self_of_some hw⟩
  | sending v =>
    obtain ⟨sch1, t1, hex1, _, hw1, hk1, ho1⟩ := sink_ready lt s hr.flow hr.acct.waited i
      (.sending v) hw rfl (by simp)
    have hex2 := exec_trans lt hex1 (exec_single lt (Step.deliver t1 i v hw1 hk1 ho1))
    exact ⟨_, _, hex2, getElem?_set_self_of_some hw1⟩

/-- once `inputRecords` is closed every worker can be taken to its return -/
theorem drain_workers (lt : Logtailer β σ) (env : Env) (numWorkers : ℕ) (n : ℕ) :
    ∀ s : State β σ, Reachable lt env numWorkers s → s.scanner.isClosed = true →
      (s.workers.map WorkerPc.alive).sum ≤ n →
      ∃ sch t, exec lt sch s = some t ∧ t.workers.all WorkerPc.isExited = true := by
  induction n with
  | zero =>
    intro s _ _ hn
    exact ⟨[], s, rfl, all_exited_of_alive_zero _ (by omega)⟩
  | succ n ih =>
    intro s hr hc hn
    by_cases h0 : (s.workers.map WorkerPc.alive).sum = 0
    · exact ⟨[], s, rfl, all_exited_of_alive_zero _ h0⟩
    · obtain ⟨i, w, hw, hne⟩ := exists_alive s.workers (by omega)
      obtain ⟨sch1, t1, hex1, hw1⟩ := worker_settle lt env numWorkers s hr i w hw hne
      have hc1 := closed_exec lt sch1 s t1 hex1 hc
      have ha1 := alive_exec lt sch1 s t1 hex1
      have st : Step lt (.workerExit i) t1 _ := Step.workerExit t1 i hw1 hc1
      have hex2 := exec_trans lt hex1 (exec_single lt st)
      have e := sum_map_set WorkerPc.alive t1.workers i .exited _ hw1
      simp only [WorkerPc.alive] at e
      obtain ⟨sch3, t3, hex3, hall⟩ := ih _ (hr.exec _ hex2) (closed_step lt _ _ _ st hc1)
        (by show ((t1.workers.set i .exited).map WorkerPc.alive).sum ≤ n; omega)
      exact ⟨_, t3, exec_trans lt hex2 hex3, hall⟩

theorem all_exited_step (lt : Logtailer β σ) (a : Action) (s t : State β σ)
    (h : Step lt a s t) (hs : (s.workers.map WorkerPc.alive).sum = 0) :
    (t.workers.map WorkerPc.alive).sum = 0 := by
  have := alive_step lt a s t h
  omega

/-- once `inputRecords` is closed, `Run` can be taken to its return -/
theorem run_returns (lt : Logtailer β σ) (env : Env) (numWorkers : ℕ) (s : State β σ)
    (hr : Reachable lt env numWorkers s) (hc : s.scanner.isClosed = true) :
    ∃ sch t err, exec lt sch s = some t ∧ t.main = .returned err := by
  obtain ⟨sch1, t1, hex1, hall⟩ := drain_workers lt env numWorkers _ s hr hc (le_refl _)
  cases hm : t1.main with
  | waiting =>
    have hex2 := exec_trans lt hex1
      (exec_cons_of_step lt (Step.mainWait t1 hm hall)
        (exec_cons_of_step lt (Step.mainClose _ rfl)
          (exec_cons_of_step lt (Step.mainJudge _ rfl)
            (exec_single lt (Step.mainReturn _ _ rfl)))))
    exact ⟨_, _, _, hex2, rfl⟩
  | closing =>
    have hex2 := exec_trans lt hex1
      (exec_cons_of_step lt (Step.mainClose t1 hm)
        (exec_cons_of_step lt (Step.mainJudge _ rfl)
          (exec_single lt (Step.mainReturn _ _ rfl))))
    exact ⟨_, _, _, hex2, rfl⟩
  | judging =>
    have hex2 := exec_trans lt hex1
      (exec_cons_of_step lt (Step.mainJudge t1 hm)
        (exec_single lt (Step.mainReturn _ _ rfl)))
    exact ⟨_, _, _, hex2, rfl⟩
  | returning err =>
    have hex2 := exec_trans lt hex1 (exec_single lt (Step.mainReturn t1 err hm))
    exact ⟨_, _, _, hex2, rfl⟩
  | returned err => exact ⟨_, _, err, hex1, hm⟩

end logtailer

namespace logtailer

variable {β σ : Type}

theorem isHealthy_of_no_errors (s : Stats) (hp : s.ParseErrors ≤ 0) (hs : s.SendErrors ≤ 0) :
    s.IsHealthy = true := by
  unfold Stats.IsHealthy
  rw [if_neg (by omega), if_neg (by omega)]

/-- what follows once the scanner has taken the shutdown case of its select -/
theorem shutdown_run (lt : Logtailer β σ) (env : Env) (numWorkers : ℕ) (s t : State β σ)
    (hr : Reachable lt env numWorkers s) (hst : step lt .observeShutdown s = some t) :
    (∃ line, s.scanner = .publishing line ∧ s.shutdown = true ∧ t.scanner = .stopped line ∧
      t.scanner.isClosed = true ∧ t.workers = s.workers ∧ t.calls = s.calls) ∧
    (∀ sch u, exec lt sch t = some u →
      u.scanner = t.scanner ∧ u.scanner.isClosed = true ∧ (∀ i, Action.publish i ∉ sch) ∧
        Action.scan ∉ sch ∧ u.stats.Records = t.stats.Records ∧ u.input = t.input) ∧
    (∃ sch u err, exec lt sch t = some u ∧ u.main = .returned err) ∧
    (∀ sch u err, exec lt sch t = some u → u.main = .returned err →
      (∃ snap, u.judged = some snap ∧
        err = (if snap.IsHealthy then none else some (unhealthyError snap))) ∧
      (0 < numWorkers →
        (∃ pre line, env.records = pre ++ u.input ∧ t.scanner = .stopped line ∧
          pre.Perm (processedLines u.calls ++ [line])) ∧
        (failures lt (processedLines u.calls) = 0 → u.stats.SendErrors = 0 → err = none))) := by
  have hstep := step_sound lt _ s t hst
  have hex0 : exec lt [.observeShutdown] s = some t := exec_single lt hstep
  have hrt := hr.exec _ hex0
  obtain ⟨line, hline⟩ : ∃ line, s.scanner = .publishing line ∧ s.shutdown = true ∧
      t.scanner = .stopped line ∧ t.scanner.isClosed = true ∧ t.workers = s.workers ∧
      t.calls = s.calls := by
    cases hstep
    case observeShutdown line hs hd => exact ⟨line, hs, hd, rfl, rfl, rfl, rfl⟩
  have htl := hline.2.2.1
  refine ⟨⟨line, hline⟩, ?_, run_returns lt env numWorkers t hrt hline.2.2.2.1, ?_⟩
  · intro sch u hex
    obtain ⟨h1, h2, h3, h4, h5, _⟩ := stopped_forever lt sch t u line hex htl
    exact ⟨h1.trans htl.symm, by rw [h1]; rfl, h4, h5, h2, h3⟩
  · intro sch u err hex hm
    have hru := hrt.exec _ hex
    refine ⟨(hru.verdict).error err (Or.inr hm), fun hW => ?_⟩
    obtain ⟨sch0, hex0⟩ := hru
    have hsc := (stopped_forever lt sch t u line hex htl).1
    obtain ⟨_, ⟨pre, hpre, _, hperm⟩, _, hfail⟩ :=
      settled lt env numWorkers sch0 u hW hex0 (by rw [hm]; simp)
    rw [hsc] at hperm
    refine ⟨⟨pre, line, hpre, htl, hperm⟩, fun hf hs => ?_⟩
    obtain ⟨snap, _, h2, h3, h4⟩ :=
      (judged_exec lt env numWorkers sch0 u hex0).verdict err (Or.inr hm)
    have hlen := workers_length_exec lt env numWorkers sch0 u hex0
    have hne : u.workers ≠ [] := by
      intro hnil
      rw [hnil] at hlen
      simp at hlen
      omega
    obtain ⟨_, h6⟩ := h4 hne
    rw [h2]
    apply isHealthy_of_no_errors
    · rw [h6, ← hfail, hf]; simp
    · omega

/-! ## C15 -/

/-- C15: once the scanner observes the shutdown signal while trying to publish
a record (the step `observeShutdown`, enabled only after `Stop`), it takes no
further step: in every continuation no record is published, nothing more is
scanned, and `inputRecords` is closed (the scanner has returned, its deferred
close ran).  `Run` can be taken to its return from there, and the error it
returns is the one its health check builds from the Stats it read: nil if the
Stats is healthy, the unhealthy-run error otherwise, and nil in particular
when no transform failed and no send error was counted.  When `Run` returns
(with at least one worker) every record scanned has been transformed by a
worker, except the one record the scanner held when it observed the
shutdown. -/
theorem c15_shutdown_observed (lt : Logtailer β σ) (env : Env) (numWorkers : ℕ)
    (s t : State β σ) (hr : Reachable lt env numWorkers s)
    (hst : step lt .observeShutdown s = some t) :
    (∃ line, s.scanner = .publishing line ∧ s.shutdown = true ∧ t.scanner = .stopped line ∧
      t.scanner.isClosed = true ∧ t.workers = s.workers ∧ t.calls = s.calls) ∧
    (∀ sch u, exec lt sch t = some u →
      u.scanner = t.scanner ∧ u.scanner.isClosed = true ∧ (∀ i, Action.publish i ∉ sch) ∧
        Action.scan ∉ sch ∧ u.stats.Records = t.stats.Records ∧ u.input = t.input) ∧
    (∃ sch u err, exec lt sch t = some u ∧ u.main = .returned err) ∧
    (∀ sch u err, exec lt sch t = some u → u.main = .returned err →
      (∃ snap, u.judged = some snap ∧
        err = (if snap.IsHealthy then none else some (unhealthyError snap))) ∧
      (0 < numWorkers →
        (∃ pre line, env.records = pre ++ u.input ∧ t.scanner = .stopped line ∧
          pre.Perm (processedLines u.calls ++ [line])) ∧
        (failures lt (processedLines u.calls) = 0 → u.stats.SendErrors = 0 → err = none))) :=
  shutdown_run lt env numWorkers s t hr hst

end logtailer
namespace logtailer

/-- C15 witness: three records, one worker.  The first record is transformed
and delivered, `Stop` is called while the scanner tries to publish the second:
the scanner stops holding `b`, never scans `c`, `Run` returns a nil error, and
`a`, the one record published, was transformed. -/
theorem c15_shutdown_observed_witness :
    exec demoTailer [.scan, .publish 0, .process 0, .deliver 0, .scan, .stop]
        (demoTailer.started (demoEnv ["a", "b", "c"]) 1) = some stopRequested ∧
      step demoTailer .observeShutdown stopRequested = some shutdownObserved ∧
      exec demoTailer [.workerExit 0, .mainWait, .mainClose, .mainJudge, .mainReturn]
        shutdownObserved = some shutdownReturned ∧
      (shutdownReturned.scanner = shutdownObserved.scanner ∧
        shutdownReturned.scanner.isClosed = true ∧
        (∀ i, Action.publish i ∉
          [Action.workerExit 0, .mainWait, .mainClose, .mainJudge, .mainReturn]) ∧
        Action.scan ∉ [Action.workerExit 0, .mainWait, .mainClose, .mainJudge, .mainReturn] ∧
        shutdownReturned.stats.Records = shutdownObserved.stats.Records ∧
        shutdownReturned.input = shutdownObserved.input) ∧
      shutdownReturned.main = .returned none ∧
      processedLines shutdownReturned.calls = ["a"] :=
  ⟨rfl, rfl, rfl,
    (c15_shutdown_observed demoTailer (demoEnv ["a", "b", "c"]) 1 stopRequested shutdownObserved
      ⟨[.scan, .publish 0, .process 0, .deliver 0, .scan, .stop], rfl⟩ rfl).2.1
      [.workerExit 0, .mainWait, .mainClose, .mainJudge, .mainReturn] shutdownReturned rfl,
    rfl, rfl⟩

end logtailer

namespace logtailer

/-! ## The correlation of ssh events -/

theorem handle_error (lib : SshdLib) (now : Int) (p : SshdProfile) (b : String) (err : GoError)
    (h : lib.Unmarshal b = .error err) : p.handlePartialEvent lib now b = (some err, p) := by
  unfold SshdProfile.handlePartialEvent
  rw [h]

theorem handle_incomplete (lib : SshdLib) (now : Int) (p : SshdProfile) (b : String)
    (ev : sshEvent) (h : lib.Unmarshal b = .ok ev)
    (hc : (mergeEvent now ((p.events.lookup ev.ID).getD {}) ev).Complete = false) :
    p.handlePartialEvent lib now b
      = (none, { p with events :=
          p.events.insert ev.ID (mergeEvent now ((p.events.lookup ev.ID).getD {}) ev) }) := by
  unfold SshdProfile.handlePartialEvent
  rw [h]
  simp only [hc, Bool.false_eq_true, if_false]

theorem handle_complete (lib : SshdLib) (now : Int) (p : SshdProfile) (b : String)
    (ev : sshEvent) (h : lib.Unmarshal b = .ok ev)
    (hc : (mergeEvent now ((p.events.lookup ev.ID).getD {}) ev).Complete = true) :
    p.handlePartialEvent lib now b
      = (none, { p with
          completeEvents := p.completeEvents ++
            [mergeEvent now ((p.events.lookup ev.ID).getD {}) ev],
          events := p.events.erase ev.ID }) := by
  unfold SshdProfile.handlePartialEvent
  rw [h]
  simp only [hc, if_true]

/-- the entry is complete after the merge exactly when it was complete before
or the subtype of the observation is terminal -/
theorem mergeEvent_complete (now : Int) (full ev : sshEvent) :
    (mergeEvent now full ev).Complete
      = (full.Complete || decide (ev.PeType ∈ terminalTypes)) := by
  unfold mergeEvent
  split_ifs with h1 h2 h3 h4 h5 h6 h7 <;> simp [terminalTypes, *]

theorem mergeEvent_connectLine (now : Int) (full ev : sshEvent) (h : ev.PeType = "connectLine") :
    mergeEvent now full ev = { full with
      Timestamp := now, Logtime := ev.Logtime, Hostname := ev.Hostname, Pid := ev.Pid,
      SrcIP := ev.SrcIP, Port := ev.Port } := by
  simp [mergeEvent, h]

theorem mergeEvent_foundKey (now : Int) (full ev : sshEvent) (h : ev.PeType = "foundKey") :
    mergeEvent now full ev = { full with
      Timestamp := now, Logtime := ev.Logtime, Hostname := ev.Hostname, Pid := ev.Pid,
      Fingerprint := ev.Fingerprint, FbUser := ev.FbUser } := by
  simp [mergeEvent, h]

theorem mergeEvent_childPid (now : Int) (full ev : sshEvent) (h : ev.PeType = "childPid") :
    mergeEvent now full ev = { full with
      Timestamp := now, Logtime := ev.Logtime, Hostname := ev.Hostname, Pid := ev.Pid,
      ChildPid := ev.ChildPid, Success := ev.Success, Complete := true } := by
  simp [mergeEvent, h]

theorem ID_eq (ev : sshEvent) (host : String) (pid : Int) (hh : ev.Hostname = host)
    (hp : ev.Pid = pid) : ev.ID = host ++ ":" ++ Itoa pid := by
  unfold sshEvent.ID
  rw [hh, hp]

end logtailer

namespace logtailer

/-- what `handlePartialEvent` does with an observation that decodes: no error;
the entry of the key of the observation is merged; a complete entry is sent
and deleted, an incomplete one is stored; no other key is touched -/
theorem handle_spec (lib : SshdLib) (now : Int) (p : SshdProfile) (b : String) (ev : sshEvent)
    (h : lib.Unmarshal b = .ok ev) :
    (p.handlePartialEvent lib now b).1 = none ∧
    (p.handlePartialEvent lib now b).2.fingerprintToFbUser = p.fingerprintToFbUser ∧
    (∀ k, k ≠ ev.ID → (p.handlePartialEvent lib now b).2.events.lookup k = p.events.lookup k) ∧
    ((mergeEvent now ((p.events.lookup ev.ID).getD {}) ev).Complete = true →
      (p.handlePartialEvent lib now b).2.completeEvents
        = p.completeEvents ++ [mergeEvent now ((p.events.lookup ev.ID).getD {}) ev] ∧
      (p.handlePartialEvent lib now b).2.events.lookup ev.ID = none) ∧
    ((mergeEvent now ((p.events.lookup ev.ID).getD {}) ev).Complete = false →
      (p.handlePartialEvent lib now b).2.completeEvents = p.completeEvents ∧
      (p.handlePartialEvent lib now b).2.events.lookup ev.ID
        = some (mergeEvent now ((p.events.lookup ev.ID).getD {}) ev)) := by
  cases hc : (mergeEvent now ((p.events.lookup ev.ID).getD {}) ev).Complete with
  | true =>
    rw [handle_complete lib now p b ev h hc]
    refine ⟨rfl, rfl, fun k hk => AList.lookup_erase_ne hk, fun _ => ⟨rfl, ?_⟩, fun hf => ?_⟩
    · exact AList.lookup_erase _ _
    · cases hf
  | false =>
    rw [handle_incomplete lib now p b ev h hc]
    refine ⟨rfl, rfl, fun k hk => AList.lookup_insert_ne hk, fun hf => ?_, fun _ => ⟨rfl, ?_⟩⟩
    · cases hf
    · exact AList.lookup_insert _

end logtailer

namespace logtailer

/-- the sequence connectLine, foundKey, childPid for one hostname and pid -/
theorem correlation_sequence (lib : SshdLib) (p : SshdProfile) (host : String) (pid : Int)
    (b1 b2 b3 : String) (e1 e2 e3 : sshEvent) (now1 now2 now3 : Int)
    (hk : p.events.lookup (host ++ ":" ++ Itoa pid) = none)
    (h1 : lib.Unmarshal b1 = .ok e1) (t1 : e1.PeType = "connectLine")
    (hh1 : e1.Hostname = host) (hp1 : e1.Pid = pid)
    (h2 : lib.Unmarshal b2 = .ok e2) (t2 : e2.PeType = "foundKey")
    (hh2 : e2.Hostname = host) (hp2 : e2.Pid = pid)
    (h3 : lib.Unmarshal b3 = .ok e3) (t3 : e3.PeType = "childPid")
    (hh3 : e3.Hostname = host) (hp3 : e3.Pid = pid) :
    ((p.consume lib [(now1, b1)]).2.completeEvents = p.completeEvents ∧
      ((p.consume lib [(now1, b1)]).2.events.lookup (host ++ ":" ++ Itoa pid)).isSome = true) ∧
    ((p.consume lib [(now1, b1), (now2, b2)]).2.completeEvents = p.completeEvents ∧
      ((p.consume lib [(now1, b1), (now2, b2)]).2.events.lookup
        (host ++ ":" ++ Itoa pid)).isSome = true) ∧
    (p.consume lib [(now1, b1), (now2, b2), (now3, b3)]).1 = [] ∧
    (p.consume lib [(now1, b1), (now2, b2), (now3, b3)]).2.completeEvents
      = p.completeEvents ++ [
          { Timestamp := now3, Logtime := e3.Logtime, Hostname := host, Pid := pid,
            SrcIP := e1.SrcIP, Port := e1.Port, Fingerprint := e2.Fingerprint,
            FbUser := e2.FbUser, ChildPid := e3.ChildPid, Success := e3.Success,
            Complete := true }] ∧
    (p.consume lib [(now1, b1), (now2, b2), (now3, b3)]).2.events.lookup
      (host ++ ":" ++ Itoa pid) = none ∧
    (∀ k, k ≠ host ++ ":" ++ Itoa pid →
      (p.consume lib [(now1, b1), (now2, b2), (now3, b3)]).2.events.lookup k
        = p.events.lookup k) := by
  have i1 := ID_eq e1 host pid hh1 hp1
  have i2 := ID_eq e2 host pid hh2 hp2
  have i3 := ID_eq e3 host pid hh3 hp3
  -- the first observation
  obtain ⟨r1, _, o1, _, inc1⟩ := handle_spec lib now1 p b1 e1 h1
  rw [i1, hk] at inc1
  rw [i1] at o1
  obtain ⟨a1, l1⟩ := inc1 (by simp [mergeEvent_complete, t1, terminalTypes])
  -- the second observation
  obtain ⟨r2, _, o2, _, inc2⟩ := handle_spec lib now2 (p.handlePartialEvent lib now1 b1).2 b2 e2 h2
  rw [i2, l1] at inc2
  rw [i2] at o2
  obtain ⟨a2, l2⟩ := inc2 (by simp [mergeEvent_complete, t1, t2, terminalTypes])
  -- the third observation
  obtain ⟨r3, _, o3, com3, _⟩ := handle_spec lib now3
    ((p.handlePartialEvent lib now1 b1).2.handlePartialEvent lib now2 b2).2 b3 e3 h3
  rw [i3, l2] at com3
  rw [i3] at o3
  obtain ⟨a3, l3⟩ := com3 (by simp [mergeEvent_complete, t3, terminalTypes])
  simp only [SshdProfile.consume]
  refine ⟨⟨a1, by rw [l1]; rfl⟩, ⟨a2.trans a1, by rw [l2]; rfl⟩, ?_, ?_, l3, ?_⟩
  · rw [r1, r2, r3]
    rfl
  · rw [a3, a2, a1]
    congr 2
    simp [mergeEvent_childPid _ _ _ t3, mergeEvent_foundKey _ _ _ t2,
      mergeEvent_connectLine _ _ _ t1, hh3, hp3]
  · intro k hkne
    rw [o3 k hkne, o2 k hkne, o1 k hkne]

end logtailer

namespace logtailer

/-! ## C16 -/

/-- C16: starting from a table with no entry for the key of hostname `host`
and pid `pid`, handling in order a connectLine, a foundKey and a childPid
observation for that hostname and pid returns no error, emits nothing on the
first two observations (after each the key is in the table) and emits exactly
one completed event on the third; afterwards the key is absent from the table
and every other key is as before.  The emitted event has SrcIP and Port of the
first observation, Fingerprint and FbUser of the second, ChildPid and Success
of the third, Complete = true, the hostname and pid, the Logtime of the third
observation, the time of its handling as Timestamp, and the zero value in
every other field. -/
theorem c16_new_accumulate_terminal (lib : SshdLib) (p : SshdProfile) (host : String)
    (pid : Int) (b1 b2 b3 : String) (e1 e2 e3 : sshEvent) (now1 now2 now3 : Int)
    (hk : p.events.lookup (host ++ ":" ++ Itoa pid) = none)
    (h1 : lib.Unmarshal b1 = .ok e1) (t1 : e1.PeType = "connectLine")
    (hh1 : e1.Hostname = host) (hp1 : e1.Pid = pid)
    (h2 : lib.Unmarshal b2 = .ok e2) (t2 : e2.PeType = "foundKey")
    (hh2 : e2.Hostname = host) (hp2 : e2.Pid = pid)
    (h3 : lib.Unmarshal b3 = .ok e3) (t3 : e3.PeType = "childPid")
    (hh3 : e3.Hostname = host) (hp3 : e3.Pid = pid) :
    ((p.consume lib [(now1, b1)]).2.completeEvents = p.completeEvents ∧
      ((p.consume lib [(now1, b1)]).2.events.lookup (host ++ ":" ++ Itoa pid)).isSome = true) ∧
    ((p.consume lib [(now1, b1), (now2, b2)]).2.completeEvents = p.completeEvents ∧
      ((p.consume lib [(now1, b1), (now2, b2)]).2.events.lookup
        (host ++ ":" ++ Itoa pid)).isSome = true) ∧
    (p.consume lib [(now1, b1), (now2, b2), (now3, b3)]).1 = [] ∧
    (p.consume lib [(now1, b1), (now2, b2), (now3, b3)]).2.completeEvents
      = p.completeEvents ++ [
          { Timestamp := now3, Logtime := e3.Logtime, Hostname := host, Pid := pid,
            SrcIP := e1.SrcIP, Port := e1.Port, Fingerprint := e2.Fingerprint,
            FbUser := e2.FbUser, ChildPid := e3.ChildPid, Success := e3.Success,
            Complete := true }] ∧
    (p.consume lib [(now1, b1), (now2, b2), (now3, b3)]).2.events.lookup
      (host ++ ":" ++ Itoa pid) = none ∧
    (∀ k, k ≠ host ++ ":" ++ Itoa pid →
      (p.consume lib [(now1, b1), (now2, b2), (now3, b3)]).2.events.lookup k
        = p.events.lookup k) :=
  correlation_sequence lib p host pid b1 b2 b3 e1 e2 e3 now1 now2 now3 hk h1 t1 hh1 hp1
    h2 t2 hh2 hp2 h3 t3 hh3 hp3

end logtailer

namespace logtailer

/-! ### The library of the examples -/

theorem demo_unmarshal_connect : demoLib.Unmarshal connectJson = .ok connectEvent := by
  simp [demoLib, demoPayloads, List.lookup]

theorem demo_unmarshal_foundKey : demoLib.Unmarshal foundKeyJson = .ok foundKeyEvent := by
  simp [demoLib, demoPayloads, List.lookup, connectJson, foundKeyJson]

theorem demo_unmarshal_acceptKey : demoLib.Unmarshal acceptKeyJson = .ok acceptKeyEvent := by
  simp [demoLib, demoPayloads, List.lookup, connectJson, foundKeyJson, acceptKeyJson]

theorem demo_unmarshal_childPid : demoLib.Unmarshal childPidJson = .ok childPidEvent := by
  simp [demoLib, demoPayloads, List.lookup, connectJson, foundKeyJson, acceptKeyJson,
    childPidJson]

theorem demo_unmarshal_badRevMap : demoLib.Unmarshal badRevMapJson = .ok badRevMapEvent := by
  simp [demoLib, demoPayloads, List.lookup, connectJson, foundKeyJson, acceptKeyJson,
    childPidJson, badRevMapJson]

theorem demo_unmarshal_empty : demoLib.Unmarshal "\x7b\x7d" = .ok {} := by
  simp [demoLib, demoPayloads, List.lookup, connectJson, foundKeyJson, acceptKeyJson,
    childPidJson, badRevMapJson]

theorem demo_unmarshal_truncated :
    demoLib.Unmarshal "\x7b\"pid\":" = .error "unexpected end of JSON input" := by
  simp [demoLib, demoPayloads, List.lookup, connectJson, foundKeyJson, acceptKeyJson,
    childPidJson, badRevMapJson]

end logtailer
namespace logtailer
/-- C16 witness: the three lines of a login of alice on host1, pid 123,
handled at the seconds 0, 1 and 2 after `Init`: one event is emitted. -/
theorem c16_new_accumulate_terminal_witness :
    (demoSshd.consume demoLib
        [(63930247200 * Second, connectJson), (63930247201 * Second, foundKeyJson),
          (63930247202 * Second, childPidJson)]).2.completeEvents
      = [{ Timestamp := 63930247202 * Second, Logtime := -4111198 * Second,
           Hostname := "host1", Pid := 123, SrcIP := "1.2.3.4", Port := 22,
           Fingerprint := "b5:ca:16:03:d4:10:41:80:3d:bc:3b:18:05:57:4f:56",
           FbUser := "alice", ChildPid := 124, Success := true, Complete := true }] ∧
    (demoSshd.consume demoLib
        [(63930247200 * Second, connectJson), (63930247201 * Second, foundKeyJson),
          (63930247202 * Second, childPidJson)]).2.events.lookup "host1:123" = none :=
  ⟨(c16_new_accumulate_terminal demoLib demoSshd "host1" 123 connectJson foundKeyJson
      childPidJson connectEvent foundKeyEvent childPidEvent (63930247200 * Second)
      (63930247201 * Second) (63930247202 * Second) (AList.lookup_empty _)
      demo_unmarshal_connect rfl rfl rfl demo_unmarshal_foundKey rfl rfl rfl
      demo_unmarshal_childPid rfl rfl rfl).2.2.2.1,
    (c16_new_accumulate_terminal demoLib demoSshd "host1" 123 connectJson foundKeyJson
      childPidJson connectEvent foundKeyEvent childPidEvent (63930247200 * Second)
      (63930247201 * Second) (63930247202 * Second) (AList.lookup_empty _)
      demo_unmarshal_connect rfl rfl rfl demo_unmarshal_foundKey rfl rfl rfl
      demo_unmarshal_childPid rfl rfl rfl).2.2.2.2.1⟩

end logtailer

namespace logtailer

/-! ## The invariant of the table of events -/

theorem mergeEvent_ID (now : Int) (full ev : sshEvent) : (mergeEvent now full ev).ID = ev.ID := by
  unfold mergeEvent sshEvent.ID
  split_ifs <;> rfl

theorem lookup_of_lookup_erase {k k2 : String} {e : sshEvent}
    {s : AList (fun _ : String => sshEvent)} (h : (s.erase k2).lookup k = some e) :
    s.lookup k = some e := by
  by_cases hk : k = k2
  · subst hk
    rw [AList.lookup_erase] at h
    cases h
  · rwa [AList.lookup_erase_ne hk] at h

theorem inflight_init (keys : AList (fun _ : String => String)) :
    (SshdProfile.Init keys).Inflight := by
  intro k e h
  simp [SshdProfile.Init, AList.lookup_empty] at h

theorem inflight_handle (lib : SshdLib) (now : Int) (p : SshdProfile) (b : String)
    (inv : p.Inflight) : (p.handlePartialEvent lib now b).2.Inflight := by
  cases h : lib.Unmarshal b with
  | error err =>
    rw [handle_error lib now p b err h]
    exact inv
  | ok ev =>
    obtain ⟨_, _, other, com, inc⟩ := handle_spec lib now p b ev h
    intro k e hl
    by_cases hk : k = ev.ID
    · subst hk
      cases hc : (mergeEvent now ((p.events.lookup ev.ID).getD {}) ev).Complete with
      | true =>
        rw [(com hc).2] at hl
        cases hl
      | false =>
        rw [(inc hc).2] at hl
        cases hl
        exact ⟨hc, mergeEvent_ID _ _ _⟩
    · rw [other k hk] at hl
      exact inv k e hl

theorem inflight_expire (now : Int) (p : SshdProfile)
    (entry : Sigma (fun _ : String => sshEvent)) (inv : p.Inflight) :
    (p.expire now entry).Inflight := by
  unfold SshdProfile.expire
  split_ifs
  · intro k e hl
    exact inv k e (lookup_of_lookup_erase hl)
  · exact inv

theorem inflight_foldl (now : Int) (l : List (Sigma (fun _ : String => sshEvent)))
    (p : SshdProfile) (inv : p.Inflight) : (l.foldl (SshdProfile.expire now) p).Inflight := by
  induction l generalizing p with
  | nil => exact inv
  | cons a rest ih => exact ih _ (inflight_expire now p a inv)

theorem inflight_sweep (now : Int) (p : SshdProfile) (inv : p.Inflight) :
    (p.sweep now).Inflight :=
  inflight_foldl now _ p inv

theorem SshdProfile.Reachable.inflight {lib : SshdLib} {p : SshdProfile}
    (h : SshdProfile.Reachable lib p) : p.Inflight := by
  induction h with
  | init keys => exact inflight_init keys
  | handle now p b _ ih => exact inflight_handle lib now p b ih
  | sweep now p _ ih => exact inflight_sweep now p ih

/-- the entry an observation is merged into is not complete -/
theorem old_incomplete (p : SshdProfile) (inv : p.Inflight) (k : String) :
    ((p.events.lookup k).getD {}).Complete = false := by
  cases h : p.events.lookup k with
  | none => rfl
  | some e => exact (inv k e h).1

/-- on a table whose entries are not complete, an observation completes its
entry exactly when its subtype is terminal -/
theorem emits_iff_terminal (lib : SshdLib) (now : Int) (p : SshdProfile) (b : String)
    (ev : sshEvent) (inv : p.Inflight) (h : lib.Unmarshal b = .ok ev) :
    (p.handlePartialEvent lib now b).1 = none ∧
    (ev.PeType ∈ terminalTypes →
      (p.handlePartialEvent lib now b).2.completeEvents
        = p.completeEvents ++ [mergeEvent now ((p.events.lookup ev.ID).getD {}) ev] ∧
      (mergeEvent now ((p.events.lookup ev.ID).getD {}) ev).Complete = true ∧
      (p.handlePartialEvent lib now b).2.events.lookup ev.ID = none) ∧
    (ev.PeType ∉ terminalTypes →
      (p.handlePartialEvent lib now b).2.completeEvents = p.completeEvents ∧
      (p.handlePartialEvent lib now b).2.events.lookup ev.ID
        = some (mergeEvent now ((p.events.lookup ev.ID).getD {}) ev) ∧
      (mergeEvent now ((p.events.lookup ev.ID).getD {}) ev).Complete = false) ∧
    (ev.PeType ∈ terminalTypes ↔
      (p.handlePartialEvent lib now b).2.completeEvents ≠ p.completeEvents) ∧
    (ev.PeType ∈ terminalTypes ↔
      (p.handlePartialEvent lib now b).2.events.lookup ev.ID = none) ∧
    (∀ k, k ≠ ev.ID → (p.handlePartialEvent lib now b).2.events.lookup k = p.events.lookup k) := by
  obtain ⟨r, _, other, com, inc⟩ := handle_spec lib now p b ev h
  have hc := mergeEvent_complete now ((p.events.lookup ev.ID).getD {}) ev
  rw [old_incomplete p inv, Bool.false_or] at hc
  have hterm : ev.PeType ∈ terminalTypes →
      (mergeEvent now ((p.events.lookup ev.ID).getD {}) ev).Complete = true := by
    intro ht
    rw [hc]
    exact decide_eq_true ht
  have hnon : ev.PeType ∉ terminalTypes →
      (mergeEvent now ((p.events.lookup ev.ID).getD {}) ev).Complete = false := by
    intro ht
    rw [hc]
    exact decide_eq_false ht
  refine ⟨r, fun ht => ⟨(com (hterm ht)).1, hterm ht, (com (hterm ht)).2⟩,
    fun ht => ⟨(inc (hnon ht)).1, (inc (hnon ht)).2, hnon ht⟩, ?_, ?_, other⟩
  · constructor
    · intro ht
      rw [(com (hterm ht)).1]
      intro heq
      have := congrArg List.length heq
      simp at this
    · intro hne
      by_contra ht
      exact hne (inc (hnon ht)).1
  · constructor
    · intro ht
      exact (com (hterm ht)).2
    · intro hl
      by_contra ht
      rw [(inc (hnon ht)).2] at hl
      cases hl

/-! ## C17 -/

/-- C17: for every profile reachable from `Init` by `handlePartialEvent` and
sweeps, and every payload that decodes to an observation, `handlePartialEvent`
returns no error and emits a completed event and deletes the key of the
observation if and only if the subtype of the observation is childPid,
failedPubKey or connectionClosed.  For a terminal subtype exactly one event,
the merged entry with Complete = true, is appended to the events sent and the
key is absent afterwards; for every other subtype (the four other recognised
ones and any unknown one) nothing is sent and the key is present afterwards,
holding the merged entry.  No other key is touched. -/
theorem c17_emit_iff_terminal (lib : SshdLib) (now : Int) (p : SshdProfile) (b : String)
    (ev : sshEvent) (hr : SshdProfile.Reachable lib p) (h : lib.Unmarshal b = .ok ev) :
    (p.handlePartialEvent lib now b).1 = none ∧
    (ev.PeType ∈ terminalTypes →
      (p.handlePartialEvent lib now b).2.completeEvents
        = p.completeEvents ++ [mergeEvent now ((p.events.lookup ev.ID).getD {}) ev] ∧
      (mergeEvent now ((p.events.lookup ev.ID).getD {}) ev).Complete = true ∧
      (p.handlePartialEvent lib now b).2.events.lookup ev.ID = none) ∧
    (ev.PeType ∉ terminalTypes →
      (p.handlePartialEvent lib now b).2.completeEvents = p.completeEvents ∧
      (p.handlePartialEvent lib now b).2.events.lookup ev.ID
        = some (mergeEvent now ((p.events.lookup ev.ID).getD {}) ev) ∧
      (mergeEvent now ((p.events.lookup ev.ID).getD {}) ev).Complete = false) ∧
    (ev.PeType ∈ terminalTypes ↔
      (p.handlePartialEvent lib now b).2.completeEvents ≠ p.completeEvents) ∧
    (ev.PeType ∈ terminalTypes ↔
      (p.handlePartialEvent lib now b).2.events.lookup ev.ID = none) ∧
    (∀ k, k ≠ ev.ID → (p.handlePartialEvent lib now b).2.events.lookup k = p.events.lookup k) :=
  emits_iff_terminal lib now p b ev hr.inflight h

/-- C17 witness: after the connectLine observation of host1, pid 123, the
acceptKey observation emits nothing and leaves the key in the table. -/
theorem c17_emit_iff_terminal_witness :
    ((demoSshd.handlePartialEvent demoLib (63930247200 * Second) connectJson).2.handlePartialEvent
        demoLib (63930247201 * Second) acceptKeyJson).2.completeEvents = [] ∧
    acceptKeyEvent.PeType ∉ terminalTypes :=
  ⟨((c17_emit_iff_terminal demoLib (63930247201 * Second)
      (demoSshd.handlePartialEvent demoLib (63930247200 * Second) connectJson).2 acceptKeyJson
      acceptKeyEvent (SshdProfile.Reachable.handle _ _ _ (SshdProfile.Reachable.init _))
      demo_unmarshal_acceptKey).2.2.1 (by decide)).1.trans
      ((c17_emit_iff_terminal demoLib (63930247200 * Second) demoSshd connectJson connectEvent
        (SshdProfile.Reachable.init _) demo_unmarshal_connect).2.2.1 (by decide)).1,
    by decide⟩

end logtailer

namespace logtailer

/-! ## The merge, field by field -/

/-- after the merge the four fields set for every observation are those of
the observation, PeType and DstIP are as before, every other field holds its
previous value or the value of the observation, and Complete is not cleared -/
theorem merge_fields (now : Int) (full ev : sshEvent) :
    (mergeEvent now full ev).Timestamp = now ∧
    (mergeEvent now full ev).Logtime = ev.Logtime ∧
    (mergeEvent now full ev).Hostname = ev.Hostname ∧
    (mergeEvent now full ev).Pid = ev.Pid ∧
    (mergeEvent now full ev).PeType = full.PeType ∧
    (mergeEvent now full ev).DstIP = full.DstIP ∧
    ((mergeEvent now full ev).SrcIP = full.SrcIP ∨ (mergeEvent now full ev).SrcIP = ev.SrcIP) ∧
    ((mergeEvent now full ev).Port = full.Port ∨ (mergeEvent now full ev).Port = ev.Port) ∧
    ((mergeEvent now full ev).Fingerprint = full.Fingerprint ∨
      (mergeEvent now full ev).Fingerprint = ev.Fingerprint) ∧
    ((mergeEvent now full ev).DstUser = full.DstUser ∨
      (mergeEvent now full ev).DstUser = ev.DstUser) ∧
    ((mergeEvent now full ev).FbUser = full.FbUser ∨
      (mergeEvent now full ev).FbUser = ev.FbUser) ∧
    ((mergeEvent now full ev).ChildPid = full.ChildPid ∨
      (mergeEvent now full ev).ChildPid = ev.ChildPid) ∧
    ((mergeEvent now full ev).Success = full.Success ∨
      (mergeEvent now full ev).Success = ev.Success) ∧
    ((mergeEvent now full ev).FailReason = full.FailReason ∨
      (mergeEvent now full ev).FailReason = ev.FailReason) ∧
    (full.Complete = true → (mergeEvent now full ev).Complete = true) := by
  unfold mergeEvent
  split_ifs <;> simp

/-- what `handlePartialEvent` does with an observation for an existing entry -/
theorem merge_existing (lib : SshdLib) (now : Int) (p : SshdProfile) (b : String)
    (ev old : sshEvent) (h : lib.Unmarshal b = .ok ev) (hold : p.events.lookup ev.ID = some old) :
    ((mergeEvent now old ev).Complete = false →
      (p.handlePartialEvent lib now b).2.events.lookup ev.ID = some (mergeEvent now old ev) ∧
      (p.handlePartialEvent lib now b).2.completeEvents = p.completeEvents) ∧
    ((mergeEvent now old ev).Complete = true →
      (p.handlePartialEvent lib now b).2.events.lookup ev.ID = none ∧
      (p.handlePartialEvent lib now b).2.completeEvents
        = p.completeEvents ++ [mergeEvent now old ev]) := by
  obtain ⟨_, _, _, com, inc⟩ := handle_spec lib now p b ev h
  rw [hold] at com inc
  exact ⟨fun hc => ⟨(inc hc).2, (inc hc).1⟩, fun hc => ⟨(com hc).2, (com hc).1⟩⟩

/-- an acceptKey observation followed by a badRevMap observation for the same
key: Success is set, then cleared -/
theorem success_cleared (lib : SshdLib) (p : SshdProfile) (b1 b2 : String) (e1 e2 : sshEvent)
    (now1 now2 : Int) (hk : p.events.lookup e1.ID = none)
    (h1 : lib.Unmarshal b1 = .ok e1) (t1 : e1.PeType = "acceptKey") (s1 : e1.Success = true)
    (h2 : lib.Unmarshal b2 = .ok e2) (t2 : e2.PeType = "badRevMap") (s2 : e2.Success = false)
    (hid : e2.ID = e1.ID) :
    ∃ before after,
      (p.handlePartialEvent lib now1 b1).2.events.lookup e1.ID = some before ∧
      ((p.handlePartialEvent lib now1 b1).2.handlePartialEvent lib now2 b2).2.events.lookup e1.ID
        = some after ∧
      before.Success = true ∧ after.Success = false := by
  obtain ⟨_, _, _, _, inc1⟩ := handle_spec lib now1 p b1 e1 h1
  rw [hk] at inc1
  obtain ⟨_, l1⟩ := inc1 (by simp [mergeEvent_complete, t1, terminalTypes])
  obtain ⟨_, _, _, _, inc2⟩ := handle_spec lib now2 (p.handlePartialEvent lib now1 b1).2 b2 e2 h2
  rw [hid, l1] at inc2
  obtain ⟨_, l2⟩ := inc2 (by simp [mergeEvent_complete, t1, t2, terminalTypes])
  refine ⟨_, _, l1, l2, ?_, ?_⟩
  · simp [mergeEvent, t1, s1]
  · simp [mergeEvent, t2, s2]

/-! ## C18 -/

/-- C18 (as amended): the merge assigns.  For every existing table entry `old`
and every observation for its key, the entry after the merge (stored under the
key if it is not complete, emitted and deleted if it is) has Timestamp, Logtime,
Hostname and Pid set from the handling and the observation, PeType and DstIP as
before, and in each of the fields SrcIP, Port, Fingerprint, DstUser, FbUser,
ChildPid, Success and FailReason either the previous value or the value the
observation carries; Complete is never cleared.  So a field that held a
non-default value holds its default after the merge only if the observation
carries the default in that field. -/
theorem c18_merge_assigns (lib : SshdLib) (now : Int) (p : SshdProfile) (b : String)
    (ev old : sshEvent) (h : lib.Unmarshal b = .ok ev) (hold : p.events.lookup ev.ID = some old) :
    (((mergeEvent now old ev).Complete = false →
      (p.handlePartialEvent lib now b).2.events.lookup ev.ID = some (mergeEvent now old ev) ∧
      (p.handlePartialEvent lib now b).2.completeEvents = p.completeEvents) ∧
    ((mergeEvent now old ev).Complete = true →
      (p.handlePartialEvent lib now b).2.events.lookup ev.ID = none ∧
      (p.handlePartialEvent lib now b).2.completeEvents
        = p.completeEvents ++ [mergeEvent now old ev])) ∧
    (mergeEvent now old ev).Timestamp = now ∧
    (mergeEvent now old ev).Logtime = ev.Logtime ∧
    (mergeEvent now old ev).Hostname = ev.Hostname ∧
    (mergeEvent now old ev).Pid = ev.Pid ∧
    (mergeEvent now old ev).PeType = old.PeType ∧
    (mergeEvent now old ev).DstIP = old.DstIP ∧
    ((mergeEvent now old ev).SrcIP = old.SrcIP ∨ (mergeEvent now old ev).SrcIP = ev.SrcIP) ∧
    ((mergeEvent now old ev).Port = old.Port ∨ (mergeEvent now old ev).Port = ev.Port) ∧
    ((mergeEvent now old ev).Fingerprint = old.Fingerprint ∨
      (mergeEvent now old ev).Fingerprint = ev.Fingerprint) ∧
    ((mergeEvent now old ev).DstUser = old.DstUser ∨
      (mergeEvent now old ev).DstUser = ev.DstUser) ∧
    ((mergeEvent now old ev).FbUser = old.FbUser ∨
      (mergeEvent now old ev).FbUser = ev.FbUser) ∧
    ((mergeEvent now old ev).ChildPid = old.ChildPid ∨
      (mergeEvent now old ev).ChildPid = ev.ChildPid) ∧
    ((mergeEvent now old ev).Success = old.Success ∨
      (mergeEvent now old ev).Success = ev.Success) ∧
    ((mergeEvent now old ev).FailReason = old.FailReason ∨
      (mergeEvent now old ev).FailReason = ev.FailReason) ∧
    (old.Complete = true → (mergeEvent now old ev).Complete = true) :=
  ⟨merge_existing lib now p b ev old h hold, merge_fields now old ev⟩

/-- C18 witness: the entry of host1, pid 123 created by the connectLine
observation, merged with the acceptKey observation: SrcIP keeps its value (the
observation carries the same one) and Success becomes true. -/
theorem c18_merge_assigns_witness :
    (mergeEvent (63930247201 * Second)
        (mergeEvent (63930247200 * Second) {} connectEvent) acceptKeyEvent).Timestamp
      = 63930247201 * Second ∧
    (mergeEvent (63930247201 * Second)
        (mergeEvent (63930247200 * Second) {} connectEvent) acceptKeyEvent).Logtime
      = acceptKeyEvent.Logtime ∧
    (demoSshd.handlePartialEvent demoLib (63930247200 * Second) connectJson).2.events.lookup
      acceptKeyEvent.ID = some (mergeEvent (63930247200 * Second) {} connectEvent) :=
  ⟨(c18_merge_assigns demoLib (63930247201 * Second)
      (demoSshd.handlePartialEvent demoLib (63930247200 * Second) connectJson).2 acceptKeyJson
      acceptKeyEvent (mergeEvent (63930247200 * Second) {} connectEvent) demo_unmarshal_acceptKey
      ((handle_spec demoLib (63930247200 * Second) demoSshd connectJson connectEvent
        demo_unmarshal_connect).2.2.2.2 rfl).2).2.1,
    (c18_merge_assigns demoLib (63930247201 * Second)
      (demoSshd.handlePartialEvent demoLib (63930247200 * Second) connectJson).2 acceptKeyJson
      acceptKeyEvent (mergeEvent (63930247200 * Second) {} connectEvent) demo_unmarshal_acceptKey
      ((handle_spec demoLib (63930247200 * Second) demoSshd connectJson connectEvent
        demo_unmarshal_connect).2.2.2.2 rfl).2).2.2.1,
    ((handle_spec demoLib (63930247200 * Second) demoSshd connectJson connectEvent
        demo_unmarshal_connect).2.2.2.2 rfl).2⟩

/-- C18 counterexample: the entry of host1, pid 123 holds Success = true
after the acceptKey observation; the badRevMap observation for the same key
(not terminal: the entry stays in the table) sets Success back to false. -/
theorem c18_counterexample :
    ∃ before after,
      (demoSshd.handlePartialEvent demoLib (63930247201 * Second) acceptKeyJson).2.events.lookup
        "host1:123" = some before ∧
      ((demoSshd.handlePartialEvent demoLib (63930247201 * Second)
          acceptKeyJson).2.handlePartialEvent demoLib (63930247203 * Second)
          badRevMapJson).2.events.lookup "host1:123" = some after ∧
      before.Success = true ∧ after.Success = false :=
  success_cleared demoLib demoSshd acceptKeyJson badRevMapJson acceptKeyEvent badRevMapEvent
    (63930247201 * Second) (63930247203 * Second) (AList.lookup_empty _)
    demo_unmarshal_acceptKey rfl rfl demo_unmarshal_badRevMap rfl rfl rfl

end logtailer

namespace logtailer

/-! ## Lines with an unrecognised message, payloads that do not decode -/

/-- a line of sshd whose message matches none of the seven forms is
transformed to the empty JSON object -/
theorem processRecord_default (lib : SshdLib) (now : Int) (p : SshdProfile)
    (line logtime host pid message : String)
    (hlog : lib.sshLogRe line = some (logtime, host, pid, message))
    (h1 : lib.connectLineRe message = none) (h2 : lib.foundKeyRe message = none)
    (h3 : lib.acceptKeyRe message = none) (h4 : lib.childPidRe message = none)
    (h5 : lib.badRevMapRe message = none) (h6 : lib.failedPubKeyRe message = none)
    (h7 : lib.connectionClosedRe message = none) :
    p.ProcessRecord lib now line = .ok "\x7b\x7d" := by
  unfold SshdProfile.ProcessRecord
  simp only [hlog, h1, h2, h3, h4, h5, h6, h7]

theorem zero_ID : ({} : sshEvent).ID = ":0" := by decide

theorem mergeEvent_zero (now : Int) (full : sshEvent) :
    mergeEvent now full {}
      = { full with Timestamp := now, Logtime := 0, Hostname := "", Pid := 0 } := by
  unfold mergeEvent
  rw [if_neg (by decide), if_neg (by decide), if_neg (by decide), if_neg (by decide),
    if_neg (by decide), if_neg (by decide), if_neg (by decide)]

theorem mergeEvent_zero_complete (now : Int) (full : sshEvent) :
    (mergeEvent now full {}).Complete = full.Complete := by
  rw [mergeEvent_zero]

/-- the events a round of the expiry loop sends: one for each expired entry it
visits -/
theorem foldl_expire_completeEvents (now : Int) (l : List (Sigma (fun _ : String => sshEvent)))
    (p : SshdProfile) :
    (l.foldl (SshdProfile.expire now) p).completeEvents
      = p.completeEvents ++ (l.filter (fun entry => entry.2.expired now)).map
          (fun entry => { entry.2 with
            Success := false, FailReason := "timeout waiting for complete event" }) := by
  induction l generalizing p with
  | nil => simp
  | cons a rest ih =>
    rw [List.foldl_cons, ih]
    unfold SshdProfile.expire
    by_cases ha : a.2.expired now = true
    · simp [ha, List.filter_cons]
    · simp [ha, List.filter_cons]

/-- a sweep sends the timeout event of every expired entry of the table -/
theorem sweep_emits (now : Int) (p : SshdProfile) (k : String) (e : sshEvent)
    (hl : p.events.lookup k = some e) (hx : e.expired now = true) :
    ∃ l1 l2, (p.sweep now).completeEvents
      = p.completeEvents ++ l1 ++
        { e with Success := false, FailReason := "timeout waiting for complete event" } :: l2 := by
  have hmem : (⟨k, e⟩ : Sigma (fun _ : String => sshEvent)) ∈ p.events.entries :=
    AList.mem_lookup_iff.mp (by rw [hl]; rfl)
  have hmem2 : ({ e with Success := false, FailReason := "timeout waiting for complete event" }
      : sshEvent) ∈ (p.events.entries.filter (fun entry => entry.2.expired now)).map
        (fun entry => { entry.2 with
          Success := false, FailReason := "timeout waiting for complete event" }) :=
    List.mem_map.mpr ⟨⟨k, e⟩, List.mem_filter.mpr ⟨hmem, hx⟩, rfl⟩
  obtain ⟨l1, l2, hsplit⟩ := List.append_of_mem hmem2
  refine ⟨l1, l2, ?_⟩
  unfold SshdProfile.sweep
  rw [foldl_expire_completeEvents, hsplit, List.append_assoc]

/-- an unrecognised line puts an entry for the key of the zero event into the
table, and a later sweep sends a timeout event for it -/
theorem unrecognized_line (lib : SshdLib) (p : SshdProfile)
    (line logtime host pid message : String) (now0 now now2 : Int)
    (hlog : lib.sshLogRe line = some (logtime, host, pid, message))
    (h1 : lib.connectLineRe message = none) (h2 : lib.foundKeyRe message = none)
    (h3 : lib.acceptKeyRe message = none) (h4 : lib.childPidRe message = none)
    (h5 : lib.badRevMapRe message = none) (h6 : lib.failedPubKeyRe message = none)
    (h7 : lib.connectionClosedRe message = none)
    (hjson : lib.Unmarshal "\x7b\x7d" = .ok {}) (hk : p.events.lookup ":0" = none)
    (hlate : now2 > now + 60 * Second) :
    p.ProcessRecord lib now0 line = .ok "\x7b\x7d" ∧
    (p.handlePartialEvent lib now "\x7b\x7d").1 = none ∧
    (p.handlePartialEvent lib now "\x7b\x7d").2.events.lookup ":0" = some { Timestamp := now } ∧
    (p.handlePartialEvent lib now "\x7b\x7d").2.events ≠ p.events ∧
    (p.handlePartialEvent lib now "\x7b\x7d").2.completeEvents = p.completeEvents ∧
    (∃ l1 l2, ((p.handlePartialEvent lib now "\x7b\x7d").2.sweep now2).completeEvents
      = p.completeEvents ++ l1 ++
        { Timestamp := now, Success := false,
          FailReason := "timeout waiting for complete event" } :: l2) := by
  obtain ⟨r, _, _, _, inc⟩ := handle_spec lib now p "\x7b\x7d" {} hjson
  rw [zero_ID, hk] at inc
  obtain ⟨a1, l1⟩ := inc (by rw [mergeEvent_zero_complete]; rfl)
  have hm : mergeEvent now ((none : Option sshEvent).getD {}) {} = { Timestamp := now } := by
    rw [mergeEvent_zero]
    rfl
  rw [hm] at l1
  refine ⟨processRecord_default lib now0 p line logtime host pid message hlog h1 h2 h3 h4 h5 h6 h7,
    r, l1, ?_, a1, ?_⟩
  · intro heq
    rw [heq, hk] at l1
    cases l1
  · obtain ⟨l1, l2, hs⟩ := sweep_emits now2 _ ":0" { Timestamp := now } l1
      (by simp only [sshEvent.expired]; exact decide_eq_true hlate)
    exact ⟨l1, l2, by rw [hs, a1]⟩

/-! ## C19 -/

/-- C19 (code bug): a line of sshd with an unrecognised message is not a no-op.
`ProcessRecord` returns the empty JSON object for it; `handlePartialEvent`
decodes that to the zero event, whose key is a colon followed by 0, creates an
entry for that key in the table (here: the key was absent) with the time of the
handling as Timestamp, and a sweep more than 60s later sends a timeout event
for it and deletes it. -/
theorem c19_unrecognized_line_creates_entry (lib : SshdLib) (p : SshdProfile)
    (line logtime host pid message : String) (now0 now now2 : Int)
    (hlog : lib.sshLogRe line = some (logtime, host, pid, message))
    (h1 : lib.connectLineRe message = none) (h2 : lib.foundKeyRe message = none)
    (h3 : lib.acceptKeyRe message = none) (h4 : lib.childPidRe message = none)
    (h5 : lib.badRevMapRe message = none) (h6 : lib.failedPubKeyRe message = none)
    (h7 : lib.connectionClosedRe message = none)
    (hjson : lib.Unmarshal "\x7b\x7d" = .ok {}) (hk : p.events.lookup ":0" = none)
    (hlate : now2 > now + 60 * Second) :
    p.ProcessRecord lib now0 line = .ok "\x7b\x7d" ∧
    (p.handlePartialEvent lib now "\x7b\x7d").1 = none ∧
    (p.handlePartialEvent lib now "\x7b\x7d").2.events.lookup ":0" = some { Timestamp := now } ∧
    (p.handlePartialEvent lib now "\x7b\x7d").2.events ≠ p.events ∧
    (p.handlePartialEvent lib now "\x7b\x7d").2.completeEvents = p.completeEvents ∧
    (∃ l1 l2, ((p.handlePartialEvent lib now "\x7b\x7d").2.sweep now2).completeEvents
      = p.completeEvents ++ l1 ++
        { Timestamp := now, Success := false,
          FailReason := "timeout waiting for complete event" } :: l2) :=
  unrecognized_line lib p line logtime host pid message now0 now now2 hlog h1 h2 h3 h4 h5 h6 h7
    hjson hk hlate

/-- C19 witness: the line `listeningLine` handled right after `Init`, and a
sweep 61 seconds later: the table holds an entry for the key of the zero
event, and the sweep sends a timeout event. -/
theorem c19_unrecognized_line_creates_entry_witness :
    demoSshd.ProcessRecord demoLib (63930247200 * Second) listeningLine = .ok "\x7b\x7d" ∧
    (demoSshd.handlePartialEvent demoLib (63930247200 * Second) "\x7b\x7d").2.events.lookup ":0"
      = some { Timestamp := 63930247200 * Second } ∧
    demoSshd.events.lookup ":0" = none ∧
    ((demoSshd.handlePartialEvent demoLib (63930247200 * Second) "\x7b\x7d").2.sweep
        (63930247261 * Second)).completeEvents
      = [{ Timestamp := 63930247200 * Second, Success := false,
           FailReason := "timeout waiting for complete event" }] :=
  ⟨(c19_unrecognized_line_creates_entry demoLib demoSshd listeningLine "Nov 14 10:00:00" "host1"
      "123" "Server listening on 0.0.0.0 port 22." (63930247200 * Second)
      (63930247200 * Second) (63930247261 * Second) (by simp [demoLib]) rfl rfl rfl rfl rfl rfl
      rfl demo_unmarshal_empty (AList.lookup_empty _) (by decide)).1,
    (c19_unrecognized_line_creates_entry demoLib demoSshd listeningLine "Nov 14 10:00:00" "host1"
      "123" "Server listening on 0.0.0.0 port 22." (63930247200 * Second)
      (63930247200 * Second) (63930247261 * Second) (by simp [demoLib]) rfl rfl rfl rfl rfl rfl
      rfl demo_unmarshal_empty (AList.lookup_empty _) (by decide)).2.2.1,
    AList.lookup_empty _, by
      rw [handle_incomplete demoLib _ demoSshd _ {} demo_unmarshal_empty (by decide)]
      decide⟩

/-! ## C20 -/

/-- C20: for every payload that does not decode as an event,
`handlePartialEvent` returns the error of the decoder and the profile as it
was: the table of events is unchanged and nothing is sent on `completeEvents`.
The consumption loop sends that error on `errChan` and goes on. -/
theorem c20_malformed_payload_dropped (lib : SshdLib) (now : Int) (p : SshdProfile)
    (b : String) (err : GoError) (h : lib.Unmarshal b = .error err) :
    p.handlePartialEvent lib now b = (some err, p) ∧
    (p.handlePartialEvent lib now b).1 = some err ∧
    (p.handlePartialEvent lib now b).2.events = p.events ∧
    (p.handlePartialEvent lib now b).2.completeEvents = p.completeEvents ∧
    (∀ rest, p.consume lib ((now, b) :: rest) = (err :: (p.consume lib rest).1,
      (p.consume lib rest).2)) := by
  have hh := handle_error lib now p b err h
  refine ⟨hh, by rw [hh], by rw [hh], by rw [hh], fun rest => ?_⟩
  simp only [SshdProfile.consume, hh, Option.toList, List.singleton_append, List.cons_append,
    List.nil_append]

/-- C20 witness: a truncated JSON document handled between the connectLine
and the acceptKey observation of a login. -/
theorem c20_malformed_payload_dropped_witness :
    (demoSshd.handlePartialEvent demoLib (63930247200 * Second) connectJson).2.handlePartialEvent
        demoLib (63930247201 * Second) "\x7b\"pid\":"
      = (some "unexpected end of JSON input",
          (demoSshd.handlePartialEvent demoLib (63930247200 * Second) connectJson).2) :=
  (c20_malformed_payload_dropped demoLib (63930247201 * Second)
    (demoSshd.handlePartialEvent demoLib (63930247200 * Second) connectJson).2 "\x7b\"pid\":"
    "unexpected end of JSON input" demo_unmarshal_truncated).1

end logtailer

namespace logtailer

/-! ## The expiry sweep -/

theorem expire_lookup (now : Int) (p : SshdProfile) (entry : Sigma (fun _ : String => sshEvent))
    (k : String) :
    (p.expire now entry).events.lookup k
      = if entry.2.expired now = true ∧ entry.1 = k then none else p.events.lookup k := by
  unfold SshdProfile.expire
  by_cases hx : entry.2.expired now = true
  · by_cases hk : entry.1 = k
    · subst hk
      simp [hx, AList.lookup_erase]
    · have hk2 : k ≠ entry.1 := fun e => hk e.symm
      simp [hx, hk, AList.lookup_erase_ne hk2]
  · simp [hx]

theorem foldl_expire_lookup (now : Int) (l : List (Sigma (fun _ : String => sshEvent)))
    (p : SshdProfile) (k : String) :
    (l.foldl (SshdProfile.expire now) p).events.lookup k
      = if (∃ entry ∈ l, entry.2.expired now = true ∧ entry.1 = k) then none
        else p.events.lookup k := by
  induction l generalizing p with
  | nil => simp
  | cons a rest ih =>
    rw [List.foldl_cons, ih, expire_lookup]
    by_cases h1 : ∃ entry ∈ rest, entry.2.expired now = true ∧ entry.1 = k
    · have h2 : ∃ entry ∈ a :: rest, entry.2.expired now = true ∧ entry.1 = k := by
        obtain ⟨en, hm, hp⟩ := h1
        exact ⟨en, List.mem_cons_of_mem _ hm, hp⟩
      rw [if_pos h1, if_pos h2]
    · rw [if_neg h1]
      by_cases h3 : a.2.expired now = true ∧ a.1 = k
      · have h2 : ∃ entry ∈ a :: rest, entry.2.expired now = true ∧ entry.1 = k :=
          ⟨a, List.mem_cons_self _ _, h3⟩
        rw [if_pos h3, if_pos h2]
      · have h2 : ¬ ∃ entry ∈ a :: rest, entry.2.expired now = true ∧ entry.1 = k := by
          rintro ⟨en, hm, hp⟩
          rcases List.mem_cons.mp hm with e | e
          · exact h3 (e ▸ hp)
          · exact h1 ⟨en, e, hp⟩
        rw [if_neg h3, if_neg h2]

/-- a sweep deletes the expired entries and leaves the table as it is
otherwise -/
theorem sweep_lookup (now : Int) (p : SshdProfile) (k : String) :
    (p.sweep now).events.lookup k
      = (p.events.lookup k).filter (fun e => !e.expired now) := by
  unfold SshdProfile.sweep
  rw [foldl_expire_lookup]
  cases hl : p.events.lookup k with
  | none =>
    rw [if_neg]
    · rfl
    · rintro ⟨⟨k2, e⟩, hm, _, hk⟩
      have hk2 : k2 = k := hk
      subst hk2
      have : e ∈ p.events.lookup k2 := AList.mem_lookup_iff.mpr hm
      rw [hl] at this
      cases this
  | some e =>
    by_cases hx : e.expired now = true
    · rw [if_pos ⟨⟨k, e⟩, AList.mem_lookup_iff.mp (by rw [hl]; rfl), hx, rfl⟩]
      simp [Option.filter, hx]
    · rw [if_neg]
      · simp [Option.filter, hx]
      · rintro ⟨⟨k2, e2⟩, hm, hx2, hk⟩
        have hk2 : k2 = k := hk
        subst hk2
        have : e2 ∈ p.events.lookup k2 := AList.mem_lookup_iff.mpr hm
        rw [hl] at this
        have he : e = e2 := Option.some.inj this
        subst he
        exact hx hx2

theorem sweep_completeEvents (now : Int) (p : SshdProfile) :
    (p.sweep now).completeEvents
      = p.completeEvents ++ (p.events.entries.filter (fun entry => entry.2.expired now)).map
          (fun entry => { entry.2 with
            Success := false, FailReason := "timeout waiting for complete event" }) :=
  foldl_expire_completeEvents now _ p

theorem sweep_fingerprints (now : Int) (p : SshdProfile) :
    (p.sweep now).fingerprintToFbUser = p.fingerprintToFbUser := by
  unfold SshdProfile.sweep
  generalize p.events.entries = l
  induction l generalizing p with
  | nil => rfl
  | cons a rest ih =>
    rw [List.foldl_cons, ih]
    unfold SshdProfile.expire
    split_ifs <;> rfl

theorem expired_iff (now : Int) (e : sshEvent) :
    e.expired now = true ↔ now > e.Timestamp + 60 * Second := by
  simp [sshEvent.expired]

/-- what one sweep does -/
theorem sweep_spec (now : Int) (p : SshdProfile) :
    (∀ k e, p.events.lookup k = some e → now > e.Timestamp + 60 * Second →
      (p.sweep now).events.lookup k = none ∧
      ({ e with Success := false, FailReason := "timeout waiting for complete event" } : sshEvent)
        ∈ (p.sweep now).completeEvents.drop p.completeEvents.length) ∧
    (∀ k e, p.events.lookup k = some e → now ≤ e.Timestamp + 60 * Second →
      (p.sweep now).events.lookup k = some e) ∧
    (∀ k, p.events.lookup k = none → (p.sweep now).events.lookup k = none) ∧
    (p.sweep now).completeEvents.take p.completeEvents.length = p.completeEvents ∧
    (∀ x ∈ (p.sweep now).completeEvents.drop p.completeEvents.length,
      ∃ k e, p.events.lookup k = some e ∧ now > e.Timestamp + 60 * Second ∧
        x = { e with Success := false, FailReason := "timeout waiting for complete event" }) ∧
    ((p.sweep now).completeEvents.drop p.completeEvents.length).length
      = (p.events.entries.filter (fun entry => entry.2.expired now)).length := by
  have hdrop : (p.sweep now).completeEvents.drop p.completeEvents.length
      = (p.events.entries.filter (fun entry => entry.2.expired now)).map
          (fun entry => { entry.2 with
            Success := false, FailReason := "timeout waiting for complete event" }) := by
    rw [sweep_completeEvents, List.drop_left]
  refine ⟨?_, ?_, ?_, ?_, ?_, ?_⟩
  · intro k e hl hx
    have hx2 := (expired_iff now e).mpr hx
    refine ⟨by rw [sweep_lookup, hl]; simp [Option.filter, hx2], ?_⟩
    rw [hdrop]
    exact List.mem_map.mpr ⟨⟨k, e⟩,
      List.mem_filter.mpr ⟨AList.mem_lookup_iff.mp (by rw [hl]; rfl), hx2⟩, rfl⟩
  · intro k e hl hx
    have hx2 : ¬ e.expired now = true := fun h => by
      have := (expired_iff now e).mp h
      omega
    rw [sweep_lookup, hl]
    simp [Option.filter, hx2]
  · intro k hl
    rw [sweep_lookup, hl]
    rfl
  · rw [sweep_completeEvents, List.take_left]
  · intro x hx
    rw [hdrop] at hx
    obtain ⟨⟨k, e⟩, hm, rfl⟩ := List.mem_map.mp hx
    obtain ⟨hm1, hm2⟩ := List.mem_filter.mp hm
    exact ⟨k, e, Option.mem_def.mp (AList.mem_lookup_iff.mpr hm1), (expired_iff now e).mp hm2, rfl⟩
  · rw [hdrop, List.length_map]

/-- every observation that decodes refreshes the Timestamp of the entry it is
merged into -/
theorem timestamp_refreshed (lib : SshdLib) (now : Int) (p : SshdProfile) (b : String)
    (ev e : sshEvent) (h : lib.Unmarshal b = .ok ev)
    (hl : (p.handlePartialEvent lib now b).2.events.lookup ev.ID = some e) :
    e.Timestamp = now := by
  obtain ⟨_, _, _, com, inc⟩ := handle_spec lib now p b ev h
  cases hc : (mergeEvent now ((p.events.lookup ev.ID).getD {}) ev).Complete with
  | true =>
    rw [(com hc).2] at hl
    cases hl
  | false =>
    rw [(inc hc).2] at hl
    cases hl
    exact (merge_fields now _ ev).1

end logtailer

namespace logtailer

/-! ## C21 -/

/-- C21: one expiry sweep at time `now`.  Every entry whose Timestamp lies
more than 60 seconds before `now` is deleted and is emitted with Success =
false and FailReason = timeout waiting for complete event (its other fields as
they were); every other entry stays in the table unchanged, and a key that was
absent stays absent.  The events sent before the sweep are still there, and
the sweep sends exactly one event for each expired entry and nothing else.
An entry exactly 60 seconds old is not expired.  The Timestamp of an entry is
the time at which the most recent observation for its key was handled,
whatever the subtype of the observation. -/
theorem c21_expiry_sweep (lib : SshdLib) (now : Int) (p : SshdProfile) :
    ((∀ k e, p.events.lookup k = some e → now > e.Timestamp + 60 * Second →
      (p.sweep now).events.lookup k = none ∧
      ({ e with Success := false, FailReason := "timeout waiting for complete event" } : sshEvent)
        ∈ (p.sweep now).completeEvents.drop p.completeEvents.length) ∧
    (∀ k e, p.events.lookup k = some e → now ≤ e.Timestamp + 60 * Second →
      (p.sweep now).events.lookup k = some e) ∧
    (∀ k, p.events.lookup k = none → (p.sweep now).events.lookup k = none) ∧
    (p.sweep now).completeEvents.take p.completeEvents.length = p.completeEvents ∧
    (∀ x ∈ (p.sweep now).completeEvents.drop p.completeEvents.length,
      ∃ k e, p.events.lookup k = some e ∧ now > e.Timestamp + 60 * Second ∧
        x = { e with Success := false, FailReason := "timeout waiting for complete event" }) ∧
    ((p.sweep now).completeEvents.drop p.completeEvents.length).length
      = (p.events.entries.filter (fun entry => entry.2.expired now)).length) ∧
    (∀ k e, p.events.lookup k = some e → now = e.Timestamp + 60 * Second →
      (p.sweep now).events.lookup k = some e) ∧
    (∀ now0 b ev e, lib.Unmarshal b = .ok ev →
      (p.handlePartialEvent lib now0 b).2.events.lookup ev.ID = some e → e.Timestamp = now0) :=
  ⟨sweep_spec now p, fun k e hl hn => (sweep_spec now p).2.1 k e hl (le_of_eq hn),
    fun now0 b ev e h hl => timestamp_refreshed lib now0 p b ev e h hl⟩

/-- C21 witness: the entry of host1, pid 123 created by the connectLine
observation at second 63930247200 is still in the table after a sweep exactly
60 seconds later and is deleted by a sweep 61 seconds later. -/
theorem c21_expiry_sweep_witness :
    ((demoSshd.handlePartialEvent demoLib (63930247200 * Second) connectJson).2.sweep
        (63930247260 * Second)).events.lookup "host1:123"
      = some (mergeEvent (63930247200 * Second) {} connectEvent) ∧
    ((demoSshd.handlePartialEvent demoLib (63930247200 * Second) connectJson).2.sweep
        (63930247261 * Second)).events.lookup "host1:123" = none :=
  ⟨(c21_expiry_sweep demoLib (63930247260 * Second)
      (demoSshd.handlePartialEvent demoLib (63930247200 * Second) connectJson).2).2.1
      "host1:123" (mergeEvent (63930247200 * Second) {} connectEvent)
      ((handle_spec demoLib (63930247200 * Second) demoSshd connectJson connectEvent
        demo_unmarshal_connect).2.2.2.2 rfl).2 (by decide),
    ((c21_expiry_sweep demoLib (63930247261 * Second)
      (demoSshd.handlePartialEvent demoLib (63930247200 * Second) connectJson).2).1.1
      "host1:123" (mergeEvent (63930247200 * Second) {} connectEvent)
      ((handle_spec demoLib (63930247200 * Second) demoSshd connectJson connectEvent
        demo_unmarshal_connect).2.2.2.2 rfl).2 (by decide)).1⟩

end logtailer

namespace logtailer

/-! ## Every entry is emitted once -/

theorem countP_key (P : sshEvent → Bool) (k : String) :
    ∀ l : List (Sigma (fun _ : String => sshEvent)), l.NodupKeys →
      l.countP (fun entry => decide (entry.1 = k) && P entry.2)
        = (l.dlookup k).elim 0 (fun e => if P e = true then 1 else 0) := by
  intro l
  induction l with
  | nil => intro _; rfl
  | cons a rest ih =>
    intro hnd
    obtain ⟨hnot, hrest⟩ := List.nodupKeys_cons.mp hnd
    obtain ⟨k2, e⟩ := a
    by_cases hk : k2 = k
    · subst hk
      have hzero : rest.countP (fun entry => decide (entry.1 = k2) && P entry.2) = 0 := by
        rw [List.countP_eq_zero]
        intro en hen
        have : en.1 ≠ k2 := fun h => hnot (by
          show k2 ∈ rest.keys
          rw [← h]
          exact List.mem_keys_of_mem hen)
        simp [this]
      rw [List.countP_cons, hzero, List.dlookup_cons_eq]
      by_cases hp : P e = true <;> simp [hp]
    · have hk2 : k ≠ k2 := fun h => hk h.symm
      rw [List.countP_cons, ih hrest,
        List.dlookup_cons_ne rest (⟨k2, e⟩ : Sigma (fun _ : String => sshEvent)) hk2]
      simp [hk]

theorem countP_key_le_one (k : String) (l : List (Sigma (fun _ : String => sshEvent)))
    (h : l.NodupKeys) : l.countP (fun entry => decide (entry.1 = k)) ≤ 1 := by
  have := countP_key (fun _ => true) k l h
  simp only [Bool.and_true] at this
  rw [this]
  cases l.dlookup k <;> simp

theorem timeout_ID (e : sshEvent) :
    ({ e with Success := false, FailReason := "timeout waiting for complete event" }
      : sshEvent).ID = e.ID := rfl

/-- the events a sweep sends for the key `k`: one if the key has an expired
entry, none otherwise -/
theorem sweep_emitted (now : Int) (p : SshdProfile) (k : String) (inv : p.Inflight) :
    (p.sweep now).emitted k
      = p.emitted k
        + (p.events.lookup k).elim 0 (fun e => if e.expired now = true then 1 else 0) := by
  unfold SshdProfile.emitted
  rw [sweep_completeEvents, List.countP_append, List.countP_map, List.countP_filter]
  congr 1
  have key := countP_key (fun e => e.expired now) k p.events.entries p.events.nodupKeys
  rw [show p.events.lookup k = p.events.entries.dlookup k from rfl, ← key]
  apply List.countP_congr
  intro en hen
  have hid : en.2.ID = en.1 := by
    obtain ⟨k2, e⟩ := en
    exact (inv k2 e (Option.mem_def.mp (AList.mem_lookup_iff.mpr hen))).2
  simp [timeout_ID, hid]

theorem sweep_count (now : Int) (p : SshdProfile) (k : String) (inv : p.Inflight) :
    (p.sweep now).emitted k + (p.sweep now).present k = p.emitted k + p.present k := by
  rw [sweep_emitted now p k inv]
  unfold SshdProfile.present
  rw [sweep_lookup]
  cases hl : p.events.lookup k with
  | none => simp [Option.filter]
  | some e =>
    by_cases hx : e.expired now = true <;> simp [Option.filter, hx]

theorem handle_count (lib : SshdLib) (now : Int) (p : SshdProfile) (b : String) (k : String) :
    (p.handlePartialEvent lib now b).2.emitted k + (p.handlePartialEvent lib now b).2.present k
      = p.emitted k + p.present k
        + (match lib.Unmarshal b with
          | .ok event => if event.ID = k ∧ p.events.lookup k = none then 1 else 0
          | .error _ => 0) := by
  cases h : lib.Unmarshal b with
  | error err =>
    rw [handle_error lib now p b err h]
    rfl
  | ok ev =>
    obtain ⟨_, _, other, com, inc⟩ := handle_spec lib now p b ev h
    unfold SshdProfile.emitted SshdProfile.present
    by_cases hk : ev.ID = k
    · subst hk
      cases hc : (mergeEvent now ((p.events.lookup ev.ID).getD {}) ev).Complete with
      | true =>
        rw [(com hc).1, (com hc).2, List.countP_append]
        cases hl : p.events.lookup ev.ID <;> simp [mergeEvent_ID]
      | false =>
        rw [(inc hc).1, (inc hc).2]
        cases hl : p.events.lookup ev.ID <;> simp
    · have hk2 : k ≠ ev.ID := fun e => hk e.symm
      rw [other k hk2]
      cases hc : (mergeEvent now ((p.events.lookup ev.ID).getD {}) ev).Complete with
      | true =>
        rw [(com hc).1, List.countP_append]
        simp [mergeEvent_ID, hk]
      | false =>
        rw [(inc hc).1]
        simp [hk]

theorem inflight_run (lib : SshdLib) (steps : List SshdStep) (p : SshdProfile)
    (inv : p.Inflight) : (p.run lib steps).2.Inflight := by
  induction steps generalizing p with
  | nil => exact inv
  | cons a rest ih =>
    cases a with
    | record now b => exact ih _ (inflight_handle lib now p b inv)
    | tick now => exact ih _ (inflight_sweep now p inv)

theorem reachable_run (lib : SshdLib) (steps : List SshdStep) (p : SshdProfile)
    (h : SshdProfile.Reachable lib p) : SshdProfile.Reachable lib (p.run lib steps).2 := by
  induction steps generalizing p with
  | nil => exact h
  | cons a rest ih =>
    cases a with
    | record now b => exact ih _ (SshdProfile.Reachable.handle now p b h)
    | tick now => exact ih _ (SshdProfile.Reachable.sweep now p h)

/-- along every sequence of steps, the events sent for a key and the entry the
key has in the table account for the entries created under the key -/
theorem lifecycle (lib : SshdLib) (k : String) (steps : List SshdStep) (p : SshdProfile)
    (inv : p.Inflight) :
    (p.run lib steps).2.emitted k + (p.run lib steps).2.present k
      = p.emitted k + p.present k + p.created lib k steps := by
  induction steps generalizing p with
  | nil => rfl
  | cons a rest ih =>
    cases a with
    | record now b =>
      have h1 := ih _ (inflight_handle lib now p b inv)
      have h2 := handle_count lib now p b k
      simp only [SshdProfile.run, SshdProfile.created]
      omega
    | tick now =>
      have h1 := ih _ (inflight_sweep now p inv)
      have h2 := sweep_count now p k inv
      simp only [SshdProfile.run, SshdProfile.created]
      omega

/-- the records of a sequence of steps that decode to an observation for the
key `k` -/
theorem created_eq_zero (lib : SshdLib) (k : String) (steps : List SshdStep) (p : SshdProfile)
    (hno : ∀ now b ev, SshdStep.record now b ∈ steps → lib.Unmarshal b = .ok ev → ev.ID ≠ k) :
    p.created lib k steps = 0 := by
  induction steps generalizing p with
  | nil => rfl
  | cons a rest ih =>
    cases a with
    | record now b =>
      simp only [SshdProfile.created]
      rw [ih _ (fun n b2 ev hm => hno n b2 ev (List.mem_cons_of_mem _ hm))]
      cases h : lib.Unmarshal b with
      | error err => rfl
      | ok ev =>
        have := hno now b ev (List.mem_cons_self _ _) h
        simp [this]
    | tick now =>
      simp only [SshdProfile.created]
      exact ih _ (fun n b2 ev hm => hno n b2 ev (List.mem_cons_of_mem _ hm))

/-- the step that sends an event removes its entry -/
theorem emission_removes (lib : SshdLib) (p : SshdProfile) (inv : p.Inflight) :
    (∀ now b x, x ∈ (p.handlePartialEvent lib now b).2.completeEvents.drop p.completeEvents.length →
      (p.handlePartialEvent lib now b).2.events.lookup x.ID = none ∧
      (p.handlePartialEvent lib now b).2.completeEvents = p.completeEvents ++ [x]) ∧
    (∀ now x, x ∈ (p.sweep now).completeEvents.drop p.completeEvents.length →
      (p.sweep now).events.lookup x.ID = none) := by
  constructor
  · intro now b x hx
    cases h : lib.Unmarshal b with
    | error err =>
      rw [handle_error lib now p b err h] at hx
      simp at hx
    | ok ev =>
      obtain ⟨_, _, _, com, inc⟩ := handle_spec lib now p b ev h
      cases hc : (mergeEvent now ((p.events.lookup ev.ID).getD {}) ev).Complete with
      | true =>
        rw [(com hc).1, List.drop_left] at hx
        have hx2 := List.mem_singleton.mp hx
        subst hx2
        rw [mergeEvent_ID]
        exact ⟨(com hc).2, (com hc).1⟩
      | false =>
        rw [(inc hc).1] at hx
        simp at hx
  · intro now x hx
    obtain ⟨k, e, hl, hexp, rfl⟩ := (sweep_spec now p).2.2.2.2.1 x hx
    rw [timeout_ID, (inv k e hl).2]
    exact ((sweep_spec now p).1 k e hl hexp).1

end logtailer

namespace logtailer

/-- the events sent are never taken back -/
theorem handle_completeEvents_prefix (lib : SshdLib) (now : Int) (p : SshdProfile) (b : String) :
    ∃ l, (p.handlePartialEvent lib now b).2.completeEvents = p.completeEvents ++ l := by
  cases h : lib.Unmarshal b with
  | error err =>
    rw [handle_error lib now p b err h]
    exact ⟨[], by simp⟩
  | ok ev =>
    obtain ⟨_, _, _, com, inc⟩ := handle_spec lib now p b ev h
    cases hc : (mergeEvent now ((p.events.lookup ev.ID).getD {}) ev).Complete with
    | true => exact ⟨_, (com hc).1⟩
    | false => exact ⟨[], by rw [(inc hc).1]; simp⟩

theorem run_completeEvents_prefix (lib : SshdLib) (steps : List SshdStep) (p : SshdProfile) :
    ∃ l, (p.run lib steps).2.completeEvents = p.completeEvents ++ l := by
  induction steps generalizing p with
  | nil => exact ⟨[], by simp [SshdProfile.run]⟩
  | cons a rest ih =>
    cases a with
    | record now b =>
      obtain ⟨l1, h1⟩ := handle_completeEvents_prefix lib now p b
      obtain ⟨l2, h2⟩ := ih (p.handlePartialEvent lib now b).2
      exact ⟨l1 ++ l2, by simp only [SshdProfile.run]; rw [h2, h1, List.append_assoc]⟩
    | tick now =>
      obtain ⟨l2, h2⟩ := ih (p.sweep now)
      exact ⟨_, by simp only [SshdProfile.run]; rw [h2, sweep_completeEvents, List.append_assoc]⟩

theorem emitted_mono (lib : SshdLib) (steps : List SshdStep) (p : SshdProfile) (k : String) :
    p.emitted k ≤ (p.run lib steps).2.emitted k := by
  obtain ⟨l, hl⟩ := run_completeEvents_prefix lib steps p
  unfold SshdProfile.emitted
  rw [hl, List.countP_append]
  omega

/-! ## C22 -/

/-- C22: along every sequence of `handlePartialEvent` steps and sweep steps
taken one at a time from a reachable profile, each table entry is emitted at
most once.  The step that sends an event (a terminal observation, which sends
exactly one, or an expiry) leaves the key of that event absent from the table.
For every key, the number of events sent for the key plus one if the key still
has an entry equals the number of entries created under the key (counted from
the start of the sequence): every entry is sent once when it leaves the table,
by completion or by expiry, never by both.  When the key is absent and no
record of the sequence decodes to an observation for it, nothing is sent for
the key, whatever sweeps the sequence holds, and the key stays absent. -/
theorem c22_emitted_at_most_once (lib : SshdLib) (p : SshdProfile) (steps : List SshdStep)
    (k : String) (hr : SshdProfile.Reachable lib p) :
    ((∀ now b x,
        x ∈ (p.handlePartialEvent lib now b).2.completeEvents.drop p.completeEvents.length →
      (p.handlePartialEvent lib now b).2.events.lookup x.ID = none ∧
      (p.handlePartialEvent lib now b).2.completeEvents = p.completeEvents ++ [x]) ∧
    (∀ now x, x ∈ (p.sweep now).completeEvents.drop p.completeEvents.length →
      (p.sweep now).events.lookup x.ID = none)) ∧
    (p.run lib steps).2.emitted k + (p.run lib steps).2.present k
      = p.emitted k + p.present k + p.created lib k steps ∧
    (p.run lib steps).2.emitted k ≤ p.emitted k + p.present k + p.created lib k steps ∧
    (p.events.lookup k = none →
      (∀ now b ev, SshdStep.record now b ∈ steps → lib.Unmarshal b = .ok ev → ev.ID ≠ k) →
      (p.run lib steps).2.emitted k = p.emitted k ∧ (p.run lib steps).2.events.lookup k = none) := by
  have hl := lifecycle lib k steps p hr.inflight
  refine ⟨emission_removes lib p hr.inflight, hl, by omega, fun habs hno => ?_⟩
  have hc := created_eq_zero lib k steps p hno
  have hp : p.present k = 0 := by simp [SshdProfile.present, habs]
  rw [hc, hp] at hl
  have hmono := emitted_mono lib steps p k
  have hpres : (p.run lib steps).2.present k = 0 := by omega
  refine ⟨by omega, ?_⟩
  unfold SshdProfile.present at hpres
  cases hlk : (p.run lib steps).2.events.lookup k with
  | none => rfl
  | some e => simp [hlk] at hpres

/-- C22 witness: the login of alice on host1, pid 123, completed by its
childPid observation, followed by two sweeps, the second a day later: one event
is sent for the key in all. -/
theorem c22_emitted_at_most_once_witness :
    (demoSshd.run demoLib
        [.record (63930247200 * Second) connectJson, .record (63930247201 * Second) foundKeyJson,
          .record (63930247202 * Second) childPidJson, .tick (63930247205 * Second),
          .tick (63930333605 * Second)]).2.emitted "host1:123"
      + (demoSshd.run demoLib
        [.record (63930247200 * Second) connectJson, .record (63930247201 * Second) foundKeyJson,
          .record (63930247202 * Second) childPidJson, .tick (63930247205 * Second),
          .tick (63930333605 * Second)]).2.present "host1:123"
      = demoSshd.emitted "host1:123" + demoSshd.present "host1:123"
        + demoSshd.created demoLib "host1:123"
          [.record (63930247200 * Second) connectJson,
            .record (63930247201 * Second) foundKeyJson,
            .record (63930247202 * Second) childPidJson, .tick (63930247205 * Second),
            .tick (63930333605 * Second)] :=
  (c22_emitted_at_most_once demoLib demoSshd _ "host1:123" (SshdProfile.Reachable.init _)).2.1

end logtailer

namespace logtailer

/-! ## C23 -/

/-- the entries of a table for one hostname and pid -/
theorem one_entry_per_pair (p : SshdProfile) (inv : p.Inflight) (host : String) (pid : Int) :
    p.events.entries.countP (fun entry => decide (entry.2.Hostname = host ∧ entry.2.Pid = pid))
      ≤ 1 := by
  refine le_trans ?_ (countP_key_le_one (host ++ ":" ++ Itoa pid) p.events.entries
    p.events.nodupKeys)
  apply List.countP_mono_left
  intro en hen hp
  obtain ⟨k, e⟩ := en
  have hid := (inv k e (Option.mem_def.mp (AList.mem_lookup_iff.mpr hen))).2
  simp only [decide_eq_true_eq] at hp ⊢
  rw [← hid]
  exact ID_eq e host pid hp.1 hp.2

/-- two observations with the same hostname and pid are merged into the same
entry -/
theorem same_entry (lib : SshdLib) (p : SshdProfile) (now1 now2 : Int) (b1 b2 : String)
    (ev1 ev2 e1 : sshEvent) (h1 : lib.Unmarshal b1 = .ok ev1) (h2 : lib.Unmarshal b2 = .ok ev2)
    (hh : ev1.Hostname = ev2.Hostname) (hp : ev1.Pid = ev2.Pid)
    (hl : (p.handlePartialEvent lib now1 b1).2.events.lookup ev1.ID = some e1) :
    ev2.ID = ev1.ID ∧
    e1 = mergeEvent now1 ((p.events.lookup ev1.ID).getD {}) ev1 ∧
    ((mergeEvent now2 e1 ev2).Complete = false →
      ((p.handlePartialEvent lib now1 b1).2.handlePartialEvent lib now2 b2).2.events.lookup ev1.ID
        = some (mergeEvent now2 e1 ev2)) ∧
    ((mergeEvent now2 e1 ev2).Complete = true →
      ((p.handlePartialEvent lib now1 b1).2.handlePartialEvent lib now2 b2).2.events.lookup ev1.ID
        = none ∧
      ((p.handlePartialEvent lib now1 b1).2.handlePartialEvent lib now2 b2).2.completeEvents
        = (p.handlePartialEvent lib now1 b1).2.completeEvents ++ [mergeEvent now2 e1 ev2]) := by
  have hid : ev2.ID = ev1.ID := by
    unfold sshEvent.ID
    rw [hh, hp]
  have he1 : e1 = mergeEvent now1 ((p.events.lookup ev1.ID).getD {}) ev1 := by
    obtain ⟨_, _, _, com, inc⟩ := handle_spec lib now1 p b1 ev1 h1
    cases hc : (mergeEvent now1 ((p.events.lookup ev1.ID).getD {}) ev1).Complete with
    | true =>
      rw [(com hc).2] at hl
      cases hl
    | false =>
      rw [(inc hc).2] at hl
      exact (Option.some.inj hl).symm
  have hm := merge_existing lib now2 (p.handlePartialEvent lib now1 b1).2 b2 ev2 e1 h2
    (by rw [hid]; exact hl)
  rw [hid] at hm
  exact ⟨hid, he1, fun hc => (hm.1 hc).1, fun hc => hm.2 hc⟩

theorem demoSshd_reachable : SshdProfile.Reachable demoLib demoSshd :=
  SshdProfile.Reachable.init _

/-- C23: in every profile reachable from `Init` (the empty table) by
`handlePartialEvent` and sweep steps, each entry stored under a key `k` has
Hostname and Pid with `k` = Hostname, a colon, the decimal numeral of Pid, and
has Complete = false.  The keys of the table are pairwise distinct, so the
table holds at most one entry for each hostname and pid; and an observation
with the hostname and pid of an observation whose entry is in the table has
the same key and is merged into that entry. -/
theorem c23_table_invariant (lib : SshdLib) (p : SshdProfile)
    (hr : SshdProfile.Reachable lib p) :
    (∀ k e, p.events.lookup k = some e →
      k = e.Hostname ++ ":" ++ Itoa e.Pid ∧ e.Complete = false) ∧
    p.events.entries.NodupKeys ∧
    (∀ host pid,
      p.events.entries.countP (fun entry => decide (entry.2.Hostname = host ∧ entry.2.Pid = pid))
        ≤ 1) ∧
    (∀ now1 now2 b1 b2 ev1 ev2 e1, lib.Unmarshal b1 = .ok ev1 → lib.Unmarshal b2 = .ok ev2 →
      ev1.Hostname = ev2.Hostname → ev1.Pid = ev2.Pid →
      (p.handlePartialEvent lib now1 b1).2.events.lookup ev1.ID = some e1 →
      ev2.ID = ev1.ID ∧
      e1 = mergeEvent now1 ((p.events.lookup ev1.ID).getD {}) ev1 ∧
      ((mergeEvent now2 e1 ev2).Complete = false →
        ((p.handlePartialEvent lib now1 b1).2.handlePartialEvent lib now2
          b2).2.events.lookup ev1.ID = some (mergeEvent now2 e1 ev2)) ∧
      ((mergeEvent now2 e1 ev2).Complete = true →
        ((p.handlePartialEvent lib now1 b1).2.handlePartialEvent lib now2
          b2).2.events.lookup ev1.ID = none ∧
        ((p.handlePartialEvent lib now1 b1).2.handlePartialEvent lib now2 b2).2.completeEvents
          = (p.handlePartialEvent lib now1 b1).2.completeEvents ++ [mergeEvent now2 e1 ev2])) :=
  ⟨fun k e hl => ⟨(hr.inflight k e hl).2.symm, (hr.inflight k e hl).1⟩, p.events.nodupKeys,
    fun host pid => one_entry_per_pair p hr.inflight host pid,
    fun now1 now2 b1 b2 ev1 ev2 e1 h1 h2 hh hp hl =>
      same_entry lib p now1 now2 b1 b2 ev1 ev2 e1 h1 h2 hh hp hl⟩

/-- C23 witness: after the connectLine observation of host1, pid 123 the
entry stored under the key host1:123 has that hostname and pid and is not
complete. -/
theorem c23_table_invariant_witness :
    "host1:123" = (mergeEvent (63930247200 * Second) {} connectEvent).Hostname ++ ":"
        ++ Itoa (mergeEvent (63930247200 * Second) {} connectEvent).Pid ∧
      (mergeEvent (63930247200 * Second) {} connectEvent).Complete = false :=
  (c23_table_invariant demoLib
    (demoSshd.handlePartialEvent demoLib (63930247200 * Second) connectJson).2
    (SshdProfile.Reachable.handle (63930247200 * Second) demoSshd connectJson
      demoSshd_reachable)).1
    "host1:123" (mergeEvent (63930247200 * Second) {} connectEvent)
    ((handle_spec demoLib (63930247200 * Second) demoSshd connectJson connectEvent
      demo_unmarshal_connect).2.2.2.2 rfl).2

/-! ## C24 -/

/-- a terminal observation for a key that is not in the table -/
theorem terminal_absent (lib : SshdLib) (now : Int) (p : SshdProfile) (b : String)
    (ev : sshEvent) (h : lib.Unmarshal b = .ok ev) (habs : p.events.lookup ev.ID = none)
    (ht : ev.PeType ∈ terminalTypes) :
    (p.handlePartialEvent lib now b).1 = none ∧
    (p.handlePartialEvent lib now b).2.completeEvents
      = p.completeEvents ++ [mergeEvent now {} ev] ∧
    (p.handlePartialEvent lib now b).2.events.lookup ev.ID = none ∧
    (∀ k, (p.handlePartialEvent lib now b).2.events.lookup k = p.events.lookup k) ∧
    (ev.PeType = "childPid" → mergeEvent now {} ev =
      { Timestamp := now, Logtime := ev.Logtime, Hostname := ev.Hostname, Pid := ev.Pid,
        ChildPid := ev.ChildPid, Success := ev.Success, Complete := true }) ∧
    (ev.PeType = "failedPubKey" → mergeEvent now {} ev =
      { Timestamp := now, Logtime := ev.Logtime, Hostname := ev.Hostname, Pid := ev.Pid,
        Success := ev.Success, Complete := true }) ∧
    (ev.PeType = "connectionClosed" → mergeEvent now {} ev =
      { Timestamp := now, Logtime := ev.Logtime, Hostname := ev.Hostname, Pid := ev.Pid,
        SrcIP := ev.SrcIP, Success := ev.Success, FailReason := ev.FailReason,
        Complete := true }) := by
  obtain ⟨r, _, other, com, _⟩ := handle_spec lib now p b ev h
  rw [habs] at com
  have hc : (mergeEvent now ((none : Option sshEvent).getD {}) ev).Complete = true := by
    rw [mergeEvent_complete]
    simp [ht]
  refine ⟨r, (com hc).1, (com hc).2, fun k => ?_, fun t => ?_, fun t => ?_, fun t => ?_⟩
  · by_cases hk : k = ev.ID
    · rw [hk, (com hc).2, habs]
    · exact other k hk
  · simp [mergeEvent, t]
  · simp [mergeEvent, t]
  · simp [mergeEvent, t]

/-- C24: a terminal observation (childPid, failedPubKey or connectionClosed)
for a key that is absent from the table is neither rejected nor merged against
history.  `handlePartialEvent` returns no error and sends one further completed
event, the merge of the observation into a fresh zero entry: it has the
Timestamp of the handling, the Logtime, Hostname and Pid of the observation,
the fields the subtype contributes, Complete = true, and the default in every
other field.  The key is absent again afterwards and the table is as it
was. -/
theorem c24_terminal_for_absent_key (lib : SshdLib) (now : Int) (p : SshdProfile) (b : String)
    (ev : sshEvent) (h : lib.Unmarshal b = .ok ev) (habs : p.events.lookup ev.ID = none)
    (ht : ev.PeType ∈ terminalTypes) :
    (p.handlePartialEvent lib now b).1 = none ∧
    (p.handlePartialEvent lib now b).2.completeEvents
      = p.completeEvents ++ [mergeEvent now {} ev] ∧
    (p.handlePartialEvent lib now b).2.events.lookup ev.ID = none ∧
    (∀ k, (p.handlePartialEvent lib now b).2.events.lookup k = p.events.lookup k) ∧
    (ev.PeType = "childPid" → mergeEvent now {} ev =
      { Timestamp := now, Logtime := ev.Logtime, Hostname := ev.Hostname, Pid := ev.Pid,
        ChildPid := ev.ChildPid, Success := ev.Success, Complete := true }) ∧
    (ev.PeType = "failedPubKey" → mergeEvent now {} ev =
      { Timestamp := now, Logtime := ev.Logtime, Hostname := ev.Hostname, Pid := ev.Pid,
        Success := ev.Success, Complete := true }) ∧
    (ev.PeType = "connectionClosed" → mergeEvent now {} ev =
      { Timestamp := now, Logtime := ev.Logtime, Hostname := ev.Hostname, Pid := ev.Pid,
        SrcIP := ev.SrcIP, Success := ev.Success, FailReason := ev.FailReason,
        Complete := true }) :=
  terminal_absent lib now p b ev h habs ht

end logtailer

namespace logtailer

/-- C24 witness: the childPid observation of host1, pid 123 handled twice in
a row on the empty table: each time the key is absent and a completed event
is sent. -/
theorem c24_terminal_for_absent_key_witness :
    ((demoSshd.handlePartialEvent demoLib (63930247202 * Second)
        childPidJson).2.handlePartialEvent demoLib (63930247203 * Second)
        childPidJson).2.completeEvents
      = (demoSshd.handlePartialEvent demoLib (63930247202 * Second) childPidJson).2.completeEvents
        ++ [mergeEvent (63930247203 * Second) {} childPidEvent] :=
  (c24_terminal_for_absent_key demoLib (63930247203 * Second)
    (demoSshd.handlePartialEvent demoLib (63930247202 * Second) childPidJson).2 childPidJson
    childPidEvent demo_unmarshal_childPid
    (c24_terminal_for_absent_key demoLib (63930247202 * Second) demoSshd childPidJson
      childPidEvent demo_unmarshal_childPid (AList.lookup_empty _) (by decide)).2.2.1
    (by decide)).2.1

end logtailer

namespace logtailer

/-! ## The output of the sinks in a dry run -/

theorem run_records (lib : SshdLib) (records : List (Int × String)) (p : SshdProfile) :
    p.run lib (records.map (fun r => SshdStep.record r.1 r.2)) = p.consume lib records := by
  induction records generalizing p with
  | nil => rfl
  | cons a rest ih =>
    obtain ⟨now, b⟩ := a
    simp only [List.map_cons, SshdProfile.run, SshdProfile.consume, ih]

theorem mongodb_dry_run_prints (records : List String) :
    (MongodbProfile.HandleOutput records true).stdout = records := by
  unfold MongodbProfile.HandleOutput
  induction records with
  | nil => rfl
  | cons a rest ih =>
    simp only [List.map_cons, List.flatten_cons, MongodbProfile.handleRecord, if_true] at ih ⊢
    rw [ih]
    rfl

set_option maxRecDepth 8192 in
/-- the login of alice on host1, pid 123 with the flag `dryRun` set: the
event is printed -/
theorem demo_dry_run_prints :
    (demoSshd.HandleOutput demoLib
      [.record (63930247200 * Second) connectJson, .record (63930247201 * Second) foundKeyJson,
        .record (63930247202 * Second) childPidJson] true).stdout = [loginJson] := by
  have h := (correlation_sequence demoLib demoSshd "host1" 123 connectJson foundKeyJson
      childPidJson connectEvent foundKeyEvent childPidEvent (63930247200 * Second)
      (63930247201 * Second) (63930247202 * Second) (AList.lookup_empty _)
      demo_unmarshal_connect rfl rfl rfl demo_unmarshal_foundKey rfl rfl rfl
      demo_unmarshal_childPid rfl rfl rfl).2.2.2.1
  have hr := run_records demoLib
    [(63930247200 * Second, connectJson), (63930247201 * Second, foundKeyJson),
      (63930247202 * Second, childPidJson)] demoSshd
  simp only [List.map_cons, List.map_nil] at hr
  unfold SshdProfile.HandleOutput SshdProfile.printed
  simp only []
  rw [hr, h]
  decide

end logtailer

namespace logtailer

/-! ## C25 -/

theorem mongodb_run_prints (records : List String) :
    (MongodbProfile.HandleOutput records false).stdout
      = records.filter (fun message => decide (message.length > 0)) := by
  unfold MongodbProfile.HandleOutput
  induction records with
  | nil => rfl
  | cons a rest ih =>
    simp only [List.map_cons, List.flatten_cons, MongodbProfile.handleRecord,
      Bool.false_eq_true, if_false] at ih ⊢
    rw [ih]
    by_cases ha : a.length > 0 <;> simp [ha, List.filter_cons]

/-- C25 (as amended): the sinks drain their stream and write to standard
output in a dry run as well (the flag `dry_run` of the command is documented
as: will only print to stdout and will not update any state).  `HandleOutput`
of the sshd profile does not read the flag: with `dryRun` set it returns and
writes exactly what it does without it, one line for every completed event
whose JSON is not empty.  `HandleOutput` of the mongodb profile sends no error
and, with `dryRun` set, prints every record it receives (also the empty ones,
which it does not print otherwise) after logging that it is skipping. -/
theorem c25_dry_run_output (lib : SshdLib) (steps : List SshdStep) (p : SshdProfile)
    (records : List String) :
    p.HandleOutput lib steps true = p.HandleOutput lib steps false ∧
    (p.HandleOutput lib steps true).stdout = (p.run lib steps).2.printed lib ∧
    (p.HandleOutput lib steps true).errors = (p.run lib steps).1 ∧
    (MongodbProfile.HandleOutput records true).stdout = records ∧
    (MongodbProfile.HandleOutput records false).stdout
      = records.filter (fun message => decide (message.length > 0)) ∧
    (MongodbProfile.HandleOutput records true).errors = [] :=
  ⟨rfl, rfl, rfl, mongodb_dry_run_prints records, mongodb_run_prints records, rfl⟩

/-- C25 counterexample: with `dryRun` set, the sshd sink prints the event the
login of alice on host1, pid 123 completes to, and the mongodb sink prints the
record it receives. -/
theorem c25_counterexample :
    (demoSshd.HandleOutput demoLib
      [.record (63930247200 * Second) connectJson, .record (63930247201 * Second) foundKeyJson,
        .record (63930247202 * Second) childPidJson] true).stdout = [loginJson] ∧
    (MongodbProfile.HandleOutput ["\x7b\"op\":\"query\"\x7d"] true).stdout
      = ["\x7b\"op\":\"query\"\x7d"] :=
  ⟨demo_dry_run_prints, mongodb_dry_run_prints _⟩

/-! ## C26 -/

/-- the result of `ProcessRecord` for a line that matches `sshLogRe` -/
theorem processRecord_match (lib : SshdLib) (now : Int) (p : SshdProfile)
    (line logtime host pid message : String)
    (hlog : lib.sshLogRe line = some (logtime, host, pid, message)) :
    p.ProcessRecord lib now line = .ok "\x7b\x7d" ∨
    ∃ e, p.ProcessRecord lib now line = lib.Marshal e ∧ e.Timestamp = now ∧
      e.Logtime = lib.ParseTime logtime ∧ e.Hostname = host ∧ e.Pid = lib.Atoi pid ∧
      e.PeType ∈ messageTypes := by
  unfold SshdProfile.ProcessRecord
  simp only [hlog]
  cases h1 : lib.connectLineRe message with
  | some g => exact Or.inr ⟨_, rfl, rfl, rfl, rfl, rfl, by simp [messageTypes]⟩
  | none =>
  cases h2 : lib.foundKeyRe message with
  | some g => exact Or.inr ⟨_, rfl, rfl, rfl, rfl, rfl, by simp [messageTypes]⟩
  | none =>
  cases h3 : lib.acceptKeyRe message with
  | some g => exact Or.inr ⟨_, rfl, rfl, rfl, rfl, rfl, by simp [messageTypes]⟩
  | none =>
  cases h4 : lib.childPidRe message with
  | some g => exact Or.inr ⟨_, rfl, rfl, rfl, rfl, rfl, by simp [messageTypes]⟩
  | none =>
  cases h5 : lib.badRevMapRe message with
  | some g => exact Or.inr ⟨_, rfl, rfl, rfl, rfl, rfl, by simp [messageTypes]⟩
  | none =>
  cases h6 : lib.failedPubKeyRe message with
  | some g => exact Or.inr ⟨_, rfl, rfl, rfl, rfl, rfl, by simp [messageTypes]⟩
  | none =>
  cases h7 : lib.connectionClosedRe message with
  | some g => exact Or.inr ⟨_, rfl, rfl, rfl, rfl, rfl, by simp [messageTypes]⟩
  | none => exact Or.inl rfl

theorem processRecord_error_iff (lib : SshdLib) (now : Int) (p : SshdProfile) (line : String)
    (hM : ∀ e, e.Timestamp = now → (∃ s, e.Logtime = lib.ParseTime s) →
      ∃ buf, lib.Marshal e = .ok buf) :
    ((∃ err, p.ProcessRecord lib now line = .error err) ↔ lib.sshLogRe line = none) ∧
    (lib.sshLogRe line = none →
      p.ProcessRecord lib now line
        = .error "logtailer.sshd: unexpected log line not from sshd") ∧
    (∀ logtime host pid message, lib.sshLogRe line = some (logtime, host, pid, message) →
      p.ProcessRecord lib now line = .ok "\x7b\x7d" ∨
      ∃ e buf, p.ProcessRecord lib now line = .ok buf ∧ lib.Marshal e = .ok buf ∧
        e.Timestamp = now ∧ e.Logtime = lib.ParseTime logtime ∧ e.Hostname = host ∧
        e.Pid = lib.Atoi pid ∧ e.PeType ∈ messageTypes) := by
  have hmatch : ∀ logtime host pid message,
      lib.sshLogRe line = some (logtime, host, pid, message) →
      p.ProcessRecord lib now line = .ok "\x7b\x7d" ∨
      ∃ e buf, p.ProcessRecord lib now line = .ok buf ∧ lib.Marshal e = .ok buf ∧
        e.Timestamp = now ∧ e.Logtime = lib.ParseTime logtime ∧ e.Hostname = host ∧
        e.Pid = lib.Atoi pid ∧ e.PeType ∈ messageTypes := by
    intro logtime host pid message hlog
    rcases processRecord_match lib now p line logtime host pid message hlog with h | h
    · exact Or.inl h
    · obtain ⟨e, he, h1, h2, h3, h4, h5⟩ := h
      obtain ⟨buf, hbuf⟩ := hM e h1 ⟨logtime, h2⟩
      exact Or.inr ⟨e, buf, by rw [he, hbuf], hbuf, h1, h2, h3, h4, h5⟩
  have hnone : lib.sshLogRe line = none →
      p.ProcessRecord lib now line
        = .error "logtailer.sshd: unexpected log line not from sshd" := by
    intro h
    unfold SshdProfile.ProcessRecord
    simp only [h]
  refine ⟨⟨?_, fun h => ⟨_, hnone h⟩⟩, hnone, hmatch⟩
  rintro ⟨err, herr⟩
  cases hlog : lib.sshLogRe line with
  | none => rfl
  | some g =>
    obtain ⟨logtime, host, pid, message⟩ := g
    rcases hmatch logtime host pid message hlog with h | ⟨_, _, h, _⟩
    · rw [h] at herr
      cases herr
    · rw [h] at herr
      cases herr

/-- C26: for every input line, `ProcessRecord` of the sshd profile returns an
error if and only if the line does not match `sshLogRe`, the pattern of the
syslog prefix of sshd; the error is then the one that says the line is not
from sshd.  For every line that matches it returns no error: the result is the
literal empty JSON object, or the JSON of a partial event that has the hostname
and pid of the line, the time of the call as Timestamp and one of the seven
subtypes.  (`json.Marshal` is taken to succeed on events that carry the time
of the call and a time `time.Parse` returns: its only failure for this struct
is a year outside 0 to 9999.) -/
theorem c26_processRecord_error_iff (lib : SshdLib) (now : Int) (p : SshdProfile)
    (line : String)
    (hM : ∀ e, e.Timestamp = now → (∃ s, e.Logtime = lib.ParseTime s) →
      ∃ buf, lib.Marshal e = .ok buf) :
    ((∃ err, p.ProcessRecord lib now line = .error err) ↔ lib.sshLogRe line = none) ∧
    (lib.sshLogRe line = none →
      p.ProcessRecord lib now line
        = .error "logtailer.sshd: unexpected log line not from sshd") ∧
    (∀ logtime host pid message, lib.sshLogRe line = some (logtime, host, pid, message) →
      p.ProcessRecord lib now line = .ok "\x7b\x7d" ∨
      ∃ e buf, p.ProcessRecord lib now line = .ok buf ∧ lib.Marshal e = .ok buf ∧
        e.Timestamp = now ∧ e.Logtime = lib.ParseTime logtime ∧ e.Hostname = host ∧
        e.Pid = lib.Atoi pid ∧ e.PeType ∈ messageTypes) :=
  processRecord_error_iff lib now p line hM

/-- C26 witness: a line of the kernel is not from sshd: `ProcessRecord`
returns the error. -/
theorem c26_processRecord_error_iff_witness :
    demoSshd.ProcessRecord demoLib (63930247200 * Second)
        "Nov 14 10:00:00 host1 kernel: eth0: link up"
      = .error "logtailer.sshd: unexpected log line not from sshd" :=
  (c26_processRecord_error_iff demoLib (63930247200 * Second) demoSshd
    "Nov 14 10:00:00 host1 kernel: eth0: link up"
    (fun e _ _ => ⟨marshalEvent e, rfl⟩)).2.1 (by simp [demoLib, listeningLine])

end logtailer

namespace logtailer

/-! ## The fingerprint of a key -/

theorem md5Sum_length (message : List Nat) : (md5Sum message).length = 16 := by
  simp [md5Sum, bytesLE]

theorem md5Sum_lt (message : List Nat) : ∀ b ∈ md5Sum message, b < 256 := by
  intro b hb
  simp only [md5Sum, bytesLE, List.mem_append, List.mem_cons, List.mem_singleton,
    List.not_mem_nil, or_false] at hb
  omega

theorem digitChar_mem_hexDigits (n : Nat) (h : n < 16) : Nat.digitChar n ∈ hexDigits := by
  interval_cases n <;> decide

theorem sprintf02x_mem (octet : Nat) (h : octet < 256) :
    Nat.digitChar (octet / 16) ∈ hexDigits ∧ Nat.digitChar (octet % 16) ∈ hexDigits :=
  ⟨digitChar_mem_hexDigits _ (by omega), digitChar_mem_hexDigits _ (by omega)⟩

/-- a list of 16 elements, element by element -/
theorem list_of_length_16 (l : List Nat) (h : l.length = 16) :
    l = [l.getD 0 0, l.getD 1 0, l.getD 2 0, l.getD 3 0, l.getD 4 0, l.getD 5 0, l.getD 6 0,
      l.getD 7 0, l.getD 8 0, l.getD 9 0, l.getD 10 0, l.getD 11 0, l.getD 12 0, l.getD 13 0,
      l.getD 14 0, l.getD 15 0] := by
  match l, h with
  | [_, _, _, _, _, _, _, _, _, _, _, _, _, _, _, _], _ => rfl

/-- the bytes the loop of `Fingerprint` appends for 16 octets -/
theorem fingerprintLoop_16 (b0 b1 b2 b3 b4 b5 b6 b7 b8 b9 b10 b11 b12 b13 b14 b15 : Nat) :
    fingerprintLoop 0 [b0, b1, b2, b3, b4, b5, b6, b7, b8, b9, b10, b11, b12, b13, b14, b15] []
      = [Nat.digitChar (b0 / 16), Nat.digitChar (b0 % 16), ':',
         Nat.digitChar (b1 / 16), Nat.digitChar (b1 % 16), ':',
         Nat.digitChar (b2 / 16), Nat.digitChar (b2 % 16), ':',
         Nat.digitChar (b3 / 16), Nat.digitChar (b3 % 16), ':',
         Nat.digitChar (b4 / 16), Nat.digitChar (b4 % 16), ':',
         Nat.digitChar (b5 / 16), Nat.digitChar (b5 % 16), ':',
         Nat.digitChar (b6 / 16), Nat.digitChar (b6 % 16), ':',
         Nat.digitChar (b7 / 16), Nat.digitChar (b7 % 16), ':',
         Nat.digitChar (b8 / 16), Nat.digitChar (b8 % 16), ':',
         Nat.digitChar (b9 / 16), Nat.digitChar (b9 % 16), ':',
         Nat.digitChar (b10 / 16), Nat.digitChar (b10 % 16), ':',
         Nat.digitChar (b11 / 16), Nat.digitChar (b11 % 16), ':',
         Nat.digitChar (b12 / 16), Nat.digitChar (b12 % 16), ':',
         Nat.digitChar (b13 / 16), Nat.digitChar (b13 % 16), ':',
         Nat.digitChar (b14 / 16), Nat.digitChar (b14 % 16), ':',
         Nat.digitChar (b15 / 16), Nat.digitChar (b15 % 16)] := by
  simp [fingerprintLoop, sprintf02x]

/-- the form of a fingerprint -/
theorem fingerprint_format (k : AuthorizedKey) :
    k.Fingerprint.data.length = 47 ∧
    (∀ i, i < 47 → i % 3 = 2 → k.Fingerprint.data[i]? = some ':') ∧
    (∀ i, i < 47 → i % 3 ≠ 2 → ∃ c ∈ hexDigits, k.Fingerprint.data[i]? = some c) ∧
    (∀ j, j < 16 →
      k.Fingerprint.data[3 * j]? = some (Nat.digitChar ((md5Sum k.Marshal).getD j 0 / 16)) ∧
      k.Fingerprint.data[3 * j + 1]?
        = some (Nat.digitChar ((md5Sum k.Marshal).getD j 0 % 16))) := by
  have hlen := md5Sum_length k.Marshal
  have hlt := md5Sum_lt k.Marshal
  have hl := list_of_length_16 _ hlen
  have hb : ∀ j, (md5Sum k.Marshal).getD j 0 < 256 := by
    intro j
    by_cases hj : j < (md5Sum k.Marshal).length
    · rw [List.getD_eq_getElem _ _ hj]
      exact hlt _ (List.getElem_mem hj)
    · rw [List.getD_eq_default _ _ (by omega)]
      omega
  have hdata : k.Fingerprint.data = fingerprintLoop 0 (md5Sum k.Marshal) [] := rfl
  rw [hdata]
  generalize md5Sum k.Marshal = l at hl hb ⊢
  rw [hl, fingerprintLoop_16]
  refine ⟨rfl, ?_, ?_, ?_⟩
  · intro i hi h3
    interval_cases i <;> first | rfl | omega
  · intro i hi h3
    interval_cases i <;>
      first
      | omega
      | exact ⟨_, (sprintf02x_mem _ (hb _)).1, rfl⟩
      | exact ⟨_, (sprintf02x_mem _ (hb _)).2, rfl⟩
  · intro j hj
    rw [← hl]
    interval_cases j <;> exact ⟨rfl, rfl⟩

set_option maxRecDepth 100000 in
theorem testKey_parse : ParseAuthorizedKey sshParseRSA testKeyLine
    = .ok { Marshal := base64Bytes testBlob.data, Comment := "test@fb.com" } := by rfl

set_option maxRecDepth 100000 in
theorem testKey_md5 : md5Sum (base64Bytes testBlob.data)
    = [181, 202, 22, 3, 212, 16, 65, 128, 61, 188, 59, 24, 5, 87, 79, 86] := by decide

theorem testKey_fingerprint :
    AuthorizedKey.Fingerprint { Marshal := base64Bytes testBlob.data, Comment := "test@fb.com" }
      = "b5:ca:16:03:d4:10:41:80:3d:bc:3b:18:05:57:4f:56" := by
  unfold AuthorizedKey.Fingerprint
  rw [testKey_md5]
  decide

/-! ## C27 -/

/-- C27: for every parsed authorized key, `Fingerprint` returns the MD5 digest
of the wire encoding of the key as 16 two-digit lowercase hexadecimal octets
separated by single colons: 47 bytes, a colon at every index i with i mod 3 =
2, a lowercase hexadecimal digit at every other index, the two digits of the
j-th group being the high and the low half of the j-th byte of the digest.
For the RSA key of the test `TestKeyParsing` (the comment is `test@fb.com`, the
wire encoding the bytes of its base64 blob) the fingerprint is
b5:ca:16:03:d4:10:41:80:3d:bc:3b:18:05:57:4f:56. -/
theorem c27_fingerprint (k : AuthorizedKey) :
    (k.Fingerprint.data.length = 47 ∧
    (∀ i, i < 47 → i % 3 = 2 → k.Fingerprint.data[i]? = some ':') ∧
    (∀ i, i < 47 → i % 3 ≠ 2 → ∃ c ∈ hexDigits, k.Fingerprint.data[i]? = some c) ∧
    (∀ j, j < 16 →
      k.Fingerprint.data[3 * j]? = some (Nat.digitChar ((md5Sum k.Marshal).getD j 0 / 16)) ∧
      k.Fingerprint.data[3 * j + 1]?
        = some (Nat.digitChar ((md5Sum k.Marshal).getD j 0 % 16)))) ∧
    ParseAuthorizedKey sshParseRSA testKeyLine
      = .ok { Marshal := base64Bytes testBlob.data, Comment := "test@fb.com" } ∧
    AuthorizedKey.Fingerprint { Marshal := base64Bytes testBlob.data, Comment := "test@fb.com" }
      = "b5:ca:16:03:d4:10:41:80:3d:bc:3b:18:05:57:4f:56" :=
  ⟨fingerprint_format k, testKey_parse, testKey_fingerprint⟩

/-- C27 witness: the fingerprint of the key of the test has a colon at index
2 and the digit b at index 0. -/
theorem c27_fingerprint_witness :
    (AuthorizedKey.Fingerprint
      { Marshal := base64Bytes testBlob.data, Comment := "test@fb.com" }).data[2]? = some ':' :=
  (c27_fingerprint { Marshal := base64Bytes testBlob.data, Comment := "test@fb.com" }).1.2.1 2
    (by decide) (by decide)

end logtailer

namespace logtailer

/-! ## profiles/mongodb: scrubFields and generateQuerySignature -/

theorem scrubMembers_cons (key : String) (value : Doc) (rest : List (String × Doc)) :
    scrubMembers ((key, value) :: rest) = (key, scrubValue key value) :: scrubMembers rest := by
  simp only [scrubMembers, scrubValue]

theorem scrubMembers_eq_map (m : List (String × Doc)) :
    scrubMembers m = m.map (fun member => (member.1, scrubValue member.1 member.2)) := by
  induction m with
  | nil => simp [scrubMembers]
  | cons a rest ih =>
    obtain ⟨k, v⟩ := a
    rw [scrubMembers_cons, ih]
    rfl

theorem scrubElements_eq_map (l : List Doc) : scrubElements l = l.map scrubFields := by
  induction l with
  | nil => simp [scrubElements]
  | cons a rest ih => simp [scrubElements, ih]

theorem scrubFields_object (m : List (String × Doc)) :
    scrubFields (.object m) = .object (scrubMembers m) := by
  simp [scrubFields]

theorem scrubFields_array (l : List Doc) : scrubFields (.array l) = .array (l.map scrubFields) := by
  simp [scrubFields, scrubElements_eq_map]

theorem scrubFields_scalar (v : Scalar) : scrubFields (.scalar v) = .scalar v := by
  simp [scrubFields]

theorem scrubFields_strings (l : List String) : scrubFields (.strings l) = .strings l := by
  simp [scrubFields]

/-- the scalars held in a slice are not replaced -/
theorem scrubFields_scalar_array (l : List Scalar) :
    scrubFields (.array (l.map Doc.scalar)) = .array (l.map Doc.scalar) := by
  rw [scrubFields_array, List.map_map]
  congr 1

theorem lookup_scrubMembers (m : List (String × Doc)) (key : String) :
    (scrubMembers m).lookup key = (m.lookup key).map (scrubValue key) := by
  induction m with
  | nil => simp [scrubMembers]
  | cons a rest ih =>
    obtain ⟨k, v⟩ := a
    rw [scrubMembers_cons]
    by_cases hk : key = k
    · subst hk
      simp [List.lookup]
    · have hb : (key == k) = false := by simpa using hk
      simp only [List.lookup, hb]
      exact ih


theorem scrubValue_scalar (key : String) (v1 v2 : Scalar) (hk : scrubbedKey key = true) :
    scrubValue key (.scalar v1) = scrubValue key (.scalar v2) := by
  simp only [scrubbedKey, Bool.not_eq_true', decide_eq_false_iff_not, not_or] at hk
  obtain ⟨h1, h2, h3, h4⟩ := hk
  simp only [scrubValue, h1, h2, h3, h4, or_self, if_false]

theorem scrubValue_replaced (key : String) (v1 v2 : Doc) (hk : replacedKey key = true) :
    scrubValue key v1 = scrubValue key v2 := by
  simp only [replacedKey, decide_eq_true_eq] at hk
  rcases hk with h | h | h | h | h | h | h <;> subst h <;> rfl

theorem scrubValue_perm (key : String) (v1 v2 : Doc) (hk : permKey key = true)
    (h1 : v1.isArray = true) (h2 : v2.isArray = true) :
    scrubValue key v1 = scrubValue key v2 := by
  simp only [permKey, decide_eq_true_eq] at hk
  cases v1 with
  | array l1 =>
    cases v2 with
    | array l2 => rcases hk with h | h <;> subst h <;> rfl
    | scalar v => simp [Doc.isArray] at h2
    | strings l => simp [Doc.isArray] at h2
    | object m => simp [Doc.isArray] at h2
  | scalar v => simp [Doc.isArray] at h1
  | strings l => simp [Doc.isArray] at h1
  | object m => simp [Doc.isArray] at h1

theorem scrubValue_congr (key : String) (v1 v2 : Doc) (h : scrubFields v1 = scrubFields v2)
    (hkind : (∃ m1 m2, v1 = .object m1 ∧ v2 = .object m2) ∨
      (∃ l1 l2, v1 = .array l1 ∧ v2 = .array l2) ∨ v1 = v2) :
    scrubValue key v1 = scrubValue key v2 := by
  rcases hkind with ⟨m1, m2, rfl, rfl⟩ | ⟨l1, l2, rfl, rfl⟩ | rfl
  · simp only [scrubValue, h]
  · simp only [scrubValue, h]
  · rfl

mutual
/-- documents that are alike are the same after `scrubFields` -/
theorem scrubFields_alike : ∀ (d1 d2 : Doc), d1.Alike d2 → scrubFields d1 = scrubFields d2
  | .object m1, d2, h => by
    cases d2 with
    | object m2 =>
      rw [scrubFields_object, scrubFields_object,
        scrubMembers_alike m1 m2 (by simpa [Doc.Alike] using h)]
    | scalar v => simp [Doc.Alike] at h
    | strings l => simp [Doc.Alike] at h
    | array l => simp [Doc.Alike] at h
  | .array l1, d2, h => by
    cases d2 with
    | array l2 =>
      simp only [scrubFields]
      rw [scrubElements_alike l1 l2 (by simpa [Doc.Alike] using h)]
    | scalar v => simp [Doc.Alike] at h
    | strings l => simp [Doc.Alike] at h
    | object m => simp [Doc.Alike] at h
  | .scalar v, d2, h => by
    have : Doc.scalar v = d2 := by cases d2 <;> simp_all [Doc.Alike]
    rw [this]
  | .strings l, d2, h => by
    have : Doc.strings l = d2 := by cases d2 <;> simp_all [Doc.Alike]
    rw [this]
theorem scrubMembers_alike : ∀ (m1 m2 : List (String × Doc)), AlikeMembers m1 m2 →
    scrubMembers m1 = scrubMembers m2
  | [], m2, h => by
    cases m2 with
    | nil => rfl
    | cons a rest => simp [AlikeMembers] at h
  | (k1, v1) :: r1, m2, h => by
    cases m2 with
    | nil => simp [AlikeMembers] at h
    | cons a r2 =>
      obtain ⟨k2, v2⟩ := a
      simp only [AlikeMembers] at h
      obtain ⟨hk, hv, hr⟩ := h
      subst hk
      rw [scrubMembers_cons, scrubMembers_cons, scrubMembers_alike r1 r2 hr]
      congr 2
      rcases hv with hv | ⟨hkey, hs1, hs2⟩ | hrep | ⟨hperm, ha1, ha2⟩
      · have hsf := scrubFields_alike v1 v2 hv
        apply scrubValue_congr k1 v1 v2 hsf
        cases v1 with
        | object m1 =>
          cases v2 with
          | object m2 => exact Or.inl ⟨m1, m2, rfl, rfl⟩
          | scalar v => simp [Doc.Alike] at hv
          | strings l => simp [Doc.Alike] at hv
          | array l => simp [Doc.Alike] at hv
        | array l1 =>
          cases v2 with
          | array l2 => exact Or.inr (Or.inl ⟨l1, l2, rfl, rfl⟩)
          | scalar v => simp [Doc.Alike] at hv
          | strings l => simp [Doc.Alike] at hv
          | object m => simp [Doc.Alike] at hv
        | scalar v =>
          exact Or.inr (Or.inr (by cases v2 <;> simp_all [Doc.Alike]))
        | strings l =>
          exact Or.inr (Or.inr (by cases v2 <;> simp_all [Doc.Alike]))
      · cases v1 with
        | scalar a =>
          cases v2 with
          | scalar b => exact scrubValue_scalar k1 a b hkey
          | strings l => simp [Doc.isScalar] at hs2
          | array l => simp [Doc.isScalar] at hs2
          | object m => simp [Doc.isScalar] at hs2
        | strings l => simp [Doc.isScalar] at hs1
        | array l => simp [Doc.isScalar] at hs1
        | object m => simp [Doc.isScalar] at hs1
      · exact scrubValue_replaced k1 v1 v2 hrep
      · exact scrubValue_perm k1 v1 v2 hperm ha1 ha2
theorem scrubElements_alike : ∀ (l1 l2 : List Doc), AlikeElements l1 l2 →
    scrubElements l1 = scrubElements l2
  | [], l2, h => by
    cases l2 with
    | nil => rfl
    | cons a rest => simp [AlikeElements] at h
  | d1 :: r1, l2, h => by
    cases l2 with
    | nil => simp [AlikeElements] at h
    | cons d2 r2 =>
      simp only [AlikeElements] at h
      simp only [scrubElements]
      rw [scrubFields_alike d1 d2 h.1, scrubElements_alike r1 r2 h.2]
end

/-! ## C28 -/

/-- the signature of a query that holds a slice of literals -/
theorem taggedQuery_signature :
    (generateQuerySignature jsonMarshal taggedQuery "update").1
      = .ok "\x7b\"_id\":\"?\",\"tags\":[\"urgent\",\"billing\"]\x7d" := by
  rfl

/-- C28 (refuted): `scrubFields` does not replace the scalars that are
elements of a slice.  A `[]interface{}` of scalars and a `[]string` are the
same after the call, whatever they hold; in the query
`{ _id: "qaKos25LyK", tags: [ "urgent", "billing" ] }` the member `_id` becomes
`?` and the slice under `tags` keeps both literals, which are then written into
the signature of the query. -/
theorem c28_slice_scalars_kept :
    (∀ l : List Scalar, scrubFields (.array (l.map Doc.scalar)) = .array (l.map Doc.scalar)) ∧
    (∀ l : List String, scrubFields (.strings l) = .strings l) ∧
    scrubFields (.object taggedQuery)
      = .object [("_id", Doc.placeholder),
          ("tags", .array [.scalar (.text "urgent"), .scalar (.text "billing")])] ∧
    (generateQuerySignature jsonMarshal taggedQuery "update").1
      = .ok "\x7b\"_id\":\"?\",\"tags\":[\"urgent\",\"billing\"]\x7d" :=
  ⟨scrubFields_scalar_array, scrubFields_strings, rfl, taggedQuery_signature⟩

end logtailer
namespace logtailer

/-! ## C29 -/

theorem lookup_mapModify_eq (key : String) (f : Doc → Doc) (m : List (String × Doc)) :
    (mapModify key f m).lookup key = (m.lookup key).map f := by
  induction m with
  | nil => simp [mapModify]
  | cons a rest ih =>
    obtain ⟨k, v⟩ := a
    by_cases hk : k = key
    · subst hk
      simp [mapModify, List.lookup]
    · have hb : (key == k) = false := by simpa using fun h => hk h.symm
      simp only [mapModify, if_neg hk, List.lookup, hb]
      exact ih

theorem lookup_mapModify_ne (key other : String) (f : Doc → Doc) (m : List (String × Doc))
    (hne : other ≠ key) : (mapModify key f m).lookup other = m.lookup other := by
  induction m with
  | nil => simp [mapModify]
  | cons a rest ih =>
    obtain ⟨k, v⟩ := a
    by_cases hk : k = key
    · subst hk
      have hb : (other == k) = false := by simpa using hne
      simp only [mapModify, if_true, List.lookup, hb]
    · simp only [mapModify, if_neg hk]
      by_cases ho : other = k
      · subst ho
        simp [List.lookup]
      · have hb : (other == k) = false := by simpa using ho
        simp only [List.lookup, hb]
        exact ih

theorem keys_mapModify (key : String) (f : Doc → Doc) (m : List (String × Doc)) :
    (mapModify key f m).map Prod.fst = m.map Prod.fst := by
  induction m with
  | nil => simp [mapModify]
  | cons a rest ih =>
    obtain ⟨k, v⟩ := a
    by_cases hk : k = key
    · simp [mapModify, hk]
    · simp [mapModify, hk, ih]

theorem signature_query_present (marshal : Doc → Except GoError String)
    (queryMap : List (String × Doc)) (hq : (mapGet queryMap "$query").isNil = false) :
    generateQuerySignature marshal queryMap "query"
      = (marshal (.object (mapModify "$query" scrubFields queryMap)),
          mapModify "$query" scrubFields queryMap) := by
  simp [generateQuerySignature, hq]

theorem signature_query_absent (marshal : Doc → Except GoError String)
    (queryMap : List (String × Doc)) (hq : (mapGet queryMap "$query").isNil = true) :
    generateQuerySignature marshal queryMap "query"
      = (marshal (.object (scrubMembers queryMap)), scrubMembers queryMap) := by
  simp [generateQuerySignature, hq]

theorem mapGet_absent (queryMap : List (String × Doc)) (key : String)
    (h : queryMap.lookup key = none) : (mapGet queryMap key).isNil = true := by
  simp [mapGet, h, Doc.isNil]

/-- C29: for the op `query` and a document whose `$query` is not nil,
`generateQuerySignature` calls `scrubFields` on the value under `$query` and on
nothing else: in the map after the call `$query` holds the scrubbed value,
every other key (`$comment`, `$maxScan`, `$orderby`, ...) holds the value it
held before, the keys are the same, and the signature returned is the JSON of
that map.  For a document whose `$query` is absent (or nil) the whole document
is scrubbed and the signature is its JSON. -/
theorem c29_query_frame (marshal : Doc → Except GoError String)
    (queryMap : List (String × Doc)) (hq : (mapGet queryMap "$query").isNil = false) :
    (generateQuerySignature marshal queryMap "query").2.lookup "$query"
      = (queryMap.lookup "$query").map scrubFields ∧
    (∀ key, key ≠ "$query" →
      (generateQuerySignature marshal queryMap "query").2.lookup key = queryMap.lookup key) ∧
    (generateQuerySignature marshal queryMap "query").2.map Prod.fst = queryMap.map Prod.fst ∧
    (generateQuerySignature marshal queryMap "query").1
      = marshal (.object (generateQuerySignature marshal queryMap "query").2) ∧
    (∀ other : List (String × Doc), (mapGet other "$query").isNil = true →
      generateQuerySignature marshal other "query"
        = (marshal (.object (scrubMembers other)), scrubMembers other)) ∧
    (∀ other : List (String × Doc), other.lookup "$query" = none →
      generateQuerySignature marshal other "query"
        = (marshal (.object (scrubMembers other)), scrubMembers other)) := by
  rw [signature_query_present marshal queryMap hq]
  exact ⟨lookup_mapModify_eq _ _ _, fun key hne => lookup_mapModify_ne _ _ _ _ hne,
    keys_mapModify _ _ _, rfl, fun other h => signature_query_absent marshal other h,
    fun other h => signature_query_absent marshal other (mapGet_absent other _ h)⟩

/-- the signature of the query of `sample26CommentLine` -/
theorem commentQuery_signature :
    (generateQuerySignature jsonMarshal commentQuery "query").1
      = .ok ("\x7b\"$comment\":\"\x7bapp_id:19015, pushd_id:8jhKA4aaad\x7d\"," ++
          "\"$query\":\x7b\"channels\":\x7b\"$in\":[\"?\"]\x7d," ++
          "\"deviceType\":\x7b\"$in\":[\"?\"]\x7d\x7d\x7d") := by
  rfl

/-- C29 witness: the query of `sample26CommentLine` has a `$query`; after the
call its `$comment` is the one of the line, as `TestParseQueryComment` checks,
and the signature holds it unredacted beside the scrubbed `$query`. -/
theorem c29_query_frame_witness :
    (mapGet commentQuery "$query").isNil = false ∧
    (generateQuerySignature jsonMarshal commentQuery "query").2.lookup "$comment"
      = some (.scalar (.text "\x7bapp_id:19015, pushd_id:8jhKA4aaad\x7d")) ∧
    (generateQuerySignature jsonMarshal commentQuery "query").1
      = .ok ("\x7b\"$comment\":\"\x7bapp_id:19015, pushd_id:8jhKA4aaad\x7d\"," ++
          "\"$query\":\x7b\"channels\":\x7b\"$in\":[\"?\"]\x7d," ++
          "\"deviceType\":\x7b\"$in\":[\"?\"]\x7d\x7d\x7d") :=
  ⟨rfl, ((c29_query_frame jsonMarshal commentQuery rfl).2.1 "$comment" (by decide)).trans rfl,
    commentQuery_signature⟩

end logtailer
namespace logtailer

/-! ## C30 -/

theorem mapDelete_scrubMembers (key : String) (m : List (String × Doc)) :
    mapDelete key (scrubMembers m) = scrubMembers (mapDelete key m) := by
  induction m with
  | nil => simp [mapDelete, scrubMembers]
  | cons a rest ih =>
    obtain ⟨k, v⟩ := a
    rw [scrubMembers_cons]
    unfold mapDelete at ih ⊢
    by_cases hk : k = key
    · simp only [List.filter, hk, ne_eq, not_true_eq_false, decide_False]
      exact ih
    · simp only [List.filter, hk, ne_eq, not_false_eq_true, decide_True]
      rw [scrubMembers_cons, ih]

theorem scrubValue_count_ne_nil (value : Doc) : (scrubValue "count" value).isNil = false := by
  cases value <;> rfl

/-- after `scrubFields` the command holds a non-nil `count` exactly when it
had a member `count` -/
theorem count_isNil (queryMap : List (String × Doc)) :
    (mapGet (scrubMembers queryMap) "count").isNil = (queryMap.lookup "count").isNone := by
  rw [mapGet, lookup_scrubMembers]
  cases h : queryMap.lookup "count" with
  | none => rfl
  | some value => simpa using scrubValue_count_ne_nil value

theorem signature_command (marshal : Doc → Except GoError String)
    (queryMap : List (String × Doc)) :
    generateQuerySignature marshal queryMap "command"
      = if (queryMap.lookup "count").isSome then
          (marshal (mapGet (scrubMembers queryMap) "query"), scrubMembers queryMap)
        else
          (marshal (.object (scrubMembers
              (mapDelete "findandmodify" (mapDelete "findAndModify" queryMap)))),
            scrubMembers (mapDelete "findandmodify" (mapDelete "findAndModify" queryMap))) := by
  have hop : ¬ ("command" = "query") := by decide
  simp only [generateQuerySignature, if_neg hop, if_true, count_isNil,
    mapDelete_scrubMembers]
  cases queryMap.lookup "count" <;> rfl

theorem signature_command_alike (marshal : Doc → Except GoError String)
    (first second : List (String × Doc))
    (h1 : first.lookup "count" = none) (h2 : second.lookup "count" = none)
    (h : AlikeMembers (mapDelete "findandmodify" (mapDelete "findAndModify" first))
      (mapDelete "findandmodify" (mapDelete "findAndModify" second))) :
    generateQuerySignature marshal first "command"
      = generateQuerySignature marshal second "command" := by
  rw [signature_command, signature_command, h1, h2, scrubMembers_alike _ _ h]
  rfl

theorem signature_count_empty (queryMap : List (String × Doc))
    (hc : (queryMap.lookup "count").isSome = true)
    (hq : queryMap.lookup "query" = some (.object [])) :
    (generateQuerySignature jsonMarshal queryMap "command").1 = .ok "\x7b\x7d" := by
  rw [signature_command, if_pos hc]
  simp only [mapGet, lookup_scrubMembers, hq]
  rfl

theorem famCommands_alike :
    AlikeMembers (mapDelete "findandmodify" (mapDelete "findAndModify" famCommand))
      (mapDelete "findandmodify" (mapDelete "findAndModify" famCCCommand)) := by
  have hd1 : mapDelete "findandmodify" (mapDelete "findAndModify" famCommand)
      = famCommand.tail := rfl
  have hd2 : mapDelete "findandmodify" (mapDelete "findAndModify" famCCCommand)
      = famCCCommand.tail := rfl
  rw [hd1, hd2]
  simp [famCommand, famCCCommand, AlikeMembers, Doc.Alike, scrubbedKey, replacedKey,
    Doc.isScalar]

/-- the signature of the command of `sample26FAMLine` -/
theorem famCommand_signature :
    (generateQuerySignature jsonMarshal famCommand "command").1 = .ok famSignature := by
  rfl

/-- the signature of the command of `sampleEmptyCountLine` -/
theorem emptyCount_signature :
    (generateQuerySignature jsonMarshal emptyCountCommand "command").1 = .ok "\x7b\x7d" := by
  rfl

/-- the command of `sample26FAMLine` and a command spelled `findAndModify`
with other literal values have the same signature, the one
`TestGetQuerySignature` expects -/
theorem famCCCommand_signature :
    (generateQuerySignature jsonMarshal famCCCommand "command").1 = .ok famSignature :=
  ((congrArg Prod.fst
    (signature_command_alike jsonMarshal famCommand famCCCommand rfl rfl
      famCommands_alike)).symm).trans famCommand_signature

/-- C30 (code bug): two `findAndModify` commands that differ only in the
spelling of that key and in their literal values do not have the same
signature when one of the literals is an element of a slice.  The commands
`{ findAndModify: "Game", query: { _id: "a1" }, update: { $set: { scores: [ 1, 2 ] } } }`
and
`{ findandmodify: "Game", query: { _id: "b2" }, update: { $set: { scores: [ 3, 4 ] } } }`:
the key is removed and the literal of `_id` is replaced in both, but the
literals of the slice under `scores` are written into the signatures, which
differ. -/
theorem c30_slice_literals_in_signature :
    (generateQuerySignature jsonMarshal scoresCommand "command").1
      = .ok ("\x7b\"query\":\x7b\"_id\":\"?\"\x7d," ++
          "\"update\":\x7b\"$set\":\x7b\"scores\":[1,2]\x7d\x7d\x7d") ∧
    (generateQuerySignature jsonMarshal otherScoresCommand "command").1
      = .ok ("\x7b\"query\":\x7b\"_id\":\"?\"\x7d," ++
          "\"update\":\x7b\"$set\":\x7b\"scores\":[3,4]\x7d\x7d\x7d") ∧
    (generateQuerySignature jsonMarshal scoresCommand "command").1
      ≠ (generateQuerySignature jsonMarshal otherScoresCommand "command").1 := by
  refine ⟨rfl, rfl, ?_⟩
  rw [show (generateQuerySignature jsonMarshal scoresCommand "command").1
      = .ok ("\x7b\"query\":\x7b\"_id\":\"?\"\x7d," ++
          "\"update\":\x7b\"$set\":\x7b\"scores\":[1,2]\x7d\x7d\x7d") from rfl,
    show (generateQuerySignature jsonMarshal otherScoresCommand "command").1
      = .ok ("\x7b\"query\":\x7b\"_id\":\"?\"\x7d," ++
          "\"update\":\x7b\"$set\":\x7b\"scores\":[3,4]\x7d\x7d\x7d") from rfl]
  intro heq
  have hs := Except.ok.inj heq
  revert hs
  decide

end logtailer
namespace logtailer

/-! ## C33 -/

theorem mergeEvent_acceptKey (now : Int) (full ev : sshEvent) (h : ev.PeType = "acceptKey") :
    mergeEvent now full ev = { full with
      Timestamp := now, Logtime := ev.Logtime, Hostname := ev.Hostname, Pid := ev.Pid,
      DstUser := ev.DstUser, SrcIP := ev.SrcIP, Port := ev.Port, Success := ev.Success } := by
  simp [mergeEvent, h]

theorem mergeEvent_badRevMap (now : Int) (full ev : sshEvent) (h : ev.PeType = "badRevMap") :
    mergeEvent now full ev = { full with
      Timestamp := now, Logtime := ev.Logtime, Hostname := ev.Hostname, Pid := ev.Pid,
      FailReason := ev.FailReason, Success := ev.Success } := by
  simp [mergeEvent, h]

theorem mergeEvent_failedPubKey (now : Int) (full ev : sshEvent)
    (h : ev.PeType = "failedPubKey") :
    mergeEvent now full ev = { full with
      Timestamp := now, Logtime := ev.Logtime, Hostname := ev.Hostname, Pid := ev.Pid,
      Success := ev.Success, Complete := true } := by
  simp [mergeEvent, h]

theorem mergeEvent_connectionClosed (now : Int) (full ev : sshEvent)
    (h : ev.PeType = "connectionClosed") :
    mergeEvent now full ev = { full with
      Timestamp := now, Logtime := ev.Logtime, Hostname := ev.Hostname, Pid := ev.Pid,
      Success := ev.Success, SrcIP := ev.SrcIP, FailReason := ev.FailReason,
      Complete := true } := by
  simp [mergeEvent, h]

theorem mergeEvent_other (now : Int) (full ev : sshEvent) (h : ev.PeType ∉ messageTypes) :
    mergeEvent now full ev = { full with
      Timestamp := now, Logtime := ev.Logtime, Hostname := ev.Hostname, Pid := ev.Pid } := by
  simp only [messageTypes, List.mem_cons, List.mem_singleton, List.not_mem_nil, or_false,
    not_or] at h
  obtain ⟨h1, h2, h3, h4, h5, h6, h7⟩ := h
  simp [mergeEvent, h1, h2, h3, h4, h5, h6, h7]

/-- the entry `handlePartialEvent` merges into and what it does with the merged
entry; every other key keeps its entry -/
theorem handle_frame (lib : SshdLib) (now : Int) (p : SshdProfile) (b : String) (ev : sshEvent)
    (h : lib.Unmarshal b = .ok ev) :
    (∀ k, k ≠ ev.ID → (p.handlePartialEvent lib now b).2.events.lookup k = p.events.lookup k) ∧
    ((p.handlePartialEvent lib now b).2.events.lookup ev.ID
        = some (mergeEvent now ((p.events.lookup ev.ID).getD {}) ev) ∨
      ((p.handlePartialEvent lib now b).2.events.lookup ev.ID = none ∧
        (p.handlePartialEvent lib now b).2.completeEvents
          = p.completeEvents ++ [mergeEvent now ((p.events.lookup ev.ID).getD {}) ev])) := by
  obtain ⟨_, _, other, com, inc⟩ := handle_spec lib now p b ev h
  refine ⟨other, ?_⟩
  cases hc : (mergeEvent now ((p.events.lookup ev.ID).getD {}) ev).Complete with
  | true => exact Or.inr ⟨(com hc).2, (com hc).1⟩
  | false => exact Or.inl (inc hc).2

/-- C33: what merging an observation changes.  For an observation `ev` that
decodes and any entry `full`, the merged entry is `full` with Timestamp (the
time of the handling), Logtime, Hostname and Pid refreshed and with the fields
of the subtype taken from the observation - connectLine: SrcIP, Port; foundKey:
Fingerprint, FbUser; acceptKey: DstUser, SrcIP, Port, Success; childPid:
ChildPid, Success, Complete; badRevMap: FailReason, Success; failedPubKey:
Success, Complete; connectionClosed: Success, SrcIP, FailReason, Complete -
and every other field as it was.  `handlePartialEvent` merges into the entry of
the key of the observation (a zero entry if there is none), stores the merged
entry or sends it and deletes the key, and leaves the entry of every other key
as it was. -/
theorem c33_merge_frame (lib : SshdLib) (now : Int) (p : SshdProfile) (b : String)
    (ev full : sshEvent) (h : lib.Unmarshal b = .ok ev) :
    (ev.PeType = "connectLine" → mergeEvent now full ev = { full with
      Timestamp := now, Logtime := ev.Logtime, Hostname := ev.Hostname, Pid := ev.Pid,
      SrcIP := ev.SrcIP, Port := ev.Port }) ∧
    (ev.PeType = "foundKey" → mergeEvent now full ev = { full with
      Timestamp := now, Logtime := ev.Logtime, Hostname := ev.Hostname, Pid := ev.Pid,
      Fingerprint := ev.Fingerprint, FbUser := ev.FbUser }) ∧
    (ev.PeType = "acceptKey" → mergeEvent now full ev = { full with
      Timestamp := now, Logtime := ev.Logtime, Hostname := ev.Hostname, Pid := ev.Pid,
      DstUser := ev.DstUser, SrcIP := ev.SrcIP, Port := ev.Port, Success := ev.Success }) ∧
    (ev.PeType = "childPid" → mergeEvent now full ev = { full with
      Timestamp := now, Logtime := ev.Logtime, Hostname := ev.Hostname, Pid := ev.Pid,
      ChildPid := ev.ChildPid, Success := ev.Success, Complete := true }) ∧
    (ev.PeType = "badRevMap" → mergeEvent now full ev = { full with
      Timestamp := now, Logtime := ev.Logtime, Hostname := ev.Hostname, Pid := ev.Pid,
      FailReason := ev.FailReason, Success := ev.Success }) ∧
    (ev.PeType = "failedPubKey" → mergeEvent now full ev = { full with
      Timestamp := now, Logtime := ev.Logtime, Hostname := ev.Hostname, Pid := ev.Pid,
      Success := ev.Success, Complete := true }) ∧
    (ev.PeType = "connectionClosed" → mergeEvent now full ev = { full with
      Timestamp := now, Logtime := ev.Logtime, Hostname := ev.Hostname, Pid := ev.Pid,
      Success := ev.Success, SrcIP := ev.SrcIP, FailReason := ev.FailReason,
      Complete := true }) ∧
    (∀ k, k ≠ ev.ID → (p.handlePartialEvent lib now b).2.events.lookup k = p.events.lookup k) ∧
    ((p.handlePartialEvent lib now b).2.events.lookup ev.ID
        = some (mergeEvent now ((p.events.lookup ev.ID).getD {}) ev) ∨
      ((p.handlePartialEvent lib now b).2.events.lookup ev.ID = none ∧
        (p.handlePartialEvent lib now b).2.completeEvents
          = p.completeEvents ++ [mergeEvent now ((p.events.lookup ev.ID).getD {}) ev])) :=
  ⟨mergeEvent_connectLine now full ev, mergeEvent_foundKey now full ev,
    mergeEvent_acceptKey now full ev, mergeEvent_childPid now full ev,
    mergeEvent_badRevMap now full ev, mergeEvent_failedPubKey now full ev,
    mergeEvent_connectionClosed now full ev, (handle_frame lib now p b ev h).1,
    (handle_frame lib now p b ev h).2⟩

/-- C33 witness: the foundKey observation of host1, pid 123 merged into the
entry the connectLine observation left: Fingerprint and FbUser are those of the
observation, SrcIP and Port those of the entry. -/
theorem c33_merge_frame_witness :
    mergeEvent (63930247201 * Second) (mergeEvent (63930247200 * Second) {} connectEvent)
        foundKeyEvent
      = { Timestamp := 63930247201 * Second, Logtime := -4111199 * Second,
          Hostname := "host1", Pid := 123, SrcIP := "1.2.3.4", Port := 22,
          Fingerprint := "b5:ca:16:03:d4:10:41:80:3d:bc:3b:18:05:57:4f:56",
          FbUser := "alice" } :=
  ((c33_merge_frame demoLib (63930247201 * Second) demoSshd foundKeyJson foundKeyEvent
    (mergeEvent (63930247200 * Second) {} connectEvent) demo_unmarshal_foundKey).2.1 rfl).trans
    (by decide)

/-! ## C37 -/

theorem append_cons_inj {α : Type} (c : α) (d1 d2 : List α) (h1 : c ∉ d1) (h2 : c ∉ d2) :
    ∀ l1 l2 : List α, l1 ++ c :: d1 = l2 ++ c :: d2 → l1 = l2 ∧ d1 = d2 := by
  intro l1
  induction l1 with
  | nil =>
    intro l2 h
    cases l2 with
    | nil => exact ⟨rfl, (List.cons.inj h).2⟩
    | cons b l2 =>
      have := (List.cons.inj h).2
      exact absurd (this ▸ List.mem_append_right l2 (List.mem_cons_self c d2)) h1
  | cons a l1 ih =>
    intro l2 h
    cases l2 with
    | nil =>
      have := (List.cons.inj h).2
      exact absurd (this ▸ List.mem_append_right l1 (List.mem_cons_self c d1)) h2
    | cons b l2 =>
      obtain ⟨hab, ht⟩ := List.cons.inj h
      obtain ⟨hl, hd⟩ := ih l2 ht
      exact ⟨by rw [hab, hl], hd⟩

theorem colon_not_mem_toDigits (n : Nat) : ':' ∉ Nat.toDigits 10 n := by
  intro hmem
  rw [toDigits_eq] at hmem
  by_cases hn : n = 0
  · rw [if_pos hn] at hmem
    simp at hmem
  · rw [if_neg hn, List.mem_map] at hmem
    obtain ⟨d, hd, hc⟩ := hmem
    have hlt : d < 10 := Nat.digits_lt_base (by norm_num) (List.mem_reverse.mp hd)
    interval_cases d <;> simp [Nat.digitChar] at hc

theorem colon_not_mem_Itoa (n : Int) : ':' ∉ (Itoa n).data := by
  cases n with
  | ofNat m => exact colon_not_mem_toDigits m
  | negSucc m =>
    simp only [Itoa, List.mem_cons, not_or]
    exact ⟨by decide, colon_not_mem_toDigits (m + 1)⟩

theorem ID_data (e : sshEvent) : e.ID.data = e.Hostname.data ++ ':' :: (Itoa e.Pid).data := by
  simp [sshEvent.ID, String.data_append]

/-- the key identifies the hostname and the pid -/
theorem ID_injective (e1 e2 : sshEvent) (h : e1.ID = e2.ID) :
    e1.Hostname = e2.Hostname ∧ e1.Pid = e2.Pid := by
  have hd : e1.ID.data = e2.ID.data := by rw [h]
  rw [ID_data, ID_data] at hd
  obtain ⟨hh, hp⟩ := append_cons_inj ':' _ _ (colon_not_mem_Itoa e1.Pid)
    (colon_not_mem_Itoa e2.Pid) _ _ hd
  exact ⟨String.ext hh, Itoa_injective (String.ext hp)⟩

theorem other_pair_untouched (lib : SshdLib) (now : Int) (p : SshdProfile) (b : String)
    (ev : sshEvent) (k : String) (e : sshEvent) (inv : p.Inflight) (h : lib.Unmarshal b = .ok ev)
    (hl : p.events.lookup k = some e) (hne : ¬ (e.Hostname = ev.Hostname ∧ e.Pid = ev.Pid)) :
    (p.handlePartialEvent lib now b).2.events.lookup k = some e := by
  have hid := (inv k e hl).2
  rw [(handle_frame lib now p b ev h).1 k (fun hk => hne (ID_injective e ev (hid.trans hk))), hl]

/-- C37: the identity key is injective.  For all hostnames (any strings, also
with colons in them) and all pids, the ID of the one hostname and pid equals
the ID of the other only if the hostnames are equal and the pids are equal; so
for all events.  In a reachable profile an observation does not touch the entry
of another hostname and pid pair: the pairs are never merged into one entry. -/
theorem c37_ID_injective (h1 h2 : String) (p1 p2 : Int) :
    (({ Hostname := h1, Pid := p1 } : sshEvent).ID = ({ Hostname := h2, Pid := p2 } : sshEvent).ID →
      h1 = h2 ∧ p1 = p2) ∧
    (h1 ++ ":" ++ Itoa p1 = h2 ++ ":" ++ Itoa p2 → h1 = h2 ∧ p1 = p2) ∧
    (∀ e1 e2 : sshEvent, e1.ID = e2.ID → e1.Hostname = e2.Hostname ∧ e1.Pid = e2.Pid) ∧
    (∀ (lib : SshdLib) (now : Int) (p : SshdProfile) (b : String) (ev : sshEvent) (k : String)
      (e : sshEvent), SshdProfile.Reachable lib p → lib.Unmarshal b = .ok ev →
      p.events.lookup k = some e → ¬ (e.Hostname = ev.Hostname ∧ e.Pid = ev.Pid) →
      (p.handlePartialEvent lib now b).2.events.lookup k = some e) :=
  ⟨fun h => ID_injective { Hostname := h1, Pid := p1 } { Hostname := h2, Pid := p2 } h,
    fun h => ID_injective { Hostname := h1, Pid := p1 } { Hostname := h2, Pid := p2 } h,
    ID_injective,
    fun lib now p b ev k e hr h hl hne =>
      other_pair_untouched lib now p b ev k e hr.inflight h hl hne⟩

end logtailer
namespace logtailer

/-! ## C34 -/

/-- the method `ProcessRecord` is the `switch` over `messageForms`, then `json.Marshal` -/
theorem processRecord_firstForm (lib : SshdLib) (now : Int) (p : SshdProfile)
    (line logtime host pid message : String)
    (hlog : lib.sshLogRe line = some (logtime, host, pid, message)) :
    p.ProcessRecord lib now line
      = (firstForm (p.messageForms lib) message
          { Timestamp := now, Logtime := lib.ParseTime logtime, Hostname := host,
            Pid := lib.Atoi pid }).elim (.ok "\x7b\x7d") lib.Marshal := by
  unfold SshdProfile.ProcessRecord
  simp only [hlog]
  cases h1 : lib.connectLineRe message with
  | some g => simp [firstForm, SshdProfile.messageForms, h1]
  | none =>
  cases h2 : lib.foundKeyRe message with
  | some g => simp [firstForm, SshdProfile.messageForms, h1, h2]
  | none =>
  cases h3 : lib.acceptKeyRe message with
  | some g => simp [firstForm, SshdProfile.messageForms, h1, h2, h3]
  | none =>
  cases h4 : lib.childPidRe message with
  | some g => simp [firstForm, SshdProfile.messageForms, h1, h2, h3, h4]
  | none =>
  cases h5 : lib.badRevMapRe message with
  | some g => simp [firstForm, SshdProfile.messageForms, h1, h2, h3, h4, h5]
  | none =>
  cases h6 : lib.failedPubKeyRe message with
  | some g => simp [firstForm, SshdProfile.messageForms, h1, h2, h3, h4, h5, h6]
  | none =>
  cases h7 : lib.connectionClosedRe message with
  | some g => simp [firstForm, SshdProfile.messageForms, h1, h2, h3, h4, h5, h6, h7]
  | none => simp [firstForm, SshdProfile.messageForms, h1, h2, h3, h4, h5, h6, h7]

theorem firstForm_eq_head (forms : List MessageForm) (message : String) (e : sshEvent) :
    firstForm forms message e = (forms.filterMap (fun form => form message e)).head? := by
  induction forms with
  | nil => rfl
  | cons form rest ih =>
    cases h : form message e with
    | some r => simp [firstForm, List.filterMap_cons, h]
    | none => simp [firstForm, List.filterMap_cons, h, ih]

theorem take_of_starts {α : Type} (literal text : List α) (h : literal <+: text) (n : Nat)
    (hn : n ≤ literal.length) : text.take n = literal.take n := by
  obtain ⟨t, rfl⟩ := h
  exact List.take_append_of_le_length hn

theorem filterMap_eq_nil_of_none {α β : Type} (f : α → Option β) :
    ∀ l : List α, (∀ x ∈ l, f x = none) → l.filterMap f = [] := by
  intro l
  induction l with
  | nil => intro _; rfl
  | cons a rest ih =>
    intro h
    rw [List.filterMap_cons_none (h a (List.mem_cons_self _ _))]
    exact ih (fun x hx => h x (List.mem_cons_of_mem _ hx))

/-- cases that match only messages with pairwise distinct marks: at most one
of them matches a message -/
theorem exclusive_of_keys (message : String) (e : sshEvent) (key : List Char) :
    ∀ tagged : List (MessageForm × List Char), (tagged.map Prod.snd).Nodup →
      (∀ fk ∈ tagged, (fk.1 message e).isSome = true → fk.2 = key) →
      ((tagged.map Prod.fst).filterMap (fun form => form message e)).length ≤ 1 := by
  intro tagged
  induction tagged with
  | nil => intro _ _; simp
  | cons fk rest ih =>
    intro hnd hk
    obtain ⟨form, k⟩ := fk
    rw [List.map_cons, List.nodup_cons] at hnd
    have hrest : ∀ fk ∈ rest, (fk.1 message e).isSome = true → fk.2 = key :=
      fun fk hfk => hk fk (List.mem_cons_of_mem _ hfk)
    rw [show ((form, k) :: rest).map Prod.fst = form :: rest.map Prod.fst from rfl]
    cases h : form message e with
    | none =>
      simp only [List.filterMap_cons, h]
      exact ih hnd.2 hrest
    | some r =>
      have hkey : k = key := hk (form, k) (List.mem_cons_self _ _) (by simp [h])
      have hnone : (rest.map Prod.fst).filterMap (fun form => form message e) = [] := by
        apply filterMap_eq_nil_of_none
        intro f hf
        obtain ⟨fk, hfk, rfl⟩ := List.mem_map.mp hf
        cases hs : fk.1 message e with
        | none => rfl
        | some r' =>
          have hk' : fk.2 = key := hrest fk hfk (by simp [hs])
          exact absurd (List.mem_map.mpr ⟨fk, hfk, hk'.trans hkey.symm⟩) hnd.1
      simp only [List.filterMap_cons, h, hnone]
      simp

theorem isSome_of_map {α β : Type} (f : α → β) (o : Option α) (h : (o.map f).isSome = true) :
    o.isSome = true := by
  cases o with
  | none => simp at h
  | some a => rfl

/-- the seven cases with the first twelve characters of the literal each
pattern begins with -/
theorem forms_tagged (lib : SshdLib) (p : SshdProfile) (hA : lib.Anchored) (message : String)
    (e : sshEvent) :
    ∀ fk ∈ (p.messageForms lib).zip (formPrefixes.map (fun literal => literal.data.take 12)),
      (fk.1 message e).isSome = true → fk.2 = message.data.take 12 := by
  obtain ⟨a1, a2, a3, a4, a5, a6, a7⟩ := hA
  intro fk hfk hsome
  simp only [SshdProfile.messageForms, formPrefixes, List.map_cons, List.map_nil,
    List.zip_cons_cons, List.zip_nil_right, List.mem_cons, List.mem_singleton,
    List.not_mem_nil, or_false] at hfk
  rcases hfk with rfl | rfl | rfl | rfl | rfl | rfl | rfl <;>
    replace hsome := isSome_of_map _ _ hsome
  · exact (take_of_starts _ _ (a1 message hsome) 12 (by decide)).symm
  · exact (take_of_starts _ _ (a2 message hsome) 12 (by decide)).symm
  · exact (take_of_starts _ _ (a3 message hsome) 12 (by decide)).symm
  · exact (take_of_starts _ _ (a4 message hsome) 12 (by decide)).symm
  · exact (take_of_starts _ _ (a5 message hsome) 12 (by decide)).symm
  · exact (take_of_starts _ _ (a6 message hsome) 12 (by decide)).symm
  · exact (take_of_starts _ _ (a7 message hsome) 12 (by decide)).symm

/-- the seven forms are mutually exclusive -/
theorem forms_exclusive (lib : SshdLib) (p : SshdProfile) (hA : lib.Anchored) (message : String)
    (e : sshEvent) :
    ((p.messageForms lib).filterMap (fun form => form message e)).length ≤ 1 := by
  have h := exclusive_of_keys message e (message.data.take 12)
    ((p.messageForms lib).zip (formPrefixes.map (fun literal => literal.data.take 12)))
    (by
      rw [List.map_snd_zip]
      · decide
      · simp [SshdProfile.messageForms, formPrefixes])
    (forms_tagged lib p hA message e)
  rwa [List.map_fst_zip] at h
  simp [SshdProfile.messageForms, formPrefixes]

/-- the order in which mutually exclusive cases are tried does not matter -/
theorem firstForm_perm (forms tried : List MessageForm) (message : String) (e : sshEvent)
    (hperm : tried.Perm forms)
    (hex : (forms.filterMap (fun form => form message e)).length ≤ 1) :
    firstForm tried message e = firstForm forms message e := by
  rw [firstForm_eq_head, firstForm_eq_head]
  have hp := hperm.filterMap (fun form => form message e)
  generalize forms.filterMap (fun form => form message e) = l at hp hex
  generalize tried.filterMap (fun form => form message e) = l' at hp
  cases l with
  | nil => rw [List.perm_nil.mp hp]
  | cons a rest =>
    cases rest with
    | nil => rw [List.perm_singleton.mp hp]
    | cons b rest => simp at hex

/-- what a case that matches yields: the hostname and pid of the line, the
name of the form, Success for acceptKey and childPid only -/
theorem firstForm_fields (lib : SshdLib) (p : SshdProfile) (message : String)
    (partialEvent e : sshEvent) (hs : partialEvent.Success = false)
    (h : firstForm (p.messageForms lib) message partialEvent = some e) :
    e.Timestamp = partialEvent.Timestamp ∧ e.Logtime = partialEvent.Logtime ∧
    e.Hostname = partialEvent.Hostname ∧ e.Pid = partialEvent.Pid ∧ e.PeType ∈ messageTypes ∧
    (e.Success = true ↔ e.PeType = "acceptKey" ∨ e.PeType = "childPid") := by
  rw [firstForm_eq_head] at h
  have hmem := List.mem_of_mem_head? h
  rw [List.mem_filterMap] at hmem
  obtain ⟨form, hform, hfe⟩ := hmem
  simp only [SshdProfile.messageForms, List.mem_cons, List.mem_singleton, List.not_mem_nil,
    or_false] at hform
  rcases hform with rfl | rfl | rfl | rfl | rfl | rfl | rfl <;>
    simp only [Option.map_eq_some'] at hfe <;>
    obtain ⟨g, _, rfl⟩ := hfe <;>
    simp [messageTypes, hs]

theorem head_of_mem_of_length_le_one {α : Type} (l : List α) (r : α) (hmem : r ∈ l)
    (hlen : l.length ≤ 1) : l.head? = some r := by
  cases l with
  | nil => simp at hmem
  | cons a rest =>
    cases rest with
    | nil =>
      rw [List.mem_singleton] at hmem
      rw [hmem]
      rfl
    | cons b rest => simp at hlen

/-- a case that matches is the case the `switch` takes -/
theorem firstForm_of_mem (lib : SshdLib) (p : SshdProfile) (hA : lib.Anchored) (message : String)
    (e r : sshEvent) (form : MessageForm) (hform : form ∈ p.messageForms lib)
    (hr : form message e = some r) : firstForm (p.messageForms lib) message e = some r := by
  rw [firstForm_eq_head]
  exact head_of_mem_of_length_le_one _ r (List.mem_filterMap.mpr ⟨form, hform, hr⟩)
    (forms_exclusive lib p hA message e)

theorem prefix_of_stripPrefix : ∀ (literal text rest : List Char),
    stripPrefix literal text = some rest → text = literal ++ rest := by
  intro literal
  induction literal with
  | nil =>
    intro text rest h
    simp only [stripPrefix, Option.some.injEq] at h
    simp [h]
  | cons c literal ih =>
    intro text rest h
    cases text with
    | nil => simp [stripPrefix] at h
    | cons d text =>
      by_cases hcd : c = d
      · simp only [stripPrefix, hcd, if_true] at h
        rw [hcd, ih text rest h]
        rfl
      · simp [stripPrefix, hcd] at h

theorem anchored_of_strip {α : Type} (literal text : List Char) (f : List Char → Option α)
    (h : ((stripPrefix literal text).bind f).isSome = true) : literal <+: text := by
  cases hs : stripPrefix literal text with
  | none => simp [hs] at h
  | some rest => exact ⟨rest, (prefix_of_stripPrefix literal text rest hs).symm⟩

/-- the patterns of sshd.go begin with their literals -/
theorem patternLib_anchored : patternLib.Anchored :=
  ⟨fun _ h => anchored_of_strip _ _ _ h, fun _ h => anchored_of_strip _ _ _ h,
    fun _ h => anchored_of_strip _ _ _ h, fun _ h => anchored_of_strip _ _ _ h,
    fun _ h => anchored_of_strip _ _ _ h, fun _ h => anchored_of_strip _ _ _ h,
    fun _ h => anchored_of_strip _ _ _ h⟩

/-- the line of `connectEvent` through the patterns of sshd.go -/
theorem connectLine_match :
    patternLib.sshLogRe connectLine
      = some ("Nov 14 10:00:00", "host1", "123", "Connection from 1.2.3.4 port 22") := by
  rfl

/-- C34 (as amended): `ProcessRecord` on a line of sshd with hostname `host`, pid `pid` and
the message `message`.  The result is the `switch` over the seven forms, then
`json.Marshal`.  For a message of one of the seven forms the event has the
Hostname and Pid of the line, the PeType naming the form and the captured
fields filled in (connectLine: SrcIP, Port; foundKey: Fingerprint and the
FbUser of the fingerprint; acceptKey: DstUser, SrcIP, Port; childPid: ChildPid;
badRevMap: the fixed FailReason; connectionClosed: SrcIP, FailReason;
failedPubKey: none, the user, address and port its pattern captures are
dropped); Success is true exactly for acceptKey and childPid.  Every pattern begins with its own
literal text (`Anchored`), so at most one of the seven forms matches a message
and the `switch` yields the same event in whatever order the cases are
tried. -/
theorem c34_processRecord_forms (lib : SshdLib) (now : Int) (p : SshdProfile)
    (line logtime host pid message : String)
    (hlog : lib.sshLogRe line = some (logtime, host, pid, message)) (hA : lib.Anchored) :
    p.ProcessRecord lib now line
      = (firstForm (p.messageForms lib) message
          (linePrefixEvent lib now logtime host pid)).elim (.ok "\x7b\x7d") lib.Marshal ∧
    (∀ ip port, lib.connectLineRe message = some (ip, port) →
      firstForm (p.messageForms lib) message (linePrefixEvent lib now logtime host pid)
        = some { linePrefixEvent lib now logtime host pid with
            PeType := "connectLine", SrcIP := ip, Port := lib.Atoi port }) ∧
    (∀ fingerprint, lib.foundKeyRe message = some fingerprint →
      firstForm (p.messageForms lib) message (linePrefixEvent lib now logtime host pid)
        = some { linePrefixEvent lib now logtime host pid with
            PeType := "foundKey", Fingerprint := fingerprint,
            FbUser := p.fbUser fingerprint }) ∧
    (∀ user ip port, lib.acceptKeyRe message = some (user, ip, port) →
      firstForm (p.messageForms lib) message (linePrefixEvent lib now logtime host pid)
        = some { linePrefixEvent lib now logtime host pid with
            PeType := "acceptKey", DstUser := user, SrcIP := ip, Port := lib.Atoi port,
            Success := true }) ∧
    (∀ child, lib.childPidRe message = some child →
      firstForm (p.messageForms lib) message (linePrefixEvent lib now logtime host pid)
        = some { linePrefixEvent lib now logtime host pid with
            PeType := "childPid", ChildPid := lib.Atoi child, Success := true }) ∧
    ((lib.badRevMapRe message).isSome = true →
      firstForm (p.messageForms lib) message (linePrefixEvent lib now logtime host pid)
        = some { linePrefixEvent lib now logtime host pid with
            PeType := "badRevMap", FailReason := "reverse mapping checking getaddrinfo",
            Success := false }) ∧
    ((lib.failedPubKeyRe message).isSome = true →
      firstForm (p.messageForms lib) message (linePrefixEvent lib now logtime host pid)
        = some { linePrefixEvent lib now logtime host pid with
            PeType := "failedPubKey", Success := false }) ∧
    (∀ ip reason, lib.connectionClosedRe message = some (ip, reason) →
      firstForm (p.messageForms lib) message (linePrefixEvent lib now logtime host pid)
        = some { linePrefixEvent lib now logtime host pid with
            PeType := "connectionClosed", SrcIP := ip, FailReason := reason,
            Success := false }) ∧
    (∀ e, firstForm (p.messageForms lib) message (linePrefixEvent lib now logtime host pid)
        = some e →
      e.Hostname = host ∧ e.Pid = lib.Atoi pid ∧ e.PeType ∈ messageTypes ∧
      (e.Success = true ↔ e.PeType = "acceptKey" ∨ e.PeType = "childPid")) ∧
    ((p.messageForms lib).filterMap
      (fun form => form message (linePrefixEvent lib now logtime host pid))).length ≤ 1 ∧
    (∀ tried : List MessageForm, tried.Perm (p.messageForms lib) →
      firstForm tried message (linePrefixEvent lib now logtime host pid)
        = firstForm (p.messageForms lib) message (linePrefixEvent lib now logtime host pid)) := by
  refine ⟨processRecord_firstForm lib now p line logtime host pid message hlog, ?_, ?_, ?_, ?_,
    ?_, ?_, ?_, ?_, forms_exclusive lib p hA message _, ?_⟩
  · intro ip port h
    exact firstForm_of_mem lib p hA message _ _ _ (List.mem_cons_self _ _) (by rw [h]; rfl)
  · intro fingerprint h
    exact firstForm_of_mem lib p hA message _ _ _
      (List.mem_cons_of_mem _ (List.mem_cons_self _ _)) (by rw [h]; rfl)
  · intro user ip port h
    exact firstForm_of_mem lib p hA message _ _ _
      (List.mem_cons_of_mem _ (List.mem_cons_of_mem _ (List.mem_cons_self _ _)))
      (by rw [h]; rfl)
  · intro child h
    exact firstForm_of_mem lib p hA message _ _ _
      (List.mem_cons_of_mem _ (List.mem_cons_of_mem _ (List.mem_cons_of_mem _
        (List.mem_cons_self _ _)))) (by rw [h]; rfl)
  · intro h
    obtain ⟨u, hu⟩ := Option.isSome_iff_exists.mp h
    exact firstForm_of_mem lib p hA message _ _ _
      (List.mem_cons_of_mem _ (List.mem_cons_of_mem _ (List.mem_cons_of_mem _
        (List.mem_cons_of_mem _ (List.mem_cons_self _ _))))) (by rw [hu]; rfl)
  · intro h
    obtain ⟨u, hu⟩ := Option.isSome_iff_exists.mp h
    exact firstForm_of_mem lib p hA message _ _ _
      (List.mem_cons_of_mem _ (List.mem_cons_of_mem _ (List.mem_cons_of_mem _
        (List.mem_cons_of_mem _ (List.mem_cons_of_mem _ (List.mem_cons_self _ _))))))
      (by rw [hu]; rfl)
  · intro ip reason h
    exact firstForm_of_mem lib p hA message _ _ _
      (List.mem_cons_of_mem _ (List.mem_cons_of_mem _ (List.mem_cons_of_mem _
        (List.mem_cons_of_mem _ (List.mem_cons_of_mem _ (List.mem_cons_of_mem _
          (List.mem_cons_self _ _))))))) (by rw [h]; rfl)
  · intro e h
    have hf := firstForm_fields lib p message _ e rfl h
    exact ⟨hf.2.2.1, hf.2.2.2.1, hf.2.2.2.2.1, hf.2.2.2.2.2⟩
  · intro tried hperm
    exact firstForm_perm _ tried message _ hperm (forms_exclusive lib p hA message _)

/-- C34 witness: the line
`Nov 14 10:00:00 host1 sshd[123]: Connection from 1.2.3.4 port 22` through the
patterns of sshd.go: a connectLine event of host1, pid 123 with SrcIP 1.2.3.4
and Port 22, whose JSON `ProcessRecord` returns. -/
theorem c34_processRecord_forms_witness :
    demoSshd.ProcessRecord patternLib (63930247200 * Second) connectLine = .ok connectJson ∧
    firstForm (demoSshd.messageForms patternLib) "Connection from 1.2.3.4 port 22"
        (linePrefixEvent patternLib (63930247200 * Second) "Nov 14 10:00:00" "host1" "123")
      = some connectEvent :=
  ⟨((c34_processRecord_forms patternLib (63930247200 * Second) demoSshd connectLine
      "Nov 14 10:00:00" "host1" "123" "Connection from 1.2.3.4 port 22" connectLine_match
      patternLib_anchored).1).trans rfl,
    ((c34_processRecord_forms patternLib (63930247200 * Second) demoSshd connectLine
      "Nov 14 10:00:00" "host1" "123" "Connection from 1.2.3.4 port 22" connectLine_match
      patternLib_anchored).2.1 "1.2.3.4" "22" rfl).trans rfl⟩

/-- C34 counterexample: for the message
`Failed publickey for root from 1.2.3.4 port 22 ssh2` the pattern captures the
user root, the address 1.2.3.4 and the port 22, and the event of
`ProcessRecord` has none of them: DstUser, SrcIP and Port keep their zero
values and the JSON has no member for them. -/
theorem c34_counterexample :
    patternLib.failedPubKeyRe "Failed publickey for root from 1.2.3.4 port 22 ssh2"
      = some ("root", "1.2.3.4", "22") ∧
    firstForm (demoSshd.messageForms patternLib)
        "Failed publickey for root from 1.2.3.4 port 22 ssh2"
        (linePrefixEvent patternLib (63930247200 * Second) "Nov 14 10:00:00" "host1" "123")
      = some { Timestamp := 63930247200 * Second, Logtime := -4111200 * Second,
               PeType := "failedPubKey", Hostname := "host1", Pid := 123, DstUser := "",
               SrcIP := "", Port := 0, Success := false } ∧
    demoSshd.ProcessRecord patternLib (63930247200 * Second) failedKeyLine
      = .ok failedKeyJson :=
  ⟨rfl, rfl, rfl⟩

end logtailer
namespace logtailer

/-! ## C35 -/

/-- what the loop of `scrubFields` leaves under each operator key -/
theorem scrubValue_operators (key : String) (value : Doc) :
    (key ∈ ["$in", "$nin", "$each", "$all"] → scrubValue key value = .strings ["?"]) ∧
    (key = "$nearSphere" → scrubValue key value = .scalar (.text "[?,?]")) ∧
    (key = "$box" → scrubValue key value = .scalar (.text "[[?,?],[?,?]]")) ∧
    (key = "_acl" → scrubValue key value = .scalar (.text "?")) ∧
    (key ∈ ["_rperm", "_wperm"] →
      (∀ l, value = .array l → scrubValue key value = .strings ["?"]) ∧
      (∀ m, value = .object m → scrubValue key value = .object (scrubMembers m)) ∧
      (value.isArray = false → (∀ m, value ≠ .object m) → scrubValue key value = value)) ∧
    (key ∈ ["$or", "$and"] → scrubValue key value = scrubFields value) := by
  refine ⟨fun h => ?_, fun h => ?_, fun h => ?_, fun h => ?_, fun h => ⟨?_, ?_, ?_⟩, fun h => ?_⟩
  · simp only [List.mem_cons, List.mem_singleton, List.not_mem_nil, or_false] at h
    rcases h with rfl | rfl | rfl | rfl <;> rfl
  · subst h; rfl
  · subst h; rfl
  · subst h; rfl
  · intro l hl
    simp only [List.mem_cons, List.mem_singleton, List.not_mem_nil, or_false] at h
    rcases h with rfl | rfl <;> subst hl <;> rfl
  · intro m hm
    simp only [List.mem_cons, List.mem_singleton, List.not_mem_nil, or_false] at h
    rcases h with rfl | rfl <;> subst hm <;> rfl
  · intro ha ho
    simp only [List.mem_cons, List.mem_singleton, List.not_mem_nil, or_false] at h
    cases value with
    | array l => simp [Doc.isArray] at ha
    | object m => exact absurd rfl (ho m)
    | scalar v => rcases h with rfl | rfl <;> rfl
    | strings l => rcases h with rfl | rfl <;> rfl
  · simp only [List.mem_cons, List.mem_singleton, List.not_mem_nil, or_false] at h
    rcases h with rfl | rfl <;> rfl

/-- C35: `scrubFields` on a map treats the operator keys specially, whatever
value they hold.  After the call the member `$in`, `$nin`, `$each` or `$all`
holds the one-element list of `?`; `$nearSphere` holds the string `[?,?]`;
`$box` holds `[[?,?],[?,?]]`; `_acl` holds `?`; `_rperm` and `_wperm` hold the
one-element list of `?` when they held a slice, the scrubbed map when they held
a map, and their value otherwise; `$or` and `$and` hold the result of
`scrubFields` on their value (a slice or map is recursed into, a scalar is left
as it is), never a placeholder of their own. -/
theorem c35_operator_keys (segment : List (String × Doc)) (key : String) (value : Doc)
    (h : segment.lookup key = some value) :
    scrubFields (.object segment) = .object (scrubMembers segment) ∧
    (key ∈ ["$in", "$nin", "$each", "$all"] →
      (scrubMembers segment).lookup key = some (.strings ["?"])) ∧
    (key = "$nearSphere" → (scrubMembers segment).lookup key = some (.scalar (.text "[?,?]"))) ∧
    (key = "$box" →
      (scrubMembers segment).lookup key = some (.scalar (.text "[[?,?],[?,?]]"))) ∧
    (key = "_acl" → (scrubMembers segment).lookup key = some (.scalar (.text "?"))) ∧
    (key ∈ ["_rperm", "_wperm"] →
      (∀ l, value = .array l → (scrubMembers segment).lookup key = some (.strings ["?"])) ∧
      (∀ m, value = .object m →
        (scrubMembers segment).lookup key = some (.object (scrubMembers m))) ∧
      (value.isArray = false → (∀ m, value ≠ .object m) →
        (scrubMembers segment).lookup key = some value)) ∧
    (key ∈ ["$or", "$and"] → (scrubMembers segment).lookup key = some (scrubFields value)) := by
  have hl : (scrubMembers segment).lookup key = some (scrubValue key value) := by
    rw [lookup_scrubMembers, h]
    rfl
  obtain ⟨h1, h2, h3, h4, h5, h6⟩ := scrubValue_operators key value
  rw [hl]
  exact ⟨scrubFields_object segment, fun hk => by rw [h1 hk], fun hk => by rw [h2 hk],
    fun hk => by rw [h3 hk], fun hk => by rw [h4 hk],
    fun hk => ⟨fun l hv => by rw [(h5 hk).1 l hv], fun m hv => by rw [(h5 hk).2.1 m hv],
      fun ha ho => by rw [(h5 hk).2.2 ha ho]⟩,
    fun hk => by rw [h6 hk]⟩

/-- the scrubbed form of the query with every operator key -/
theorem operatorQuery_scrubbed :
    scrubFields (.object operatorQuery) = .object operatorQueryScrubbed := by
  rfl

/-- C35 witness: in a query with `_wperm: [ "role:admin" ]` the member `_wperm`
holds the one-element list of `?` after `scrubFields`. -/
theorem c35_operator_keys_witness :
    (scrubMembers operatorQuery).lookup "_wperm" = some (.strings ["?"]) :=
  ((c35_operator_keys operatorQuery "_wperm" (.array [.scalar (.text "role:admin")])
    rfl).2.2.2.2.2.1 (by decide)).1 [.scalar (.text "role:admin")] rfl

/-! ## C38 -/

theorem scrubValue_idem (key : String) (value : Doc)
    (h : scrubFields (scrubFields value) = scrubFields value) :
    scrubValue key (scrubValue key value) = scrubValue key value := by
  by_cases h1 : key = "$or" ∨ key = "$and"
  · simp only [scrubValue, h1, if_true, h]
  by_cases h2 : key = "$nearSphere"
  · subst h2; rfl
  by_cases h3 : key = "$box"
  · subst h3; rfl
  by_cases h4 : key = "$nin" ∨ key = "$in" ∨ key = "$each" ∨ key = "$all"
  · rcases h4 with rfl | rfl | rfl | rfl <;> rfl
  by_cases h5 : key = "_acl"
  · subst h5; rfl
  by_cases h6 : key = "_rperm" ∨ key = "_wperm"
  · cases value with
    | scalar v => simp only [scrubValue, h1, h2, h3, h4, h5, h6, if_true, if_false]
    | strings l => simp only [scrubValue, h1, h2, h3, h4, h5, h6, if_true, if_false]
    | array l => simp only [scrubValue, h1, h2, h3, h4, h5, h6, if_true, if_false]
    | object m =>
      rw [scrubFields_object] at h
      simp only [scrubValue, h1, h2, h3, h4, h5, h6, if_true, if_false, scrubFields_object]
      rw [scrubFields_object] at h
      exact h
  · cases value with
    | scalar v => simp only [scrubValue, h1, h2, h3, h4, h5, h6, if_false]
    | strings l =>
      simp only [scrubValue, h1, h2, h3, h4, h5, h6, if_false, scrubFields_strings]
    | array l =>
      rw [scrubFields_array] at h
      simp only [scrubValue, h1, h2, h3, h4, h5, h6, if_false, scrubFields_array]
      rw [scrubFields_array] at h
      exact h
    | object m =>
      rw [scrubFields_object] at h
      simp only [scrubValue, h1, h2, h3, h4, h5, h6, if_false, scrubFields_object]
      rw [scrubFields_object] at h
      exact h

mutual
/-- scrubbing twice is scrubbing once -/
theorem scrubFields_idem : ∀ d : Doc, scrubFields (scrubFields d) = scrubFields d
  | .scalar v => by rw [scrubFields_scalar, scrubFields_scalar]
  | .strings l => by rw [scrubFields_strings, scrubFields_strings]
  | .array l => by
    simp only [scrubFields]
    rw [scrubElements_idem l]
  | .object m => by
    rw [scrubFields_object, scrubFields_object, scrubMembers_idem m]
theorem scrubMembers_idem : ∀ m : List (String × Doc),
    scrubMembers (scrubMembers m) = scrubMembers m
  | [] => by simp [scrubMembers]
  | (key, value) :: rest => by
    rw [scrubMembers_cons, scrubMembers_cons, scrubMembers_idem rest,
      scrubValue_idem key value (scrubFields_idem value)]
theorem scrubElements_idem : ∀ l : List Doc, scrubElements (scrubElements l) = scrubElements l
  | [] => by simp [scrubElements]
  | d :: rest => by
    simp only [scrubElements]
    rw [scrubFields_idem d, scrubElements_idem rest]
end

theorem keys_scrubMembers (m : List (String × Doc)) :
    (scrubMembers m).map Prod.fst = m.map Prod.fst := by
  rw [scrubMembers_eq_map, List.map_map]
  rfl

theorem scrubMembers_perm (m visited : List (String × Doc)) (h : visited.Perm m) :
    (scrubMembers visited).Perm (scrubMembers m) := by
  rw [scrubMembers_eq_map, scrubMembers_eq_map]
  exact h.map _

theorem mapModify_eq_map (key : String) (f : Doc → Doc) :
    ∀ m : List (String × Doc), (m.map Prod.fst).Nodup →
      mapModify key f m
        = m.map (fun member => if member.1 = key then (member.1, f member.2) else member) := by
  intro m
  induction m with
  | nil => intro _; rfl
  | cons a rest ih =>
    intro hnd
    obtain ⟨k, v⟩ := a
    rw [List.map_cons, List.nodup_cons] at hnd
    by_cases hk : k = key
    · have hrest : rest.map (fun member => if member.1 = key then (member.1, f member.2)
          else member) = rest := by
        conv_rhs => rw [← List.map_id rest]
        apply List.map_congr_left
        intro member hmem
        have hne : member.1 ≠ key := fun h =>
          hnd.1 (List.mem_map.mpr ⟨member, hmem, h.trans hk.symm⟩)
        simp [hne]
      simp only [mapModify, hk, if_true, List.map_cons, hrest]
    · simp only [mapModify, hk, if_false, List.map_cons, ih hnd.2]

theorem keys_map_modify (g : String × Doc → Doc) (m : List (String × Doc)) (c : String → Prop)
    [DecidablePred c] :
    (m.map (fun member => if c member.1 then (member.1, g member) else member)).map Prod.fst
      = m.map Prod.fst := by
  rw [List.map_map]
  apply List.map_congr_left
  intro member _
  by_cases h : c member.1 <;> simp [h]

/-- the loop over the keys in any order without repetition replaces the value
of each key visited once -/
theorem scrubVisiting_eq_map :
    ∀ (visited : List String) (m : List (String × Doc)), visited.Nodup →
      (m.map Prod.fst).Nodup →
      scrubVisiting visited m
        = m.map (fun member =>
            if member.1 ∈ visited then (member.1, scrubValue member.1 member.2) else member) := by
  intro visited
  induction visited with
  | nil =>
    intro m _ _
    simp [scrubVisiting]
  | cons key rest ih =>
    intro m hv hm
    rw [List.nodup_cons] at hv
    have hstep : scrubVisiting (key :: rest) m
        = scrubVisiting rest (mapModify key (scrubValue key) m) := rfl
    rw [hstep, mapModify_eq_map key (scrubValue key) m hm]
    have hkeys := keys_map_modify (fun member => scrubValue key member.2) m (fun k => k = key)
    rw [ih _ hv.2 (by rw [hkeys]; exact hm), List.map_map]
    apply List.map_congr_left
    intro member _
    by_cases hk : member.1 = key
    · simp [hk, hv.1]
    · simp [hk]

/-- the loop of `scrubFields` gives the same map in whatever order it visits
the keys -/
theorem scrubVisiting_eq (visited : List String) (m : List (String × Doc))
    (hm : (m.map Prod.fst).Nodup) (hperm : visited.Perm (m.map Prod.fst)) :
    scrubVisiting visited m = scrubMembers m := by
  rw [scrubVisiting_eq_map visited m (hperm.nodup_iff.mpr hm) hm, scrubMembers_eq_map]
  apply List.map_congr_left
  intro member hmem
  have : member.1 ∈ visited := hperm.mem_iff.mpr (List.mem_map.mpr ⟨member, hmem, rfl⟩)
  simp [this]

/-- C38: `scrubFields` is idempotent and does not depend on the order in which
the members of a map are visited.  For every document scrubbing twice gives the
same document as scrubbing once.  What the loop leaves under a key is a
function of the key and of the value it held: the loop run over the keys of a
map (each key once) in any order gives the same map, and for the members listed
in any other order the scrubbed members are the same, in that order.  The
member names of the map are the ones it had, in the same places. -/
theorem c38_scrub_idempotent (d : Doc) (m : List (String × Doc)) :
    scrubFields (scrubFields d) = scrubFields d ∧
    scrubFields (.object m) = .object (scrubMembers m) ∧
    scrubMembers m = m.map (fun member => (member.1, scrubValue member.1 member.2)) ∧
    (∀ visited : List String, (m.map Prod.fst).Nodup → visited.Perm (m.map Prod.fst) →
      scrubVisiting visited m = scrubMembers m) ∧
    (∀ listed : List (String × Doc), listed.Perm m →
      (scrubMembers listed).Perm (scrubMembers m)) ∧
    (∀ key, (scrubMembers m).lookup key = (m.lookup key).map (scrubValue key)) ∧
    (scrubMembers m).map Prod.fst = m.map Prod.fst :=
  ⟨scrubFields_idem d, scrubFields_object m, scrubMembers_eq_map m,
    fun visited hm hperm => scrubVisiting_eq visited m hm hperm,
    fun listed h => scrubMembers_perm m listed h, lookup_scrubMembers m, keys_scrubMembers m⟩

end logtailer
namespace logtailer

/-! ## Maps -/

theorem lookup_mapSet_eq {α : Type} (key : String) (value : α) (m : List (String × α)) :
    (mapSet key value m).lookup key = some value := by
  induction m with
  | nil => simp [mapSet, List.lookup]
  | cons a rest ih =>
    obtain ⟨k, v⟩ := a
    by_cases hk : k = key
    · subst hk
      simp [mapSet, List.lookup]
    · have hb : (key == k) = false := by simpa using fun h => hk h.symm
      simp only [mapSet, if_neg hk, List.lookup, hb]
      exact ih

theorem lookup_mapSet_ne {α : Type} (key other : String) (value : α) (m : List (String × α))
    (hne : other ≠ key) : (mapSet key value m).lookup other = m.lookup other := by
  induction m with
  | nil =>
    have hb : (other == key) = false := by simpa using hne
    simp [mapSet, List.lookup, hb]
  | cons a rest ih =>
    obtain ⟨k, v⟩ := a
    by_cases hk : k = key
    · subst hk
      have hb : (other == k) = false := by simpa using hne
      simp only [mapSet, if_true, List.lookup, hb]
    · simp only [mapSet, if_neg hk]
      by_cases ho : other = k
      · subst ho
        simp [List.lookup]
      · have hb : (other == k) = false := by simpa using ho
        simp only [List.lookup, hb]
        exact ih

theorem mapGet_mapSet_eq (key : String) (value : Doc) (m : List (String × Doc)) :
    mapGet (mapSet key value m) key = value := by
  simp [mapGet, lookup_mapSet_eq]

theorem mapGet_mapSet_ne (key other : String) (value : Doc) (m : List (String × Doc))
    (hne : other ≠ key) : mapGet (mapSet key value m) other = mapGet m other := by
  simp [mapGet, lookup_mapSet_ne key other value m hne]

theorem mapModify_mapSet (key : String) (f : Doc → Doc) (value : Doc)
    (m : List (String × Doc)) :
    mapModify key f (mapSet key value m) = mapSet key (f value) m := by
  induction m with
  | nil => simp [mapSet, mapModify]
  | cons a rest ih =>
    obtain ⟨k, v⟩ := a
    by_cases hk : k = key
    · simp [mapSet, mapModify, hk]
    · simp [mapSet, mapModify, hk, ih]

/-! ## C39 -/

/-- alike documents have the same signature whenever the whole document is
scrubbed -/
theorem signature_alike (marshal : Doc → Except GoError String) (op : String)
    (first second : List (String × Doc)) (h : AlikeMembers first second)
    (hq : op = "query" →
      (mapGet first "$query").isNil = true ∧ (mapGet second "$query").isNil = true) :
    generateQuerySignature marshal first op = generateQuerySignature marshal second op := by
  have hs := scrubMembers_alike first second h
  by_cases hop : op = "query"
  · subst hop
    rw [signature_query_absent marshal first (hq rfl).1,
      signature_query_absent marshal second (hq rfl).2, hs]
  · simp only [generateQuerySignature, if_neg hop, hs]

/-- queries that are alike inside their `$query` and the same outside have the
same signature -/
theorem signature_query_alike (marshal : Doc → Except GoError String)
    (base : List (String × Doc)) (first second : Doc) (h : Doc.Alike first second)
    (h1 : first.isNil = false) (h2 : second.isNil = false) :
    generateQuerySignature marshal (mapSet "$query" first base) "query"
      = generateQuerySignature marshal (mapSet "$query" second base) "query" := by
  rw [signature_query_present marshal _ (by rw [mapGet_mapSet_eq]; exact h1),
    signature_query_present marshal _ (by rw [mapGet_mapSet_eq]; exact h2),
    mapModify_mapSet, mapModify_mapSet, scrubFields_alike first second h]

theorem permQueries_not_alike : ¬ AlikeMembers permQuery otherPermQuery := by
  simp [permQuery, otherPermQuery, AlikeMembers, Doc.Alike, scrubbedKey, replacedKey, permKey,
    Doc.isArray]

theorem relatedQueries_alike : AlikeMembers relatedQuery otherRelatedQuery := by
  simp [relatedQuery, otherRelatedQuery, AlikeMembers, scrubbedKey, Doc.isScalar]

theorem commentQueries_alike :
    Doc.Alike (mapGet commentQuery "$query") (mapGet otherCommentQuery "$query") := by
  have h1 : mapGet commentQuery "$query" = .object
      [("channels", .object [("$in", .array [.scalar (.text "user_hsE3uMnSLA")])]),
        ("deviceType", .object [("$in", .array [.scalar (.text "android"),
          .scalar (.text "winphone"), .scalar (.text "js")])])] := rfl
  have h2 : mapGet otherCommentQuery "$query" = .object
      [("channels", .object [("$in", .array [.scalar (.text "user_8jhKA4aaad"),
          .scalar (.text "global")])]),
        ("deviceType", .object [("$in", .array [.scalar (.text "ios")])])] := rfl
  rw [h1, h2]
  simp [AlikeMembers, Doc.Alike, replacedKey]

/-- the query of `alternateQueryLine` and the same query for another id have
the same signature, and so have the query of `sample26CommentLine` and a query
with other channels and device types in its `$query` -/
theorem alike_queries_signature :
    (generateQuerySignature jsonMarshal relatedQuery "query").1
      = (generateQuerySignature jsonMarshal otherRelatedQuery "query").1 ∧
    (generateQuerySignature jsonMarshal commentQuery "query").1
      = (generateQuerySignature jsonMarshal otherCommentQuery "query").1 :=
  ⟨congrArg Prod.fst (signature_alike jsonMarshal "query" relatedQuery
      otherRelatedQuery relatedQueries_alike (fun _ => ⟨rfl, rfl⟩)),
    congrArg Prod.fst (signature_query_alike jsonMarshal commentQuery
      (mapGet commentQuery "$query") (mapGet otherCommentQuery "$query") commentQueries_alike
      rfl rfl)⟩

/-- a scalar held under `_rperm` or `_wperm` is left as it is -/
theorem perm_scalar_kept (key : String) (v : Scalar) (hk : key ∈ ["_rperm", "_wperm"]) :
    scrubFields (.object [(key, .scalar v)]) = .object [(key, .scalar v)] := by
  simp only [List.mem_cons, List.mem_singleton, List.not_mem_nil, or_false] at hk
  rcases hk with rfl | rfl <;> rfl

/-- C39 (code bug): the query signature depends on a scalar held directly as
a member under `_rperm` or `_wperm`.  The `switch` on the type of the value
under these keys has cases for a slice and for a map and no default, so
`scrubFields` leaves every scalar under them as it is (under any other key
without a case of its own a scalar becomes `?`).  The update queries
`{ _id: "a1", _wperm: "role:admin" }` and `{ _id: "b2", _wperm: "role:user" }`
have the same member names and differ only in scalars held directly as
members; the scalar under `_wperm` is written into the signature, and the
signatures are not the same. -/
theorem c39_perm_scalar_in_signature :
    (∀ v : Scalar, scrubFields (.object [("_rperm", .scalar v)])
      = .object [("_rperm", .scalar v)]) ∧
    (∀ v : Scalar, scrubFields (.object [("_wperm", .scalar v)])
      = .object [("_wperm", .scalar v)]) ∧
    (∀ v : Scalar, scrubFields (.object [("owner", .scalar v)])
      = .object [("owner", Doc.placeholder)]) ∧
    (generateQuerySignature jsonMarshal permQuery "update").1
      = .ok "\x7b\"_id\":\"?\",\"_wperm\":\"role:admin\"\x7d" ∧
    (generateQuerySignature jsonMarshal otherPermQuery "update").1
      = .ok "\x7b\"_id\":\"?\",\"_wperm\":\"role:user\"\x7d" ∧
    (generateQuerySignature jsonMarshal permQuery "update").1
      ≠ (generateQuerySignature jsonMarshal otherPermQuery "update").1 := by
  refine ⟨fun v => perm_scalar_kept "_rperm" v (by decide),
    fun v => perm_scalar_kept "_wperm" v (by decide), fun v => rfl, rfl, rfl, ?_⟩
  rw [show (generateQuerySignature jsonMarshal permQuery "update").1
      = .ok "\x7b\"_id\":\"?\",\"_wperm\":\"role:admin\"\x7d" from rfl,
    show (generateQuerySignature jsonMarshal otherPermQuery "update").1
      = .ok "\x7b\"_id\":\"?\",\"_wperm\":\"role:user\"\x7d" from rfl]
  intro heq
  have hs := Except.ok.inj heq
  revert hs
  decide

end logtailer
namespace logtailer

/-! ## C32 -/

theorem mapReLoop_lookup_not_mem (name : String) :
    ∀ (fields matched : List String) (values : List (String × String)), name ∉ fields →
      (mapReLoop fields matched values).lookup name = values.lookup name := by
  intro fields
  induction fields with
  | nil => intro matched values _; simp [mapReLoop]
  | cons field fields ih =>
    intro matched values hmem
    cases matched with
    | nil => simp [mapReLoop]
    | cons text matched =>
      rw [List.mem_cons, not_or] at hmem
      simp only [mapReLoop]
      rw [ih matched _ hmem.2, lookup_mapSet_ne field name text values hmem.1]

/-- the map holds under a name the text of the last group with the name -/
theorem mapReLoop_lookup_last (name : String) :
    ∀ (fields matched : List String) (values : List (String × String)) (i : Nat),
      fields.length = matched.length → fields[i]? = some name →
      (∀ j, i < j → fields[j]? ≠ some name) →
      (mapReLoop fields matched values).lookup name = matched[i]? := by
  intro fields
  induction fields with
  | nil => intro matched values i _ hi; simp at hi
  | cons field fields ih =>
    intro matched values i hlen hi hlast
    cases matched with
    | nil => simp at hlen
    | cons text matched =>
      simp only [mapReLoop]
      cases i with
      | zero =>
        simp only [List.getElem?_cons_zero, Option.some.injEq] at hi
        subst hi
        have hnot : field ∉ fields := by
          intro hmem
          obtain ⟨j, hj, hjv⟩ := List.getElem_of_mem hmem
          have := hlast (j + 1) (Nat.succ_pos j)
          rw [List.getElem?_cons_succ, List.getElem?_eq_getElem hj, hjv] at this
          exact this rfl
        rw [mapReLoop_lookup_not_mem field fields matched _ hnot, lookup_mapSet_eq,
          List.getElem?_cons_zero]
      | succ i =>
        rw [List.getElem?_cons_succ] at hi ⊢
        exact ih matched _ i (by simpa using hlen) hi (fun j hj => by
          have := hlast (j + 1) (Nat.succ_lt_succ hj)
          rwa [List.getElem?_cons_succ] at this)

theorem mapRe_spec (re : Regexp) (line : String)
    (hlen : ∀ text matched, re.FindStringSubmatch text = some matched →
      matched.length = re.SubexpNames.length) :
    ((∃ err, MapRe re line = .error err) ↔ re.FindStringSubmatch line = none) ∧
    (∀ err, MapRe re line = .error err → err = "regex match fail: " ++ line) ∧
    (∀ matched, re.FindStringSubmatch line = some matched →
      MapRe re line = .ok (mapReLoop re.SubexpNames matched []) ∧
      (∀ (i : Nat) (name : String), re.SubexpNames[i]? = some name →
        (∀ j : Nat, i < j → re.SubexpNames[j]? ≠ some name) →
        (mapReLoop re.SubexpNames matched []).lookup name = matched[i]?) ∧
      (∀ name, name ∉ re.SubexpNames →
        (mapReLoop re.SubexpNames matched []).lookup name = none)) := by
  cases hf : re.FindStringSubmatch line with
  | none =>
    have hm : MapRe re line = .error ("regex match fail: " ++ line) := by
      simp [MapRe, hf]
    refine ⟨⟨fun _ => rfl, fun _ => ⟨_, hm⟩⟩, fun err he => ?_, fun matched h => by cases h⟩
    rw [hm] at he
    exact (Except.error.inj he).symm
  | some matched =>
    have hl := hlen line matched hf
    have hm : MapRe re line = .ok (mapReLoop re.SubexpNames matched []) := by
      simp [MapRe, hf, hl]
    refine ⟨⟨fun ⟨err, he⟩ => ?_, fun h => by cases h⟩, fun err he => ?_, fun m h => ?_⟩
    · rw [hm] at he
      cases he
    · rw [hm] at he
      cases he
    · cases h
      exact ⟨hm, fun i name hi hlast =>
          mapReLoop_lookup_last name re.SubexpNames matched [] i hl.symm hi hlast,
        fun name hmem => by
          rw [mapReLoop_lookup_not_mem name re.SubexpNames matched [] hmem]
          rfl⟩

/-- C32 (as amended): for every regular expression `re` whose matches have as
many texts as it has names (the fact of `regexp` that rules the length
mismatch out) and every line, `MapRe` returns an error, and no map, if and only
if `re` has no match in the line; the error is the one of the failed match,
never the one of the length mismatch.  Otherwise it returns a map that holds,
under the name of a capture group that no later group bears, the text that
group captured in the leftmost match (under a name that several groups bear:
the text of the last of them), and holds nothing under any other key. -/
theorem c32_mapRe (re : Regexp) (line : String)
    (hlen : ∀ text matched, re.FindStringSubmatch text = some matched →
      matched.length = re.SubexpNames.length) :
    ((∃ err, MapRe re line = .error err) ↔ re.FindStringSubmatch line = none) ∧
    (∀ err, MapRe re line = .error err → err = "regex match fail: " ++ line) ∧
    (∀ matched, re.FindStringSubmatch line = some matched →
      MapRe re line = .ok (mapReLoop re.SubexpNames matched []) ∧
      (∀ (i : Nat) (name : String), re.SubexpNames[i]? = some name →
        (∀ j : Nat, i < j → re.SubexpNames[j]? ≠ some name) →
        (mapReLoop re.SubexpNames matched []).lookup name = matched[i]?) ∧
      (∀ name, name ∉ re.SubexpNames →
        (mapReLoop re.SubexpNames matched []).lookup name = none)) :=
  mapRe_spec re line hlen

theorem hostPid_lengths (text : String) (matched : List String)
    (h : hostPid.FindStringSubmatch text = some matched) :
    matched.length = hostPid.SubexpNames.length := by
  simp only [hostPid, Option.map_eq_some'] at h
  obtain ⟨groups, _, rfl⟩ := h
  rfl

/-- C32 witness: `^(?P<host>[a-zA-Z0-9-]+):(?P<pid>\d+)$` on `host1:123` gives
the map of the whole match, `host` and `pid`; on `host1` it gives the error of
the failed match. -/
theorem c32_mapRe_witness :
    MapRe hostPid "host1:123" = .ok [("", "host1:123"), ("host", "host1"), ("pid", "123")] ∧
    ∃ err, MapRe hostPid "host1" = .error err :=
  ⟨((c32_mapRe hostPid "host1:123" hostPid_lengths).2.2
      ["host1:123", "host1", "123"] rfl).1.trans rfl,
    (c32_mapRe hostPid "host1" hostPid_lengths).1.mpr rfl⟩

/-- C32 counterexample: `(?P<bob>a+)(?P<bob>b+)` on `aab`.  The first group
named bob captured `aa`; the map sends bob to `b`, the text of the second
group. -/
theorem c32_counterexample :
    twoBobs.SubexpNames = ["", "bob", "bob"] ∧
    twoBobs.FindStringSubmatch "aab" = some ["aab", "aa", "b"] ∧
    MapRe twoBobs "aab" = .ok [("", "aab"), ("bob", "b")] ∧
    (∀ values, MapRe twoBobs "aab" = .ok values → values.lookup "bob" ≠ some "aa") := by
  refine ⟨rfl, rfl, rfl, fun values h => ?_⟩
  have hv : values = [("", "aab"), ("bob", "b")] :=
    (Except.ok.inj (h.symm.trans (rfl : MapRe twoBobs "aab" = .ok [("", "aab"), ("bob", "b")]))).symm ▸ rfl
  subst hv
  decide

/-! ## C36 -/

/-- C36: the state file is keyed by the name of the profile and the base name
of the log file only.  `stateFilePath` is `StateDir` joined with the file name
logtailer-, the name of the profile, a dash, the base name of `LogFile`, .state;
so a tailer with the same state directory whose log file has the same base
name, in whatever directory, has the same state file.  The logtail command is
`logtail2` with exactly the arguments -f, `LogFile`, -o, the state file,
followed by -t if and only if `DryRun` is set. -/
theorem c36_state_file {β σ : Type} (paths : PathLib) (name : String) (lt other : Logtailer β σ)
    (hdir : other.StateDir = lt.StateDir)
    (hbase : paths.Base other.LogFile = paths.Base lt.LogFile) :
    lt.stateFilePath paths name
      = paths.Join lt.StateDir
          ("logtailer-" ++ name ++ "-" ++ paths.Base lt.LogFile ++ ".state") ∧
    other.stateFilePath paths name = lt.stateFilePath paths name ∧
    (lt.newLogtailCmd paths name).1 = "logtail2" ∧
    (lt.newLogtailCmd paths name).2
      = ["-f", lt.LogFile, "-o", lt.stateFilePath paths name]
          ++ (if lt.DryRun = true then ["-t"] else []) ∧
    ("-t" ∈ (lt.newLogtailCmd paths name).2.drop 4 ↔ lt.DryRun = true) := by
  refine ⟨rfl, ?_, rfl, ?_, ?_⟩
  · simp only [Logtailer.stateFilePath, hdir, hbase]
  · cases hd : lt.DryRun <;> simp [Logtailer.newLogtailCmd, hd]
  · cases hd : lt.DryRun <;> simp [Logtailer.newLogtailCmd, hd]

/-- C36 witness: the sshd profile on /var/log/auth.log and on
/srv/chroot/var/log/auth.log, both with the state directory
/var/run/logtailer: one state file. -/
theorem c36_state_file_witness :
    chrootTailer.stateFilePath unixPaths "sshd"
        = "/var/run/logtailer/logtailer-sshd-auth.log.state" ∧
    fileTailer.stateFilePath unixPaths "sshd"
        = "/var/run/logtailer/logtailer-sshd-auth.log.state" ∧
    (chrootTailer.newLogtailCmd unixPaths "sshd").2
      = ["-f", "/srv/chroot/var/log/auth.log", "-o",
          "/var/run/logtailer/logtailer-sshd-auth.log.state", "-t"] :=
  ⟨(c36_state_file unixPaths "sshd" fileTailer chrootTailer rfl (by decide)).2.1.trans
      (by decide),
    by decide,
    (c36_state_file unixPaths "sshd" chrootTailer fileTailer rfl (by decide)).2.2.2.1.trans
      (by decide)⟩

end logtailer
namespace logtailer

/-! ## C31 -/

theorem lookup_mapSet {α : Type} (key other : String) (value : α) (m : List (String × α)) :
    (mapSet key value m).lookup other = if other = key then some value else m.lookup other := by
  by_cases h : other = key
  · rw [if_pos h, h, lookup_mapSet_eq]
  · rw [if_neg h, lookup_mapSet_ne key other value m h]

theorem mapGet_mapSet (key other : String) (value : Doc) (m : List (String × Doc)) :
    mapGet (mapSet key value m) other = if other = key then value else mapGet m other := by
  by_cases h : other = key
  · rw [if_pos h, h, mapGet_mapSet_eq]
  · rw [if_neg h, mapGet_mapSet_ne key other value m h]

theorem mapGet_congr (first second : List (String × Doc)) (key : String)
    (h : first.lookup key = second.lookup key) : mapGet first key = mapGet second key := by
  simp [mapGet, h]

theorem expandNs_lookup (lib : MongoLib) (record : List (String × Doc)) (key : String)
    (hk : key ∉ ["logtailer_host", "database", "collection"]) :
    (expandNs lib record).lookup key = record.lookup key := by
  simp only [List.mem_cons, List.mem_singleton, List.not_mem_nil, or_false, not_or] at hk
  obtain ⟨h1, h2, h3⟩ := hk
  unfold expandNs
  dsimp only
  split
  · rw [lookup_mapSet_ne _ _ _ _ h3, lookup_mapSet_ne _ _ _ _ h2, lookup_mapSet_ne _ _ _ _ h1]
  · rw [lookup_mapSet_ne _ _ _ _ h1]

/-- the block `expandExtra` returns unless `extra` holds something that is not a map -/
theorem expandExtra_isSome (record : List (String × Doc))
    (h : record.lookup "extra" = none ∨ ∃ asmap, record.lookup "extra" = some (.object asmap)) :
    ∃ expanded, expandExtra record = some expanded := by
  rcases h with h | ⟨asmap, h⟩
  · exact ⟨record, by simp [expandExtra, h]⟩
  · exact ⟨asmap.foldl (fun record member => mapSet member.1 member.2 record) record,
      by simp [expandExtra, h]⟩

theorem setSignature_lookup (signature : Except GoError String) (record : List (String × Doc))
    (key : String) (hk : key ≠ "query_signature") :
    (setSignature signature record).lookup key = record.lookup key := by
  cases signature with
  | error err => rfl
  | ok bytes => exact lookup_mapSet_ne _ _ _ _ hk

theorem takeComment_lookup (record queryMap : List (String × Doc)) (key : String)
    (hk : key ≠ "comment") : (takeComment record queryMap).1.lookup key = record.lookup key := by
  unfold takeComment
  split
  · exact lookup_mapSet_ne _ _ _ _ hk
  · rfl

theorem commandSignature_lookup (lib : MongoLib) (record : List (String × Doc)) (key : String)
    (hk : key ∉ ["collection", "command", "query_signature"]) :
    (commandSignature lib record).lookup key = record.lookup key := by
  simp only [List.mem_cons, List.mem_singleton, List.not_mem_nil, or_false, not_or] at hk
  obtain ⟨h1, h2, h3⟩ := hk
  unfold commandSignature
  split
  · split
    · rw [setSignature_lookup _ _ _ h3, lookup_mapSet_ne _ _ _ _ h2,
        lookup_mapSet_ne _ _ _ _ h1]
    · rfl
  · rfl

theorem querySignature_lookup (lib : MongoLib) (record : List (String × Doc)) (key : String)
    (hk : key ∉ ["comment", "query", "query_signature"]) :
    (querySignature lib record).lookup key = record.lookup key := by
  simp only [List.mem_cons, List.mem_singleton, List.not_mem_nil, or_false, not_or] at hk
  obtain ⟨h1, h2, h3⟩ := hk
  unfold querySignature
  split
  · rw [setSignature_lookup _ _ _ h3, lookup_mapSet_ne _ _ _ _ h2, takeComment_lookup _ _ _ h1]
  · split
    · rw [setSignature_lookup _ _ _ h3, takeComment_lookup _ _ _ h1]
    · rfl
  · rfl

theorem planSummary_lookup (lib : MongoLib) (record : List (String × Doc)) (key : String)
    (hk : key ≠ "plan_summary") : (planSummary lib record).lookup key = record.lookup key := by
  unfold planSummary
  split
  · rfl
  · split
    · exact lookup_mapSet_ne _ _ _ _ hk
    · rfl

theorem shareExtra_lookup (original record : List (String × Doc)) (key : String)
    (hk : key ≠ "extra") : (shareExtra original record).lookup key = record.lookup key := by
  unfold shareExtra
  split
  · split
    · rfl
    · exact lookup_mapSet_ne _ _ _ _ hk
  · rfl

/-- what `applyTransformations` returns, and the members the blocks after the
aliases leave as they are -/
theorem applyTransformations_frame (lib : MongoLib) (record : List (String × Doc))
    (h : record.lookup "extra" = none ∨ ∃ asmap, record.lookup "extra" = some (.object asmap)) :
    ∃ expanded out, applyTransformations lib record = some (none, out) ∧
      ∀ key, key ∉ ["collection", "command", "query_signature", "comment", "query",
          "plan_summary", "extra"] →
        out.lookup key = (fieldAliases expanded).lookup key := by
  have hx : (expandNs lib record).lookup "extra" = record.lookup "extra" :=
    expandNs_lookup lib record "extra" (by decide)
  obtain ⟨expanded, he⟩ := expandExtra_isSome (expandNs lib record) (by rw [hx]; exact h)
  refine ⟨expanded, shareExtra record (planSummary lib
    (if isCommand (fieldAliases expanded) = true then commandSignature lib (fieldAliases expanded)
      else querySignature lib (fieldAliases expanded))),
    by simp only [applyTransformations, he], fun key hk => ?_⟩
  simp only [List.mem_cons, List.mem_singleton, List.not_mem_nil, or_false, not_or] at hk
  obtain ⟨h1, h2, h3, h4, h5, h6, h7⟩ := hk
  rw [shareExtra_lookup _ _ _ h7, planSummary_lookup _ _ _ h6]
  split
  · exact commandSignature_lookup lib _ key (by simp [h1, h2, h3])
  · exact querySignature_lookup lib _ key (by simp [h4, h5, h3])

theorem applyTransformations_no_error (lib : MongoLib) (record : List (String × Doc))
    (result : Option GoError × List (String × Doc))
    (h : applyTransformations lib record = some result) : result.1 = none := by
  unfold applyTransformations at h
  split at h
  · cases h
  · cases h
    rfl

/-- the block of the field aliases -/
theorem fieldAliases_spec (record : List (String × Doc)) :
    ((mapGet (fieldAliases record) "keysExamined").isNil = false →
      mapGet (fieldAliases record) "nscanned" = mapGet (fieldAliases record) "keysExamined") ∧
    ((mapGet (fieldAliases record) "nscannedObjects").isNil = false →
      mapGet (fieldAliases record) "nscanned_objects"
        = mapGet (fieldAliases record) "nscannedObjects") ∧
    ((mapGet (fieldAliases record) "nscannedObjects").isNil = true →
      (mapGet (fieldAliases record) "docsExamined").isNil = false →
      mapGet (fieldAliases record) "nscanned_objects"
        = mapGet (fieldAliases record) "docsExamined") ∧
    (fieldAliases record).lookup "global_write_lock_micros"
      = some (mapGet (fieldAliases record) "W") ∧
    (fieldAliases record).lookup "global_read_lock_micros"
      = some (mapGet (fieldAliases record) "R") ∧
    (fieldAliases record).lookup "write_lock_micros" = some (mapGet (fieldAliases record) "w") ∧
    (fieldAliases record).lookup "read_lock_micros" = some (mapGet (fieldAliases record) "r") ∧
    (fieldAliases record).lookup "num_yields"
      = some (mapGet (fieldAliases record) "numYields") ∧
    (fieldAliases record).lookup "write_conflicts"
      = some (mapGet (fieldAliases record) "writeConflicts") ∧
    (fieldAliases record).lookup "scan_and_order"
      = some (mapGet (fieldAliases record) "scanAndOrder") := by
  cases h1 : (mapGet record "keysExamined").isNil <;>
    cases h2 : (mapGet record "docsExamined").isNil <;>
    cases h3 : (mapGet record "nscannedObjects").isNil <;>
    simp +decide [fieldAliases, mapGet_mapSet, lookup_mapSet, h1, h2, h3]

/-- C31: `applyTransformations` on a record whose `extra`, if present, holds a
map (the call panics on any other `extra`) returns no error, and in the record
after the call: if `keysExamined` is not nil then `nscanned` equals
`keysExamined`; `nscanned_objects` equals `nscannedObjects` when that is not
nil, otherwise `docsExamined` when that is not nil; and the record has the
members `global_write_lock_micros`, `global_read_lock_micros`,
`write_lock_micros`, `read_lock_micros`, `num_yields`, `write_conflicts` and
`scan_and_order`, with the values of `W`, `R`, `w`, `r`, `numYields`,
`writeConflicts` and `scanAndOrder` (nil when absent).  Whenever
`applyTransformations` returns, the error is nil. -/
theorem c31_apply_transformations (lib : MongoLib) (record : List (String × Doc))
    (hextra : record.lookup "extra" = none ∨
      ∃ asmap, record.lookup "extra" = some (.object asmap)) :
    ∃ out, applyTransformations lib record = some (none, out) ∧
      ((mapGet out "keysExamined").isNil = false →
        mapGet out "nscanned" = mapGet out "keysExamined") ∧
      ((mapGet out "nscannedObjects").isNil = false →
        mapGet out "nscanned_objects" = mapGet out "nscannedObjects") ∧
      ((mapGet out "nscannedObjects").isNil = true →
        (mapGet out "docsExamined").isNil = false →
        mapGet out "nscanned_objects" = mapGet out "docsExamined") ∧
      out.lookup "global_write_lock_micros" = some (mapGet out "W") ∧
      out.lookup "global_read_lock_micros" = some (mapGet out "R") ∧
      out.lookup "write_lock_micros" = some (mapGet out "w") ∧
      out.lookup "read_lock_micros" = some (mapGet out "r") ∧
      out.lookup "num_yields" = some (mapGet out "numYields") ∧
      out.lookup "write_conflicts" = some (mapGet out "writeConflicts") ∧
      out.lookup "scan_and_order" = some (mapGet out "scanAndOrder") ∧
      (∀ (other : List (String × Doc)) (result : Option GoError × List (String × Doc)),
        applyTransformations lib other = some result → result.1 = none) := by
  obtain ⟨expanded, out, hout, hf⟩ := applyTransformations_frame lib record hextra
  have hg : ∀ key, key ∉ ["collection", "command", "query_signature", "comment", "query",
      "plan_summary", "extra"] → mapGet out key = mapGet (fieldAliases expanded) key :=
    fun key hk => mapGet_congr _ _ _ (hf key hk)
  obtain ⟨s1, s2, s3, s4, s5, s6, s7, s8, s9, s10⟩ := fieldAliases_spec expanded
  refine ⟨out, hout, ?_, ?_, ?_, ?_, ?_, ?_, ?_, ?_, ?_, ?_,
    fun other result h => applyTransformations_no_error lib other result h⟩
  · rw [hg "keysExamined" (by decide), hg "nscanned" (by decide)]
    exact s1
  · rw [hg "nscannedObjects" (by decide), hg "nscanned_objects" (by decide)]
    exact s2
  · rw [hg "nscannedObjects" (by decide), hg "nscanned_objects" (by decide),
      hg "docsExamined" (by decide)]
    exact s3
  · rw [hf "global_write_lock_micros" (by decide), hg "W" (by decide)]
    exact s4
  · rw [hf "global_read_lock_micros" (by decide), hg "R" (by decide)]
    exact s5
  · rw [hf "write_lock_micros" (by decide), hg "w" (by decide)]
    exact s6
  · rw [hf "read_lock_micros" (by decide), hg "r" (by decide)]
    exact s7
  · rw [hf "num_yields" (by decide), hg "numYields" (by decide)]
    exact s8
  · rw [hf "write_conflicts" (by decide), hg "writeConflicts" (by decide)]
    exact s9
  · rw [hf "scan_and_order" (by decide), hg "scanAndOrder" (by decide)]
    exact s10

/-- the record of `sample32QueryLine` after `applyTransformations` -/
theorem sample32_transformed :
    applyTransformations demoMongo sample32Record = some (none, sample32Out) := by
  rfl

/-- C31 witness: the record of `sample32QueryLine`, with `keysExamined` and
`docsExamined` 200 and neither `nscanned` nor `nscannedObjects`: afterwards
`nscanned` and `nscanned_objects` are 200, as `Test32NscannedAlias` expects. -/
theorem c31_apply_transformations_witness :
    mapGet sample32Out "nscanned" = .scalar (.number "200") ∧
    mapGet sample32Out "nscanned_objects" = .scalar (.number "200") ∧
    sample32Out.lookup "global_write_lock_micros" = some (.scalar .null) :=
  match c31_apply_transformations demoMongo sample32Record (Or.inl rfl) with
  | ⟨out, hout, p1, _, p3, p4, _⟩ => by
    have ho : out = sample32Out :=
      (congrArg Prod.snd (Option.some.inj (hout.symm.trans sample32_transformed)))
    rw [ho] at p1 p3 p4
    exact ⟨(p1 rfl).trans rfl, (p3 rfl rfl).trans rfl, p4.trans rfl⟩

end logtailer
